import Mathlib

/-!
# The lazy three-tier voxel-buffer cache of `mitk::Image`

A shallow embedding of `Modules/Core/src/DataManagement/mitkImage.cpp`.

* The image is a record of the member variables the cache uses.  Member
  functions that mutate the object are functions `Image → Image`; the
  `Get...Data` accessors return the new state together with the item pointer.
* `ImageDataItemPointer` is `Option Nat`: `none` is `nullptr`, `some i` points
  to the `i`-th `ImageDataItem` ever constructed.  Pointer comparisons of the
  source (`sl->GetParent() != vol`) are comparisons of these numbers.
* Raw memory is a family of buffers addressed by `Ptr` (buffer, byte offset).
  `memcpy` outside the bounds of a buffer, and dereferencing `nullptr`, are
  undefined behaviour in the source and raise the sticky flag `fault` here.
* `unsigned int` and `size_t` arithmetic is reduced modulo `2^32` and `2^64`;
  casts to `int` are two's-complement.
* The pipeline source (`GetSource()`) is a parameter: whether it is updating
  and the state transformer `Update()` performs on the image.
-/

namespace mitk

/-! ## Machine integers -/

/-- Value of a `size_t` expression. -/
def sizeT (x : Nat) : Nat := x % 2 ^ 64

/-- Value of an `unsigned int` expression. -/
def u32 (x : Nat) : Nat := x % 2 ^ 32

/-- The cast `(int)x` of an unsigned value. -/
def toInt (x : Nat) : Int :=
  if x % 2 ^ 32 < 2 ^ 31 then ((x % 2 ^ 32 : Nat) : Int) else ((x % 2 ^ 32 : Nat) : Int) - 2 ^ 32

/-! ## Data model -/

/-- The enum `ImportMemoryManagementType` of the image. -/
inductive ImportMemoryManagementType where
  | CopyMemory
  | ManageMemory
  | ReferenceMemory
  deriving DecidableEq, Repr

/-- A raw address: a buffer and a byte offset into it. -/
structure Ptr where
  buf : Nat
  off : Nat
  deriving DecidableEq, Repr

/-- The fields of `mitk::ImageDataItem` the cache reads and writes. -/
structure ImageDataItem where
  m_Data : Ptr
  m_Size : Nat
  m_ManageMemory : Bool
  m_IsComplete : Bool
  m_Parent : Option Nat
  m_Offset : Nat
  m_Dimension : Nat
  m_Timestep : Int
  deriving DecidableEq, Repr

/-- An `itk::ImageRegion<5>`: index and size per axis. -/
structure Region where
  index : List Int
  size : List Nat
  deriving DecidableEq, Repr

/-- The state of one `mitk::Image` together with the memory it can address. -/
structure Image where
  m_Initialized : Bool
  m_Dimension : Nat
  m_Dimensions : Option (List Nat)
  ptypeSize : Nat
  m_OffsetTable : List Nat
  m_Slices : List (Option Nat)
  m_Volumes : List (Option Nat)
  m_Channels : List (Option Nat)
  m_LargestPossibleRegion : Region
  m_RequestedRegion : Region
  m_RequestedRegionInitialized : Bool
  descriptorData : Nat → Option Ptr
  items : Nat → ImageDataItem
  nItems : Nat
  mem : Nat → Nat → Nat
  bufSize : Nat → Nat
  nBufs : Nat
  mtime : Nat
  updates : Nat
  fault : Bool

/-- The pipeline source of the image: `Updating()`, whether `Update()` calls a method of this
image that takes `m_ImageDataArraysLock` (the accessors, the presence queries and the
`Allocate...Data` functions, and through them `SetImport...` and `Set...`), and the effect of
`Update()` on the image.  The effect is an arbitrary function, which the embedding cannot
inspect: `locks` states what the code of `Update()` does. -/
structure Source where
  updating : Bool
  locks : Bool
  update : Image → Image

/-- The constant `MAX_IMAGE_DIMENSIONS`. -/
def MAX_IMAGE_DIMENSIONS : Nat := 8

/-- Result of a member function that may raise an `itk::ExceptionObject`. -/
inductive Outcome where
  | completed (img : Image)
  | thrown (img : Image)

namespace Outcome

/-- The object as the call leaves it. -/
def image : Outcome → Image
  | completed img => img
  | thrown img => img

/-- Whether the call raised. -/
def threw : Outcome → Bool
  | completed _ => false
  | thrown _ => true

end Outcome

namespace Image

/-- An object as the default constructor leaves it, on a heap without buffers. -/
def empty : Image where
  m_Initialized := false
  m_Dimension := 0
  m_Dimensions := some (List.replicate MAX_IMAGE_DIMENSIONS 0)
  ptypeSize := 0
  m_OffsetTable := []
  m_Slices := []
  m_Volumes := []
  m_Channels := []
  m_LargestPossibleRegion := ⟨[], []⟩
  m_RequestedRegion := ⟨[], []⟩
  m_RequestedRegionInitialized := false
  descriptorData := fun _ => none
  items := fun _ => ⟨⟨0, 0⟩, 0, false, false, none, 0, 0, 0⟩
  nItems := 0
  mem := fun _ _ => 0
  bufSize := fun _ => 0
  nBufs := 0
  mtime := 0
  updates := 0
  fault := false

/-- The entry `m_Dimensions[i]`. -/
def dim (img : Image) (i : Nat) : Nat := (img.m_Dimensions.getD []).getD i 0

/-- The entry `m_OffsetTable[i]`. -/
def off (img : Image) (i : Nat) : Nat := img.m_OffsetTable.getD i 0

/-- The call `GetNumberOfChannels()`: the size of axis 4 of the largest possible region. -/
def GetNumberOfChannels (img : Image) : Nat := img.m_LargestPossibleRegion.size.getD 4 0

/-- The call `IsValidSlice(s, t, n)`. -/
def IsValidSlice (img : Image) (s t n : Int) : Bool :=
  if img.m_Initialized then
    decide (0 ≤ s) && decide (s < toInt (img.dim 2)) && decide (0 ≤ t) && decide (t < toInt (img.dim 3))
      && decide (0 ≤ n) && decide (n < toInt img.GetNumberOfChannels)
  else false

/-- The call `IsValidVolume(t, n)`. -/
def IsValidVolume (img : Image) (t n : Int) : Bool :=
  if img.m_Initialized then img.IsValidSlice 0 t n else false

/-- The call `IsValidChannel(n)`. -/
def IsValidChannel (img : Image) (n : Int) : Bool :=
  if img.m_Initialized then img.IsValidSlice 0 0 n else false

/-- The call `IsValidTimeStep(t)`. -/
def IsValidTimeStep (img : Image) (t : Int) : Bool :=
  (decide (4 ≤ img.m_Dimension) && decide (t ≤ toInt (img.dim 3)) && decide (0 < t)) || decide (t = 0)

/-- The call `GetSliceIndex(s, t, n)`; an invalid coordinate yields `false`, that is `0`. -/
def GetSliceIndex (img : Image) (s t n : Int) : Int :=
  if img.IsValidSlice s t n = false then 0
  else toInt (sizeT (s.toNat + t.toNat * img.dim 2 + n.toNat * img.dim 3 * img.dim 2))

/-- The call `GetVolumeIndex(t, n)`. -/
def GetVolumeIndex (img : Image) (t n : Int) : Int :=
  if img.IsValidVolume t n = false then 0
  else toInt (sizeT (t.toNat + n.toNat * img.dim 3))

/-! ## Initialization -/

/-- The first loop of `ComputeOffsetTable` after `i` iterations: `num` and the table so far. -/
def offsetLoop (dims : List Nat) : Nat → Nat × List Nat
  | 0 => (1, [1])
  | i + 1 =>
    let r := offsetLoop dims i
    let num := sizeT (r.1 * dims.getD i 0)
    (num, r.2 ++ [num])

/-- The second loop of `ComputeOffsetTable`: `k` further entries repeating `num`. -/
def offsetFill (num : Nat) (tbl : List Nat) : Nat → List Nat
  | 0 => tbl
  | k + 1 => offsetFill num tbl k ++ [num]

/-- The call `ComputeOffsetTable()`. -/
def ComputeOffsetTable (img : Image) : Image :=
  let r := offsetLoop (img.m_Dimensions.getD []) img.m_Dimension
  { img with m_OffsetTable := offsetFill r.1 r.2 (4 - img.m_Dimension) }

/-- The call `Clear()`: the superclass leaves the data object not initialized, the
extents array is deleted. -/
def Clear (img : Image) : Image :=
  { img with m_Initialized := false, m_Dimensions := none }

/-- The parameterless `Initialize()`: every entry of the three arrays becomes `nullptr`
and the requested region becomes the largest possible region. -/
def InitializeArrays (img : Image) : Image :=
  { img with
    m_Slices := img.m_Slices.map (fun _ => none)
    m_Volumes := img.m_Volumes.map (fun _ => none)
    m_Channels := img.m_Channels.map (fun _ => none)
    m_RequestedRegion := img.m_LargestPossibleRegion
    m_RequestedRegionInitialized := true }

/-- The extents array after the two `FILL_C_ARRAY` and the `memcpy` of `dimension` entries. -/
def copyDimensions (dimensions : List Nat) (dimension : Nat) : List Nat :=
  (List.range MAX_IMAGE_DIMENSIONS).map
    (fun i => if i < dimension then dimensions.getD i 0 else if i < 4 then 1 else 0)

/-- The call `GetNumberOfPixels()` of a region: the product of its sizes, accumulated in the
unsigned 64-bit `SizeValueType` of the region, so that it wraps around at `2^64`. -/
def Region.GetNumberOfPixels (r : Region) : Nat := r.size.foldl (fun p s => sizeT (p * s)) 1

/-- The call `Initialize(type, dimension, dimensions, channels)`; `typeSize` is
`type.GetSize()` and `dimensions = none` is the null pointer. -/
def Initialize (img : Image) (typeSize : Nat) (dimension : Nat) (dimensions : Option (List Nat))
    (channels : Nat) : Outcome :=
  let img1 := { img.Clear with m_Dimension := dimension }
  match dimensions with
  | none => Outcome.thrown img1
  | some ds =>
    if (List.range dimension).any (fun i => decide (ds.getD i 0 < 1)) then Outcome.thrown img1
    else
      let dims := copyDimensions ds dimension
      let img2 : Image :=
        { img1 with
          m_Dimensions := some dims
          fault := img1.fault || decide (MAX_IMAGE_DIMENSIONS < dimension)
          m_LargestPossibleRegion :=
            ⟨[0, 0, 0, 0, 0], [dims.getD 0 0, dims.getD 1 0, dims.getD 2 0, dims.getD 3 0, channels]⟩ }
      if Region.GetNumberOfPixels img2.m_LargestPossibleRegion = 0 then
        Outcome.completed { img2 with m_Dimensions := none }
      else
        let img3 : Image :=
          { img2 with
            ptypeSize := typeSize
            descriptorData := fun _ => none
            m_Channels := List.replicate img2.GetNumberOfChannels none
            m_Volumes := List.replicate (u32 (img2.GetNumberOfChannels * img2.dim 3)) none
            m_Slices := List.replicate (u32 (img2.GetNumberOfChannels * img2.dim 3 * img2.dim 2)) none }
        Outcome.completed { img3.ComputeOffsetTable.InitializeArrays with m_Initialized := true }

/-! ## Memory and items -/

/-- The bytes `[p, p + len)`. -/
def readBytes (img : Image) (p : Ptr) (len : Nat) : List Nat :=
  (List.range len).map (fun i => img.mem p.buf (p.off + i))

/-- Whether `[p, p + len)` lies inside an existing buffer. -/
def inBounds (img : Image) (p : Ptr) (len : Nat) : Bool :=
  decide (p.buf < img.nBufs) && decide (p.off + len ≤ img.bufSize p.buf)

/-- The call `std::memcpy(dst, src, len)`; the source bytes are read before any is written. -/
def memcpy (img : Image) (dst src : Ptr) (len : Nat) : Image :=
  if img.inBounds dst len && img.inBounds src len then
    { img with
      mem := fun b o =>
        if b = dst.buf ∧ dst.off ≤ o ∧ o < dst.off + len then img.mem src.buf (src.off + (o - dst.off))
        else img.mem b o }
  else { img with fault := true }

/-- The guarded copy `if (item->GetData() != data) std::memcpy(item->GetData(), data, len)`. -/
def copyInto (img : Image) (dst : Ptr) (data : Option Ptr) (len : Nat) : Image :=
  match data with
  | none => { img with fault := true }
  | some p => if dst = p then img else img.memcpy dst p len

/-- A fresh zero-filled buffer of `size` bytes. -/
def allocate (img : Image) (size : Nat) : Image × Ptr :=
  ({ img with
      mem := fun b o => if b = img.nBufs then 0 else img.mem b o
      bufSize := Function.update img.bufSize img.nBufs size
      nBufs := img.nBufs + 1 },
    ⟨img.nBufs, 0⟩)

/-- The address `p + k`. -/
def Ptr.add (p : Ptr) (k : Nat) : Ptr := ⟨p.buf, p.off + k⟩

/-- Modelled from the spec: `ImageDataItem::ComputeItemSize` (mitkImageDataItem.cpp is not
among the sources): the byte size of an item of dimensionality `dimension` is the product
of the first `dimension` extents times the pixel stride. -/
def ComputeItemSize (img : Image) (dimension : Nat) : Nat :=
  ((img.m_Dimensions.getD []).take dimension).prod * img.ptypeSize

/-- Registers a newly constructed item and returns the pointer to it. -/
def addItem (img : Image) (it : ImageDataItem) : Image × Nat :=
  ({ img with items := Function.update img.items img.nItems it, nItems := img.nItems + 1 }, img.nItems)

/-- Modelled from the spec: the constructor
`ImageDataItem(aParent, desc, timestep, dimension, data, manageMemory, offset)`
(mitkImageDataItem.cpp is not among the sources) is the spec's `view(parent, offset, level)`:
a non-owning item, not yet complete, whose bytes start `offset` bytes into the parent. -/
def newSubItem (img : Image) (parent : Nat) (timestep : Int) (dimension : Nat)
    (_data : Option Ptr) (_manageMemory : Bool) (offset : Nat) : Image × Nat :=
  img.addItem
    { m_Data := Ptr.add (img.items parent).m_Data offset
      m_Size := img.ComputeItemSize dimension
      m_ManageMemory := false
      m_IsComplete := false
      m_Parent := some parent
      m_Offset := offset
      m_Dimension := dimension
      m_Timestep := timestep }

/-- Modelled from the spec: the constructor
`ImageDataItem(type, timestep, dimension, dimensions, data, manageMemory)`
(mitkImageDataItem.cpp is not among the sources) is the spec's `allocate(level, extents)`:
an independent item without parent; with `data == nullptr` it allocates a zero-initialized
buffer it owns, otherwise it adopts (`manageMemory`) or borrows the caller's buffer. -/
def newItem (img : Image) (timestep : Int) (dimension : Nat) (data : Option Ptr)
    (manageMemory : Bool) : Image × Nat :=
  match data with
  | some p =>
    img.addItem
      { m_Data := p
        m_Size := img.ComputeItemSize dimension
        m_ManageMemory := manageMemory
        m_IsComplete := false
        m_Parent := none
        m_Offset := 0
        m_Dimension := dimension
        m_Timestep := timestep }
  | none =>
    let r := img.allocate (img.ComputeItemSize dimension)
    r.1.addItem
      { m_Data := r.2
        m_Size := img.ComputeItemSize dimension
        m_ManageMemory := true
        m_IsComplete := false
        m_Parent := none
        m_Offset := 0
        m_Dimension := dimension
        m_Timestep := timestep }

/-- Modelled from the spec: the constructor `ImageDataItem(desc, timestep, data, manageMemory)`
(mitkImageDataItem.cpp is not among the sources): an independent item of the
dimensionality of the image descriptor, that is a whole channel. -/
def newChannelItem (img : Image) (timestep : Int) (data : Option Ptr) (manageMemory : Bool) :
    Image × Nat :=
  img.newItem timestep img.m_Dimension data manageMemory

/-- The call `item->IsComplete()`. -/
def IsComplete (img : Image) (p : Nat) : Bool := (img.items p).m_IsComplete

/-- The call `item->SetComplete(c)`. -/
def SetComplete (img : Image) (p : Nat) (c : Bool) : Image :=
  { img with items := Function.update img.items p { img.items p with m_IsComplete := c } }

/-- The test `(e.GetPointer() != nullptr) && (e->IsComplete())`. -/
def completeEntry (img : Image) (e : Option Nat) : Bool :=
  match e with
  | some p => img.IsComplete p
  | none => false

/-- The element `v[pos]` of an array of item pointers. -/
def elemAt (v : List (Option Nat)) (pos : Int) : Option Nat :=
  if 0 ≤ pos then v.getD pos.toNat none else none

/-- The array after `v[pos] = x`. -/
def assignAt (v : List (Option Nat)) (pos : Int) (x : Option Nat) : List (Option Nat) :=
  if 0 ≤ pos then v.set pos.toNat x else v

/-- The call `Modified()` of the image: one change notification. -/
def Modified (img : Image) : Image := { img with mtime := img.mtime + 1 }

/-! ## Presence queries -/

/-- The call `IsSliceSet_unlocked(s, t, n)`. -/
def IsSliceSet_unlocked (img : Image) (s t n : Int) : Bool :=
  if img.IsValidSlice s t n = false then false
  else if (elemAt img.m_Slices (img.GetSliceIndex s t n)).isSome then true
  else if img.completeEntry (elemAt img.m_Volumes (img.GetVolumeIndex t n)) then true
  else if img.completeEntry (elemAt img.m_Channels n) then true
  else false

/-- The loop over `s < m_Dimensions[2]` that looks for a missing slice of volume `(t, n)`. -/
def allSlicesSet (img : Image) (t n : Int) : Bool :=
  (List.range (img.dim 2)).all (fun s => (elemAt img.m_Slices (img.GetSliceIndex (toInt s) t n)).isSome)

/-- The call `IsVolumeSet_unlocked(t, n)`. -/
def IsVolumeSet_unlocked (img : Image) (t n : Int) : Bool :=
  if img.IsValidVolume t n = false then false
  else if img.completeEntry (elemAt img.m_Volumes (img.GetVolumeIndex t n)) then true
  else if img.completeEntry (elemAt img.m_Channels n) then true
  else img.allSlicesSet t n

/-- The call `IsChannelSet_unlocked(n)`. -/
def IsChannelSet_unlocked (img : Image) (n : Int) : Bool :=
  if img.IsValidChannel n = false then false
  else if img.completeEntry (elemAt img.m_Channels n) then true
  else (List.range (img.dim 3)).all (fun t => img.IsVolumeSet_unlocked (toInt t) n)

/-- The call `IsSliceSet(s, t, n)`: `IsSliceSet_unlocked` between taking and releasing
`m_ImageDataArraysLock`.  Nothing is called while the lock is held, so the call returns
whenever the lock is free; a call from `Update()` of a pipeline source, made while an
accessor holds the lock, is what `Source.locks` records and `holdLock` accounts for. -/
def IsSliceSet (img : Image) (s t n : Int) : Bool := img.IsSliceSet_unlocked s t n

/-- The call `IsVolumeSet(t, n)`: `IsVolumeSet_unlocked` between taking and releasing
`m_ImageDataArraysLock` (see `IsSliceSet`). -/
def IsVolumeSet (img : Image) (t n : Int) : Bool := img.IsVolumeSet_unlocked t n

/-- The call `IsChannelSet(n)`: `IsChannelSet_unlocked` between taking and releasing
`m_ImageDataArraysLock` (see `IsSliceSet`). -/
def IsChannelSet (img : Image) (n : Int) : Bool := img.IsChannelSet_unlocked n

/-! ## Allocation -/

/-- The call `AllocateChannelData_unlocked(n, data, importMemoryManagement)`. -/
def AllocateChannelData_unlocked (img : Image) (n : Int) (data : Option Ptr)
    (imm : ImportMemoryManagementType) : Image × Nat :=
  let r : Image × Nat :=
    if imm = ImportMemoryManagementType.CopyMemory then
      let r0 := img.newChannelItem (-1) none true
      match data with
      | some p => (r0.1.memcpy (r0.1.items r0.2).m_Data p (sizeT (img.off 4 * img.ptypeSize)), r0.2)
      | none => r0
    else img.newChannelItem (-1) data (imm = ImportMemoryManagementType.ManageMemory)
  ({ r.1 with m_Channels := assignAt r.1.m_Channels n (some r.2) }, r.2)

/-- The call `AllocateVolumeData_unlocked(t, n, data, importMemoryManagement)`. -/
def AllocateVolumeData_unlocked (img : Image) (t n : Int) (data : Option Ptr)
    (imm : ImportMemoryManagementType) : Image × Nat :=
  let pos := img.GetVolumeIndex t n
  match elemAt img.m_Channels n with
  | some ch =>
    let r := img.newSubItem ch t 3 data (imm = ImportMemoryManagementType.ManageMemory)
      (sizeT (t.toNat * img.off 3 * img.ptypeSize))
    ({ r.1 with m_Volumes := assignAt r.1.m_Volumes pos (some r.2) }, r.2)
  | none =>
    let r : Image × Nat :=
      if imm = ImportMemoryManagementType.CopyMemory then
        let r0 := img.newItem t 3 none true
        match data with
        | some p => (r0.1.memcpy (r0.1.items r0.2).m_Data p (sizeT (img.off 3 * img.ptypeSize)), r0.2)
        | none => r0
      else img.newItem t 3 data (imm = ImportMemoryManagementType.ManageMemory)
    ({ r.1 with m_Volumes := assignAt r.1.m_Volumes pos (some r.2) }, r.2)

/-- The construction of a complete slice view into `parent` and its installation at `pos`. -/
def installSliceView (img : Image) (pos : Int) (parent : Nat) (t : Int) (data : Option Ptr)
    (imm : ImportMemoryManagementType) (offset : Nat) : Image × Nat :=
  let r := img.newSubItem parent t 2 data (imm = ImportMemoryManagementType.ManageMemory) offset
  let img1 := r.1.SetComplete r.2 true
  ({ img1 with m_Slices := assignAt img1.m_Slices pos (some r.2) }, r.2)

/-- The call `AllocateSliceData_unlocked(s, t, n, data, importMemoryManagement)`. -/
def AllocateSliceData_unlocked (img : Image) (s t n : Int) (data : Option Ptr)
    (imm : ImportMemoryManagementType) : Image × Nat :=
  let pos := img.GetSliceIndex s t n
  match elemAt img.m_Volumes (img.GetVolumeIndex t n) with
  | some vol =>
    img.installSliceView pos vol t data imm (sizeT (s.toNat * img.off 2 * img.ptypeSize))
  | none =>
    match elemAt img.m_Channels n with
    | some ch =>
      img.installSliceView pos ch t data imm
        (sizeT ((s.toNat * img.off 2 + t.toNat * img.off 3) * img.ptypeSize))
    | none =>
      let r := img.AllocateVolumeData_unlocked t n none imm
      r.1.installSliceView pos r.2 t data imm (sizeT (s.toNat * img.off 2 * img.ptypeSize))

/-- The call `AllocateSliceData(s, t, n, data, importMemoryManagement)`:
`AllocateSliceData_unlocked` between taking and releasing `m_ImageDataArraysLock`; no
`Update()` is called inside (see `IsSliceSet`). -/
def AllocateSliceData (img : Image) (s t n : Int) (data : Option Ptr)
    (imm : ImportMemoryManagementType) : Image × Nat :=
  img.AllocateSliceData_unlocked s t n data imm

/-- The call `AllocateVolumeData(t, n, data, importMemoryManagement)`:
`AllocateVolumeData_unlocked` between taking and releasing `m_ImageDataArraysLock`; no
`Update()` is called inside (see `IsSliceSet`). -/
def AllocateVolumeData (img : Image) (t n : Int) (data : Option Ptr)
    (imm : ImportMemoryManagementType) : Image × Nat :=
  img.AllocateVolumeData_unlocked t n data imm

/-- The call `AllocateChannelData(n, data, importMemoryManagement)`:
`AllocateChannelData_unlocked` between taking and releasing `m_ImageDataArraysLock`; no
`Update()` is called inside (see `IsSliceSet`). -/
def AllocateChannelData (img : Image) (n : Int) (data : Option Ptr)
    (imm : ImportMemoryManagementType) : Image × Nat :=
  img.AllocateChannelData_unlocked n data imm

/-! ## The read path

The accessors call themselves once after `GetSource()->Update()`.  The embedding counts
the nesting with `fuel`; `none` means the fuel ran out, `some (img, p)` is a return with the
new state and the item pointer (`p = none` is `nullptr`). -/

/-- The call `GetSource()->Update()` with the requested region set before it; `updates`
counts the calls and is not visible to the source. -/
def callUpdate (img : Image) (p : Source) (index : List Int) (size : List Nat) : Image :=
  let img1 := { img with m_RequestedRegion := ⟨index, size⟩, m_RequestedRegionInitialized := true }
  { p.update img1 with updates := img.updates + 1 }

/-- The test `(GetSource().IsNotNull()) && (GetSource()->Updating() == false)`. -/
def canUpdate (src : Option Source) : Option Source :=
  match src with
  | some p => if p.updating = false then some p else none
  | none => none

/-- The call `GetSliceData_unlocked(s, t, n, data, importMemoryManagement)`. -/
def GetSliceData_unlocked (src : Option Source) :
    Nat → Image → Int → Int → Int → Option Ptr → ImportMemoryManagementType → Option (Image × Option Nat)
  | 0, _, _, _, _, _, _ => none
  | fuel + 1, img, s, t, n, data, imm =>
    if img.IsValidSlice s t n = false then some (img, none)
    else
      let pos := img.GetSliceIndex s t n
      match elemAt img.m_Slices pos with
      | some sl => some (img, some sl)
      | none =>
        let vol := elemAt img.m_Volumes (img.GetVolumeIndex t n)
        if img.completeEntry vol then
          let r := img.installSliceView pos (vol.getD 0) t data imm
            (sizeT (s.toNat * img.off 2 * img.ptypeSize))
          some (r.1, some r.2)
        else
          let ch := elemAt img.m_Channels n
          if img.completeEntry ch then
            let r := img.installSliceView pos (ch.getD 0) t data imm
              (sizeT ((s.toNat * img.off 2 + t.toNat * img.off 3) * img.ptypeSize))
            some (r.1, some r.2)
          else
            match canUpdate src with
            | some p =>
              let img1 := img.callUpdate p [0, 0, s, t, n] [img.dim 0, img.dim 1, 1, 1, 1]
              if img1.IsSliceSet_unlocked s t n then
                GetSliceData_unlocked src fuel img1 s t n data imm
              else some (img1, none)
            | none =>
              let r := img.AllocateSliceData_unlocked s t n data imm
              some (r.1.SetComplete r.2 true, some r.2)

/-- One iteration of the loop of `GetVolumeData_unlocked` that combines the slices into `vol`;
`size` is the byte size of a slice. -/
def combineSlice (t n : Int) (vol : Nat) (size : Nat) (data : Option Ptr)
    (imm : ImportMemoryManagementType) (img : Image) (s : Nat) : Image :=
  let posSl := img.GetSliceIndex (toInt s) t n
  match elemAt img.m_Slices posSl with
  | none => { img with fault := true }
  | some sl =>
    if (img.items sl).m_Parent ≠ some vol then
      let offset := sizeT (s * size)
      let img1 := img.memcpy (Ptr.add (img.items vol).m_Data offset) (img.items sl).m_Data size
      (img1.installSliceView posSl vol t data imm (sizeT (s * size))).1
    else img

/-- The call `GetVolumeData_unlocked(t, n, data, importMemoryManagement)`. -/
def GetVolumeData_unlocked (src : Option Source) :
    Nat → Image → Int → Int → Option Ptr → ImportMemoryManagementType → Option (Image × Option Nat)
  | 0, _, _, _, _, _ => none
  | fuel + 1, img, t, n, data, imm =>
    if img.IsValidVolume t n = false then some (img, none)
    else
      let pos := img.GetVolumeIndex t n
      let vol := elemAt img.m_Volumes pos
      if img.completeEntry vol then some (img, vol)
      else
        let ch := elemAt img.m_Channels n
        if img.completeEntry ch then
          let r := img.newSubItem (ch.getD 0) t 3 data (imm = ImportMemoryManagementType.ManageMemory)
            (sizeT (t.toNat * img.off 3 * img.ptypeSize))
          let img1 := r.1.SetComplete r.2 true
          some ({ img1 with m_Volumes := assignAt img1.m_Volumes pos (some r.2) }, some r.2)
        else if img.allSlicesSet t n then
          if img.dim 2 ≤ 1 then
            match GetSliceData_unlocked src (fuel + 1) img 0 t n data imm with
            | none => none
            | some (img1, none) => some ({ img1 with fault := true }, none)
            | some (img1, some sl) =>
              let r := img1.newSubItem sl t 3 data (imm = ImportMemoryManagementType.ManageMemory) 0
              let img2 := r.1.SetComplete r.2 true
              some ({ img2 with m_Volumes := assignAt img2.m_Volumes pos (some r.2) }, some r.2)
          else
            let r : Image × Nat :=
              match elemAt img.m_Volumes pos with
              | some v => (img, v)
              | none => img.newItem t 3 none true
            let img1 := r.1.SetComplete r.2 true
            let size := sizeT (img.off 2 * img.ptypeSize)
            let img2 := (List.range (img.dim 2)).foldl (combineSlice t n r.2 size data imm) img1
            some ({ img2 with m_Volumes := assignAt img2.m_Volumes pos (some r.2) }, some r.2)
        else
          match canUpdate src with
          | some p =>
            let img1 := img.callUpdate p [0, 0, 0, t, n] [img.dim 0, img.dim 1, img.dim 2, 1, 1]
            if img1.IsVolumeSet_unlocked t n then GetVolumeData_unlocked src fuel img1 t n data imm
            else some (img1, none)
          | none =>
            let r := img.AllocateVolumeData_unlocked t n data imm
            some (r.1.SetComplete r.2 true, some r.2)

/-- The inner loop of `GetChannelData_unlocked` that clears `k` slice pointers from the
iterator position `it` on; the result carries the advanced iterator. -/
def clearSlices (img : Image) (it : Nat) : Nat → Image × Nat
  | 0 => (img, it)
  | k + 1 =>
    let r := clearSlices img it k
    ({ r.1 with
        m_Slices := r.1.m_Slices.set r.2 none
        fault := r.1.fault || decide (r.1.m_Slices.length ≤ r.2) },
      r.2 + 1)

/-- One iteration of the loop of `GetChannelData_unlocked` that combines the volumes into
`ch`; the state carries the iterator `slicesIt`, and `size` is the copy length. -/
def combineVolume (src : Option Source) (fuel : Nat) (n : Int) (ch : Nat) (size : Nat)
    (data : Option Ptr) (imm : ImportMemoryManagementType) (st : Option (Image × Nat)) (t : Nat) :
    Option (Image × Nat) :=
  match st with
  | none => none
  | some (img, slicesIt) =>
    let posVol := img.GetVolumeIndex (toInt t) n
    match GetVolumeData_unlocked src fuel img (toInt t) n data imm with
    | none => none
    | some (img1, none) => some ({ img1 with fault := true }, slicesIt)
    | some (img1, some vol) =>
      if (img1.items vol).m_Parent ≠ some ch then
        let offset := sizeT (t * img1.off 3 * img1.ptypeSize)
        let img2 := img1.memcpy (Ptr.add (img1.items ch).m_Data offset) (img1.items vol).m_Data size
        let r := img2.newSubItem ch (toInt t) 3 data (imm = ImportMemoryManagementType.ManageMemory) offset
        let img3 := r.1.SetComplete r.2 true
        let img4 := { img3 with m_Volumes := assignAt img3.m_Volumes posVol (some r.2) }
        some (img4.clearSlices slicesIt (img4.dim 2))
      else some (img1, slicesIt)

/-- The call `GetChannelData_unlocked(n, data, importMemoryManagement)`. -/
def GetChannelData_unlocked (src : Option Source) :
    Nat → Image → Int → Option Ptr → ImportMemoryManagementType → Option (Image × Option Nat)
  | 0, _, _, _, _ => none
  | fuel + 1, img, n, data, imm =>
    if img.IsValidChannel n = false then some (img, none)
    else
      let ch := elemAt img.m_Channels n
      if img.completeEntry ch then some (img, ch)
      else if img.IsChannelSet_unlocked n then
        if img.dim 3 ≤ 1 then
          match GetVolumeData_unlocked src (fuel + 1) img 0 n data imm with
          | none => none
          | some (img1, none) => some ({ img1 with fault := true }, none)
          | some (img1, some vol) =>
            let r := img1.newSubItem vol 0 img1.m_Dimension data
              (imm = ImportMemoryManagementType.ManageMemory) 0
            let img2 := r.1.SetComplete r.2 true
            some ({ img2 with m_Channels := assignAt img2.m_Channels n (some r.2) }, some r.2)
        else
          let r : Image × Nat :=
            match elemAt img.m_Channels n with
            | some c => (img, c)
            | none => img.newChannelItem (-1) none true
          let img1 := r.1.SetComplete r.2 true
          let size := sizeT (img.off (img.m_Dimension - 1) * img.ptypeSize)
          let slicesIt := u32 (n.toNat * img.dim 2 * img.dim 3)
          match (List.range (img.dim 3)).foldl (combineVolume src (fuel + 1) n r.2 size data imm)
              (some (img1, slicesIt)) with
          | none => none
          | some (img2, _) =>
            some ({ img2 with m_Channels := assignAt img2.m_Channels n (some r.2) }, some r.2)
      else
        match canUpdate src with
        | some p =>
          let img1 := img.callUpdate p [0, 0, 0, 0, n] [img.dim 0, img.dim 1, img.dim 2, img.dim 3, 1]
          if img1.IsChannelSet_unlocked n then GetChannelData_unlocked src fuel img1 n data imm
          else some (img1, none)
        | none =>
          let r := img.AllocateChannelData_unlocked n data imm
          some (r.1.SetComplete r.2 true, some r.2)

/-- The scope of `MutexHolder lock(m_ImageDataArraysLock)` in an accessor: the calling thread
holds the lock, which is not recursive, until the body `r` has returned.  `Update()` of the
source runs inside the body, with the lock held; when it has run (the count `updates` has
moved from its value in the state `img` of the call) and takes the lock again, it waits for
the calling thread itself and the accessor never returns. -/
def holdLock (src : Option Source) (img : Image) (r : Option (Image × Option Nat)) :
    Option (Image × Option Nat) :=
  match src with
  | none => r
  | some p =>
    match r with
    | none => none
    | some res => if p.locks && decide (res.1.updates ≠ img.updates) then none else some res

/-- The call `GetSliceData(s, t, n, data, importMemoryManagement)`: the lock is held around
`GetSliceData_unlocked`. -/
def GetSliceData (src : Option Source) (fuel : Nat) (img : Image) (s t n : Int)
    (data : Option Ptr) (imm : ImportMemoryManagementType) : Option (Image × Option Nat) :=
  holdLock src img (GetSliceData_unlocked src fuel img s t n data imm)

/-- The call `GetVolumeData(t, n, data, importMemoryManagement)`: the lock is held around
`GetVolumeData_unlocked`. -/
def GetVolumeData (src : Option Source) (fuel : Nat) (img : Image) (t n : Int)
    (data : Option Ptr) (imm : ImportMemoryManagementType) : Option (Image × Option Nat) :=
  holdLock src img (GetVolumeData_unlocked src fuel img t n data imm)

/-- The call `GetChannelData(n, data, importMemoryManagement)`: the lock is held around
`GetChannelData_unlocked`. -/
def GetChannelData (src : Option Source) (fuel : Nat) (img : Image) (n : Int)
    (data : Option Ptr) (imm : ImportMemoryManagementType) : Option (Image × Option Nat) :=
  holdLock src img (GetChannelData_unlocked src fuel img n data imm)

/-! ## The write path -/

/-- The common tail of the `IsSliceSet` branches of the three `SetImport...` functions: the
item `p` (or `nullptr`) returned by the accessor is replaced by a new allocation when it
does not manage its memory, then `len` bytes are copied in. -/
def overwrite (alloc : Image → Image × Nat) (len : Nat) (data : Option Ptr) (img : Image)
    (p : Option Nat) : Image × Option Nat :=
  match p with
  | none => ({ img with fault := true }, none)
  | some q =>
    let r : Image × Nat := if (img.items q).m_ManageMemory = false then alloc img else (img, q)
    (r.1.copyInto (r.1.items r.2).m_Data data len, some r.2)

/-- The call `SetImportSlice(data, s, t, n, importMemoryManagement)`. -/
def SetImportSlice (src : Option Source) (fuel : Nat) (img : Image) (data : Option Ptr)
    (s t n : Int) (imm : ImportMemoryManagementType) : Option (Image × Bool) :=
  if img.IsValidSlice s t n = false then some (img, false)
  else
    let len := sizeT (img.off 2 * img.ptypeSize)
    if img.IsSliceSet s t n then
      match GetSliceData src fuel img s t n data imm with
      | none => none
      | some (img1, sl) =>
        let r := overwrite (fun i => i.AllocateSliceData s t n data imm) len data img1 sl
        some (r.1.Modified, true)
    else
      let r := img.AllocateSliceData s t n data imm
      some (r.1.copyInto (r.1.items r.2).m_Data data len, true)

/-- The call `SetImportVolume(data, t, n, importMemoryManagement)`. -/
def SetImportVolume (src : Option Source) (fuel : Nat) (img : Image) (data : Option Ptr)
    (t n : Int) (imm : ImportMemoryManagementType) : Option (Image × Bool) :=
  if img.IsValidVolume t n = false then some (img, false)
  else
    let len := sizeT (img.off 3 * img.ptypeSize)
    if img.IsVolumeSet t n then
      match GetVolumeData src fuel img t n data imm with
      | none => none
      | some (img1, vol) =>
        let r := overwrite (fun i => i.AllocateVolumeData t n data imm) len data img1 vol
        match r.2 with
        | none => some (r.1.Modified, true)
        | some v => some ((r.1.SetComplete v true).Modified, true)
    else
      let r := img.AllocateVolumeData t n data imm
      let img1 := (r.1.copyInto (r.1.items r.2).m_Data data len).SetComplete r.2 true
      some ({ img1 with
              descriptorData := Function.update img1.descriptorData n.toNat (some (img1.items r.2).m_Data) },
            true)

/-- The call `SetImportChannel(data, n, importMemoryManagement)`. -/
def SetImportChannel (src : Option Source) (fuel : Nat) (img : Image) (data : Option Ptr)
    (n : Int) (imm : ImportMemoryManagementType) : Option (Image × Bool) :=
  if img.IsValidChannel n = false then some (img, false)
  else
    let len := sizeT (img.off 4 * img.ptypeSize)
    if img.IsChannelSet n then
      match GetChannelData src fuel img n data imm with
      | none => none
      | some (img1, ch) =>
        let r := overwrite (fun i => i.AllocateChannelData n data imm) len data img1 ch
        match r.2 with
        | none => some (r.1.Modified, true)
        | some c => some ((r.1.SetComplete c true).Modified, true)
    else
      let r := img.AllocateChannelData n data imm
      let img1 := (r.1.copyInto (r.1.items r.2).m_Data data len).SetComplete r.2 true
      some ({ img1 with
              descriptorData := Function.update img1.descriptorData n.toNat (some (img1.items r.2).m_Data) },
            true)

/-- The call `SetSlice(data, s, t, n)`. -/
def SetSlice (src : Option Source) (fuel : Nat) (img : Image) (data : Option Ptr) (s t n : Int) :
    Option (Image × Bool) :=
  SetImportSlice src fuel img data s t n ImportMemoryManagementType.CopyMemory

/-- The call `SetVolume(data, t, n)`. -/
def SetVolume (src : Option Source) (fuel : Nat) (img : Image) (data : Option Ptr) (t n : Int) :
    Option (Image × Bool) :=
  SetImportVolume src fuel img data t n ImportMemoryManagementType.CopyMemory

/-- The call `SetChannel(data, n)`. -/
def SetChannel (src : Option Source) (fuel : Nat) (img : Image) (data : Option Ptr) (n : Int) :
    Option (Image × Bool) :=
  SetImportChannel src fuel img data n ImportMemoryManagementType.CopyMemory

/-! ## Scenarios -/

/-- The heap after the caller has allocated a buffer holding `bytes`, and its address. -/
def callerBuffer (img : Image) (bytes : List Nat) : Image × Ptr :=
  ({ img with
      mem := fun b o => if b = img.nBufs then bytes.getD o 0 else img.mem b o
      bufSize := Function.update img.bufSize img.nBufs bytes.length
      nBufs := img.nBufs + 1 },
    ⟨img.nBufs, 0⟩)

/-- A pipeline source whose `Update()` performs `SetImportChannel(buf, n, ManageMemory)`;
while it runs the source reports `Updating()`.  For a valid channel `SetImportChannel` calls
`IsChannelSet(n)` first, which takes `m_ImageDataArraysLock`: the source takes the lock. -/
def channelFiller (buf : Ptr) (n : Int) : Source :=
  ⟨false, true, fun i =>
    match SetImportChannel (some ⟨true, true, fun j => j⟩) 1 i (some buf) n
        ImportMemoryManagementType.ManageMemory with
    | some r => r.1
    | none => i⟩

/-- A rank-3 image of 2 x 2 x 2 one-byte pixels with one channel, freshly initialized. -/
def sample : Image := (Image.empty.Initialize 1 3 (some [2, 2, 2]) 1).image

/-- A pipeline source that is idle and whose `Update()` leaves the image as it is, without
a call of one of its methods. -/
def idleSource : Source := ⟨false, false, fun i => i⟩

/-- The scenario of a volume write after a slice write: slice 0 of the sample image is
written with the bytes 1 2 3 4, then the whole volume with 9 9 9 9 8 8 8 8, then slice 0
is read back.  The result is the list of bytes the slice item holds. -/
def sliceAfterVolumeWrite : Option (List Nat) :=
  let a := callerBuffer sample [1, 2, 3, 4]
  let b := callerBuffer a.1 [9, 9, 9, 9, 8, 8, 8, 8]
  match SetSlice none 1 b.1 (some a.2) 0 0 0 with
  | none => none
  | some r1 =>
    match SetVolume none 1 r1.1 (some b.2) 0 0 with
    | none => none
    | some r2 =>
      match GetSliceData none 1 r2.1 0 0 0 none ImportMemoryManagementType.CopyMemory with
      | some (img, some p) => some (img.readBytes (img.items p).m_Data 4)
      | _ => none

/-- The same scenario read at the volume tier: the bytes the volume item holds. -/
def volumeAfterVolumeWrite : Option (List Nat) :=
  let a := callerBuffer sample [1, 2, 3, 4]
  let b := callerBuffer a.1 [9, 9, 9, 9, 8, 8, 8, 8]
  match SetSlice none 1 b.1 (some a.2) 0 0 0 with
  | none => none
  | some r1 =>
    match SetVolume none 1 r1.1 (some b.2) 0 0 with
    | none => none
    | some r2 =>
      match GetVolumeData none 1 r2.1 0 0 none ImportMemoryManagementType.CopyMemory with
      | some (img, some p) => some (img.readBytes (img.items p).m_Data 8)
      | _ => none

/-- The same scenario: the values the two writes, `SetSlice` and `SetVolume`, return. -/
def writesOfVolumeWrite : Option (Bool × Bool) :=
  let a := callerBuffer sample [1, 2, 3, 4]
  let b := callerBuffer a.1 [9, 9, 9, 9, 8, 8, 8, 8]
  match SetSlice none 1 b.1 (some a.2) 0 0 0 with
  | none => none
  | some r1 =>
    match SetVolume none 1 r1.1 (some b.2) 0 0 with
    | none => none
    | some r2 => some (r1.2, r2.2)

/-- A rank-3 image of 10 x 10 x 4 one-byte pixels with two channels, freshly initialized,
next to a caller buffer of 400 bytes that all hold the value 1. -/
def pullImage : Image :=
  (callerBuffer (Image.empty.Initialize 1 3 (some [10, 10, 4]) 2).image (List.replicate 400 1)).1

/-- The caller buffer that stands next to `pullImage`. -/
def pullBuffer : Ptr :=
  (callerBuffer (Image.empty.Initialize 1 3 (some [10, 10, 4]) 2).image (List.replicate 400 1)).2

/-! ## Invariants, relations and scenarios used by the theorems -/

/-- The image a call of `Initialize` that reaches its last line leaves behind. -/
def initialized (img : Image) (typeSize dimension : Nat) (ds : List Nat) (channels : Nat) : Image :=
  let dims := copyDimensions ds dimension
  let img2 : Image :=
    { img.Clear with
      m_Dimension := dimension
      m_Dimensions := some dims
      fault := img.fault || decide (MAX_IMAGE_DIMENSIONS < dimension)
      m_LargestPossibleRegion :=
        ⟨[0, 0, 0, 0, 0], [dims.getD 0 0, dims.getD 1 0, dims.getD 2 0, dims.getD 3 0, channels]⟩ }
  let img3 : Image :=
    { img2 with
      ptypeSize := typeSize
      descriptorData := fun _ => none
      m_Channels := List.replicate img2.GetNumberOfChannels none
      m_Volumes := List.replicate (u32 (img2.GetNumberOfChannels * img2.dim 3)) none
      m_Slices := List.replicate (u32 (img2.GetNumberOfChannels * img2.dim 3 * img2.dim 2)) none }
  { img3.ComputeOffsetTable.InitializeArrays with m_Initialized := true }

/-- The two states agree on everything `Initialize` fixes. -/
structure SameShape (img img' : Image) : Prop where
  init : img'.m_Initialized = img.m_Initialized
  rank : img'.m_Dimension = img.m_Dimension
  dims : img'.m_Dimensions = img.m_Dimensions
  ptype : img'.ptypeSize = img.ptypeSize
  offs : img'.m_OffsetTable = img.m_OffsetTable
  region : img'.m_LargestPossibleRegion = img.m_LargestPossibleRegion

/-- The image is initialized and its sizes fit the machine types. -/
structure WF (img : Image) : Prop where
  init : img.m_Initialized = true
  d2_pos : 1 ≤ img.dim 2
  d3_pos : 1 ≤ img.dim 3
  slices_lt : img.GetNumberOfChannels * img.dim 3 * img.dim 2 < 2 ^ 31
  slices_len : img.m_Slices.length = img.GetNumberOfChannels * img.dim 3 * img.dim 2
  volumes_len : img.m_Volumes.length = img.GetNumberOfChannels * img.dim 3
  channels_len : img.m_Channels.length = img.GetNumberOfChannels
  off3 : img.off 3 = img.off 2 * img.dim 2
  off4 : img.off 4 = img.off 3 * img.dim 3
  bytes_lt : img.off 4 * img.ptypeSize < 2 ^ 64
  size2 : img.ComputeItemSize 2 = img.off 2 * img.ptypeSize
  size3 : img.ComputeItemSize 3 = img.off 3 * img.ptypeSize
  sizeCh : img.off 4 * img.ptypeSize ≤ img.ComputeItemSize img.m_Dimension
  rank4 : 1 < img.dim 3 → 4 ≤ img.m_Dimension

/-- Every pointer stored in the three arrays refers to an item that has been constructed. -/
structure IdsOK (img : Image) : Prop where
  slices : ∀ q, some q ∈ img.m_Slices → q < img.nItems
  volumes : ∀ q, some q ∈ img.m_Volumes → q < img.nItems
  channels : ∀ q, some q ∈ img.m_Channels → q < img.nItems

/-- The item `y` is the item `x` except possibly for its completeness flag. -/
def SameFixed (x y : ImageDataItem) : Prop :=
  y.m_Data = x.m_Data ∧ y.m_Size = x.m_Size ∧ y.m_ManageMemory = x.m_ManageMemory ∧
    y.m_Parent = x.m_Parent ∧ y.m_Offset = x.m_Offset ∧ y.m_Dimension = x.m_Dimension

/-- The state `img'` is reached from `img` by steps that construct items and buffers, copy
bytes, mark items complete and store pointers, without a call of the pipeline source or of
`Modified()`.  Present slices stay present and complete volume and channel entries stay
complete, except possibly at the volume slot `vx` and the channel slot `cx`. -/
structure UpX (vx cx : Option Nat) (img img' : Image) : Prop where
  shape : SameShape img img'
  mtime : img'.mtime = img.mtime
  updates : img'.updates = img.updates
  slices_len : img'.m_Slices.length = img.m_Slices.length
  volumes_len : img'.m_Volumes.length = img.m_Volumes.length
  channels_len : img'.m_Channels.length = img.m_Channels.length
  nItems : img.nItems ≤ img'.nItems
  complete : ∀ p, p < img.nItems → img.IsComplete p = true → img'.IsComplete p = true
  ids : IdsOK img → IdsOK img'
  fixed : ∀ q, q < img.nItems → SameFixed (img.items q) (img'.items q)
  nBufs : img.nBufs ≤ img'.nBufs
  slices : ∀ k, (img.m_Slices.getD k none).isSome = true → (img'.m_Slices.getD k none).isSome = true
  volumes : IdsOK img → ∀ k, vx ≠ some k → img.completeEntry (img.m_Volumes.getD k none) = true →
    img'.completeEntry (img'.m_Volumes.getD k none) = true
  channels : IdsOK img → ∀ k, cx ≠ some k → img.completeEntry (img.m_Channels.getD k none) = true →
    img'.completeEntry (img'.m_Channels.getD k none) = true

/-- The relation `UpX` without exempted slots. -/
abbrev Up (img img' : Image) : Prop := UpX none none img img'

/-- The two states hold the same three arrays of item pointers. -/
structure SameTiers (img img' : Image) : Prop where
  slices : img'.m_Slices = img.m_Slices
  volumes : img'.m_Volumes = img.m_Volumes
  channels : img'.m_Channels = img.m_Channels

/-- The state `img'` is reached from `img` by steps of the cache that call neither the
pipeline source nor `Modified()`, and every entry of `img` is covered in `img'`. -/
structure Adv (img img' : Image) : Prop where
  shape : SameShape img img'
  mtime : img'.mtime = img.mtime
  updates : img'.updates = img.updates
  slices_len : img'.m_Slices.length = img.m_Slices.length
  volumes_len : img'.m_Volumes.length = img.m_Volumes.length
  channels_len : img'.m_Channels.length = img.m_Channels.length
  nItems : img.nItems ≤ img'.nItems
  complete : ∀ p, p < img.nItems → img.IsComplete p = true → img'.IsComplete p = true
  ids : IdsOK img → IdsOK img'
  fixed : ∀ q, q < img.nItems → SameFixed (img.items q) (img'.items q)
  nBufs : img.nBufs ≤ img'.nBufs
  slices : IdsOK img → ∀ k, (img.m_Slices.getD k none).isSome = true →
    (img'.m_Slices.getD k none).isSome = true ∨
    img'.completeEntry (img'.m_Volumes.getD (k / img.dim 2) none) = true ∨
    img'.completeEntry (img'.m_Channels.getD (k / (img.dim 2 * img.dim 3)) none) = true
  volumes : IdsOK img → ∀ k, img.completeEntry (img.m_Volumes.getD k none) = true →
    img'.completeEntry (img'.m_Volumes.getD k none) = true ∨
    img'.completeEntry (img'.m_Channels.getD (k / img.dim 3) none) = true
  channels : IdsOK img → ∀ k, img.completeEntry (img.m_Channels.getD k none) = true →
    img'.completeEntry (img'.m_Channels.getD k none) = true

/-- Invariant of the volume-combining loop of `GetChannelData_unlocked` before time step
`k`: the state covers the initial one, the volumes of the earlier time steps are complete,
and the slice iterator has advanced by whole volumes, at most `k` of them. -/
structure CombineInv (img : Image) (n k : Nat) (st : Image) (it : Nat) : Prop where
  adv : Adv img st
  done : ∀ t, t < k → st.completeEntry (st.m_Volumes.getD (t + n * img.dim 3) none) = true
  pos : ∃ c, c ≤ k ∧ it = n * img.dim 2 * img.dim 3 + img.dim 2 * c

/-- The operations on an image after its initialization: the accessors, the import
operations (`SetSlice`, `SetVolume` and `SetChannel` are the imports with `CopyMemory`) and
the presence queries. -/
inductive Op where
  | getSlice (s t n : Int) (data : Option Ptr) (imm : ImportMemoryManagementType)
  | getVolume (t n : Int) (data : Option Ptr) (imm : ImportMemoryManagementType)
  | getChannel (n : Int) (data : Option Ptr) (imm : ImportMemoryManagementType)
  | importSlice (data : Option Ptr) (s t n : Int) (imm : ImportMemoryManagementType)
  | importVolume (data : Option Ptr) (t n : Int) (imm : ImportMemoryManagementType)
  | importChannel (data : Option Ptr) (n : Int) (imm : ImportMemoryManagementType)
  | isSliceSet (s t n : Int)
  | isVolumeSet (t n : Int)
  | isChannelSet (n : Int)

/-- The state after one operation; `none` when the call does not return. -/
def Op.run (src : Option Source) (fuel : Nat) (img : Image) : Op → Option Image
  | Op.getSlice s t n data imm => (GetSliceData src fuel img s t n data imm).map Prod.fst
  | Op.getVolume t n data imm => (GetVolumeData src fuel img t n data imm).map Prod.fst
  | Op.getChannel n data imm => (GetChannelData src fuel img n data imm).map Prod.fst
  | Op.importSlice data s t n imm => (SetImportSlice src fuel img data s t n imm).map Prod.fst
  | Op.importVolume data t n imm => (SetImportVolume src fuel img data t n imm).map Prod.fst
  | Op.importChannel data n imm => (SetImportChannel src fuel img data n imm).map Prod.fst
  | Op.isSliceSet _ _ _ => some img
  | Op.isVolumeSet _ _ => some img
  | Op.isChannelSet _ => some img

/-- The state after a sequence of operations. -/
def runOps (src : Option Source) (fuel : Nat) : List Op → Image → Option Image
  | [], img => some img
  | op :: rest, img =>
    match op.run src fuel img with
    | none => none
    | some x => runOps src fuel rest x

/-- The sample image next to a caller buffer that holds the bytes 1 2 3 4. -/
def sampleWithBuffer : Image := (callerBuffer sample [1, 2, 3, 4]).1

/-- Item `q` exists and its first `len` bytes lie inside a buffer other than `B`. -/
def Fits (B : Nat) (img : Image) (q : Nat) (len : Nat) : Prop :=
  q < img.nItems ∧ img.inBounds (img.items q).m_Data len = true ∧ (img.items q).m_Data.buf ≠ B

/-- Every stored pointer leads to an item whose unit-sized byte range lies inside a buffer
other than the caller's buffer `B`. -/
structure Safe (B : Nat) (img : Image) : Prop where
  wf : WF img
  ext : B < img.nBufs
  sl : ∀ q, some q ∈ img.m_Slices → Fits B img q (img.off 2 * img.ptypeSize)
  vo : ∀ q, some q ∈ img.m_Volumes → Fits B img q (img.off 3 * img.ptypeSize)
  ch : ∀ q, some q ∈ img.m_Channels → Fits B img q (img.off 4 * img.ptypeSize)

/-- The sample image next to a caller buffer that holds the bytes 1 to 8. -/
def sampleWithUnit : Image := (callerBuffer sample [1, 2, 3, 4, 5, 6, 7, 8]).1

/-- The sample image after `SetSlice` has written the bytes 1 2 3 4 to slice 0. -/
def sampleWritten : Image :=
  match SetSlice none 1 sampleWithBuffer (some ⟨0, 0⟩) 0 0 0 with
  | some r => r.1
  | none => sampleWithBuffer

/-- The sample image after `SetChannel` has written the bytes 1 to 8 to channel 0. -/
def sampleChannelWritten : Image :=
  match SetChannel none 1 sampleWithUnit (some ⟨0, 0⟩) 0 with
  | some r => r.1
  | none => sampleWithUnit

/-- The sample image after `SetVolume` has written the bytes 1 to 8 to volume 0. -/
def sampleVolumeWritten : Image :=
  match SetVolume none 1 sampleWithUnit (some ⟨0, 0⟩) 0 0 with
  | some r => r.1
  | none => sampleWithUnit

/-- The entry of slice 0 of `sampleWritten`, and the entry of the same slice after
`SetSlice` has written the slice a second time: for each whether it owns its memory and
its parent. -/
def sliceEntryRewritten : Option ((Bool × Option Nat) × (Bool × Option Nat)) :=
  match elemAt sampleWritten.m_Slices (sampleWritten.GetSliceIndex 0 0 0),
      SetSlice none 1 sampleWritten (some ⟨0, 0⟩) 0 0 0 with
  | some q, some (x, true) =>
    match elemAt x.m_Slices (x.GetSliceIndex 0 0 0) with
    | some e =>
      some (((sampleWritten.items q).m_ManageMemory, (sampleWritten.items q).m_Parent),
        ((x.items e).m_ManageMemory, (x.items e).m_Parent))
    | none => none
  | _, _ => none

/-- The sample image after `SetChannel` of channel 0 and `GetVolumeData` of volume 0: the
volume entry is a view into the channel item. -/
def sampleVolumeView : Image :=
  match GetVolumeData none 1 sampleChannelWritten 0 0 none ImportMemoryManagementType.CopyMemory with
  | some r => r.1
  | none => sampleChannelWritten

/-- The sample image after `SetVolume` of volume 0 and `GetChannelData` of channel 0: the
channel entry is a view of the volume item. -/
def sampleChannelView : Image :=
  match GetChannelData none 2 sampleVolumeWritten 0 none ImportMemoryManagementType.CopyMemory with
  | some r => r.1
  | none => sampleVolumeWritten

/-- Item `q` lies inside its parent, if it has one: the parent exists, the data pointer of
`q` is the parent's plus the offset of `q`, and the byte range `[offset, offset + size)` of
`q` ends within the parent's size. -/
def Within (img : Image) (q : Nat) : Prop :=
  ∀ p, (img.items q).m_Parent = some p →
    p < img.nItems ∧ (img.items q).m_Data = Ptr.add (img.items p).m_Data (img.items q).m_Offset ∧
    (img.items q).m_Offset + (img.items q).m_Size ≤ (img.items p).m_Size

/-- Item `q` exists, has the byte size of an item of dimension `k`, and lies inside its
parent. -/
def Entry (img : Image) (k q : Nat) : Prop :=
  q < img.nItems ∧ (img.items q).m_Size = img.ComputeItemSize k ∧ Within img q

/-- The state `b` is reached from `a` by steps that keep the shape of the image, the sizes
of the three arrays and the items constructed so far. -/
structure Kept (a b : Image) : Prop where
  shape : SameShape a b
  nItems : a.nItems ≤ b.nItems
  fixed : ∀ q, q < a.nItems → SameFixed (a.items q) (b.items q)
  slices_len : b.m_Slices.length = a.m_Slices.length
  volumes_len : b.m_Volumes.length = a.m_Volumes.length
  channels_len : b.m_Channels.length = a.m_Channels.length

/-- Every entry of the three arrays has the size of its tier and lies inside its parent.
The field `chan` says that the item of a whole channel has the bytes of all time steps; it
holds for every image of rank at most 4. -/
structure Contained (img : Image) : Prop where
  wf : WF img
  chan : img.ComputeItemSize img.m_Dimension = img.off 4 * img.ptypeSize
  sl : ∀ q, some q ∈ img.m_Slices → Entry img 2 q
  vo : ∀ q, some q ∈ img.m_Volumes → Entry img 3 q
  ch : ∀ q, some q ∈ img.m_Channels → Entry img img.m_Dimension q

/-- Item `q` exists and its data pointer is the byte `G` of the image under `base`. -/
def Placed (base : Nat → Option Int) (x : Image) (G : Nat) (q : Nat) : Prop :=
  q < x.nItems ∧ ∃ Lb : Int, base (x.items q).m_Data.buf = some Lb ∧
    Lb + ((x.items q).m_Data.off : Int) = (G : Int)

/-- Every entry of the three arrays is placed where its index says: slice `k` at `k` slice
sizes, volume `k` at `k` volume sizes, channel `k` at `k` channel sizes.  Every buffer with a
base exists and holds the data of some item. -/
structure Laid (base : Nat → Option Int) (x : Image) : Prop where
  claimed : ∀ B, base B ≠ none → B < x.nBufs ∧ ∃ q, q < x.nItems ∧ (x.items q).m_Data.buf = B
  sl : ∀ k q, x.m_Slices.getD k none = some q → Placed base x (k * (x.off 2 * x.ptypeSize)) q
  vo : ∀ k q, x.m_Volumes.getD k none = some q → Placed base x (k * (x.off 3 * x.ptypeSize)) q
  ch : ∀ k q, x.m_Channels.getD k none = some q → Placed base x (k * (x.off 4 * x.ptypeSize)) q

/-- The map `base'` agrees with `base` where `base` is defined, and gives no base to a
buffer of `x` that had none. -/
structure Ext (x : Image) (base base' : Nat → Option Int) : Prop where
  keep : ∀ B, base B ≠ none → base' B = base B
  above : ∀ B, B < x.nBufs → base B = none → base' B = none

/-- The state `b` comes after `a`: the items of `a` are kept and no buffer is lost. -/
structure Later (a b : Image) : Prop where
  kept : Kept a b
  nBufs : a.nBufs ≤ b.nBufs

/-- The call passes no caller buffer for adoption: the mode is `CopyMemory` or the data
pointer is null. -/
def NoAdopt (data : Option Ptr) (imm : ImportMemoryManagementType) : Prop :=
  imm = ImportMemoryManagementType.CopyMemory ∨ data = none

/-- A caller buffer passed for adoption exists and holds no image data yet. -/
def FreshData (base : Nat → Option Int) (x : Image) (data : Option Ptr)
    (imm : ImportMemoryManagementType) : Prop :=
  imm ≠ ImportMemoryManagementType.CopyMemory → ∀ p, data = some p → base p.buf = none ∧ p.buf < x.nBufs

/-- The caller's obligation for one operation: a buffer handed over for adoption or
borrowing (an import of a volume or channel in a mode other than `CopyMemory`) exists and
holds the data of no item of the image; the volume and channel accessors are called in
`CopyMemory` mode or without data pointer. -/
def Op.fresh (x : Image) : Op → Bool
  | Op.getSlice _ _ _ _ _ => true
  | Op.getVolume _ _ data imm => decide (imm = ImportMemoryManagementType.CopyMemory) || data.isNone
  | Op.getChannel _ data imm => decide (imm = ImportMemoryManagementType.CopyMemory) || data.isNone
  | Op.importSlice _ _ _ _ _ => true
  | Op.importVolume data _ _ imm =>
    decide (imm = ImportMemoryManagementType.CopyMemory) ||
      (match data with
        | none => true
        | some p => decide (p.buf < x.nBufs) &&
            (List.range x.nItems).all (fun q => decide ((x.items q).m_Data.buf ≠ p.buf)))
  | Op.importChannel data _ imm =>
    decide (imm = ImportMemoryManagementType.CopyMemory) ||
      (match data with
        | none => true
        | some p => decide (p.buf < x.nBufs) &&
            (List.range x.nItems).all (fun q => decide ((x.items q).m_Data.buf ≠ p.buf)))
  | Op.isSliceSet _ _ _ => true
  | Op.isVolumeSet _ _ => true
  | Op.isChannelSet _ => true

/-- The caller's obligation holds for every operation of the sequence, in the state in which
the operation is called. -/
def freshRun (src : Option Source) (fuel : Nat) : List Op → Image → Bool
  | [], _ => true
  | op :: rest, img =>
    op.fresh img &&
      (match op.run src fuel img with
        | none => true
        | some x => freshRun src fuel rest x)

/-- The state `y` is reached from `x` by steps of a write to slice `k` before its copy: the
items and the bytes of `x` are as they were, the other slice entries and the channel entries
are the same, and a volume entry is the same or is new and incomplete where there was
none. -/
structure Aside (k : Nat) (x y : Image) : Prop where
  step : Later x y
  items : ∀ q, q < x.nItems → y.items q = x.items q
  mem : ∀ B o, B < x.nBufs → y.mem B o = x.mem B o
  slices : ∀ j, j ≠ k → y.m_Slices.getD j none = x.m_Slices.getD j none
  channels : y.m_Channels = x.m_Channels
  volumes : ∀ j, y.m_Volumes.getD j none = x.m_Volumes.getD j none ∨
    (x.m_Volumes.getD j none = none ∧ y.completeEntry (y.m_Volumes.getD j none) = false)

/-- The address a read of the slice `(s, t, n)` resolves to when the slice is set: the data of
the stored entry, else the place of the slice in the complete volume, else its place in the
complete channel. -/
def sliceRead (img : Image) (s t n : Int) : Option Ptr :=
  match elemAt img.m_Slices (img.GetSliceIndex s t n) with
  | some e => some (img.items e).m_Data
  | none =>
    if img.completeEntry (elemAt img.m_Volumes (img.GetVolumeIndex t n)) then
      some (Ptr.add (img.items ((elemAt img.m_Volumes (img.GetVolumeIndex t n)).getD 0)).m_Data
        (sizeT (s.toNat * img.off 2 * img.ptypeSize)))
    else if img.completeEntry (elemAt img.m_Channels n) then
      some (Ptr.add (img.items ((elemAt img.m_Channels n).getD 0)).m_Data
        (sizeT ((s.toNat * img.off 2 + t.toNat * img.off 3) * img.ptypeSize)))
    else none

/-- The state `y` has the bytes of `x` in every buffer that exists in `x`. -/
def OldMem (x y : Image) : Prop := ∀ B o, B < x.nBufs → y.mem B o = x.mem B o

/-- From `x` to `z` a byte of a buffer of `x` is changed only in a buffer that has a place in
the layout `base`, and only at a position that lies in the `len` bytes from `G` on. -/
def Wrote (base : Nat → Option Int) (x z : Image) (G len : Nat) : Prop :=
  ∀ B o : Nat, B < x.nBufs →
    (∀ Lb : Int, base B = some Lb → ¬ ((G : Int) ≤ Lb + (o : Int) ∧ Lb + (o : Int) < (G : Int) + (len : Int))) →
    z.mem B o = x.mem B o

/-- The operations of the scenario for writes over entries that do not own their memory: the
caller's buffer is borrowed as volume `(0, 0)`, and slice `(0, 0, 0)` is read, which installs a
view into the borrowed volume. -/
def borrowOps : List Op :=
  [Op.importVolume (some ⟨0, 0⟩) 0 0 ImportMemoryManagementType.ReferenceMemory,
    Op.getSlice 0 0 0 none ImportMemoryManagementType.CopyMemory]

/-- The state after `borrowOps` on a `2 x 2 x 2` image with one-byte pixels; the caller's buffer
holds the bytes `1 .. 8` followed by `9 .. 12`. -/
def borrowState : Image :=
  (runOps none 2 borrowOps
    ((callerBuffer Image.empty [1, 2, 3, 4, 5, 6, 7, 8, 9, 10, 11, 12]).1.Initialize 1 3
      (some [2, 2, 2]) 1).image).getD Image.empty

/-- A `2 x 2 x 2 x 2` image with one-byte pixels and one channel: rank four, two time steps. -/
def timeImage : Image := (Image.empty.Initialize 1 4 (some [2, 2, 2, 2]) 1).image

/-- A `1 x 1 x 1 x 2 x 1` image of rank five with one-byte pixels and one channel, on a heap
with one caller buffer that holds the bytes 7 and 9. -/
def rank5Image : Image :=
  ((callerBuffer Image.empty [7, 9]).1.Initialize 1 5 (some [1, 1, 1, 2, 1]) 1).image

/-- The image `rank5Image` after `SetVolume` has written byte 7 to volume 0 and byte 9 to
volume 1. -/
def rank5Written : Image :=
  (runOps none 1
    [Op.importVolume (some ⟨0, 0⟩) 0 0 ImportMemoryManagementType.CopyMemory,
      Op.importVolume (some ⟨0, 1⟩) 1 0 ImportMemoryManagementType.CopyMemory]
    rank5Image).getD Image.empty

/-- The return statements of the accessors `Get...Data_unlocked`, in the order in which the
source reaches them. -/
inductive GetStep where
  | invalid
  | stored
  | fromVolume
  | fromChannel
  | consolidation
  | producer
  | allocation
  deriving DecidableEq, Repr

/-- The return statement that `GetSliceData_unlocked(s, t, n)` reaches in the state `img`. -/
def GetSliceData_step (src : Option Source) (img : Image) (s t n : Int) : GetStep :=
  if img.IsValidSlice s t n = false then GetStep.invalid
  else if (elemAt img.m_Slices (img.GetSliceIndex s t n)).isSome then GetStep.stored
  else if img.completeEntry (elemAt img.m_Volumes (img.GetVolumeIndex t n)) then GetStep.fromVolume
  else if img.completeEntry (elemAt img.m_Channels n) then GetStep.fromChannel
  else if (canUpdate src).isSome then GetStep.producer
  else GetStep.allocation

/-- The return statement that `GetVolumeData_unlocked(t, n)` reaches in the state `img`. -/
def GetVolumeData_step (src : Option Source) (img : Image) (t n : Int) : GetStep :=
  if img.IsValidVolume t n = false then GetStep.invalid
  else if img.completeEntry (elemAt img.m_Volumes (img.GetVolumeIndex t n)) then GetStep.stored
  else if img.completeEntry (elemAt img.m_Channels n) then GetStep.fromChannel
  else if img.allSlicesSet t n then GetStep.consolidation
  else if (canUpdate src).isSome then GetStep.producer
  else GetStep.allocation

/-- The return statement that `GetChannelData_unlocked(n)` reaches in the state `img`. -/
def GetChannelData_step (src : Option Source) (img : Image) (n : Int) : GetStep :=
  if img.IsValidChannel n = false then GetStep.invalid
  else if img.completeEntry (elemAt img.m_Channels n) then GetStep.stored
  else if img.IsChannelSet_unlocked n then GetStep.consolidation
  else if (canUpdate src).isSome then GetStep.producer
  else GetStep.allocation

/-- The place a thread has reached inside a call of `SetImportSlice`: at the entry, after
the validity check, after `IsSliceSet` returned `wasSet`, after `GetSliceData` returned `sl`,
with the item `sl` to be written chosen, after the copy, and after the return of `ret`.
`modify` records the branch: `true` when `Modified()` is still to be called. -/
inductive SlicePC where
  | entry
  | valid
  | checked (wasSet : Bool)
  | fetched (sl : Option Nat)
  | ready (sl : Nat) (modify : Bool)
  | copied (modify : Bool)
  | finished (ret : Bool)
  deriving DecidableEq, Repr

/-- The arguments of a call `SetImportSlice(data, s, t, n, importMemoryManagement)`. -/
structure SliceCall where
  data : Option Ptr
  s : Int
  t : Int
  n : Int
  imm : ImportMemoryManagementType

/-- One step of a thread inside `SetImportSlice`.  The steps are the statements of the
function body; the first component of the result says whether the step runs under
`m_ImageDataArraysLock`.  `SetImportSlice` itself takes no lock: the calls `IsSliceSet`,
`GetSliceData` and `AllocateSliceData` take a `MutexHolder` each and release it on return,
the validity check, the test of `GetManageMemory()`, `std::memcpy` and `Modified()` run
without the lock. -/
def SetImportSlice_step (src : Option Source) (fuel : Nat) (c : SliceCall) (img : Image) :
    SlicePC → Option (Bool × Image × SlicePC)
  | SlicePC.entry =>
    if img.IsValidSlice c.s c.t c.n = false then some (false, img, SlicePC.finished false)
    else some (false, img, SlicePC.valid)
  | SlicePC.valid => some (true, img, SlicePC.checked (img.IsSliceSet c.s c.t c.n))
  | SlicePC.checked true =>
    match GetSliceData src fuel img c.s c.t c.n c.data c.imm with
    | none => none
    | some (img1, sl) => some (true, img1, SlicePC.fetched sl)
  | SlicePC.checked false =>
    let r := img.AllocateSliceData c.s c.t c.n c.data c.imm
    some (true, r.1, SlicePC.ready r.2 false)
  | SlicePC.fetched none => some (false, { img with fault := true }, SlicePC.copied true)
  | SlicePC.fetched (some q) =>
    if (img.items q).m_ManageMemory = false then
      let r := img.AllocateSliceData c.s c.t c.n c.data c.imm
      some (true, r.1, SlicePC.ready r.2 true)
    else some (false, img, SlicePC.ready q true)
  | SlicePC.ready q modify =>
    some (false, img.copyInto (img.items q).m_Data c.data (sizeT (img.off 2 * img.ptypeSize)),
      SlicePC.copied modify)
  | SlicePC.copied true => some (false, img.Modified, SlicePC.finished true)
  | SlicePC.copied false => some (false, img, SlicePC.finished true)
  | SlicePC.finished _ => none

/-- A thread that runs alone: at most `k` steps of `SetImportSlice` from the place `pc`.
The result is the state, the place reached and, for each step, whether it ran under the
lock. -/
def SetImportSlice_steps (src : Option Source) (fuel : Nat) (c : SliceCall) :
    Nat → Image → SlicePC → Option (Image × SlicePC × List Bool)
  | 0, img, pc => some (img, pc, [])
  | k + 1, img, pc =>
    match SetImportSlice_step src fuel c img pc with
    | none =>
      match pc with
      | SlicePC.finished _ => some (img, pc, [])
      | _ => none
    | some (l, img1, pc1) =>
      match SetImportSlice_steps src fuel c k img1 pc1 with
      | none => none
      | some r => some (r.1, r.2.1, l :: r.2.2)

/-- Two threads inside `SetImportSlice` on the same image, thread `a` with the call `a` and
thread `b` with the call `b`.  The schedule says which thread takes the next step (`true`
is thread `a`).  A locked step takes and releases the lock within the step, so the lock is
free between any two steps and every schedule is possible. -/
def runSchedule (src : Option Source) (fuel : Nat) (a b : SliceCall) :
    List Bool → Image × SlicePC × SlicePC → Option (Image × SlicePC × SlicePC)
  | [], st => some st
  | true :: rest, (img, pa, pb) =>
    match SetImportSlice_step src fuel a img pa with
    | none => none
    | some (_, img1, pa1) => runSchedule src fuel a b rest (img1, pa1, pb)
  | false :: rest, (img, pa, pb) =>
    match SetImportSlice_step src fuel b img pb with
    | none => none
    | some (_, img1, pb1) => runSchedule src fuel a b rest (img1, pa, pb1)

/-- Thread `a` writes the bytes 1 2 3 4 of the caller's buffer to slice 0. -/
def callA : SliceCall := ⟨some ⟨0, 0⟩, 0, 0, 0, ImportMemoryManagementType.CopyMemory⟩

/-- Thread `b` writes the bytes 5 6 7 8 of the caller's buffer to the same slice. -/
def callB : SliceCall := ⟨some ⟨0, 4⟩, 0, 0, 0, ImportMemoryManagementType.CopyMemory⟩

/-- Both threads pass the presence check before either of them allocates. -/
def racingSchedule : List Bool :=
  [true, true, false, false, true, false, true, false, true, false]

/-- Thread `a` runs to its end, then thread `b`. -/
def serialSchedule : List Bool :=
  [true, true, true, true, true, false, false, false, false, false, false]

/-- The bytes of slice `(0, 0, 0)` of the sample image as an accessor would find them. -/
def sliceBytes (img : Image) : Option (List Nat) :=
  (img.sliceRead 0 0 0).map (fun p => img.readBytes p 4)

/-- The state `y` of the volume-combining loop of `GetChannelData_unlocked` on channel `n`
before time step `k`: the channel item `ch` owns the buffer `C` with the bytes of a whole
channel and is not stored yet; the volumes before `k` are views of `ch` at their offset and
their bytes have been copied to their place in `C`; the volumes from `k` on still are the
items that own a buffer of their own with the caller's bytes. -/
structure Gathered (img : Image) (n : Nat) (data : Nat → Ptr) (ch C k : Nat) (y : Image) :
    Prop where
  shape : SameShape img y
  wf : WF y
  chan : y.m_Channels.getD n none = none
  slices : ∀ s t, s < img.dim 2 → t < img.dim 3 →
    y.m_Slices.getD (s + t * img.dim 2 + n * img.dim 3 * img.dim 2) none = none
  fault : y.fault = img.fault
  mtime : y.mtime = img.mtime
  chlt : ch < y.nItems
  chdata : (y.items ch).m_Data = ⟨C, 0⟩
  chdone : (y.items ch).m_IsComplete = true
  chroot : (y.items ch).m_Parent = none
  chown : (y.items ch).m_ManageMemory = true
  cbuf : C < y.nBufs
  csize : y.bufSize C = img.off 4 * img.ptypeSize
  moved : ∀ t, t < k →
    ∃ q, y.m_Volumes.getD (t + n * img.dim 3) none = some q ∧ q < y.nItems ∧
      (y.items q).m_IsComplete = true ∧ (y.items q).m_Parent = some ch ∧
      (y.items q).m_Offset = t * (img.off 3 * img.ptypeSize) ∧
      (y.items q).m_Data = ⟨C, t * (img.off 3 * img.ptypeSize)⟩ ∧
      ∀ i, i < img.off 3 * img.ptypeSize →
        y.mem C (t * (img.off 3 * img.ptypeSize) + i) = img.mem (data t).buf ((data t).off + i)
  pending : ∀ t, k ≤ t → t < img.dim 3 →
    ∃ q B, y.m_Volumes.getD (t + n * img.dim 3) none = some q ∧ q < y.nItems ∧
      (y.items q).m_IsComplete = true ∧ (y.items q).m_Parent = none ∧
      (y.items q).m_Data = ⟨B, 0⟩ ∧ B ≠ C ∧ B < y.nBufs ∧
      y.bufSize B = img.off 3 * img.ptypeSize ∧
      ∀ i, i < img.off 3 * img.ptypeSize → y.mem B i = img.mem (data t).buf ((data t).off + i)

/-- The item `q` is stored in channel `N` of `x`: at a slice index, at a volume index or at the
channel index of that channel. -/
def Own (N : Nat) (x : Image) (q : Nat) : Prop :=
  (∃ k, k / (x.dim 2 * x.dim 3) = N ∧ x.m_Slices.getD k none = some q) ∨
  (∃ j, j / x.dim 3 = N ∧ x.m_Volumes.getD j none = some q) ∨
  x.m_Channels.getD N none = some q

/-- The item `q` is stored in channel `N` of `x` or is constructed after `x`. -/
def Mine (N : Nat) (x : Image) (q : Nat) : Prop := Own N x q ∨ x.nItems ≤ q

/-- The state `y` is reached from `x` by steps that touch channel `N` only: the entries of the
three arrays outside the index ranges of channel `N` are the same, an item of `x` that is not
stored in channel `N` is unchanged, and an item stored in channel `N` of `y` was stored in
that channel before or is new. -/
structure Apart (N : Nat) (x y : Image) : Prop where
  shape : SameShape x y
  nItems : x.nItems ≤ y.nItems
  slices : ∀ k, k / (x.dim 2 * x.dim 3) ≠ N → y.m_Slices.getD k none = x.m_Slices.getD k none
  volumes : ∀ j, j / x.dim 3 ≠ N → y.m_Volumes.getD j none = x.m_Volumes.getD j none
  channels : ∀ c, c ≠ N → y.m_Channels.getD c none = x.m_Channels.getD c none
  items : ∀ q, q < x.nItems → ¬ Own N x q → y.items q = x.items q
  own : ∀ q, Own N y q → Mine N x q

/-- A `1 x 1 x 65536 x 65536` image of rank four with one-byte pixels and one channel: it has
`2^32` slices. -/
def wideImage : Image := (Image.empty.Initialize 1 4 (some [1, 1, 65536, 65536]) 1).image

end Image

/-! # Theorems -/

namespace Image

/-! ## The lock of the accessors -/

theorem holdLock_some {src : Option Source} {img : Image} {r : Option (Image × Option Nat)}
    {res : Image × Option Nat} (h : holdLock src img r = some res) : r = some res := by
  unfold holdLock at h
  cases src with
  | none => exact h
  | some p =>
    cases r with
    | none => cases h
    | some r0 =>
      dsimp only at h
      split at h
      · cases h
      · exact h

theorem holdLock_of_updates {src : Option Source} {img : Image} {r : Option (Image × Option Nat)}
    {res : Image × Option Nat} (h : r = some res) (hu : res.1.updates = img.updates) :
    holdLock src img r = some res := by
  subst h
  unfold holdLock
  cases src with
  | none => rfl
  | some p => simp [hu]

theorem holdLock_of_free {src : Option Source} (img : Image) (r : Option (Image × Option Nat))
    (hf : ∀ p, src = some p → p.locks = false) : holdLock src img r = r := by
  unfold holdLock
  cases src with
  | none => rfl
  | some p =>
    cases r with
    | none => rfl
    | some res => simp [hf p rfl]

theorem holdLock_blocked {p : Source} {img : Image} {res : Image × Option Nat}
    (hl : p.locks = true) (hu : res.1.updates ≠ img.updates) :
    holdLock (some p) img (some res) = none := by
  simp [holdLock, hl, hu]

theorem holdLock_of_none (src : Option Source) (img : Image) : holdLock src img none = none := by
  unfold holdLock
  cases src <;> rfl

theorem GetSliceData_some {src : Option Source} {fuel : Nat} {x : Image} {s t n : Int}
    {data : Option Ptr} {imm : ImportMemoryManagementType} {r : Image × Option Nat}
    (h : GetSliceData src fuel x s t n data imm = some r) :
    GetSliceData_unlocked src fuel x s t n data imm = some r :=
  holdLock_some h

theorem GetVolumeData_some {src : Option Source} {fuel : Nat} {x : Image} {t n : Int}
    {data : Option Ptr} {imm : ImportMemoryManagementType} {r : Image × Option Nat}
    (h : GetVolumeData src fuel x t n data imm = some r) :
    GetVolumeData_unlocked src fuel x t n data imm = some r :=
  holdLock_some h

theorem GetChannelData_some {src : Option Source} {fuel : Nat} {x : Image} {n : Int}
    {data : Option Ptr} {imm : ImportMemoryManagementType} {r : Image × Option Nat}
    (h : GetChannelData src fuel x n data imm = some r) :
    GetChannelData_unlocked src fuel x n data imm = some r :=
  holdLock_some h

theorem GetSliceData_of_unlocked {src : Option Source} {fuel : Nat} {x : Image} {s t n : Int}
    {data : Option Ptr} {imm : ImportMemoryManagementType} {r : Image × Option Nat}
    (h : GetSliceData_unlocked src fuel x s t n data imm = some r) (hu : r.1.updates = x.updates) :
    GetSliceData src fuel x s t n data imm = some r :=
  holdLock_of_updates h hu

theorem GetVolumeData_of_unlocked {src : Option Source} {fuel : Nat} {x : Image} {t n : Int}
    {data : Option Ptr} {imm : ImportMemoryManagementType} {r : Image × Option Nat}
    (h : GetVolumeData_unlocked src fuel x t n data imm = some r) (hu : r.1.updates = x.updates) :
    GetVolumeData src fuel x t n data imm = some r :=
  holdLock_of_updates h hu

theorem GetChannelData_of_unlocked {src : Option Source} {fuel : Nat} {x : Image} {n : Int}
    {data : Option Ptr} {imm : ImportMemoryManagementType} {r : Image × Option Nat}
    (h : GetChannelData_unlocked src fuel x n data imm = some r) (hu : r.1.updates = x.updates) :
    GetChannelData src fuel x n data imm = some r :=
  holdLock_of_updates h hu

theorem GetSliceData_free {src : Option Source} (hf : ∀ p, src = some p → p.locks = false)
    (fuel : Nat) (x : Image) (s t n : Int) (data : Option Ptr) (imm : ImportMemoryManagementType) :
    GetSliceData src fuel x s t n data imm = GetSliceData_unlocked src fuel x s t n data imm :=
  holdLock_of_free x _ hf

theorem GetVolumeData_free {src : Option Source} (hf : ∀ p, src = some p → p.locks = false)
    (fuel : Nat) (x : Image) (t n : Int) (data : Option Ptr) (imm : ImportMemoryManagementType) :
    GetVolumeData src fuel x t n data imm = GetVolumeData_unlocked src fuel x t n data imm :=
  holdLock_of_free x _ hf

theorem GetChannelData_free {src : Option Source} (hf : ∀ p, src = some p → p.locks = false)
    (fuel : Nat) (x : Image) (n : Int) (data : Option Ptr) (imm : ImportMemoryManagementType) :
    GetChannelData src fuel x n data imm = GetChannelData_unlocked src fuel x n data imm :=
  holdLock_of_free x _ hf

/-! ## The offset table -/

theorem offsetLoop_length (dims : List Nat) (i : Nat) : (offsetLoop dims i).2.length = i + 1 := by
  induction i with
  | zero => rfl
  | succ k ih => simp [offsetLoop, ih]

theorem offsetLoop_getD (dims : List Nat) (i j : Nat) (h : j ≤ i) :
    (offsetLoop dims i).2.getD j 0 = (offsetLoop dims j).1 := by
  induction i with
  | zero =>
    have : j = 0 := by omega
    subst this; rfl
  | succ k ih =>
    rcases Nat.lt_or_ge j (k + 1) with hlt | hge
    · have hlen := offsetLoop_length dims k
      show ((offsetLoop dims k).2 ++ [_]).getD j 0 = _
      rw [List.getD_append _ _ _ _ (by omega)]
      exact ih (by omega)
    · have hj : j = k + 1 := by omega
      subst hj
      have hlen := offsetLoop_length dims k
      show ((offsetLoop dims k).2 ++ [_]).getD (k + 1) 0 = _
      rw [List.getD_append_right _ _ _ _ (by omega)]
      simp [hlen, offsetLoop]

theorem offsetFill_length (num : Nat) (tbl : List Nat) (k : Nat) :
    (offsetFill num tbl k).length = tbl.length + k := by
  induction k with
  | zero => rfl
  | succ k ih => simp [offsetFill, ih]; omega

theorem offsetFill_getD_lt (num : Nat) (tbl : List Nat) (k j : Nat) (h : j < tbl.length) :
    (offsetFill num tbl k).getD j 0 = tbl.getD j 0 := by
  induction k with
  | zero => rfl
  | succ k ih =>
    have hlen := offsetFill_length num tbl k
    show (offsetFill num tbl k ++ [num]).getD j 0 = _
    rw [List.getD_append _ _ _ _ (by omega)]
    exact ih

theorem offsetFill_getD_ge (num : Nat) (tbl : List Nat) (k j : Nat) (h : tbl.length ≤ j)
    (hj : j < tbl.length + k) : (offsetFill num tbl k).getD j 0 = num := by
  induction k with
  | zero => omega
  | succ k ih =>
    have hlen := offsetFill_length num tbl k
    show (offsetFill num tbl k ++ [num]).getD j 0 = _
    rcases Nat.lt_or_ge j (tbl.length + k) with hlt | hge
    · rw [List.getD_append _ _ _ _ (by omega)]
      exact ih hlt
    · rw [List.getD_append_right _ _ _ _ (by omega)]
      have : j - (offsetFill num tbl k).length = 0 := by omega
      simp [this]

/-- Entry `j` of the table `ComputeOffsetTable` builds, for `j` up to `max rank 4`. -/
theorem off_ComputeOffsetTable (img : Image) (j : Nat) (hj : j ≤ max img.m_Dimension 4) :
    img.ComputeOffsetTable.off j = (offsetLoop (img.m_Dimensions.getD []) (min j img.m_Dimension)).1 := by
  unfold ComputeOffsetTable off
  have hlen := offsetLoop_length (img.m_Dimensions.getD []) img.m_Dimension
  rcases Nat.lt_or_ge img.m_Dimension j with hlt | hge
  · show (offsetFill _ _ _).getD j 0 = _
    rw [offsetFill_getD_ge _ _ _ _ (by omega) (by omega), Nat.min_eq_right (by omega)]
  · show (offsetFill _ _ _).getD j 0 = _
    rw [offsetFill_getD_lt _ _ _ _ (by omega), Nat.min_eq_left hge]
    exact offsetLoop_getD _ _ _ hge

/-! ## Initialization -/

theorem copyDimensions_length (ds : List Nat) (d : Nat) : (copyDimensions ds d).length = 8 := by
  simp [copyDimensions, MAX_IMAGE_DIMENSIONS]

theorem copyDimensions_getD (ds : List Nat) (d i : Nat) (hi : i < 8) :
    (copyDimensions ds d).getD i 0 = if i < d then ds.getD i 0 else if i < 4 then 1 else 0 := by
  simp [copyDimensions, MAX_IMAGE_DIMENSIONS, List.getElem?_map, List.getElem?_range, hi]

theorem sizeT_mul_sizeT (x y : Nat) : sizeT (sizeT x * y) = sizeT (x * y) := by
  unfold sizeT
  exact Nat.mod_mul_mod

/-- The pixel count of a region of five sizes is their product modulo `2^64`. -/
theorem GetNumberOfPixels_five (idx : List Int) (a b c d e : Nat) :
    Region.GetNumberOfPixels ⟨idx, [a, b, c, d, e]⟩ = sizeT (a * (b * (c * (d * e)))) := by
  show sizeT (sizeT (sizeT (sizeT (sizeT (1 * a) * b) * c) * d) * e) = _
  have h1 : sizeT (sizeT (1 * a) * b) = sizeT (a * b) := by
    rw [Nat.one_mul]
    exact sizeT_mul_sizeT a b
  have h2 : sizeT (sizeT (a * b) * c) = sizeT (a * b * c) := sizeT_mul_sizeT _ _
  have h3 : sizeT (sizeT (a * b * c) * d) = sizeT (a * b * c * d) := sizeT_mul_sizeT _ _
  have h4 : sizeT (sizeT (a * b * c * d) * e) = sizeT (a * b * c * d * e) := sizeT_mul_sizeT _ _
  rw [h1, h2, h3, h4]
  congr 1
  ring

/-- A call of `Initialize` leaves the image initialized exactly when it reaches its last
line: the extents are given, the declared ones are positive and the 64-bit pixel count of
the region is not 0. -/
theorem Initialize_initialized_iff (img : Image) (ts d : Nat) (dimensions : Option (List Nat))
    (ch : Nat) :
    (img.Initialize ts d dimensions ch).image.m_Initialized = true ↔
      ∃ ds, dimensions = some ds ∧ (∀ i, i < d → 1 ≤ ds.getD i 0) ∧
        (sizeT ((copyDimensions ds d).getD 0 0 * ((copyDimensions ds d).getD 1 0 *
          ((copyDimensions ds d).getD 2 0 * ((copyDimensions ds d).getD 3 0 * ch)))) ≠ 0) ∧
        img.Initialize ts d dimensions ch = Outcome.completed (img.initialized ts d ds ch) := by
  cases dimensions with
  | none => simp [Initialize, Outcome.image, Clear]
  | some ds =>
    by_cases hany : (List.range d).any (fun i => decide (ds.getD i 0 < 1)) = true
    · have hex : ¬ ∀ i, i < d → 1 ≤ ds.getD i 0 := by
        intro hall
        rw [List.any_eq_true] at hany
        obtain ⟨i, hi, hlt⟩ := hany
        have := hall i (List.mem_range.mp hi)
        have hlt' : ds.getD i 0 < 1 := of_decide_eq_true hlt
        omega
      simp only [Initialize, hany, if_true, Outcome.image, Clear]
      constructor
      · intro h; simp at h
      · rintro ⟨ds', hds, hall, _⟩
        cases hds
        exact absurd hall hex
    · have hall : ∀ i, i < d → 1 ≤ ds.getD i 0 := by
        intro i hi
        by_contra hlt
        apply hany
        rw [List.any_eq_true]
        exact ⟨i, List.mem_range.mpr hi, decide_eq_true (by omega)⟩
      simp only [Initialize, hany, GetNumberOfPixels_five]
      by_cases hz : sizeT ((copyDimensions ds d).getD 0 0 * ((copyDimensions ds d).getD 1 0 *
          ((copyDimensions ds d).getD 2 0 * ((copyDimensions ds d).getD 3 0 * ch)))) = 0
      · simp only [hz, if_true, Outcome.image, Clear]
        constructor
        · intro h; simp at h
        · rintro ⟨ds', hds, _, hne, _⟩
          cases hds
          exact absurd hz hne
      · simp only [hz, if_false, Outcome.image]
        constructor
        · intro _
          exact ⟨ds, rfl, hall, hz, rfl⟩
        · intro _
          rfl

theorem sizeT_of_lt {x : Nat} (h : x < 2 ^ 64) : sizeT x = x := Nat.mod_eq_of_lt h

theorem sizeT_lt (x : Nat) : sizeT x < 2 ^ 64 := Nat.mod_lt _ (by norm_num)

theorem offsetLoop_lt (dims : List Nat) (i : Nat) : (offsetLoop dims i).1 < 2 ^ 64 := by
  cases i with
  | zero => simp [offsetLoop]
  | succ k => exact sizeT_lt _

theorem offsetLoop_exact (dims : List Nat) (k : Nat) (hpos : ∀ i, i < k → 1 ≤ dims.getD i 0)
    (hk : k ≤ dims.length) (hprod : (dims.take k).prod < 2 ^ 64) :
    (offsetLoop dims k).1 = (dims.take k).prod := by
  induction k with
  | zero => simp [offsetLoop]
  | succ k ih =>
    have hlt : k < dims.length := by omega
    have hget : dims.getD k 0 = dims[k] := List.getD_eq_getElem _ _ hlt
    have htake : (dims.take (k + 1)).prod = (dims.take k).prod * dims[k] := by
      rw [List.take_succ, List.prod_append]
      simp [List.getElem?_eq_getElem hlt]
    have h1 : 1 ≤ dims[k] := by
      have := hpos k (by omega)
      omega
    have hle : (dims.take k).prod ≤ (dims.take (k + 1)).prod := by
      rw [htake]
      exact Nat.le_mul_of_pos_right _ h1
    have ih' := ih (fun i hi => hpos i (by omega)) (by omega) (by omega)
    show sizeT ((offsetLoop dims k).1 * dims.getD k 0) = _
    rw [ih', hget, htake]
    exact sizeT_of_lt (by rw [← htake]; exact hprod)

theorem take_copyDimensions (ds : List Nat) (d : Nat) (hd : d ≤ 8) (hlen : d ≤ ds.length) :
    (copyDimensions ds d).take d = ds.take d := by
  apply List.ext_getElem
  · simp [copyDimensions_length, hd, hlen]
  · intro i h1 h2
    have hi : i < d := by
      simp at h2
      omega
    have hg := copyDimensions_getD ds d i (by omega)
    rw [if_pos hi] at hg
    rw [List.getElem_take, List.getElem_take]
    have hl : i < (copyDimensions ds d).length := by rw [copyDimensions_length]; omega
    rw [List.getD_eq_getElem _ _ hl, List.getD_eq_getElem _ _ (by omega)] at hg
    exact hg

theorem length_of_declared_positive (ds : List Nat) (d : Nat)
    (hall : ∀ i, i < d → 1 ≤ ds.getD i 0) : d ≤ ds.length := by
  by_contra h
  have := hall ds.length (by omega)
  rw [List.getD_eq_default _ _ (le_refl _)] at this
  omega

theorem initialized_off (img : Image) (ts d : Nat) (ds : List Nat) (ch j : Nat)
    (hj : j ≤ max d 4) :
    (img.initialized ts d ds ch).off j = (offsetLoop (copyDimensions ds d) (min j d)).1 := by
  have h := off_ComputeOffsetTable
    { img.Clear with
      m_Dimension := d
      m_Dimensions := some (copyDimensions ds d) } j hj
  simpa [initialized, off, ComputeOffsetTable, InitializeArrays] using h

theorem initialized_dim (img : Image) (ts d : Nat) (ds : List Nat) (ch i : Nat) :
    (img.initialized ts d ds ch).dim i = (copyDimensions ds d).getD i 0 := rfl

/-- C9. After every successful `Initialize` of rank `d` (at most `MAX_IMAGE_DIMENSIONS`) with
extents `ds`, the offset table starts with `1`, satisfies `offset[i+1] = offset[i] * ds[i]`
in `size_t` arithmetic for every `i < d`, is held flat from the rank up to entry 4, and so
satisfies the recurrence for all `i < 4` with the unused extents equal to `1`; when the
product of the extents fits `size_t` the products are exact. -/
theorem ComputeOffsetTable_after_Initialize (img : Image) (ts d : Nat) (ds : List Nat) (ch : Nat)
    (hd : d ≤ MAX_IMAGE_DIMENSIONS)
    (hok : (img.Initialize ts d (some ds) ch).image.m_Initialized = true) :
    (img.Initialize ts d (some ds) ch).image.off 0 = 1 ∧
    (∀ i, i < d →
      (img.Initialize ts d (some ds) ch).image.off (i + 1) =
        sizeT ((img.Initialize ts d (some ds) ch).image.off i * ds.getD i 0)) ∧
    (∀ i, d ≤ i → i < 4 →
      (img.Initialize ts d (some ds) ch).image.off (i + 1) =
        (img.Initialize ts d (some ds) ch).image.off d) ∧
    (∀ i, i < 4 →
      (img.Initialize ts d (some ds) ch).image.off (i + 1) =
        sizeT ((img.Initialize ts d (some ds) ch).image.off i *
          (img.Initialize ts d (some ds) ch).image.dim i)) ∧
    ((ds.take d).prod < 2 ^ 64 → ∀ i, i < d →
      (img.Initialize ts d (some ds) ch).image.off (i + 1) =
        (img.Initialize ts d (some ds) ch).image.off i * ds.getD i 0) := by
  obtain ⟨ds', hds, hall, _, heq⟩ := (Initialize_initialized_iff img ts d (some ds) ch).mp hok
  cases hds
  rw [heq]
  simp only [Outcome.image]
  have hd8 : d ≤ 8 := hd
  have hstep : ∀ i, i < d → (img.initialized ts d ds ch).off (i + 1) =
      sizeT ((img.initialized ts d ds ch).off i * ds.getD i 0) := by
    intro i hi
    rw [initialized_off _ _ _ _ _ _ (by omega), initialized_off _ _ _ _ _ _ (by omega),
      Nat.min_eq_left (by omega), Nat.min_eq_left (by omega)]
    show sizeT (_ * (copyDimensions ds d).getD i 0) = _
    rw [copyDimensions_getD _ _ _ (by omega), if_pos hi]
  have hflat : ∀ i, d ≤ i → i < 4 → (img.initialized ts d ds ch).off (i + 1) =
      (img.initialized ts d ds ch).off d := by
    intro i hi h4
    rw [initialized_off _ _ _ _ _ _ (by omega), initialized_off _ _ _ _ _ _ (by omega),
      Nat.min_eq_right (by omega), Nat.min_eq_right (by omega)]
  refine ⟨?_, hstep, hflat, ?_, ?_⟩
  · rw [initialized_off _ _ _ _ _ _ (by omega)]
    simp [offsetLoop]
  · intro i h4
    rw [initialized_dim, copyDimensions_getD _ _ _ (by omega)]
    by_cases hi : i < d
    · rw [if_pos hi]
      exact hstep i hi
    · rw [if_neg hi, if_pos h4, Nat.mul_one]
      have hlt : (img.initialized ts d ds ch).off i < 2 ^ 64 := by
        rw [initialized_off _ _ _ _ _ _ (by omega)]
        exact offsetLoop_lt _ _
      rw [sizeT_of_lt hlt, hflat i (by omega) h4]
      rcases Nat.eq_or_lt_of_le (Nat.le_of_not_lt hi) with heq' | hlt'
      · rw [heq']
      · obtain ⟨k, rfl⟩ : ∃ k, i = k + 1 := ⟨i - 1, by omega⟩
        exact (hflat k (by omega) (by omega)).symm
  · intro hprod i hi
    have hlen := length_of_declared_positive ds d hall
    have hex : ∀ k, k ≤ d → (offsetLoop (copyDimensions ds d) k).1 = (ds.take k).prod := by
      intro k hk
      have htk : (copyDimensions ds d).take k = ds.take k := by
        have := congrArg (List.take k) (take_copyDimensions ds d hd8 hlen)
        simpa [List.take_take, Nat.min_eq_left hk] using this
      have hk1 : 1 ≤ (ds.drop k |>.take (d - k)).prod := by
        apply Nat.one_le_iff_ne_zero.mpr
        intro hz
        rw [List.prod_eq_zero_iff] at hz
        obtain ⟨j, hj1, hj2⟩ := List.getElem_of_mem hz
        simp at hj1
        have := hall (k + j) (by omega)
        rw [List.getD_eq_getElem _ _ (by omega)] at this
        simp at hj2
        omega
      have hsplit : (ds.take d).prod = (ds.take k).prod * (ds.drop k |>.take (d - k)).prod := by
        rw [← List.prod_append]
        congr 1
        have : d = k + (d - k) := by omega
        conv_lhs => rw [this]
        rw [List.take_add]
      have hle : (ds.take k).prod < 2 ^ 64 := by
        calc (ds.take k).prod ≤ (ds.take k).prod * (ds.drop k |>.take (d - k)).prod :=
              Nat.le_mul_of_pos_right _ hk1
          _ = (ds.take d).prod := hsplit.symm
          _ < 2 ^ 64 := hprod
      rw [← htk]
      apply offsetLoop_exact
      · intro j hj
        rw [copyDimensions_getD _ _ _ (by omega), if_pos (by omega)]
        exact hall j (by omega)
      · rw [copyDimensions_length]; omega
      · rw [htk]; exact hle
    rw [hstep i hi]
    apply sizeT_of_lt
    rw [initialized_off _ _ _ _ _ _ (by omega), Nat.min_eq_left (by omega), hex i (by omega)]
    have hlt : i < ds.length := by omega
    have h2 := hex (i + 1) (by omega)
    have htake : (ds.take (i + 1)).prod = (ds.take i).prod * ds.getD i 0 := by
      rw [List.take_succ, List.prod_append, List.getD_eq_getElem _ _ hlt]
      simp [List.getElem?_eq_getElem hlt]
    rw [← htake, ← h2]
    exact offsetLoop_lt _ _

/-- Witness for C9: a rank-3 image of 10 x 10 x 4 pixels with two channels. -/
theorem ComputeOffsetTable_after_Initialize_witness :
    3 ≤ MAX_IMAGE_DIMENSIONS ∧
    (Image.empty.Initialize 1 3 (some [10, 10, 4]) 2).image.m_Initialized = true ∧
    (Image.empty.Initialize 1 3 (some [10, 10, 4]) 2).image.off 0 = 1 ∧
    (∀ i, i < 3 →
      (Image.empty.Initialize 1 3 (some [10, 10, 4]) 2).image.off (i + 1) =
        sizeT ((Image.empty.Initialize 1 3 (some [10, 10, 4]) 2).image.off i * [10, 10, 4].getD i 0)) ∧
    (∀ i, 3 ≤ i → i < 4 →
      (Image.empty.Initialize 1 3 (some [10, 10, 4]) 2).image.off (i + 1) =
        (Image.empty.Initialize 1 3 (some [10, 10, 4]) 2).image.off 3) ∧
    (∀ i, i < 4 →
      (Image.empty.Initialize 1 3 (some [10, 10, 4]) 2).image.off (i + 1) =
        sizeT ((Image.empty.Initialize 1 3 (some [10, 10, 4]) 2).image.off i *
          (Image.empty.Initialize 1 3 (some [10, 10, 4]) 2).image.dim i)) ∧
    (([10, 10, 4].take 3).prod < 2 ^ 64 → ∀ i, i < 3 →
      (Image.empty.Initialize 1 3 (some [10, 10, 4]) 2).image.off (i + 1) =
        (Image.empty.Initialize 1 3 (some [10, 10, 4]) 2).image.off i * [10, 10, 4].getD i 0) :=
  ⟨by decide, by rfl,
    ComputeOffsetTable_after_Initialize Image.empty 1 3 [10, 10, 4] 2 (by decide) (by rfl)⟩

/-- C10, amended. `Initialize(type, dimension, dimensions, channels)` raises exactly when the
extents pointer is null or a declared extent is below 1.  When the declared extents (at
most `MAX_IMAGE_DIMENSIONS` of them) are all at least 1 and there is at least one channel,
the call completes without writing outside the extents array, and the image is initialized
exactly when the pixel count of the region, the product of the four extents and the channel
count in 64-bit arithmetic, is not 0.  If it is not 0, each of the four extents x, y, slice,
time is at least 1 and the offset table is the one `ComputeOffsetTable` builds from the new
extents; if the product wraps around to 0 the call returns early, the extents array is
released and the image stays uninitialized. -/
theorem Initialize_contract (img : Image) (ts d : Nat) (dimensions : Option (List Nat)) (ch : Nat) :
    ((img.Initialize ts d dimensions ch).threw = true ↔
      (dimensions = none ∨ ∃ ds, dimensions = some ds ∧ ∃ i, i < d ∧ ds.getD i 0 < 1)) ∧
    (∀ ds, dimensions = some ds → d ≤ MAX_IMAGE_DIMENSIONS → (∀ i, i < d → 1 ≤ ds.getD i 0) →
      1 ≤ ch →
      (img.Initialize ts d dimensions ch).threw = false ∧
      (img.Initialize ts d dimensions ch).image.fault = img.fault ∧
      ((img.Initialize ts d dimensions ch).image.m_Initialized = true ↔
        Region.GetNumberOfPixels ⟨[0, 0, 0, 0, 0], [(copyDimensions ds d).getD 0 0,
          (copyDimensions ds d).getD 1 0, (copyDimensions ds d).getD 2 0,
          (copyDimensions ds d).getD 3 0, ch]⟩ ≠ 0) ∧
      (Region.GetNumberOfPixels ⟨[0, 0, 0, 0, 0], [(copyDimensions ds d).getD 0 0,
          (copyDimensions ds d).getD 1 0, (copyDimensions ds d).getD 2 0,
          (copyDimensions ds d).getD 3 0, ch]⟩ ≠ 0 →
        (∀ i, i < 4 → 1 ≤ (img.Initialize ts d dimensions ch).image.dim i) ∧
        (img.Initialize ts d dimensions ch).image.off 0 = 1 ∧
        (img.Initialize ts d dimensions ch).image.ComputeOffsetTable.m_OffsetTable =
          (img.Initialize ts d dimensions ch).image.m_OffsetTable) ∧
      (Region.GetNumberOfPixels ⟨[0, 0, 0, 0, 0], [(copyDimensions ds d).getD 0 0,
          (copyDimensions ds d).getD 1 0, (copyDimensions ds d).getD 2 0,
          (copyDimensions ds d).getD 3 0, ch]⟩ = 0 →
        (img.Initialize ts d dimensions ch).image.m_Initialized = false ∧
        (img.Initialize ts d dimensions ch).image.m_Dimensions = none)) := by
  constructor
  · cases dimensions with
    | none => simp [Initialize, Outcome.threw]
    | some ds =>
      by_cases hany : (List.range d).any (fun i => decide (ds.getD i 0 < 1)) = true
      · have hex : ∃ i, i < d ∧ ds.getD i 0 < 1 := by
          rw [List.any_eq_true] at hany
          obtain ⟨i, hi, hlt⟩ := hany
          exact ⟨i, List.mem_range.mp hi, of_decide_eq_true hlt⟩
        simp only [Initialize, hany, if_true, Outcome.threw, true_iff]
        exact Or.inr ⟨ds, rfl, hex⟩
      · have hno : ¬ ∃ i, i < d ∧ ds.getD i 0 < 1 := by
          rintro ⟨i, hi, hlt⟩
          apply hany
          rw [List.any_eq_true]
          exact ⟨i, List.mem_range.mpr hi, decide_eq_true hlt⟩
        have hthrew : (img.Initialize ts d (some ds) ch).threw = false := by
          have hany' : (List.range d).any (fun i => decide (ds.getD i 0 < 1)) = false := by
            simpa using hany
          simp only [Initialize, hany', Bool.false_eq_true, if_false]
          split <;> rfl
        rw [hthrew]
        constructor
        · intro h; cases h
        · rintro (h | ⟨ds', hds, hex⟩)
          · cases h
          · cases hds
            exact absurd hex hno
  · intro ds hds hd hall hch
    subst hds
    have hdims : ∀ i, i < 4 → 1 ≤ (copyDimensions ds d).getD i 0 := by
      intro i hi
      rw [copyDimensions_getD _ _ _ (by omega)]
      by_cases hid : i < d
      · rw [if_pos hid]; exact hall i hid
      · rw [if_neg hid, if_pos hi]
    have hany : ¬ (List.range d).any (fun i => decide (ds.getD i 0 < 1)) = true := by
      intro hany
      rw [List.any_eq_true] at hany
      obtain ⟨i, hi, hlt⟩ := hany
      have := hall i (List.mem_range.mp hi)
      have hlt' : ds.getD i 0 < 1 := of_decide_eq_true hlt
      omega
    have hd8 : ¬ (8 < d) := by
      have : d ≤ 8 := hd
      omega
    rw [GetNumberOfPixels_five]
    by_cases hz : sizeT ((copyDimensions ds d).getD 0 0 * ((copyDimensions ds d).getD 1 0 *
        ((copyDimensions ds d).getD 2 0 * ((copyDimensions ds d).getD 3 0 * ch)))) = 0
    · have heq : img.Initialize ts d (some ds) ch =
          Outcome.completed { ({ ({ img.Clear with m_Dimension := d } : Image) with
            m_Dimensions := some (copyDimensions ds d)
            fault := img.Clear.fault || decide (MAX_IMAGE_DIMENSIONS < d)
            m_LargestPossibleRegion :=
              ⟨[0, 0, 0, 0, 0], [(copyDimensions ds d).getD 0 0, (copyDimensions ds d).getD 1 0,
                (copyDimensions ds d).getD 2 0, (copyDimensions ds d).getD 3 0, ch]⟩ } : Image) with
            m_Dimensions := none } := by
        simp only [Initialize, hany, GetNumberOfPixels_five, hz, if_true]
        rfl
      rw [heq]
      refine ⟨rfl, ?_, ?_, fun h => absurd hz h, fun _ => ⟨?_, rfl⟩⟩
      · simp [Outcome.image, Clear, MAX_IMAGE_DIMENSIONS, hd8]
      · constructor
        · intro h
          simp [Outcome.image, Clear] at h
        · intro h
          exact absurd hz h
      · simp [Outcome.image, Clear]
    · have heq : img.Initialize ts d (some ds) ch = Outcome.completed (img.initialized ts d ds ch) := by
        simp only [Initialize, hany, GetNumberOfPixels_five, hz, if_false]
        rfl
      rw [heq]
      refine ⟨rfl, ?_, ⟨fun _ => hz, fun _ => rfl⟩, fun _ => ⟨?_, ?_, rfl⟩, fun h => absurd h hz⟩
      · simp [Outcome.image, initialized, ComputeOffsetTable, InitializeArrays, Clear,
          MAX_IMAGE_DIMENSIONS, hd8]
      · intro i hi
        exact hdims i hi
      · show (img.initialized ts d ds ch).off 0 = 1
        rw [initialized_off _ _ _ _ _ _ (by omega)]
        simp [offsetLoop]

/-- C10, counterexample. `Initialize` of a rank-4 image of 65536 x 65536 x 65536 x 65536
pixels with one channel: the extents pointer is given, every declared extent and the channel
count are at least 1, and the pixel count `2^64` is 0 in 64-bit arithmetic.  The call raises
no exception and returns with the image not initialized. -/
theorem Initialize_pixel_count_wraps :
    (∀ i, i < 4 → 1 ≤ [65536, 65536, 65536, 65536].getD i 0) ∧
    (Image.empty.Initialize 1 4 (some [65536, 65536, 65536, 65536]) 1).image.m_LargestPossibleRegion.size =
      [65536, 65536, 65536, 65536, 1] ∧
    Region.GetNumberOfPixels
      (Image.empty.Initialize 1 4 (some [65536, 65536, 65536, 65536]) 1).image.m_LargestPossibleRegion = 0 ∧
    (Image.empty.Initialize 1 4 (some [65536, 65536, 65536, 65536]) 1).threw = false ∧
    (Image.empty.Initialize 1 4 (some [65536, 65536, 65536, 65536]) 1).image.m_Initialized = false := by
  decide

/-- Witness for the amended C10: the successful branch on a rank-3 image of 10 x 10 x 4
pixels with two channels, whose pixel count is 800. -/
theorem Initialize_contract_witness :
    (some [10, 10, 4] : Option (List Nat)) = some [10, 10, 4] ∧ 3 ≤ MAX_IMAGE_DIMENSIONS ∧
    (∀ i, i < 3 → 1 ≤ [10, 10, 4].getD i 0) ∧ 1 ≤ 2 ∧
    Region.GetNumberOfPixels ⟨[0, 0, 0, 0, 0], [(copyDimensions [10, 10, 4] 3).getD 0 0,
      (copyDimensions [10, 10, 4] 3).getD 1 0, (copyDimensions [10, 10, 4] 3).getD 2 0,
      (copyDimensions [10, 10, 4] 3).getD 3 0, 2]⟩ ≠ 0 ∧
    (Image.empty.Initialize 1 3 (some [10, 10, 4]) 2).threw = false ∧
    (Image.empty.Initialize 1 3 (some [10, 10, 4]) 2).image.m_Initialized = true ∧
    (∀ i, i < 4 → 1 ≤ (Image.empty.Initialize 1 3 (some [10, 10, 4]) 2).image.dim i) ∧
    (Image.empty.Initialize 1 3 (some [10, 10, 4]) 2).image.off 0 = 1 ∧
    (Image.empty.Initialize 1 3 (some [10, 10, 4]) 2).image.ComputeOffsetTable.m_OffsetTable =
      (Image.empty.Initialize 1 3 (some [10, 10, 4]) 2).image.m_OffsetTable :=
  have h := (Initialize_contract Image.empty 1 3 (some [10, 10, 4]) 2).2 [10, 10, 4] rfl (by decide)
    (by decide) (by decide)
  ⟨rfl, by decide, by decide, by decide, by decide, h.1, h.2.2.1.2 (by decide),
    h.2.2.2.1 (by decide)⟩

/-! ## Shape of the image

The extents, the pixel stride, the offset table and the largest possible region are fixed
by `Initialize`; the cache operations do not touch them. -/

theorem SameShape.shape_refl (img : Image) : SameShape img img := ⟨rfl, rfl, rfl, rfl, rfl, rfl⟩

theorem SameShape.shape_trans {a b c : Image} (h1 : SameShape a b) (h2 : SameShape b c) : SameShape a c :=
  ⟨h2.init.trans h1.init, h2.rank.trans h1.rank, h2.dims.trans h1.dims, h2.ptype.trans h1.ptype,
    h2.offs.trans h1.offs, h2.region.trans h1.region⟩

theorem SameShape.dim {a b : Image} (h : SameShape a b) (i : Nat) : b.dim i = a.dim i := by
  simp [Image.dim, h.dims]

theorem SameShape.off {a b : Image} (h : SameShape a b) (i : Nat) : b.off i = a.off i := by
  simp [Image.off, h.offs]

theorem SameShape.channels {a b : Image} (h : SameShape a b) :
    b.GetNumberOfChannels = a.GetNumberOfChannels := by
  simp [GetNumberOfChannels, h.region]

theorem SameShape.itemSize {a b : Image} (h : SameShape a b) (k : Nat) :
    b.ComputeItemSize k = a.ComputeItemSize k := by
  simp [ComputeItemSize, h.dims, h.ptype]

theorem SameShape.validSlice {a b : Image} (h : SameShape a b) (s t n : Int) :
    b.IsValidSlice s t n = a.IsValidSlice s t n := by
  simp [IsValidSlice, h.init, h.dim, h.channels]

theorem SameShape.validVolume {a b : Image} (h : SameShape a b) (t n : Int) :
    b.IsValidVolume t n = a.IsValidVolume t n := by
  simp [IsValidVolume, h.init, h.validSlice]

theorem SameShape.validChannel {a b : Image} (h : SameShape a b) (n : Int) :
    b.IsValidChannel n = a.IsValidChannel n := by
  simp [IsValidChannel, h.init, h.validSlice]

theorem SameShape.sliceIndex {a b : Image} (h : SameShape a b) (s t n : Int) :
    b.GetSliceIndex s t n = a.GetSliceIndex s t n := by
  simp [GetSliceIndex, h.validSlice, h.dim]

theorem SameShape.volumeIndex {a b : Image} (h : SameShape a b) (t n : Int) :
    b.GetVolumeIndex t n = a.GetVolumeIndex t n := by
  simp [GetVolumeIndex, h.validVolume, h.dim]

theorem sameShape_memcpy (img : Image) (d s : Ptr) (l : Nat) : SameShape img (img.memcpy d s l) := by
  unfold memcpy
  split <;> exact ⟨rfl, rfl, rfl, rfl, rfl, rfl⟩

theorem sameShape_copyInto (img : Image) (d : Ptr) (data : Option Ptr) (l : Nat) :
    SameShape img (img.copyInto d data l) := by
  unfold copyInto
  split
  · exact ⟨rfl, rfl, rfl, rfl, rfl, rfl⟩
  · split
    · exact SameShape.shape_refl _
    · exact sameShape_memcpy _ _ _ _

theorem sameShape_newSubItem (img : Image) (p : Nat) (t : Int) (k : Nat) (data : Option Ptr)
    (m : Bool) (o : Nat) : SameShape img (img.newSubItem p t k data m o).1 :=
  ⟨rfl, rfl, rfl, rfl, rfl, rfl⟩

theorem sameShape_newItem (img : Image) (t : Int) (k : Nat) (data : Option Ptr) (m : Bool) :
    SameShape img (img.newItem t k data m).1 := by
  unfold newItem
  split <;> exact ⟨rfl, rfl, rfl, rfl, rfl, rfl⟩

theorem sameShape_Modified (img : Image) : SameShape img img.Modified := ⟨rfl, rfl, rfl, rfl, rfl, rfl⟩

theorem sameShape_installSliceView (img : Image) (pos : Int) (p : Nat) (t : Int)
    (data : Option Ptr) (imm : ImportMemoryManagementType) (o : Nat) :
    SameShape img (img.installSliceView pos p t data imm o).1 :=
  ⟨rfl, rfl, rfl, rfl, rfl, rfl⟩

theorem sameShape_AllocateChannelData (img : Image) (n : Int) (data : Option Ptr)
    (imm : ImportMemoryManagementType) : SameShape img (img.AllocateChannelData_unlocked n data imm).1 := by
  unfold AllocateChannelData_unlocked
  have h1 : ∀ r : Image × Nat, SameShape img r.1 →
      SameShape img ({ r.1 with m_Channels := assignAt r.1.m_Channels n (some r.2) }) :=
    fun r h => ⟨h.init, h.rank, h.dims, h.ptype, h.offs, h.region⟩
  apply h1
  split
  · split
    · exact (sameShape_newItem _ _ _ _ _).shape_trans (sameShape_memcpy _ _ _ _)
    · exact sameShape_newItem _ _ _ _ _
  · exact sameShape_newItem _ _ _ _ _

theorem sameShape_AllocateVolumeData (img : Image) (t n : Int) (data : Option Ptr)
    (imm : ImportMemoryManagementType) : SameShape img (img.AllocateVolumeData_unlocked t n data imm).1 := by
  unfold AllocateVolumeData_unlocked
  have h1 : ∀ (r : Image × Nat) (pos : Int), SameShape img r.1 →
      SameShape img ({ r.1 with m_Volumes := assignAt r.1.m_Volumes pos (some r.2) }) :=
    fun r _ h => ⟨h.init, h.rank, h.dims, h.ptype, h.offs, h.region⟩
  split
  · exact ⟨rfl, rfl, rfl, rfl, rfl, rfl⟩
  · apply h1
    split
    · split
      · exact (sameShape_newItem _ _ _ _ _).shape_trans (sameShape_memcpy _ _ _ _)
      · exact sameShape_newItem _ _ _ _ _
    · exact sameShape_newItem _ _ _ _ _

theorem sameShape_AllocateSliceData (img : Image) (s t n : Int) (data : Option Ptr)
    (imm : ImportMemoryManagementType) :
    SameShape img (img.AllocateSliceData_unlocked s t n data imm).1 := by
  unfold AllocateSliceData_unlocked
  split
  · exact sameShape_installSliceView _ _ _ _ _ _ _
  · split
    · exact sameShape_installSliceView _ _ _ _ _ _ _
    · exact (sameShape_AllocateVolumeData _ _ _ _ _).shape_trans (sameShape_installSliceView _ _ _ _ _ _ _)

/-! ## Well-formed images

`WF` collects what a successful `Initialize` establishes for an image whose element counts
fit the machine types: positive extents below `2^31`, arrays of the sizes `Initialize`
assigns, an exact offset table and item sizes that agree with it. -/

theorem toInt_of_lt {x : Nat} (h : x < 2 ^ 31) : toInt x = (x : Int) := by
  unfold toInt
  have h1 : x % 2 ^ 32 = x := Nat.mod_eq_of_lt (by omega)
  rw [h1, if_pos h]

theorem u32_of_lt {x : Nat} (h : x < 2 ^ 32) : u32 x = x := Nat.mod_eq_of_lt h

namespace WF

variable {img : Image}

theorem d2_lt (h : WF img) (hc : 1 ≤ img.GetNumberOfChannels) : img.dim 2 < 2 ^ 31 := by
  have h1 := h.slices_lt
  have h2 : img.dim 2 ≤ img.GetNumberOfChannels * img.dim 3 * img.dim 2 :=
    Nat.le_mul_of_pos_left _ (Nat.mul_pos hc h.d3_pos)
  omega

theorem d3_lt (h : WF img) (hc : 1 ≤ img.GetNumberOfChannels) : img.dim 3 < 2 ^ 31 := by
  have h1 := h.slices_lt
  have h2 : img.dim 3 ≤ img.GetNumberOfChannels * img.dim 3 :=
    Nat.le_mul_of_pos_left _ hc
  have h3 : img.GetNumberOfChannels * img.dim 3 ≤ img.GetNumberOfChannels * img.dim 3 * img.dim 2 :=
    Nat.le_mul_of_pos_right _ h.d2_pos
  omega

theorem nch_lt (h : WF img) : img.GetNumberOfChannels < 2 ^ 31 := by
  have h1 := h.slices_lt
  have h3 : img.GetNumberOfChannels ≤ img.GetNumberOfChannels * (img.dim 3 * img.dim 2) :=
    Nat.le_mul_of_pos_right _ (Nat.mul_pos h.d3_pos h.d2_pos)
  rw [← Nat.mul_assoc] at h3
  omega

/-- Validity of a coordinate of a well-formed image is the plain range check. -/
theorem validSlice_iff (h : WF img) (s t n : Int) :
    img.IsValidSlice s t n = true ↔
      0 ≤ s ∧ s < img.dim 2 ∧ 0 ≤ t ∧ t < img.dim 3 ∧ 0 ≤ n ∧ n < img.GetNumberOfChannels := by
  unfold IsValidSlice
  rw [if_pos h.init]
  by_cases hc : 1 ≤ img.GetNumberOfChannels
  · rw [toInt_of_lt (h.d2_lt hc), toInt_of_lt (h.d3_lt hc), toInt_of_lt h.nch_lt]
    simp only [Bool.and_eq_true, decide_eq_true_eq]
    tauto
  · have h0 : img.GetNumberOfChannels = 0 := by omega
    rw [h0]
    simp only [Bool.and_eq_true, decide_eq_true_eq]
    have : toInt 0 = 0 := by decide
    rw [this]
    constructor
    · rintro ⟨⟨_, h5⟩, h6⟩
      omega
    · rintro ⟨_, _, _, _, h5, h6⟩
      simp at h6
      omega

theorem validSlice_nat (h : WF img) {s t n : Nat} (hs : s < img.dim 2) (ht : t < img.dim 3)
    (hn : n < img.GetNumberOfChannels) : img.IsValidSlice s t n = true := by
  rw [h.validSlice_iff]
  omega

theorem validVolume_iff (h : WF img) (t n : Int) :
    img.IsValidVolume t n = true ↔ 0 ≤ t ∧ t < img.dim 3 ∧ 0 ≤ n ∧ n < img.GetNumberOfChannels := by
  unfold IsValidVolume
  rw [if_pos h.init, h.validSlice_iff]
  have := h.d2_pos
  omega

theorem validChannel_iff (h : WF img) (n : Int) :
    img.IsValidChannel n = true ↔ 0 ≤ n ∧ n < img.GetNumberOfChannels := by
  unfold IsValidChannel
  rw [if_pos h.init, h.validSlice_iff]
  have := h.d2_pos
  have := h.d3_pos
  omega

theorem validVolume_nat (h : WF img) {t n : Nat} (ht : t < img.dim 3)
    (hn : n < img.GetNumberOfChannels) : img.IsValidVolume t n = true := by
  rw [h.validVolume_iff]
  omega

theorem validChannel_nat (h : WF img) {n : Nat} (hn : n < img.GetNumberOfChannels) :
    img.IsValidChannel n = true := by
  rw [h.validChannel_iff]
  omega

/-- The flat index of slice `(s, t, n)` is below the number of slices. -/
theorem sliceIndex_lt (h : WF img) {s t n : Nat} (hs : s < img.dim 2) (ht : t < img.dim 3)
    (hn : n < img.GetNumberOfChannels) :
    s + t * img.dim 2 + n * img.dim 3 * img.dim 2 < img.GetNumberOfChannels * img.dim 3 * img.dim 2 := by
  have h1 : s + t * img.dim 2 < img.dim 3 * img.dim 2 := by
    calc s + t * img.dim 2 < img.dim 2 + t * img.dim 2 := by omega
      _ = (t + 1) * img.dim 2 := by ring
      _ ≤ img.dim 3 * img.dim 2 := Nat.mul_le_mul_right _ ht
  have h2 : (n + 1) * (img.dim 3 * img.dim 2) ≤ img.GetNumberOfChannels * (img.dim 3 * img.dim 2) :=
    Nat.mul_le_mul_right _ hn
  have h3 : (n + 1) * (img.dim 3 * img.dim 2) = n * img.dim 3 * img.dim 2 + img.dim 3 * img.dim 2 := by ring
  have h4 : img.GetNumberOfChannels * (img.dim 3 * img.dim 2) =
      img.GetNumberOfChannels * img.dim 3 * img.dim 2 := by ring
  omega

theorem volumeIndex_lt (h : WF img) {t n : Nat} (ht : t < img.dim 3)
    (hn : n < img.GetNumberOfChannels) :
    t + n * img.dim 3 < img.GetNumberOfChannels * img.dim 3 := by
  have h2 : (n + 1) * img.dim 3 ≤ img.GetNumberOfChannels * img.dim 3 := Nat.mul_le_mul_right _ hn
  have h3 : (n + 1) * img.dim 3 = n * img.dim 3 + img.dim 3 := by ring
  omega

theorem volumes_lt (h : WF img) : img.GetNumberOfChannels * img.dim 3 < 2 ^ 31 := by
  have h1 := h.slices_lt
  have h3 : img.GetNumberOfChannels * img.dim 3 ≤ img.GetNumberOfChannels * img.dim 3 * img.dim 2 :=
    Nat.le_mul_of_pos_right _ h.d2_pos
  omega

theorem sliceIndex_eq (h : WF img) {s t n : Nat} (hs : s < img.dim 2) (ht : t < img.dim 3)
    (hn : n < img.GetNumberOfChannels) :
    img.GetSliceIndex s t n = ((s + t * img.dim 2 + n * img.dim 3 * img.dim 2 : Nat) : Int) := by
  unfold GetSliceIndex
  rw [h.validSlice_nat hs ht hn]
  have hlt := h.sliceIndex_lt hs ht hn
  have := h.slices_lt
  simp only [Bool.true_eq_false, if_false, Int.toNat_ofNat]
  rw [sizeT_of_lt (by omega), toInt_of_lt (by omega)]

theorem volumeIndex_eq (h : WF img) {t n : Nat} (ht : t < img.dim 3)
    (hn : n < img.GetNumberOfChannels) :
    img.GetVolumeIndex t n = ((t + n * img.dim 3 : Nat) : Int) := by
  unfold GetVolumeIndex
  rw [h.validVolume_nat ht hn]
  have hlt := h.volumeIndex_lt ht hn
  have := h.volumes_lt
  simp only [Bool.true_eq_false, if_false, Int.toNat_ofNat]
  rw [sizeT_of_lt (by omega), toInt_of_lt (by omega)]

theorem toInt_slice (h : WF img) {s n : Nat} (hs : s < img.dim 2)
    (hn : n < img.GetNumberOfChannels) : toInt s = (s : Int) :=
  toInt_of_lt (by have := h.d2_lt (by omega); omega)

theorem toInt_time (h : WF img) {t n : Nat} (ht : t < img.dim 3)
    (hn : n < img.GetNumberOfChannels) : toInt t = (t : Int) :=
  toInt_of_lt (by have := h.d3_lt (by omega); omega)

theorem of_sameShape {img' : Image} (h : WF img) (hs : SameShape img img')
    (h1 : img'.m_Slices.length = img.m_Slices.length)
    (h2 : img'.m_Volumes.length = img.m_Volumes.length)
    (h3 : img'.m_Channels.length = img.m_Channels.length) : WF img' where
  init := by rw [hs.init]; exact h.init
  d2_pos := by rw [hs.dim]; exact h.d2_pos
  d3_pos := by rw [hs.dim]; exact h.d3_pos
  slices_lt := by rw [hs.dim, hs.dim, hs.channels]; exact h.slices_lt
  slices_len := by rw [hs.dim, hs.dim, hs.channels, h1]; exact h.slices_len
  volumes_len := by rw [hs.dim, hs.channels, h2]; exact h.volumes_len
  channels_len := by rw [hs.channels, h3]; exact h.channels_len
  off3 := by rw [hs.off, hs.off, hs.dim]; exact h.off3
  off4 := by rw [hs.off, hs.off, hs.dim]; exact h.off4
  bytes_lt := by rw [hs.off, hs.ptype]; exact h.bytes_lt
  size2 := by rw [hs.itemSize, hs.off, hs.ptype]; exact h.size2
  size3 := by rw [hs.itemSize, hs.off, hs.ptype]; exact h.size3
  sizeCh := by rw [hs.itemSize, hs.off, hs.ptype, hs.rank]; exact h.sizeCh
  rank4 := by rw [hs.dim, hs.rank]; exact h.rank4

end WF

/-! ## Arrays of item pointers -/

theorem elemAt_nat (v : List (Option Nat)) (k : Nat) : elemAt v (k : Int) = v.getD k none := by
  simp [elemAt]

theorem length_assignAt (v : List (Option Nat)) (pos : Int) (x : Option Nat) :
    (assignAt v pos x).length = v.length := by
  unfold assignAt
  split <;> simp

theorem getD_assignAt (v : List (Option Nat)) (pos : Int) (x : Option Nat) (k : Nat) :
    (assignAt v pos x).getD k none =
      if 0 ≤ pos ∧ pos.toNat = k ∧ k < v.length then x else v.getD k none := by
  unfold assignAt
  by_cases hp : 0 ≤ pos
  · simp only [hp, if_true, true_and]
    by_cases hk : pos.toNat = k
    · subst hk
      by_cases hl : pos.toNat < v.length
      · simp [hl, List.getElem?_set]
      · rw [List.set_eq_of_length_le (by omega)]
        simp [hl]
    · simp [hk, List.getElem?_set]
  · simp [hp]

theorem getD_assignAt_nat (v : List (Option Nat)) (j : Nat) (x : Option Nat) (k : Nat) :
    (assignAt v (j : Int) x).getD k none = if j = k ∧ k < v.length then x else v.getD k none := by
  rw [getD_assignAt]
  simp

theorem mem_of_getD {v : List (Option Nat)} {k q : Nat} (h : v.getD k none = some q) : some q ∈ v := by
  by_cases hk : k < v.length
  · rw [List.getD_eq_getElem _ _ hk] at h
    rw [← h]
    exact List.getElem_mem _
  · rw [List.getD_eq_default _ _ (by omega)] at h
    cases h

theorem mem_of_elemAt {v : List (Option Nat)} {pos : Int} {q : Nat} (h : elemAt v pos = some q) :
    some q ∈ v := by
  unfold elemAt at h
  split at h
  · exact mem_of_getD h
  · cases h

theorem mem_assignAt {v : List (Option Nat)} {pos : Int} {x y : Option Nat}
    (h : y ∈ assignAt v pos x) : y ∈ v ∨ y = x := by
  unfold assignAt at h
  split at h
  · exact List.mem_or_eq_of_mem_set h
  · exact Or.inl h

theorem sameFixed_refl (x : ImageDataItem) : SameFixed x x := ⟨rfl, rfl, rfl, rfl, rfl, rfl⟩

theorem sameFixed_trans {x y z : ImageDataItem} (h1 : SameFixed x y) (h2 : SameFixed y z) :
    SameFixed x z :=
  ⟨h2.1.trans h1.1, h2.2.1.trans h1.2.1, h2.2.2.1.trans h1.2.2.1, h2.2.2.2.1.trans h1.2.2.2.1,
    h2.2.2.2.2.1.trans h1.2.2.2.2.1, h2.2.2.2.2.2.trans h1.2.2.2.2.2⟩

theorem UpX.up_refl (vx cx : Option Nat) (img : Image) : UpX vx cx img img where
  shape := SameShape.shape_refl _
  mtime := rfl
  updates := rfl
  slices_len := rfl
  volumes_len := rfl
  channels_len := rfl
  nItems := le_refl _
  complete := fun _ _ h => h
  ids := fun h => h
  fixed := fun _ _ => sameFixed_refl _
  nBufs := le_refl _
  slices := fun _ h => h
  volumes := fun _ _ _ h => h
  channels := fun _ _ _ h => h

theorem UpX.up_trans {vx cx : Option Nat} {a b c : Image} (h1 : UpX vx cx a b) (h2 : UpX vx cx b c) :
    UpX vx cx a c where
  shape := h1.shape.shape_trans h2.shape
  mtime := h2.mtime.trans h1.mtime
  updates := h2.updates.trans h1.updates
  slices_len := h2.slices_len.trans h1.slices_len
  volumes_len := h2.volumes_len.trans h1.volumes_len
  channels_len := h2.channels_len.trans h1.channels_len
  nItems := le_trans h1.nItems h2.nItems
  complete := fun p hp h => h2.complete p (lt_of_lt_of_le hp h1.nItems) (h1.complete p hp h)
  ids := fun h => h2.ids (h1.ids h)
  fixed := fun q hq => sameFixed_trans (h1.fixed q hq) (h2.fixed q (lt_of_lt_of_le hq h1.nItems))
  nBufs := le_trans h1.nBufs h2.nBufs
  slices := fun k h => h2.slices k (h1.slices k h)
  volumes := fun hi k hk h => h2.volumes (h1.ids hi) k hk (h1.volumes hi k hk h)
  channels := fun hi k hk h => h2.channels (h1.ids hi) k hk (h1.channels hi k hk h)

theorem UpX.weaken {vx cx : Option Nat} {a b : Image} (h : Up a b) : UpX vx cx a b where
  shape := h.shape
  mtime := h.mtime
  updates := h.updates
  slices_len := h.slices_len
  volumes_len := h.volumes_len
  channels_len := h.channels_len
  nItems := h.nItems
  complete := h.complete
  ids := h.ids
  fixed := h.fixed
  nBufs := h.nBufs
  slices := h.slices
  volumes := fun hi k _ hc => h.volumes hi k (by simp) hc
  channels := fun hi k _ hc => h.channels hi k (by simp) hc

/-- Steps that leave the three arrays, the item count and the items below it alone. -/
theorem up_of_same (img img' : Image) (hs : SameShape img img') (hm : img'.mtime = img.mtime)
    (hu : img'.updates = img.updates) (h1 : img'.m_Slices = img.m_Slices)
    (h2 : img'.m_Volumes = img.m_Volumes) (h3 : img'.m_Channels = img.m_Channels)
    (hn : img.nItems ≤ img'.nItems)
    (hi : ∀ p, p < img.nItems → img.IsComplete p = true → img'.IsComplete p = true)
    (hf : ∀ q, q < img.nItems → SameFixed (img.items q) (img'.items q))
    (hb : img.nBufs ≤ img'.nBufs) : Up img img' where
  shape := hs
  fixed := hf
  nBufs := hb
  mtime := hm
  updates := hu
  slices_len := by rw [h1]
  volumes_len := by rw [h2]
  channels_len := by rw [h3]
  nItems := hn
  complete := hi
  ids := fun h =>
    ⟨fun q hq => lt_of_lt_of_le (h.slices q (h1 ▸ hq)) hn,
      fun q hq => lt_of_lt_of_le (h.volumes q (h2 ▸ hq)) hn,
      fun q hq => lt_of_lt_of_le (h.channels q (h3 ▸ hq)) hn⟩
  slices := fun k h => by rw [h1]; exact h
  volumes := fun hid k _ h => by
    rw [h2]
    cases he : img.m_Volumes.getD k none with
    | none => rw [he] at h; simp [completeEntry] at h
    | some q =>
      rw [he] at h
      exact hi q (hid.volumes q (mem_of_getD he)) h
  channels := fun hid k _ h => by
    rw [h3]
    cases he : img.m_Channels.getD k none with
    | none => rw [he] at h; simp [completeEntry] at h
    | some q =>
      rw [he] at h
      exact hi q (hid.channels q (mem_of_getD he)) h

theorem up_memcpy (img : Image) (d s : Ptr) (l : Nat) : Up img (img.memcpy d s l) := by
  unfold memcpy
  split
  · exact up_of_same _ _ ⟨rfl, rfl, rfl, rfl, rfl, rfl⟩ rfl rfl rfl rfl rfl (le_refl _) (fun _ _ h => h)
      (fun _ _ => sameFixed_refl _) (le_refl _)
  · exact up_of_same _ _ ⟨rfl, rfl, rfl, rfl, rfl, rfl⟩ rfl rfl rfl rfl rfl (le_refl _) (fun _ _ h => h)
      (fun _ _ => sameFixed_refl _) (le_refl _)

theorem up_copyInto (img : Image) (d : Ptr) (data : Option Ptr) (l : Nat) :
    Up img (img.copyInto d data l) := by
  unfold copyInto
  split
  · exact up_of_same _ _ ⟨rfl, rfl, rfl, rfl, rfl, rfl⟩ rfl rfl rfl rfl rfl (le_refl _) (fun _ _ h => h)
      (fun _ _ => sameFixed_refl _) (le_refl _)
  · split
    · exact UpX.up_refl _ _ _
    · exact up_memcpy _ _ _ _

theorem up_allocate (img : Image) (k : Nat) : Up img (img.allocate k).1 :=
  up_of_same _ _ ⟨rfl, rfl, rfl, rfl, rfl, rfl⟩ rfl rfl rfl rfl rfl (le_refl _) (fun _ _ h => h)
      (fun _ _ => sameFixed_refl _) (Nat.le_succ _)

theorem up_addItem (img : Image) (it : ImageDataItem) : Up img (img.addItem it).1 := by
  refine up_of_same img (img.addItem it).1 ⟨rfl, rfl, rfl, rfl, rfl, rfl⟩ rfl rfl rfl rfl rfl
    (Nat.le_succ _) ?_ ?_ (le_refl _)
  · intro p hp h
    have hne : p ≠ img.nItems := by omega
    simpa [addItem, IsComplete, Function.update_noteq hne] using h
  · intro q hq
    have hne : q ≠ img.nItems := by omega
    have he : (img.addItem it).1.items q = img.items q := by
      simp [addItem, Function.update_noteq hne]
    rw [he]
    exact sameFixed_refl _

theorem up_newSubItem (img : Image) (p : Nat) (t : Int) (k : Nat) (data : Option Ptr)
    (m : Bool) (o : Nat) : Up img (img.newSubItem p t k data m o).1 :=
  up_addItem _ _

theorem up_newItem (img : Image) (t : Int) (k : Nat) (data : Option Ptr) (m : Bool) :
    Up img (img.newItem t k data m).1 := by
  unfold newItem
  split
  · exact up_addItem _ _
  · exact (up_allocate _ _).up_trans (up_addItem _ _)

theorem up_SetComplete (img : Image) (p : Nat) : Up img (img.SetComplete p true) := by
  refine up_of_same img (img.SetComplete p true) ⟨rfl, rfl, rfl, rfl, rfl, rfl⟩ rfl rfl rfl rfl rfl
    (le_refl _) ?_ ?_ (le_refl _)
  · intro q _ h
    by_cases hq : q = p
    · subst hq
      simp [SetComplete, IsComplete]
    · simpa [SetComplete, IsComplete, Function.update_noteq hq] using h
  · intro q _
    by_cases hq : q = p
    · subst hq
      simp [SetComplete, SameFixed]
    · have he : (img.SetComplete p true).items q = img.items q := by
        simp [SetComplete, Function.update_noteq hq]
      rw [he]
      exact sameFixed_refl _

theorem up_setSlice (img : Image) (pos : Int) (q : Nat) (hq : q < img.nItems) :
    Up img { img with m_Slices := assignAt img.m_Slices pos (some q) } where
  shape := ⟨rfl, rfl, rfl, rfl, rfl, rfl⟩
  mtime := rfl
  updates := rfl
  slices_len := length_assignAt _ _ _
  volumes_len := rfl
  channels_len := rfl
  nItems := le_refl _
  complete := fun _ _ h => h
  fixed := fun _ _ => sameFixed_refl _
  nBufs := le_refl _
  ids := fun h =>
    ⟨fun p hp => by
        rcases mem_assignAt hp with h1 | h1
        · exact h.slices p h1
        · cases h1; exact hq,
      h.volumes, h.channels⟩
  slices := fun k h => by
    show ((assignAt img.m_Slices pos (some q)).getD k none).isSome = true
    rw [getD_assignAt]
    split
    · rfl
    · exact h
  volumes := fun _ _ _ h => h
  channels := fun _ _ _ h => h

theorem upx_setVolume (cx : Option Nat) (img : Image) (pos : Int) (q : Nat) (hq : q < img.nItems) :
    UpX (some pos.toNat) cx img { img with m_Volumes := assignAt img.m_Volumes pos (some q) } where
  shape := ⟨rfl, rfl, rfl, rfl, rfl, rfl⟩
  mtime := rfl
  updates := rfl
  slices_len := rfl
  volumes_len := length_assignAt _ _ _
  channels_len := rfl
  nItems := le_refl _
  complete := fun _ _ h => h
  fixed := fun _ _ => sameFixed_refl _
  nBufs := le_refl _
  ids := fun h =>
    ⟨h.slices,
      fun p hp => by
        rcases mem_assignAt hp with h1 | h1
        · exact h.volumes p h1
        · cases h1; exact hq,
      h.channels⟩
  slices := fun _ h => h
  volumes := fun _ k hk h => by
    show completeEntry _ ((assignAt img.m_Volumes pos (some q)).getD k none) = true
    rw [getD_assignAt, if_neg]
    · exact h
    · rintro ⟨_, h2, _⟩
      exact hk (by rw [h2])
  channels := fun _ _ _ h => h

theorem upx_setChannel (vx : Option Nat) (img : Image) (pos : Int) (q : Nat) (hq : q < img.nItems) :
    UpX vx (some pos.toNat) img { img with m_Channels := assignAt img.m_Channels pos (some q) } where
  shape := ⟨rfl, rfl, rfl, rfl, rfl, rfl⟩
  mtime := rfl
  updates := rfl
  slices_len := rfl
  volumes_len := rfl
  channels_len := length_assignAt _ _ _
  nItems := le_refl _
  complete := fun _ _ h => h
  fixed := fun _ _ => sameFixed_refl _
  nBufs := le_refl _
  ids := fun h =>
    ⟨h.slices, h.volumes,
      fun p hp => by
        rcases mem_assignAt hp with h1 | h1
        · exact h.channels p h1
        · cases h1; exact hq⟩
  slices := fun _ h => h
  volumes := fun _ _ _ h => h
  channels := fun _ k hk h => by
    show completeEntry _ ((assignAt img.m_Channels pos (some q)).getD k none) = true
    rw [getD_assignAt, if_neg]
    · exact h
    · rintro ⟨_, h2, _⟩
      exact hk (by rw [h2])

/-- An exempted volume slot is closed once the entry it holds at the end is complete
whenever the entry it held at the start was. -/
theorem UpX.closeVolume {cx : Option Nat} {k : Nat} {a b : Image} (h : UpX (some k) cx a b)
    (hk : IdsOK a → a.completeEntry (a.m_Volumes.getD k none) = true →
      b.completeEntry (b.m_Volumes.getD k none) = true) : UpX none cx a b where
  shape := h.shape
  mtime := h.mtime
  updates := h.updates
  slices_len := h.slices_len
  volumes_len := h.volumes_len
  channels_len := h.channels_len
  nItems := h.nItems
  complete := h.complete
  ids := h.ids
  fixed := h.fixed
  nBufs := h.nBufs
  slices := h.slices
  volumes := fun hi j _ hc => by
    by_cases hj : j = k
    · subst hj; exact hk hi hc
    · exact h.volumes hi j (by simpa using Ne.symm hj) hc
  channels := h.channels

theorem UpX.closeChannel {vx : Option Nat} {k : Nat} {a b : Image} (h : UpX vx (some k) a b)
    (hk : IdsOK a → a.completeEntry (a.m_Channels.getD k none) = true →
      b.completeEntry (b.m_Channels.getD k none) = true) : UpX vx none a b where
  shape := h.shape
  mtime := h.mtime
  updates := h.updates
  slices_len := h.slices_len
  volumes_len := h.volumes_len
  channels_len := h.channels_len
  nItems := h.nItems
  complete := h.complete
  ids := h.ids
  fixed := h.fixed
  nBufs := h.nBufs
  slices := h.slices
  volumes := h.volumes
  channels := fun hi j _ hc => by
    by_cases hj : j = k
    · subst hj; exact hk hi hc
    · exact h.channels hi j (by simpa using Ne.symm hj) hc

theorem up_installSliceView (img : Image) (pos : Int) (p : Nat) (t : Int) (data : Option Ptr)
    (imm : ImportMemoryManagementType) (o : Nat) : Up img (img.installSliceView pos p t data imm o).1 :=
  ((up_newSubItem img p t 2 data _ o).up_trans (up_SetComplete _ _)).up_trans
    (up_setSlice _ pos img.nItems (Nat.lt_succ_self _))

theorem installSliceView_nItems (img : Image) (pos : Int) (p : Nat) (t : Int) (data : Option Ptr)
    (imm : ImportMemoryManagementType) (o : Nat) :
    (img.installSliceView pos p t data imm o).1.nItems = img.nItems + 1 := rfl

theorem newItem_snd (img : Image) (t : Int) (k : Nat) (data : Option Ptr) (m : Bool) :
    (img.newItem t k data m).2 = img.nItems := by
  unfold newItem
  split <;> rfl

theorem newItem_nItems (img : Image) (t : Int) (k : Nat) (data : Option Ptr) (m : Bool) :
    (img.newItem t k data m).1.nItems = img.nItems + 1 := by
  unfold newItem
  split <;> rfl

theorem memcpy_nItems (img : Image) (d s : Ptr) (l : Nat) : (img.memcpy d s l).nItems = img.nItems := by
  unfold memcpy
  split <;> rfl

theorem SameTiers.tiers_refl (img : Image) : SameTiers img img := ⟨rfl, rfl, rfl⟩

theorem SameTiers.tiers_trans {a b c : Image} (h1 : SameTiers a b) (h2 : SameTiers b c) : SameTiers a c :=
  ⟨h2.slices.trans h1.slices, h2.volumes.trans h1.volumes, h2.channels.trans h1.channels⟩

theorem sameTiers_memcpy (img : Image) (d s : Ptr) (l : Nat) : SameTiers img (img.memcpy d s l) := by
  unfold memcpy
  split <;> exact ⟨rfl, rfl, rfl⟩

theorem sameTiers_copyInto (img : Image) (d : Ptr) (data : Option Ptr) (l : Nat) :
    SameTiers img (img.copyInto d data l) := by
  unfold copyInto
  split
  · exact ⟨rfl, rfl, rfl⟩
  · split
    · exact SameTiers.tiers_refl _
    · exact sameTiers_memcpy _ _ _ _

theorem sameTiers_newItem (img : Image) (t : Int) (k : Nat) (data : Option Ptr) (m : Bool) :
    SameTiers img (img.newItem t k data m).1 := by
  unfold newItem
  split <;> exact ⟨rfl, rfl, rfl⟩

theorem sameTiers_newSubItem (img : Image) (p : Nat) (t : Int) (k : Nat) (data : Option Ptr)
    (m : Bool) (o : Nat) : SameTiers img (img.newSubItem p t k data m o).1 := ⟨rfl, rfl, rfl⟩

theorem sameTiers_SetComplete (img : Image) (p : Nat) (c : Bool) :
    SameTiers img (img.SetComplete p c) := ⟨rfl, rfl, rfl⟩

/-- The independent item the non-view branches of `AllocateVolumeData_unlocked` and
`AllocateChannelData_unlocked` construct, with the caller's bytes copied in. -/
theorem independentItem_facts (img : Image) (t : Int) (k : Nat) (data : Option Ptr)
    (imm : ImportMemoryManagementType) (len : Nat) (r : Image × Nat)
    (hr : r =
      if imm = ImportMemoryManagementType.CopyMemory then
        match data with
        | some p =>
          ((img.newItem t k none true).1.memcpy
              ((img.newItem t k none true).1.items (img.newItem t k none true).2).m_Data p len,
            (img.newItem t k none true).2)
        | none => img.newItem t k none true
      else img.newItem t k data (imm = ImportMemoryManagementType.ManageMemory)) :
    Up img r.1 ∧ r.2 = img.nItems ∧ r.1.nItems = img.nItems + 1 ∧ SameTiers img r.1 := by
  subst hr
  split
  · split
    · exact ⟨(up_newItem _ _ _ _ _).up_trans (up_memcpy _ _ _ _), newItem_snd _ _ _ _ _,
        by rw [memcpy_nItems]; exact newItem_nItems _ _ _ _ _,
        (sameTiers_newItem _ _ _ _ _).tiers_trans (sameTiers_memcpy _ _ _ _)⟩
    · exact ⟨up_newItem _ _ _ _ _, newItem_snd _ _ _ _ _, newItem_nItems _ _ _ _ _,
        sameTiers_newItem _ _ _ _ _⟩
  · exact ⟨up_newItem _ _ _ _ _, newItem_snd _ _ _ _ _, newItem_nItems _ _ _ _ _,
      sameTiers_newItem _ _ _ _ _⟩

/-- The effect of `AllocateVolumeData_unlocked` on the arrays: only the volume slot `pos`
changes, and it holds the returned item afterwards. -/
theorem upx_AllocateVolumeData (img : Image) (t n : Int) (data : Option Ptr)
    (imm : ImportMemoryManagementType) :
    UpX (some (img.GetVolumeIndex t n).toNat) none img (img.AllocateVolumeData_unlocked t n data imm).1 ∧
    (img.AllocateVolumeData_unlocked t n data imm).2 = img.nItems ∧
    (img.AllocateVolumeData_unlocked t n data imm).1.nItems = img.nItems + 1 ∧
    (img.AllocateVolumeData_unlocked t n data imm).1.m_Volumes =
      assignAt img.m_Volumes (img.GetVolumeIndex t n) (some img.nItems) ∧
    (img.AllocateVolumeData_unlocked t n data imm).1.m_Slices = img.m_Slices ∧
    (img.AllocateVolumeData_unlocked t n data imm).1.m_Channels = img.m_Channels := by
  unfold AllocateVolumeData_unlocked
  split
  · refine ⟨?_, rfl, rfl, rfl, rfl, rfl⟩
    exact (UpX.weaken (up_newSubItem img _ t 3 data _ _)).up_trans
      (upx_setVolume none _ _ _ (Nat.lt_succ_self _))
  · obtain ⟨hup, h2, h3, h4⟩ := independentItem_facts img t 3 data imm
      (sizeT (img.off 3 * img.ptypeSize)) _ rfl
    refine ⟨?_, h2, h3, ?_, h4.slices, h4.channels⟩
    · exact (UpX.weaken hup).up_trans (upx_setVolume none _ _ _
        (lt_of_eq_of_lt h2 (lt_of_lt_of_eq (Nat.lt_succ_self _) h3.symm)))
    · show assignAt _ _ _ = _
      rw [h2, h4.volumes]

/-- The effect of `AllocateChannelData_unlocked` on the arrays: only the channel slot `n`
changes, and it holds the returned item afterwards. -/
theorem upx_AllocateChannelData (img : Image) (n : Int) (data : Option Ptr)
    (imm : ImportMemoryManagementType) :
    UpX none (some n.toNat) img (img.AllocateChannelData_unlocked n data imm).1 ∧
    (img.AllocateChannelData_unlocked n data imm).2 = img.nItems ∧
    (img.AllocateChannelData_unlocked n data imm).1.nItems = img.nItems + 1 ∧
    (img.AllocateChannelData_unlocked n data imm).1.m_Channels =
      assignAt img.m_Channels n (some img.nItems) ∧
    (img.AllocateChannelData_unlocked n data imm).1.m_Slices = img.m_Slices ∧
    (img.AllocateChannelData_unlocked n data imm).1.m_Volumes = img.m_Volumes := by
  unfold AllocateChannelData_unlocked newChannelItem
  obtain ⟨hup, h2, h3, h4⟩ := independentItem_facts img (-1) img.m_Dimension data imm
    (sizeT (img.off 4 * img.ptypeSize)) _ rfl
  refine ⟨?_, h2, h3, ?_, h4.slices, h4.volumes⟩
  · exact (UpX.weaken hup).up_trans (upx_setChannel none _ _ _
      (lt_of_eq_of_lt h2 (lt_of_lt_of_eq (Nat.lt_succ_self _) h3.symm)))
  · show assignAt _ _ _ = _
    rw [h2, h4.channels]

theorem completeEntry_of_up {vx cx : Option Nat} {a b : Image} (h : UpX vx cx a b) {e : Option Nat}
    (he : ∀ q, e = some q → q < a.nItems) (hc : a.completeEntry e = true) : b.completeEntry e = true := by
  cases e with
  | none => simp [completeEntry] at hc
  | some q => exact h.complete q (he q rfl) hc

theorem elemAt_eq_none_getD {v : List (Option Nat)} {pos : Int} (h : elemAt v pos = none)
    (hp : 0 ≤ pos) : v.getD pos.toNat none = none := by
  unfold elemAt at h
  rw [if_pos hp] at h
  exact h

/-- The effect of `AllocateSliceData_unlocked`: a complete view is stored in the slice slot;
a volume is constructed only into an empty volume slot. -/
theorem up_AllocateSliceData (img : Image) (s t n : Int) (data : Option Ptr)
    (imm : ImportMemoryManagementType) :
    Up img (img.AllocateSliceData_unlocked s t n data imm).1 ∧
    (img.AllocateSliceData_unlocked s t n data imm).2 + 1 =
      (img.AllocateSliceData_unlocked s t n data imm).1.nItems ∧
    (img.AllocateSliceData_unlocked s t n data imm).1.IsComplete
      (img.AllocateSliceData_unlocked s t n data imm).2 = true ∧
    (∃ vols, (img.AllocateSliceData_unlocked s t n data imm).1.m_Slices =
      assignAt vols (img.GetSliceIndex s t n)
        (some (img.AllocateSliceData_unlocked s t n data imm).2) ∧ vols = img.m_Slices) ∧
    (img.AllocateSliceData_unlocked s t n data imm).1.m_Channels = img.m_Channels := by
  have hc : ∀ (i : Image) (pos : Int) (p : Nat) (o : Nat),
      (i.installSliceView pos p t data imm o).1.IsComplete (i.installSliceView pos p t data imm o).2 = true := by
    intro i pos p o
    simp [installSliceView, SetComplete, IsComplete, newSubItem, addItem]
  unfold AllocateSliceData_unlocked
  split
  · exact ⟨up_installSliceView _ _ _ _ _ _ _, rfl, hc _ _ _ _, ⟨_, rfl, rfl⟩, rfl⟩
  · rename_i hvol
    split
    · exact ⟨up_installSliceView _ _ _ _ _ _ _, rfl, hc _ _ _ _, ⟨_, rfl, rfl⟩, rfl⟩
    · obtain ⟨hup, _, _, h4, h5, h6⟩ := upx_AllocateVolumeData img t n none imm
      refine ⟨?_, rfl, hc _ _ _ _, ⟨_, rfl, h5⟩, h6⟩
      refine UpX.up_trans (UpX.closeVolume hup ?_) (up_installSliceView _ _ _ _ _ _ _)
      intro hid hcomp
      by_cases hp : 0 ≤ img.GetVolumeIndex t n
      · rw [elemAt_eq_none_getD hvol hp] at hcomp
        simp [completeEntry] at hcomp
      · rw [h4]
        have : assignAt img.m_Volumes (img.GetVolumeIndex t n) (some img.nItems) = img.m_Volumes := by
          simp [assignAt, hp]
        rw [this]
        exact completeEntry_of_up hup (fun q hq => hid.volumes q (mem_of_getD hq)) hcomp

/-! ## The accessors by case -/

theorem isSliceSet_eq (img : Image) (s t n : Int) (hv : img.IsValidSlice s t n = true) :
    img.IsSliceSet_unlocked s t n =
      ((elemAt img.m_Slices (img.GetSliceIndex s t n)).isSome ||
        img.completeEntry (elemAt img.m_Volumes (img.GetVolumeIndex t n)) ||
        img.completeEntry (elemAt img.m_Channels n)) := by
  unfold IsSliceSet_unlocked
  rw [hv]
  cases (elemAt img.m_Slices (img.GetSliceIndex s t n)).isSome <;>
    cases img.completeEntry (elemAt img.m_Volumes (img.GetVolumeIndex t n)) <;>
    cases img.completeEntry (elemAt img.m_Channels n) <;> rfl

theorem isSliceSet_valid {img : Image} {s t n : Int} (h : img.IsSliceSet_unlocked s t n = true) :
    img.IsValidSlice s t n = true := by
  unfold IsSliceSet_unlocked at h
  by_contra hv
  simp [hv] at h

theorem completeEntry_some {img : Image} {e : Option Nat} (h : img.completeEntry e = true) :
    ∃ q, e = some q ∧ img.IsComplete q = true := by
  cases e with
  | none => simp [completeEntry] at h
  | some q => exact ⟨q, rfl, h⟩

/-- A slice that is set is returned without a call of the pipeline source: the stored
pointer, or a new complete view into the complete volume or channel. -/
theorem GetSliceData_of_set (src : Option Source) (fuel : Nat) (img : Image) (s t n : Int)
    (data : Option Ptr) (imm : ImportMemoryManagementType)
    (h : img.IsSliceSet_unlocked s t n = true) :
    ∃ img' q, GetSliceData_unlocked src (fuel + 1) img s t n data imm = some (img', some q) ∧
      Up img img' ∧ (IdsOK img → q < img'.nItems) ∧
      img'.m_Volumes = img.m_Volumes ∧ img'.m_Channels = img.m_Channels ∧
      ((img' = img ∧ elemAt img.m_Slices (img.GetSliceIndex s t n) = some q) ∨
        (elemAt img.m_Slices (img.GetSliceIndex s t n) = none ∧ q = img.nItems ∧
          img'.IsComplete q = true ∧
          img'.m_Slices = assignAt img.m_Slices (img.GetSliceIndex s t n) (some q))) := by
  have hv := isSliceSet_valid h
  rw [isSliceSet_eq _ _ _ _ hv] at h
  unfold GetSliceData_unlocked
  rw [hv]
  simp only [Bool.true_eq_false, if_false]
  cases hsl : elemAt img.m_Slices (img.GetSliceIndex s t n) with
  | some q =>
    exact ⟨img, q, rfl, UpX.up_refl _ _ _, fun hid => hid.slices q (mem_of_elemAt hsl), rfl, rfl,
      Or.inl ⟨rfl, rfl⟩⟩
  | none =>
    rw [hsl] at h
    simp only [Option.isSome_none, Bool.false_or, Bool.or_eq_true] at h
    have hc : ∀ (pos : Int) (p : Nat) (o : Nat),
        (img.installSliceView pos p t data imm o).1.IsComplete img.nItems = true := by
      intro pos p o
      simp [installSliceView, SetComplete, IsComplete, newSubItem, addItem]
    by_cases hvc : img.completeEntry (elemAt img.m_Volumes (img.GetVolumeIndex t n)) = true
    · simp only [hvc, if_true]
      exact ⟨_, _, rfl, up_installSliceView _ _ _ _ _ _ _, fun _ => Nat.lt_succ_self _, rfl, rfl,
        Or.inr ⟨trivial, rfl, hc _ _ _, rfl⟩⟩
    · have hcc : img.completeEntry (elemAt img.m_Channels n) = true := by
        rcases h with h | h
        · exact absurd h hvc
        · exact h
      simp only [hvc, hcc, if_true, Bool.false_eq_true, if_false]
      exact ⟨_, _, rfl, up_installSliceView _ _ _ _ _ _ _, fun _ => Nat.lt_succ_self _, rfl, rfl,
        Or.inr ⟨trivial, rfl, hc _ _ _, rfl⟩⟩

/-- A slice that is not set and cannot be computed is allocated. -/
theorem GetSliceData_alloc (src : Option Source) (fuel : Nat) (img : Image) (s t n : Int)
    (data : Option Ptr) (imm : ImportMemoryManagementType) (hv : img.IsValidSlice s t n = true)
    (h : img.IsSliceSet_unlocked s t n = false) (hsrc : canUpdate src = none) :
    GetSliceData_unlocked src (fuel + 1) img s t n data imm =
      some ((img.AllocateSliceData_unlocked s t n data imm).1.SetComplete
        (img.AllocateSliceData_unlocked s t n data imm).2 true,
        some (img.AllocateSliceData_unlocked s t n data imm).2) := by
  rw [isSliceSet_eq _ _ _ _ hv] at h
  simp only [Bool.or_eq_false_iff] at h
  obtain ⟨⟨h1, h2⟩, h3⟩ := h
  unfold GetSliceData_unlocked
  rw [hv]
  simp only [Bool.true_eq_false, if_false, h2, h3, hsrc]
  cases hsl : elemAt img.m_Slices (img.GetSliceIndex s t n) with
  | some q => rw [hsl] at h1; simp at h1
  | none => rfl

/-- A slice that is not set is requested from an idle pipeline source once; the accessor
calls itself only if the slice is set afterwards and returns `nullptr` otherwise. -/
theorem GetSliceData_update (src : Option Source) (fuel : Nat) (img : Image) (s t n : Int)
    (data : Option Ptr) (imm : ImportMemoryManagementType) (hv : img.IsValidSlice s t n = true)
    (h : img.IsSliceSet_unlocked s t n = false) (p : Source) (hsrc : canUpdate src = some p) :
    GetSliceData_unlocked src (fuel + 1) img s t n data imm =
      if (img.callUpdate p [0, 0, s, t, n] [img.dim 0, img.dim 1, 1, 1, 1]).IsSliceSet_unlocked s t n then
        GetSliceData_unlocked src fuel
          (img.callUpdate p [0, 0, s, t, n] [img.dim 0, img.dim 1, 1, 1, 1]) s t n data imm
      else some (img.callUpdate p [0, 0, s, t, n] [img.dim 0, img.dim 1, 1, 1, 1], none) := by
  rw [isSliceSet_eq _ _ _ _ hv] at h
  simp only [Bool.or_eq_false_iff] at h
  obtain ⟨⟨h1, h2⟩, h3⟩ := h
  conv_lhs => unfold GetSliceData_unlocked
  rw [hv]
  simp only [Bool.true_eq_false, if_false, h2, h3, hsrc]
  cases hsl : elemAt img.m_Slices (img.GetSliceIndex s t n) with
  | some q => rw [hsl] at h1; simp at h1
  | none => rfl

theorem up_setVolume_complete (img : Image) (pos : Int) (q : Nat) (hq : q < img.nItems)
    (hc : img.IsComplete q = true) :
    Up img { img with m_Volumes := assignAt img.m_Volumes pos (some q) } := by
  refine UpX.closeVolume (upx_setVolume none img pos q hq) ?_
  intro _ hcomp
  show completeEntry _ ((assignAt img.m_Volumes pos (some q)).getD pos.toNat none) = true
  rw [getD_assignAt]
  split
  · exact hc
  · exact hcomp

theorem up_setChannel_complete (img : Image) (pos : Int) (q : Nat) (hq : q < img.nItems)
    (hc : img.IsComplete q = true) :
    Up img { img with m_Channels := assignAt img.m_Channels pos (some q) } := by
  refine UpX.closeChannel (upx_setChannel none img pos q hq) ?_
  intro _ hcomp
  show completeEntry _ ((assignAt img.m_Channels pos (some q)).getD pos.toNat none) = true
  rw [getD_assignAt]
  split
  · exact hc
  · exact hcomp

/-- Storing a pointer to a complete item in a volume slot at the end of a run of steps. -/
theorem up_storeVolume {img x : Image} (h : Up img x) (pos : Int) (q : Nat)
    (hq : IdsOK img → q < x.nItems ∧ x.IsComplete q = true) :
    Up img { x with m_Volumes := assignAt x.m_Volumes pos (some q) } where
  shape := ⟨h.shape.init, h.shape.rank, h.shape.dims, h.shape.ptype, h.shape.offs, h.shape.region⟩
  mtime := h.mtime
  updates := h.updates
  slices_len := h.slices_len
  volumes_len := (length_assignAt _ _ _).trans h.volumes_len
  channels_len := h.channels_len
  nItems := h.nItems
  complete := h.complete
  fixed := h.fixed
  nBufs := h.nBufs
  ids := fun hi =>
    ⟨(h.ids hi).slices,
      fun p hp => by
        rcases mem_assignAt hp with h1 | h1
        · exact (h.ids hi).volumes p h1
        · cases h1; exact (hq hi).1,
      (h.ids hi).channels⟩
  slices := h.slices
  volumes := fun hi k hk hc => by
    show completeEntry _ ((assignAt x.m_Volumes pos (some q)).getD k none) = true
    rw [getD_assignAt]
    split
    · exact (hq hi).2
    · exact h.volumes hi k hk hc
  channels := h.channels

/-- Storing a pointer to a complete item in a channel slot at the end of a run of steps. -/
theorem up_storeChannel {img x : Image} (h : Up img x) (pos : Int) (q : Nat)
    (hq : IdsOK img → q < x.nItems ∧ x.IsComplete q = true) :
    Up img { x with m_Channels := assignAt x.m_Channels pos (some q) } where
  shape := ⟨h.shape.init, h.shape.rank, h.shape.dims, h.shape.ptype, h.shape.offs, h.shape.region⟩
  mtime := h.mtime
  updates := h.updates
  slices_len := h.slices_len
  volumes_len := h.volumes_len
  channels_len := (length_assignAt _ _ _).trans h.channels_len
  nItems := h.nItems
  complete := h.complete
  fixed := h.fixed
  nBufs := h.nBufs
  ids := fun hi =>
    ⟨(h.ids hi).slices, (h.ids hi).volumes,
      fun p hp => by
        rcases mem_assignAt hp with h1 | h1
        · exact (h.ids hi).channels p h1
        · cases h1; exact (hq hi).1⟩
  slices := h.slices
  volumes := h.volumes
  channels := fun hi k hk hc => by
    show completeEntry _ ((assignAt x.m_Channels pos (some q)).getD k none) = true
    rw [getD_assignAt]
    split
    · exact (hq hi).2
    · exact h.channels hi k hk hc

theorem isComplete_SetComplete (img : Image) (p : Nat) : (img.SetComplete p true).IsComplete p = true := by
  simp [SetComplete, IsComplete]

theorem up_fault (img : Image) : Up img { img with fault := true } :=
  up_of_same _ _ ⟨rfl, rfl, rfl, rfl, rfl, rfl⟩ rfl rfl rfl rfl rfl (le_refl _) (fun _ _ h => h)
      (fun _ _ => sameFixed_refl _) (le_refl _)

/-- One iteration of the slice-combining loop only constructs a view, copies bytes and
stores the view in a slice slot. -/
theorem up_combineSlice (t n : Int) (vol size : Nat) (data : Option Ptr)
    (imm : ImportMemoryManagementType) (img : Image) (s : Nat) :
    Up img (combineSlice t n vol size data imm img s) ∧
    (combineSlice t n vol size data imm img s).m_Volumes = img.m_Volumes ∧
    (combineSlice t n vol size data imm img s).m_Channels = img.m_Channels := by
  unfold combineSlice
  cases hsl : elemAt img.m_Slices (img.GetSliceIndex (toInt s) t n) with
  | none =>
    dsimp only
    rw [hsl]
    exact ⟨up_fault _, rfl, rfl⟩
  | some sl =>
    dsimp only
    rw [hsl]
    dsimp only
    split
    · refine ⟨(up_memcpy _ _ _ _).up_trans (up_installSliceView _ _ _ _ _ _ _), ?_, ?_⟩
      · show (img.memcpy _ _ _).m_Volumes = _
        exact (sameTiers_memcpy _ _ _ _).volumes
      · show (img.memcpy _ _ _).m_Channels = _
        exact (sameTiers_memcpy _ _ _ _).channels
    · exact ⟨UpX.up_refl _ _ _, rfl, rfl⟩

theorem up_combineSlices (t n : Int) (vol size : Nat) (data : Option Ptr)
    (imm : ImportMemoryManagementType) (l : List Nat) (img : Image) :
    Up img (l.foldl (combineSlice t n vol size data imm) img) ∧
    (l.foldl (combineSlice t n vol size data imm) img).m_Volumes = img.m_Volumes ∧
    (l.foldl (combineSlice t n vol size data imm) img).m_Channels = img.m_Channels := by
  induction l generalizing img with
  | nil => exact ⟨UpX.up_refl _ _ _, rfl, rfl⟩
  | cons a l ih =>
    obtain ⟨h1, h2, h3⟩ := up_combineSlice t n vol size data imm img a
    obtain ⟨k1, k2, k3⟩ := ih (combineSlice t n vol size data imm img a)
    exact ⟨h1.up_trans k1, k2.trans h2, k3.trans h3⟩

theorem isVolumeSet_valid {img : Image} {t n : Int} (h : img.IsVolumeSet_unlocked t n = true) :
    img.IsValidVolume t n = true := by
  unfold IsVolumeSet_unlocked at h
  by_contra hv
  simp [hv] at h

theorem isVolumeSet_eq (img : Image) (t n : Int) (hv : img.IsValidVolume t n = true) :
    img.IsVolumeSet_unlocked t n =
      (img.completeEntry (elemAt img.m_Volumes (img.GetVolumeIndex t n)) ||
        img.completeEntry (elemAt img.m_Channels n) || img.allSlicesSet t n) := by
  unfold IsVolumeSet_unlocked
  rw [hv]
  cases img.completeEntry (elemAt img.m_Volumes (img.GetVolumeIndex t n)) <;>
    cases img.completeEntry (elemAt img.m_Channels n) <;> simp

theorem dim2_pos_of_validVolume {img : Image} {t n : Int} (hv : img.IsValidVolume t n = true) :
    1 ≤ img.dim 2 := by
  unfold IsValidVolume IsValidSlice at hv
  by_contra h0
  have h00 : img.dim 2 = 0 := by omega
  have : toInt 0 = 0 := by decide
  simp [h00, this] at hv

theorem dim3_pos_of_validChannel {img : Image} {n : Int} (hv : img.IsValidChannel n = true) :
    1 ≤ img.dim 3 := by
  unfold IsValidChannel IsValidSlice at hv
  by_contra h0
  have h00 : img.dim 3 = 0 := by omega
  have : toInt 0 = 0 := by decide
  simp [h00, this] at hv

theorem validSlice_zero_of_validVolume {img : Image} {t n : Int} (hv : img.IsValidVolume t n = true) :
    img.IsValidSlice 0 t n = true := by
  unfold IsValidVolume at hv
  split at hv
  · exact hv
  · cases hv

theorem validVolume_zero_of_validChannel {img : Image} {n : Int} (hv : img.IsValidChannel n = true) :
    img.IsValidVolume 0 n = true := by
  unfold IsValidChannel at hv
  unfold IsValidVolume
  split at hv
  · rename_i hi
    rw [if_pos hi]
    exact hv
  · cases hv

/-- A volume that is set is returned without a call of the pipeline source: the complete
entry, a new complete view into the complete channel, or the combination of its slices. -/
theorem GetVolumeData_of_set (src : Option Source) (fuel : Nat) (img : Image) (t n : Int)
    (data : Option Ptr) (imm : ImportMemoryManagementType)
    (h : img.IsVolumeSet_unlocked t n = true) :
    ∃ img' q, GetVolumeData_unlocked src (fuel + 1) img t n data imm = some (img', some q) ∧
      Up img img' ∧ (IdsOK img → q < img'.nItems ∧ img'.IsComplete q = true) ∧
      img'.m_Channels = img.m_Channels ∧
      ((img'.m_Volumes = img.m_Volumes ∧ elemAt img.m_Volumes (img.GetVolumeIndex t n) = some q) ∨
        img'.m_Volumes = assignAt img.m_Volumes (img.GetVolumeIndex t n) (some q)) := by
  have hv := isVolumeSet_valid h
  rw [isVolumeSet_eq _ _ _ hv] at h
  unfold GetVolumeData_unlocked
  rw [hv]
  simp only [Bool.true_eq_false, if_false]
  by_cases hvc : img.completeEntry (elemAt img.m_Volumes (img.GetVolumeIndex t n)) = true
  · obtain ⟨q, hq, hqc⟩ := completeEntry_some hvc
    simp only [hvc, if_true]
    rw [hq]
    exact ⟨img, q, rfl, UpX.up_refl _ _ _, fun hid => ⟨hid.volumes q (mem_of_elemAt hq), hqc⟩, rfl,
      Or.inl ⟨rfl, rfl⟩⟩
  · simp only [hvc, Bool.false_eq_true, if_false]
    by_cases hcc : img.completeEntry (elemAt img.m_Channels n) = true
    · simp only [hcc, if_true]
      refine ⟨_, _, rfl, ?_, fun _ => ⟨Nat.lt_succ_self _, isComplete_SetComplete _ _⟩, rfl,
        Or.inr rfl⟩
      exact up_storeVolume ((up_newSubItem img _ t 3 data _ _).up_trans (up_SetComplete _ _)) _ _
        (fun _ => ⟨Nat.lt_succ_self _, isComplete_SetComplete _ _⟩)
    · have hall : img.allSlicesSet t n = true := by
        simpa [hvc, hcc] using h
      simp only [hcc, hall, if_true, Bool.false_eq_true, if_false]
      by_cases hd : img.dim 2 ≤ 1
      · simp only [hd, if_true]
        have hd1 : img.dim 2 = 1 := by
          have := dim2_pos_of_validVolume hv
          omega
        have hs0 : img.IsSliceSet_unlocked 0 t n = true := by
          rw [isSliceSet_eq _ _ _ _ (validSlice_zero_of_validVolume hv)]
          unfold allSlicesSet at hall
          rw [hd1] at hall
          have h0 : toInt 0 = 0 := by decide
          simp [List.range_succ, h0] at hall
          simp [hall]
        obtain ⟨img1, sl, heq, hup, hlt, hvols, hchs, _⟩ :=
          GetSliceData_of_set src fuel img 0 t n data imm hs0
        rw [heq]
        refine ⟨_, _, rfl, ?_, fun _ => ⟨Nat.lt_succ_self _, isComplete_SetComplete _ _⟩, hchs,
          Or.inr ?_⟩
        · exact up_storeVolume
            (hup.up_trans ((up_newSubItem img1 _ t 3 data _ _).up_trans (up_SetComplete _ _))) _ _
            (fun _ => ⟨Nat.lt_succ_self _, isComplete_SetComplete _ _⟩)
        · show assignAt img1.m_Volumes _ _ = _
          rw [hvols]
      · simp only [hd, if_false]
        have hr : ∃ r : Image × Nat,
            r = (match elemAt img.m_Volumes (img.GetVolumeIndex t n) with
              | some v => (img, v)
              | none => img.newItem t 3 none true) ∧
            Up img r.1 ∧ (IdsOK img → r.2 < r.1.nItems) ∧ r.1.m_Volumes = img.m_Volumes ∧
            r.1.m_Channels = img.m_Channels := by
          refine ⟨_, rfl, ?_⟩
          cases hve : elemAt img.m_Volumes (img.GetVolumeIndex t n) with
          | some v =>
            exact ⟨UpX.up_refl _ _ _, fun hid => hid.volumes v (mem_of_elemAt hve), rfl, rfl⟩
          | none =>
            refine ⟨up_newItem _ _ _ _ _, fun _ => ?_, (sameTiers_newItem _ _ _ _ _).volumes,
              (sameTiers_newItem _ _ _ _ _).channels⟩
            show (img.newItem t 3 none true).2 < (img.newItem t 3 none true).1.nItems
            rw [newItem_snd, newItem_nItems]
            exact Nat.lt_succ_self _
        obtain ⟨r, hr, hup, hlt, hvols, hchs⟩ := hr
        rw [← hr]
        obtain ⟨k1, k2, k3⟩ := up_combineSlices t n r.2 (sizeT (img.off 2 * img.ptypeSize)) data imm
          (List.range (img.dim 2)) (r.1.SetComplete r.2 true)
        have hfin : IdsOK img →
            r.2 < (List.foldl (combineSlice t n r.2 (sizeT (img.off 2 * img.ptypeSize)) data imm)
                (r.1.SetComplete r.2 true) (List.range (img.dim 2))).nItems ∧
            (List.foldl (combineSlice t n r.2 (sizeT (img.off 2 * img.ptypeSize)) data imm)
                (r.1.SetComplete r.2 true) (List.range (img.dim 2))).IsComplete r.2 = true := by
          intro hid
          exact ⟨lt_of_lt_of_le (hlt hid) k1.nItems,
            k1.complete r.2 (hlt hid) (isComplete_SetComplete _ _)⟩
        refine ⟨_, _, rfl, ?_, hfin, ?_, Or.inr ?_⟩
        · exact up_storeVolume ((hup.up_trans (up_SetComplete _ _)).up_trans k1) _ _ hfin
        · exact k3.trans hchs
        · show assignAt _ _ _ = _
          rw [k2]
          show assignAt r.1.m_Volumes _ _ = _
          rw [hvols]

/-! ## Presence queries of a well-formed image, by flat index -/

theorem all_congr_mem {α : Type} (l : List α) (f g : α → Bool) (h : ∀ x, x ∈ l → f x = g x) :
    l.all f = l.all g := by
  induction l with
  | nil => rfl
  | cons a l ih =>
    simp only [List.all_cons]
    rw [h a (List.mem_cons_self _ _), ih (fun x hx => h x (List.mem_cons_of_mem _ hx))]

theorem WF.isSliceSet_nat {img : Image} (h : WF img) {s t n : Nat} (hs : s < img.dim 2)
    (ht : t < img.dim 3) (hn : n < img.GetNumberOfChannels) :
    img.IsSliceSet_unlocked s t n =
      ((img.m_Slices.getD (s + t * img.dim 2 + n * img.dim 3 * img.dim 2) none).isSome ||
        img.completeEntry (img.m_Volumes.getD (t + n * img.dim 3) none) ||
        img.completeEntry (img.m_Channels.getD n none)) := by
  rw [isSliceSet_eq _ _ _ _ (h.validSlice_nat hs ht hn), h.sliceIndex_eq hs ht hn,
    h.volumeIndex_eq ht hn, elemAt_nat, elemAt_nat, elemAt_nat]

theorem WF.allSlicesSet_nat {img : Image} (h : WF img) {t n : Nat} (ht : t < img.dim 3)
    (hn : n < img.GetNumberOfChannels) :
    img.allSlicesSet t n =
      (List.range (img.dim 2)).all
        (fun s => (img.m_Slices.getD (s + t * img.dim 2 + n * img.dim 3 * img.dim 2) none).isSome) := by
  unfold allSlicesSet
  apply all_congr_mem
  intro s hs
  have hs' : s < img.dim 2 := List.mem_range.mp hs
  rw [h.toInt_slice hs' hn, h.sliceIndex_eq hs' ht hn, elemAt_nat]

theorem WF.isVolumeSet_nat {img : Image} (h : WF img) {t n : Nat} (ht : t < img.dim 3)
    (hn : n < img.GetNumberOfChannels) :
    img.IsVolumeSet_unlocked t n =
      (img.completeEntry (img.m_Volumes.getD (t + n * img.dim 3) none) ||
        img.completeEntry (img.m_Channels.getD n none) ||
        (List.range (img.dim 2)).all
          (fun s => (img.m_Slices.getD (s + t * img.dim 2 + n * img.dim 3 * img.dim 2) none).isSome)) := by
  rw [isVolumeSet_eq _ _ _ (h.validVolume_nat ht hn), h.volumeIndex_eq ht hn, elemAt_nat, elemAt_nat,
    h.allSlicesSet_nat ht hn]

theorem isChannelSet_eq (img : Image) (n : Int) (hv : img.IsValidChannel n = true) :
    img.IsChannelSet_unlocked n =
      (img.completeEntry (elemAt img.m_Channels n) ||
        (List.range (img.dim 3)).all (fun t => img.IsVolumeSet_unlocked (toInt t) n)) := by
  unfold IsChannelSet_unlocked
  rw [hv]
  cases img.completeEntry (elemAt img.m_Channels n) <;> simp

theorem isChannelSet_valid {img : Image} {n : Int} (h : img.IsChannelSet_unlocked n = true) :
    img.IsValidChannel n = true := by
  unfold IsChannelSet_unlocked at h
  by_contra hv
  simp [hv] at h

theorem WF.isChannelSet_nat {img : Image} (h : WF img) {n : Nat} (hn : n < img.GetNumberOfChannels) :
    img.IsChannelSet_unlocked n =
      (img.completeEntry (img.m_Channels.getD n none) ||
        (List.range (img.dim 3)).all (fun t => img.IsVolumeSet_unlocked (t : Int) n)) := by
  rw [isChannelSet_eq _ _ (h.validChannel_nat hn), elemAt_nat]
  congr 1
  apply all_congr_mem
  intro t ht
  rw [h.toInt_time (List.mem_range.mp ht) hn]

/-! ## Coverage

Channel consolidation clears slice pointers, so presence of single entries is not
monotone.  What is monotone is coverage: a present slice stays present or its volume or
channel becomes complete; a complete volume stays complete or its channel becomes
complete. -/

theorem Adv.of_up {a b : Image} (h : Up a b) : Adv a b where
  shape := h.shape
  mtime := h.mtime
  updates := h.updates
  slices_len := h.slices_len
  volumes_len := h.volumes_len
  channels_len := h.channels_len
  nItems := h.nItems
  complete := h.complete
  ids := h.ids
  fixed := h.fixed
  nBufs := h.nBufs
  slices := fun _ k hk => Or.inl (h.slices k hk)
  volumes := fun hi k hk => Or.inl (h.volumes hi k (by simp) hk)
  channels := fun hi k hk => h.channels hi k (by simp) hk

theorem Adv.adv_refl (a : Image) : Adv a a := Adv.of_up (UpX.up_refl _ _ _)

theorem Adv.adv_trans {a b c : Image} (h1 : Adv a b) (h2 : Adv b c) : Adv a c where
  shape := h1.shape.shape_trans h2.shape
  mtime := h2.mtime.trans h1.mtime
  updates := h2.updates.trans h1.updates
  slices_len := h2.slices_len.trans h1.slices_len
  volumes_len := h2.volumes_len.trans h1.volumes_len
  channels_len := h2.channels_len.trans h1.channels_len
  nItems := le_trans h1.nItems h2.nItems
  complete := fun p hp h => h2.complete p (lt_of_lt_of_le hp h1.nItems) (h1.complete p hp h)
  ids := fun h => h2.ids (h1.ids h)
  fixed := fun q hq => sameFixed_trans (h1.fixed q hq) (h2.fixed q (lt_of_lt_of_le hq h1.nItems))
  nBufs := le_trans h1.nBufs h2.nBufs
  slices := fun hi k hk => by
    have hd2 : b.dim 2 = a.dim 2 := h1.shape.dim 2
    have hd3 : b.dim 3 = a.dim 3 := h1.shape.dim 3
    rcases h1.slices hi k hk with h | h | h
    · have := h2.slices (h1.ids hi) k h
      rw [hd2, hd3] at this
      exact this
    · rcases h2.volumes (h1.ids hi) _ h with h' | h'
      · exact Or.inr (Or.inl h')
      · rw [hd3, Nat.div_div_eq_div_mul] at h'
        exact Or.inr (Or.inr h')
    · exact Or.inr (Or.inr (h2.channels (h1.ids hi) _ h))
  volumes := fun hi k hk => by
    have hd3 : b.dim 3 = a.dim 3 := h1.shape.dim 3
    rcases h1.volumes hi k hk with h | h
    · have := h2.volumes (h1.ids hi) k h
      rw [hd3] at this
      exact this
    · exact Or.inr (h2.channels (h1.ids hi) _ h)
  channels := fun hi k hk => h2.channels (h1.ids hi) k (h1.channels hi k hk)

theorem Adv.wf {a b : Image} (h : Adv a b) (hw : WF a) : WF b :=
  hw.of_sameShape h.shape h.slices_len h.volumes_len h.channels_len

theorem sliceIndex_div (d2 d3 s t n : Nat) (hs : s < d2) :
    (s + t * d2 + n * d3 * d2) / d2 = t + n * d3 := by
  have h : s + t * d2 + n * d3 * d2 = s + d2 * (t + n * d3) := by ring
  rw [h, Nat.add_mul_div_left _ _ (by omega), Nat.div_eq_of_lt hs, Nat.zero_add]

theorem volumeIndex_div (d3 t n : Nat) (ht : t < d3) : (t + n * d3) / d3 = n := by
  have h : t + n * d3 = t + d3 * n := by ring
  rw [h, Nat.add_mul_div_left _ _ (by omega), Nat.div_eq_of_lt ht, Nat.zero_add]

theorem sliceIndex_div_channel (d2 d3 s t n : Nat) (hs : s < d2) (ht : t < d3) :
    (s + t * d2 + n * d3 * d2) / (d2 * d3) = n := by
  rw [← Nat.div_div_eq_div_mul, sliceIndex_div d2 d3 s t n hs, volumeIndex_div d3 t n ht]

/-- Availability is monotone along `Adv`: what `IsSliceSet`, `IsVolumeSet` and
`IsChannelSet` report as set stays set. -/
theorem Adv.isSliceSet {a b : Image} (h : Adv a b) (hw : WF a) (hi : IdsOK a) (s t n : Int)
    (hset : a.IsSliceSet_unlocked s t n = true) : b.IsSliceSet_unlocked s t n = true := by
  have hv := isSliceSet_valid hset
  rw [hw.validSlice_iff] at hv
  obtain ⟨hs0, hs1, ht0, ht1, hn0, hn1⟩ := hv
  obtain ⟨s, rfl⟩ := Int.eq_ofNat_of_zero_le hs0
  obtain ⟨t, rfl⟩ := Int.eq_ofNat_of_zero_le ht0
  obtain ⟨n, rfl⟩ := Int.eq_ofNat_of_zero_le hn0
  have hs : s < a.dim 2 := by exact_mod_cast hs1
  have ht : t < a.dim 3 := by exact_mod_cast ht1
  have hn : n < a.GetNumberOfChannels := by exact_mod_cast hn1
  have hwb := h.wf hw
  have hd2 : b.dim 2 = a.dim 2 := h.shape.dim 2
  have hd3 : b.dim 3 = a.dim 3 := h.shape.dim 3
  have hch : b.GetNumberOfChannels = a.GetNumberOfChannels := h.shape.channels
  rw [hw.isSliceSet_nat hs ht hn] at hset
  rw [hwb.isSliceSet_nat (by omega) (by omega) (by omega), hd2, hd3]
  simp only [Bool.or_eq_true] at hset ⊢
  rcases hset with (hp | hvc) | hcc
  · rcases h.slices hi _ hp with h' | h' | h'
    · exact Or.inl (Or.inl h')
    · rw [sliceIndex_div _ _ _ _ _ hs] at h'
      exact Or.inl (Or.inr h')
    · rw [sliceIndex_div_channel _ _ _ _ _ hs ht] at h'
      exact Or.inr h'
  · rcases h.volumes hi _ hvc with h' | h'
    · exact Or.inl (Or.inr h')
    · rw [volumeIndex_div _ _ _ ht] at h'
      exact Or.inr h'
  · exact Or.inr (h.channels hi _ hcc)

theorem Adv.isVolumeSet {a b : Image} (h : Adv a b) (hw : WF a) (hi : IdsOK a) (t n : Int)
    (hset : a.IsVolumeSet_unlocked t n = true) : b.IsVolumeSet_unlocked t n = true := by
  have hv := isVolumeSet_valid hset
  rw [hw.validVolume_iff] at hv
  obtain ⟨ht0, ht1, hn0, hn1⟩ := hv
  obtain ⟨t, rfl⟩ := Int.eq_ofNat_of_zero_le ht0
  obtain ⟨n, rfl⟩ := Int.eq_ofNat_of_zero_le hn0
  have ht : t < a.dim 3 := by exact_mod_cast ht1
  have hn : n < a.GetNumberOfChannels := by exact_mod_cast hn1
  have hwb := h.wf hw
  have hd2 : b.dim 2 = a.dim 2 := h.shape.dim 2
  have hd3 : b.dim 3 = a.dim 3 := h.shape.dim 3
  have hch : b.GetNumberOfChannels = a.GetNumberOfChannels := h.shape.channels
  rw [hw.isVolumeSet_nat ht hn] at hset
  rw [hwb.isVolumeSet_nat (by omega) (by omega), hd2, hd3]
  simp only [Bool.or_eq_true] at hset ⊢
  rcases hset with (hvc | hcc) | hall
  · rcases h.volumes hi _ hvc with h' | h'
    · exact Or.inl (Or.inl h')
    · rw [volumeIndex_div _ _ _ ht] at h'
      exact Or.inl (Or.inr h')
  · exact Or.inl (Or.inr (h.channels hi _ hcc))
  · by_cases hex : b.completeEntry (b.m_Volumes.getD (t + n * a.dim 3) none) = true ∨
        b.completeEntry (b.m_Channels.getD n none) = true
    · exact Or.inl hex
    · refine Or.inr ?_
      rw [List.all_eq_true] at hall ⊢
      intro s hs
      have hs' : s < a.dim 2 := List.mem_range.mp hs
      rcases h.slices hi _ (hall s hs) with h' | h' | h'
      · exact h'
      · rw [sliceIndex_div _ _ _ _ _ hs'] at h'
        exact absurd (Or.inl h') hex
      · rw [sliceIndex_div_channel _ _ _ _ _ hs' ht] at h'
        exact absurd (Or.inr h') hex

theorem Adv.isChannelSet {a b : Image} (h : Adv a b) (hw : WF a) (hi : IdsOK a) (n : Int)
    (hset : a.IsChannelSet_unlocked n = true) : b.IsChannelSet_unlocked n = true := by
  have hv := isChannelSet_valid hset
  rw [hw.validChannel_iff] at hv
  obtain ⟨hn0, hn1⟩ := hv
  obtain ⟨n, rfl⟩ := Int.eq_ofNat_of_zero_le hn0
  have hn : n < a.GetNumberOfChannels := by exact_mod_cast hn1
  have hwb := h.wf hw
  have hd3 : b.dim 3 = a.dim 3 := h.shape.dim 3
  have hch : b.GetNumberOfChannels = a.GetNumberOfChannels := h.shape.channels
  rw [hw.isChannelSet_nat hn] at hset
  rw [hwb.isChannelSet_nat (by omega), hd3]
  simp only [Bool.or_eq_true] at hset ⊢
  rcases hset with hcc | hall
  · exact Or.inl (h.channels hi _ hcc)
  · refine Or.inr ?_
    rw [List.all_eq_true] at hall ⊢
    intro t ht
    exact h.isVolumeSet hw hi _ _ (hall t ht)

/-! ## Channel consolidation -/

theorem getD_set_none (l : List (Option Nat)) (i j : Nat) :
    (l.set i none).getD j none = if i = j then none else l.getD j none := by
  by_cases h : i = j
  · subst h
    rw [if_pos rfl]
    by_cases hl : i < l.length
    · simp [List.getElem?_set, hl]
    · rw [List.getD_eq_default _ _ (by rw [List.length_set]; omega)]
  · rw [if_neg h]
    simp [List.getElem?_set, h]

theorem clearSlices_snd (img : Image) (it k : Nat) : (clearSlices img it k).2 = it + k := by
  induction k with
  | zero => rfl
  | succ k ih => simp [clearSlices, ih]; omega

/-- The slice-clearing loop touches nothing but slice pointers (and the fault flag). -/
theorem clearSlices_same (img : Image) (it k : Nat) :
    SameShape img (clearSlices img it k).1 ∧
    (clearSlices img it k).1.mtime = img.mtime ∧ (clearSlices img it k).1.updates = img.updates ∧
    (clearSlices img it k).1.m_Volumes = img.m_Volumes ∧
    (clearSlices img it k).1.m_Channels = img.m_Channels ∧
    (clearSlices img it k).1.items = img.items ∧ (clearSlices img it k).1.nItems = img.nItems ∧
    (clearSlices img it k).1.m_Slices.length = img.m_Slices.length ∧
    (∀ j, (clearSlices img it k).1.m_Slices.getD j none =
      if it ≤ j ∧ j < it + k then none else img.m_Slices.getD j none) ∧
    (∀ q, some q ∈ (clearSlices img it k).1.m_Slices → some q ∈ img.m_Slices) := by
  induction k with
  | zero =>
    refine ⟨SameShape.shape_refl _, rfl, rfl, rfl, rfl, rfl, rfl, rfl, ?_, fun _ h => h⟩
    intro j
    rw [if_neg (by omega)]
    rfl
  | succ k ih =>
    obtain ⟨h1, h2, h3, h4, h5, h6, h7, h8, h9, h10⟩ := ih
    have hsnd := clearSlices_snd img it k
    refine ⟨⟨h1.init, h1.rank, h1.dims, h1.ptype, h1.offs, h1.region⟩, h2, h3, h4, h5, h6, h7, ?_, ?_, ?_⟩
    · show (List.set _ _ _).length = _
      rw [List.length_set]
      exact h8
    · intro j
      show (List.set (clearSlices img it k).1.m_Slices (clearSlices img it k).2 none).getD j none = _
      rw [hsnd, getD_set_none]
      have hget := h9 j
      by_cases hj : it + k = j
      · rw [if_pos hj, if_pos (by omega)]
      · rw [if_neg hj, hget]
        by_cases hr : it ≤ j ∧ j < it + k
        · rw [if_pos hr, if_pos (by omega)]
        · rw [if_neg hr, if_neg (by omega)]
    · intro q hq
      have : some q ∈ (clearSlices img it k).1.m_Slices := by
        rcases List.mem_or_eq_of_mem_set hq with h | h
        · exact h
        · cases h
      exact h10 q this

theorem clearSlices_nBufs (img : Image) (it k : Nat) : (clearSlices img it k).1.nBufs = img.nBufs := by
  induction k with
  | zero => rfl
  | succ k ih => exact ih

/-- Clearing slice pointers whose volumes are complete keeps every entry covered. -/
theorem adv_clearSlices (img : Image) (it k : Nat)
    (hcov : ∀ j, it ≤ j → j < it + k →
      img.completeEntry (img.m_Volumes.getD (j / img.dim 2) none) = true) :
    Adv img (clearSlices img it k).1 := by
  obtain ⟨h1, h2, h3, h4, h5, h6, h7, h8, h9, h10⟩ := clearSlices_same img it k
  have hce : ∀ e, (clearSlices img it k).1.completeEntry e = img.completeEntry e := by
    intro e
    cases e with
    | none => rfl
    | some q => simp [completeEntry, IsComplete, h6]
  exact
    { shape := h1
      mtime := h2
      updates := h3
      slices_len := h8
      volumes_len := by rw [h4]
      channels_len := by rw [h5]
      nItems := by rw [h7]
      complete := fun p _ h => by simpa [IsComplete, h6] using h
      fixed := fun q _ => by rw [h6]; exact sameFixed_refl _
      nBufs := le_of_eq (clearSlices_nBufs img it k).symm
      ids := fun hi =>
        ⟨fun q hq => by rw [h7]; exact hi.slices q (h10 q hq),
          fun q hq => by rw [h7]; exact hi.volumes q (h4 ▸ hq),
          fun q hq => by rw [h7]; exact hi.channels q (h5 ▸ hq)⟩
      slices := fun _ j hj => by
        by_cases hr : it ≤ j ∧ j < it + k
        · refine Or.inr (Or.inl ?_)
          rw [h4, hce]
          exact hcov j hr.1 hr.2
        · refine Or.inl ?_
          rw [h9 j, if_neg hr]
          exact hj
      volumes := fun _ j hj => Or.inl (by rw [h4, hce]; exact hj)
      channels := fun _ j hj => by rw [h5, hce]; exact hj }

theorem combineVolume_step (src : Option Source) (fuel : Nat) (img : Image) (n ch size : Nat)
    (data : Option Ptr) (imm : ImportMemoryManagementType) (hw : WF img) (hi : IdsOK img)
    (hn : n < img.GetNumberOfChannels)
    (hset : ∀ t, t < img.dim 3 → img.IsVolumeSet_unlocked (t : Int) n = true)
    (k : Nat) (hk : k < img.dim 3) (st : Image) (it : Nat) (hinv : CombineInv img n k st it) :
    ∃ st' it', combineVolume src (fuel + 1) n ch size data imm (some (st, it)) k = some (st', it') ∧
      CombineInv img n (k + 1) st' it' := by
  have hwst := hinv.adv.wf hw
  have hist := hinv.adv.ids hi
  have hd2 : st.dim 2 = img.dim 2 := hinv.adv.shape.dim 2
  have hd3 : st.dim 3 = img.dim 3 := hinv.adv.shape.dim 3
  have hch : st.GetNumberOfChannels = img.GetNumberOfChannels := hinv.adv.shape.channels
  have hsetk : st.IsVolumeSet_unlocked (k : Int) n = true :=
    hinv.adv.isVolumeSet hw hi _ _ (hset k hk)
  obtain ⟨st1, vol, heq, hup, hvol, hchs, hvols⟩ :=
    GetVolumeData_of_set src fuel st k n data imm hsetk
  have hidx : st.GetVolumeIndex (k : Int) n = ((k + n * img.dim 3 : Nat) : Int) := by
    rw [hwst.volumeIndex_eq (by omega) (by omega), hd3]
  have hlen : k + n * img.dim 3 < st.m_Volumes.length := by
    rw [hwst.volumes_len, hd3, hch]
    exact hw.volumeIndex_lt hk hn
  have hslot : st1.m_Volumes.getD (k + n * img.dim 3) none = some vol := by
    rcases hvols with ⟨h1, h2⟩ | h1
    · rw [h1, ← elemAt_nat, ← hidx]
      exact h2
    · rw [h1, hidx, getD_assignAt_nat, if_pos ⟨rfl, hlen⟩]
  have hearlier : ∀ (x : Image), Up st x → ∀ t, t < k →
      x.completeEntry (x.m_Volumes.getD (t + n * img.dim 3) none) = true :=
    fun x hx t ht => hx.volumes hist _ (by simp) (hinv.done t ht)
  unfold combineVolume
  simp only []
  rw [hw.toInt_time hk hn, heq]
  simp only []
  by_cases hpar : (st1.items vol).m_Parent ≠ some ch
  · rw [if_pos hpar]
    obtain ⟨c, hc, hit⟩ := hinv.pos
    have hup3 : Up st1
        ((((st1.memcpy (Ptr.add (st1.items ch).m_Data (sizeT (k * st1.off 3 * st1.ptypeSize)))
            (st1.items vol).m_Data size).newSubItem ch (k : Int) 3 data
            (decide (imm = ImportMemoryManagementType.ManageMemory))
            (sizeT (k * st1.off 3 * st1.ptypeSize))).1).SetComplete
          ((st1.memcpy (Ptr.add (st1.items ch).m_Data (sizeT (k * st1.off 3 * st1.ptypeSize)))
            (st1.items vol).m_Data size).newSubItem ch (k : Int) 3 data
            (decide (imm = ImportMemoryManagementType.ManageMemory))
            (sizeT (k * st1.off 3 * st1.ptypeSize))).2 true) :=
      ((up_memcpy _ _ _ _).up_trans (up_newSubItem _ _ _ _ _ _ _)).up_trans (up_SetComplete _ _)
    have hup4 := up_storeVolume hup3 (st.GetVolumeIndex (k : Int) n)
      ((st1.memcpy (Ptr.add (st1.items ch).m_Data (sizeT (k * st1.off 3 * st1.ptypeSize)))
            (st1.items vol).m_Data size).newSubItem ch (k : Int) 3 data
            (decide (imm = ImportMemoryManagementType.ManageMemory))
            (sizeT (k * st1.off 3 * st1.ptypeSize))).2
      (fun _ => ⟨Nat.lt_succ_self _, isComplete_SetComplete _ _⟩)
    have hup5 := hup.up_trans hup4
    generalize hst4 : ({ (((st1.memcpy (Ptr.add (st1.items ch).m_Data (sizeT (k * st1.off 3 * st1.ptypeSize)))
            (st1.items vol).m_Data size).newSubItem ch (k : Int) 3 data
            (decide (imm = ImportMemoryManagementType.ManageMemory))
            (sizeT (k * st1.off 3 * st1.ptypeSize))).1).SetComplete
          ((st1.memcpy (Ptr.add (st1.items ch).m_Data (sizeT (k * st1.off 3 * st1.ptypeSize)))
            (st1.items vol).m_Data size).newSubItem ch (k : Int) 3 data
            (decide (imm = ImportMemoryManagementType.ManageMemory))
            (sizeT (k * st1.off 3 * st1.ptypeSize))).2 true with
        m_Volumes := assignAt _ (st.GetVolumeIndex (k : Int) n) (some _) } : Image) = st4 at hup4 hup5
    have hd2' : st4.dim 2 = img.dim 2 := (hup5.shape.dim 2).trans hd2
    have hnew : st4.completeEntry (st4.m_Volumes.getD (k + n * img.dim 3) none) = true := by
      subst hst4
      show completeEntry _ ((assignAt _ _ _).getD _ none) = true
      rw [hidx, getD_assignAt_nat, if_pos ⟨rfl, by
        show _ < (st1.memcpy _ _ _).m_Volumes.length
        rw [(sameTiers_memcpy _ _ _ _).volumes, hup.volumes_len]
        exact hlen⟩]
      exact isComplete_SetComplete _ _
    have hdone4 : ∀ t, t < k + 1 → st4.completeEntry (st4.m_Volumes.getD (t + n * img.dim 3) none) = true := by
      intro t ht
      rcases Nat.lt_or_ge t k with h | h
      · exact hearlier st4 hup5 t h
      · have : t = k := by omega
        subst this
        exact hnew
    have hcov : ∀ j, it ≤ j → j < it + st4.dim 2 →
        st4.completeEntry (st4.m_Volumes.getD (j / st4.dim 2) none) = true := by
      intro j hj1 hj2
      rw [hd2'] at hj2 ⊢
      have hdiv : j / img.dim 2 = c + n * img.dim 3 := by
        have hj : j = (j - it) + (c + n * img.dim 3) * img.dim 2 := by
          have : n * img.dim 2 * img.dim 3 + img.dim 2 * c = (c + n * img.dim 3) * img.dim 2 := by ring
          omega
        rw [hj, Nat.add_mul_div_right _ _ hw.d2_pos, Nat.div_eq_of_lt (by omega), Nat.zero_add]
      rw [hdiv]
      exact hdone4 c (by omega)
    have hadv := adv_clearSlices st4 it (st4.dim 2) hcov
    obtain ⟨_, _, _, hv4, _⟩ := clearSlices_same st4 it (st4.dim 2)
    refine ⟨(clearSlices st4 it (st4.dim 2)).1, (clearSlices st4 it (st4.dim 2)).2, rfl, ?_⟩
    refine ⟨(hinv.adv.adv_trans (Adv.of_up hup5)).adv_trans hadv, ?_, ?_⟩
    · intro t ht
      have hce : ∀ e, (clearSlices st4 it (st4.dim 2)).1.completeEntry e = st4.completeEntry e := by
        intro e
        obtain ⟨_, _, _, _, _, h6, _⟩ := clearSlices_same st4 it (st4.dim 2)
        cases e with
        | none => rfl
        | some q => simp [completeEntry, IsComplete, h6]
      rw [hv4, hce]
      exact hdone4 t ht
    · refine ⟨c + 1, by omega, ?_⟩
      rw [clearSlices_snd, hd2', hit]
      ring
  · rw [if_neg hpar]
    refine ⟨st1, it, rfl, hinv.adv.adv_trans (Adv.of_up hup), ?_, ?_⟩
    · intro t ht
      rcases Nat.lt_or_ge t k with h | h
      · exact hearlier st1 hup t h
      · have : t = k := by omega
        subst this
        rw [hslot]
        exact (hvol hist).2
    · obtain ⟨c, hc, hit⟩ := hinv.pos
      exact ⟨c, by omega, hit⟩

theorem combineVolume_loop (src : Option Source) (fuel : Nat) (img : Image) (n ch size : Nat)
    (data : Option Ptr) (imm : ImportMemoryManagementType) (hw : WF img) (hi : IdsOK img)
    (hn : n < img.GetNumberOfChannels)
    (hset : ∀ t, t < img.dim 3 → img.IsVolumeSet_unlocked (t : Int) n = true)
    (k : Nat) (hk : k ≤ img.dim 3) (st0 : Image) (it0 : Nat) (hinv : CombineInv img n 0 st0 it0) :
    ∃ st' it', (List.range k).foldl (combineVolume src (fuel + 1) n ch size data imm)
        (some (st0, it0)) = some (st', it') ∧ CombineInv img n k st' it' := by
  induction k with
  | zero => exact ⟨st0, it0, rfl, hinv⟩
  | succ k ih =>
    obtain ⟨st, it, heq, hinv'⟩ := ih (by omega)
    rw [List.range_succ, List.foldl_append, heq]
    exact combineVolume_step src fuel img n ch size data imm hw hi hn hset k (by omega) st it hinv'

/-- Storing a pointer to a complete item in a channel slot at the end of a run of steps. -/
theorem adv_storeChannel {img x : Image} (h : Adv img x) (pos : Int) (q : Nat)
    (hq : IdsOK img → q < x.nItems ∧ x.IsComplete q = true) :
    Adv img { x with m_Channels := assignAt x.m_Channels pos (some q) } where
  shape := ⟨h.shape.init, h.shape.rank, h.shape.dims, h.shape.ptype, h.shape.offs, h.shape.region⟩
  mtime := h.mtime
  updates := h.updates
  slices_len := h.slices_len
  volumes_len := h.volumes_len
  channels_len := (length_assignAt _ _ _).trans h.channels_len
  nItems := h.nItems
  complete := h.complete
  fixed := h.fixed
  nBufs := h.nBufs
  ids := fun hi =>
    ⟨(h.ids hi).slices, (h.ids hi).volumes,
      fun p hp => by
        rcases mem_assignAt hp with h1 | h1
        · exact (h.ids hi).channels p h1
        · cases h1; exact (hq hi).1⟩
  slices := fun hi k hk => by
    rcases h.slices hi k hk with h' | h' | h'
    · exact Or.inl h'
    · exact Or.inr (Or.inl h')
    · refine Or.inr (Or.inr ?_)
      show completeEntry _ ((assignAt x.m_Channels pos (some q)).getD _ none) = true
      rw [getD_assignAt]
      split
      · exact (hq hi).2
      · exact h'
  volumes := fun hi k hk => by
    rcases h.volumes hi k hk with h' | h'
    · exact Or.inl h'
    · refine Or.inr ?_
      show completeEntry _ ((assignAt x.m_Channels pos (some q)).getD _ none) = true
      rw [getD_assignAt]
      split
      · exact (hq hi).2
      · exact h'
  channels := fun hi k hk => by
    show completeEntry _ ((assignAt x.m_Channels pos (some q)).getD k none) = true
    rw [getD_assignAt]
    split
    · exact (hq hi).2
    · exact h.channels hi k hk

/-- A channel that is set is returned without a call of the pipeline source: the complete
entry, a view of the only volume, or the combination of the volumes. -/
theorem GetChannelData_of_set (src : Option Source) (fuel : Nat) (img : Image) (n : Int)
    (data : Option Ptr) (imm : ImportMemoryManagementType) (hw : WF img) (hi : IdsOK img)
    (h : img.IsChannelSet_unlocked n = true) :
    ∃ img' q, GetChannelData_unlocked src (fuel + 1) img n data imm = some (img', some q) ∧
      Adv img img' ∧ q < img'.nItems ∧ img'.IsComplete q = true ∧
      elemAt img'.m_Channels n = some q ∧ img'.m_Channels.length = img.m_Channels.length := by
  have hv := isChannelSet_valid h
  have hv' := hv
  rw [hw.validChannel_iff] at hv'
  obtain ⟨hn0, hn1⟩ := hv'
  obtain ⟨n, rfl⟩ := Int.eq_ofNat_of_zero_le hn0
  have hn : n < img.GetNumberOfChannels := by exact_mod_cast hn1
  rw [hw.isChannelSet_nat hn] at h
  unfold GetChannelData_unlocked
  rw [hv]
  simp only [Bool.true_eq_false, if_false]
  by_cases hcc : img.completeEntry (elemAt img.m_Channels (n : Int)) = true
  · obtain ⟨q, hq, hqc⟩ := completeEntry_some hcc
    simp only [hcc, if_true]
    rw [hq]
    exact ⟨img, q, rfl, Adv.adv_refl _, hi.channels q (mem_of_elemAt hq), hqc, hq, rfl⟩
  · have hall : ∀ t, t < img.dim 3 → img.IsVolumeSet_unlocked (t : Int) n = true := by
      rw [elemAt_nat] at hcc
      simp only [hcc, Bool.false_or, List.all_eq_true, List.mem_range] at h
      exact h
    have hset' : img.IsChannelSet_unlocked (n : Int) = true := by
      rw [hw.isChannelSet_nat hn]
      simp only [Bool.or_eq_true, List.all_eq_true, List.mem_range]
      exact Or.inr hall
    simp only [hcc, hset', if_true, Bool.false_eq_true, if_false]
    have hnlen : n < img.m_Channels.length := by rw [hw.channels_len]; exact hn
    by_cases hd : img.dim 3 ≤ 1
    · simp only [hd, if_true]
      have h0 := hall 0 (by have := hw.d3_pos; omega)
      obtain ⟨img1, vol, heq, hup, hvol, hchs, _⟩ := GetVolumeData_of_set src fuel img 0 n data imm h0
      rw [heq]
      simp only []
      have hup2 := up_storeChannel
        (hup.up_trans ((up_newSubItem img1 vol 0 img1.m_Dimension data
          (decide (imm = ImportMemoryManagementType.ManageMemory)) 0).up_trans (up_SetComplete _ _)))
        (n : Int) img1.nItems (fun _ => ⟨Nat.lt_succ_self _, isComplete_SetComplete _ _⟩)
      refine ⟨_, _, rfl, Adv.of_up hup2, Nat.lt_succ_self _, isComplete_SetComplete _ _, ?_, ?_⟩
      · show elemAt (assignAt img1.m_Channels (n : Int) (some img1.nItems)) (n : Int) = some img1.nItems
        rw [elemAt_nat, getD_assignAt_nat, if_pos ⟨rfl, by rw [hchs]; exact hnlen⟩]
      · exact hup2.channels_len
    · simp only [hd, if_false]
      have hr : ∃ r : Image × Nat,
          r = (match elemAt img.m_Channels (n : Int) with
            | some c => (img, c)
            | none => img.newChannelItem (-1) none true) ∧
          Up img r.1 ∧ r.2 < r.1.nItems := by
        refine ⟨_, rfl, ?_⟩
        cases hce : elemAt img.m_Channels (n : Int) with
        | some c => exact ⟨UpX.up_refl _ _ _, hi.channels c (mem_of_elemAt hce)⟩
        | none =>
          refine ⟨up_newItem _ _ _ _ _, ?_⟩
          show (img.newItem (-1) img.m_Dimension none true).2 <
            (img.newItem (-1) img.m_Dimension none true).1.nItems
          rw [newItem_snd, newItem_nItems]
          exact Nat.lt_succ_self _
      obtain ⟨r, hr, hup, hlt⟩ := hr
      rw [← hr]
      have hup1 : Up img (r.1.SetComplete r.2 true) := hup.up_trans (up_SetComplete _ _)
      have hadv1 := Adv.of_up hup1
      have hw1 := hadv1.wf hw
      have hi1 := hup1.ids hi
      have hd2 : (r.1.SetComplete r.2 true).dim 2 = img.dim 2 := hup1.shape.dim 2
      have hd3 : (r.1.SetComplete r.2 true).dim 3 = img.dim 3 := hup1.shape.dim 3
      have hch1 : (r.1.SetComplete r.2 true).GetNumberOfChannels = img.GetNumberOfChannels :=
        hup1.shape.channels
      have hit : u32 (n * img.dim 2 * img.dim 3) =
          n * (r.1.SetComplete r.2 true).dim 2 * (r.1.SetComplete r.2 true).dim 3 +
            (r.1.SetComplete r.2 true).dim 2 * 0 := by
        rw [hd2, hd3, Nat.mul_zero, Nat.add_zero]
        apply u32_of_lt
        have h1 := hw.slices_lt
        have h2 : n * (img.dim 2 * img.dim 3) ≤ img.GetNumberOfChannels * (img.dim 2 * img.dim 3) :=
          Nat.mul_le_mul_right _ (by omega)
        have h3 : img.GetNumberOfChannels * (img.dim 2 * img.dim 3) =
            img.GetNumberOfChannels * img.dim 3 * img.dim 2 := by ring
        have h4 : n * (img.dim 2 * img.dim 3) = n * img.dim 2 * img.dim 3 := by ring
        omega
      obtain ⟨st', it', hloop, hinv⟩ := combineVolume_loop src fuel (r.1.SetComplete r.2 true) n r.2
        (sizeT (img.off (img.m_Dimension - 1) * img.ptypeSize)) data imm hw1 hi1 (by omega)
        (fun t ht => hadv1.isVolumeSet hw hi _ _ (hall t (by omega)))
        ((r.1.SetComplete r.2 true).dim 3) (le_refl _) (r.1.SetComplete r.2 true)
        (u32 (n * img.dim 2 * img.dim 3)) ⟨Adv.adv_refl _, fun t ht => absurd ht (by omega), ⟨0, le_refl _, hit⟩⟩
      rw [hd3] at hloop
      simp only [Int.toNat_ofNat]
      rw [hloop]
      simp only []
      have hq : r.2 < st'.nItems ∧ st'.IsComplete r.2 = true :=
        ⟨lt_of_lt_of_le hlt hinv.adv.nItems, hinv.adv.complete r.2 hlt (isComplete_SetComplete _ _)⟩
      have hadv := adv_storeChannel (hadv1.adv_trans hinv.adv) (n : Int) r.2 (fun _ => hq)
      refine ⟨_, _, rfl, hadv, hq.1, hq.2, ?_, hadv.channels_len⟩
      show elemAt (assignAt st'.m_Channels (n : Int) (some r.2)) (n : Int) = some r.2
      rw [elemAt_nat, getD_assignAt_nat, if_pos ⟨rfl, by
        rw [hinv.adv.channels_len, hup1.channels_len]; exact hnlen⟩]

/-- A volume that is not set and cannot be computed is allocated. -/
theorem GetVolumeData_alloc (src : Option Source) (fuel : Nat) (img : Image) (t n : Int)
    (data : Option Ptr) (imm : ImportMemoryManagementType) (hv : img.IsValidVolume t n = true)
    (h : img.IsVolumeSet_unlocked t n = false) (hsrc : canUpdate src = none) :
    GetVolumeData_unlocked src (fuel + 1) img t n data imm =
      some ((img.AllocateVolumeData_unlocked t n data imm).1.SetComplete
        (img.AllocateVolumeData_unlocked t n data imm).2 true,
        some (img.AllocateVolumeData_unlocked t n data imm).2) := by
  rw [isVolumeSet_eq _ _ _ hv] at h
  simp only [Bool.or_eq_false_iff] at h
  obtain ⟨⟨h1, h2⟩, h3⟩ := h
  unfold GetVolumeData_unlocked
  rw [hv]
  simp only [Bool.true_eq_false, Bool.false_eq_true, if_false, h1, h2, h3, hsrc]

/-- A volume that is not set is requested from an idle pipeline source once; the accessor
calls itself only if the volume is set afterwards and returns `nullptr` otherwise. -/
theorem GetVolumeData_update (src : Option Source) (fuel : Nat) (img : Image) (t n : Int)
    (data : Option Ptr) (imm : ImportMemoryManagementType) (hv : img.IsValidVolume t n = true)
    (h : img.IsVolumeSet_unlocked t n = false) (p : Source) (hsrc : canUpdate src = some p) :
    GetVolumeData_unlocked src (fuel + 1) img t n data imm =
      if (img.callUpdate p [0, 0, 0, t, n] [img.dim 0, img.dim 1, img.dim 2, 1, 1]).IsVolumeSet_unlocked t n then
        GetVolumeData_unlocked src fuel
          (img.callUpdate p [0, 0, 0, t, n] [img.dim 0, img.dim 1, img.dim 2, 1, 1]) t n data imm
      else some (img.callUpdate p [0, 0, 0, t, n] [img.dim 0, img.dim 1, img.dim 2, 1, 1], none) := by
  rw [isVolumeSet_eq _ _ _ hv] at h
  simp only [Bool.or_eq_false_iff] at h
  obtain ⟨⟨h1, h2⟩, h3⟩ := h
  conv_lhs => unfold GetVolumeData_unlocked
  rw [hv]
  simp only [Bool.true_eq_false, Bool.false_eq_true, if_false, h1, h2, h3, hsrc]

/-- A channel that is not set and cannot be computed is allocated. -/
theorem GetChannelData_alloc (src : Option Source) (fuel : Nat) (img : Image) (n : Int)
    (data : Option Ptr) (imm : ImportMemoryManagementType) (hv : img.IsValidChannel n = true)
    (h : img.IsChannelSet_unlocked n = false) (hsrc : canUpdate src = none) :
    GetChannelData_unlocked src (fuel + 1) img n data imm =
      some ((img.AllocateChannelData_unlocked n data imm).1.SetComplete
        (img.AllocateChannelData_unlocked n data imm).2 true,
        some (img.AllocateChannelData_unlocked n data imm).2) := by
  have h' := h
  rw [isChannelSet_eq _ _ hv] at h'
  simp only [Bool.or_eq_false_iff] at h'
  unfold GetChannelData_unlocked
  rw [hv]
  simp only [Bool.true_eq_false, Bool.false_eq_true, if_false, h'.1, h, hsrc]

/-- A channel that is not set is requested from an idle pipeline source once; the accessor
calls itself only if the channel is set afterwards and returns `nullptr` otherwise. -/
theorem GetChannelData_update (src : Option Source) (fuel : Nat) (img : Image) (n : Int)
    (data : Option Ptr) (imm : ImportMemoryManagementType) (hv : img.IsValidChannel n = true)
    (h : img.IsChannelSet_unlocked n = false) (p : Source) (hsrc : canUpdate src = some p) :
    GetChannelData_unlocked src (fuel + 1) img n data imm =
      if (img.callUpdate p [0, 0, 0, 0, n] [img.dim 0, img.dim 1, img.dim 2, img.dim 3, 1]).IsChannelSet_unlocked n then
        GetChannelData_unlocked src fuel
          (img.callUpdate p [0, 0, 0, 0, n] [img.dim 0, img.dim 1, img.dim 2, img.dim 3, 1]) n data imm
      else some (img.callUpdate p [0, 0, 0, 0, n] [img.dim 0, img.dim 1, img.dim 2, img.dim 3, 1], none) := by
  have h' := h
  rw [isChannelSet_eq _ _ hv] at h'
  simp only [Bool.or_eq_false_iff] at h'
  conv_lhs => unfold GetChannelData_unlocked
  rw [hv]
  simp only [Bool.true_eq_false, Bool.false_eq_true, if_false, h'.1, h, hsrc]

theorem callUpdate_updates (img : Image) (p : Source) (index : List Int) (size : List Nat) :
    (img.callUpdate p index size).updates = img.updates + 1 := rfl

/-! ## The pipeline source -/

theorem canUpdate_some {src : Option Source} {p : Source} (h : canUpdate src = some p) :
    src = some p := by
  cases src with
  | none => cases h
  | some q =>
    unfold canUpdate at h
    dsimp only at h
    split at h
    · cases h
      rfl
    · cases h

theorem holdLock_pass {src : Option Source} {img : Image} {r : Option (Image × Option Nat)}
    {res : Image × Option Nat} (h : r = some res)
    (hf : res.1.updates ≠ img.updates → ∀ p, src = some p → p.locks = false) :
    holdLock src img r = some res := by
  by_cases hu : res.1.updates = img.updates
  · exact holdLock_of_updates h hu
  · rw [holdLock_of_free img r (hf hu), h]

/-- Whenever `GetSliceData_unlocked` returns for a valid slice that is not set, under a
usable pipeline source, it has called `Update()`. -/
theorem GetSliceData_updated (src : Option Source) (fuel : Nat) (img : Image) (s t n : Int)
    (data : Option Ptr) (imm : ImportMemoryManagementType) (hv : img.IsValidSlice s t n = true)
    (hset : img.IsSliceSet_unlocked s t n = false) (p : Source) (hsrc : canUpdate src = some p)
    (res : Image × Option Nat)
    (h : GetSliceData_unlocked src fuel img s t n data imm = some res) :
    res.1.updates = img.updates + 1 := by
  cases fuel with
  | zero => simp [GetSliceData_unlocked] at h
  | succ fuel =>
    rw [GetSliceData_update src fuel img s t n data imm hv hset p hsrc] at h
    split at h
    · rename_i hset1
      cases fuel with
      | zero => simp [GetSliceData_unlocked] at h
      | succ fuel =>
        obtain ⟨img', q, heq, hup, _⟩ := GetSliceData_of_set src fuel _ s t n data imm hset1
        rw [heq] at h
        cases h
        exact hup.updates
    · cases h
      rfl

theorem GetVolumeData_updated (src : Option Source) (fuel : Nat) (img : Image) (t n : Int)
    (data : Option Ptr) (imm : ImportMemoryManagementType) (hv : img.IsValidVolume t n = true)
    (hset : img.IsVolumeSet_unlocked t n = false) (p : Source) (hsrc : canUpdate src = some p)
    (res : Image × Option Nat)
    (h : GetVolumeData_unlocked src fuel img t n data imm = some res) :
    res.1.updates = img.updates + 1 := by
  cases fuel with
  | zero => simp [GetVolumeData_unlocked] at h
  | succ fuel =>
    rw [GetVolumeData_update src fuel img t n data imm hv hset p hsrc] at h
    split at h
    · rename_i hset1
      cases fuel with
      | zero => simp [GetVolumeData_unlocked] at h
      | succ fuel =>
        obtain ⟨img', q, heq, hup, _⟩ := GetVolumeData_of_set src fuel _ t n data imm hset1
        rw [heq] at h
        cases h
        exact hup.updates
    · cases h
      rfl

/-- A slice accessor that reaches `Update()` of a source whose `Update()` takes the lock of
this image never returns: the lock the accessor holds is not recursive. -/
theorem GetSliceData_blocked (src : Option Source) (img : Image) (s t n : Int)
    (data : Option Ptr) (imm : ImportMemoryManagementType) (hv : img.IsValidSlice s t n = true)
    (hset : img.IsSliceSet_unlocked s t n = false) (p : Source) (hsrc : canUpdate src = some p)
    (hl : p.locks = true) (fuel : Nat) :
    GetSliceData src fuel img s t n data imm = none := by
  unfold GetSliceData
  cases h : GetSliceData_unlocked src fuel img s t n data imm with
  | none => exact holdLock_of_none _ _
  | some res =>
    rw [canUpdate_some hsrc]
    apply holdLock_blocked hl
    rw [GetSliceData_updated src fuel img s t n data imm hv hset p hsrc res h]
    omega

theorem GetVolumeData_blocked (src : Option Source) (img : Image) (t n : Int)
    (data : Option Ptr) (imm : ImportMemoryManagementType) (hv : img.IsValidVolume t n = true)
    (hset : img.IsVolumeSet_unlocked t n = false) (p : Source) (hsrc : canUpdate src = some p)
    (hl : p.locks = true) (fuel : Nat) :
    GetVolumeData src fuel img t n data imm = none := by
  unfold GetVolumeData
  cases h : GetVolumeData_unlocked src fuel img t n data imm with
  | none => exact holdLock_of_none _ _
  | some res =>
    rw [canUpdate_some hsrc]
    apply holdLock_blocked hl
    rw [GetVolumeData_updated src fuel img t n data imm hv hset p hsrc res h]
    omega

/-- The lock changes nothing in a call of the slice accessor that cannot reach `Update()` of
a source that takes the lock. -/
theorem GetSliceData_eq_unlocked (src : Option Source) (fuel : Nat) (img : Image) (s t n : Int)
    (data : Option Ptr) (imm : ImportMemoryManagementType)
    (h : img.IsValidSlice s t n = true → img.IsSliceSet_unlocked s t n = false →
      ∀ p, canUpdate src = some p → p.locks = false) :
    GetSliceData src fuel img s t n data imm = GetSliceData_unlocked src fuel img s t n data imm := by
  unfold GetSliceData
  cases hr : GetSliceData_unlocked src fuel img s t n data imm with
  | none => exact holdLock_of_none _ _
  | some res =>
    refine holdLock_pass rfl ?_
    intro hne q hq
    cases fuel with
    | zero => simp [GetSliceData_unlocked] at hr
    | succ fuel =>
      by_cases hv : img.IsValidSlice s t n = true
      · by_cases hset : img.IsSliceSet_unlocked s t n = true
        · obtain ⟨img', q', heq, hup, _⟩ := GetSliceData_of_set src fuel img s t n data imm hset
          rw [heq] at hr
          cases hr
          exact absurd hup.updates hne
        · have hset' : img.IsSliceSet_unlocked s t n = false := by simpa using hset
          cases hsrc : canUpdate src with
          | none =>
            rw [GetSliceData_alloc src fuel img s t n data imm hv hset' hsrc] at hr
            cases hr
            exact absurd ((up_AllocateSliceData img s t n data imm).1.up_trans
              (up_SetComplete _ _)).updates hne
          | some p =>
            have := canUpdate_some hsrc
            rw [this] at hq
            cases hq
            exact h hv hset' q hsrc
      · have hv' : img.IsValidSlice s t n = false := by simpa using hv
        have : GetSliceData_unlocked src (fuel + 1) img s t n data imm = some (img, none) := by
          simp [GetSliceData_unlocked, hv']
        rw [this] at hr
        cases hr
        exact absurd rfl hne

theorem GetVolumeData_eq_unlocked (src : Option Source) (fuel : Nat) (img : Image) (t n : Int)
    (data : Option Ptr) (imm : ImportMemoryManagementType)
    (h : img.IsValidVolume t n = true → img.IsVolumeSet_unlocked t n = false →
      ∀ p, canUpdate src = some p → p.locks = false) :
    GetVolumeData src fuel img t n data imm = GetVolumeData_unlocked src fuel img t n data imm := by
  unfold GetVolumeData
  cases hr : GetVolumeData_unlocked src fuel img t n data imm with
  | none => exact holdLock_of_none _ _
  | some res =>
    refine holdLock_pass rfl ?_
    intro hne q hq
    cases fuel with
    | zero => simp [GetVolumeData_unlocked] at hr
    | succ fuel =>
      by_cases hv : img.IsValidVolume t n = true
      · by_cases hset : img.IsVolumeSet_unlocked t n = true
        · obtain ⟨img', q', heq, hup, _⟩ := GetVolumeData_of_set src fuel img t n data imm hset
          rw [heq] at hr
          cases hr
          exact absurd hup.updates hne
        · have hset' : img.IsVolumeSet_unlocked t n = false := by simpa using hset
          cases hsrc : canUpdate src with
          | none =>
            rw [GetVolumeData_alloc src fuel img t n data imm hv hset' hsrc] at hr
            cases hr
            exact absurd ((upx_AllocateVolumeData img t n data imm).1.up_trans
              (UpX.weaken (up_SetComplete _ _))).updates hne
          | some p =>
            have := canUpdate_some hsrc
            rw [this] at hq
            cases hq
            exact h hv hset' q hsrc
      · have hv' : img.IsValidVolume t n = false := by simpa using hv
        have : GetVolumeData_unlocked src (fuel + 1) img t n data imm = some (img, none) := by
          simp [GetVolumeData_unlocked, hv']
        rw [this] at hr
        cases hr
        exact absurd rfl hne

theorem GetChannelData_eq_unlocked (src : Option Source) (fuel : Nat) (img : Image) (n : Int)
    (data : Option Ptr) (imm : ImportMemoryManagementType) (hw : WF img) (hi : IdsOK img)
    (h : img.IsValidChannel n = true → img.IsChannelSet_unlocked n = false →
      ∀ p, canUpdate src = some p → p.locks = false) :
    GetChannelData src fuel img n data imm = GetChannelData_unlocked src fuel img n data imm := by
  unfold GetChannelData
  cases hr : GetChannelData_unlocked src fuel img n data imm with
  | none => exact holdLock_of_none _ _
  | some res =>
    refine holdLock_pass rfl ?_
    intro hne q hq
    cases fuel with
    | zero => simp [GetChannelData_unlocked] at hr
    | succ fuel =>
      by_cases hv : img.IsValidChannel n = true
      · by_cases hset : img.IsChannelSet_unlocked n = true
        · obtain ⟨img', q', heq, hup, _⟩ := GetChannelData_of_set src fuel img n data imm hw hi hset
          rw [heq] at hr
          cases hr
          exact absurd hup.updates hne
        · have hset' : img.IsChannelSet_unlocked n = false := by simpa using hset
          cases hsrc : canUpdate src with
          | none =>
            rw [GetChannelData_alloc src fuel img n data imm hv hset' hsrc] at hr
            cases hr
            exact absurd ((upx_AllocateChannelData img n data imm).1.up_trans
              (UpX.weaken (up_SetComplete _ _))).updates hne
          | some p =>
            have := canUpdate_some hsrc
            rw [this] at hq
            cases hq
            exact h hv hset' q hsrc
      · have hv' : img.IsValidChannel n = false := by simpa using hv
        have : GetChannelData_unlocked src (fuel + 1) img n data imm = some (img, none) := by
          simp [GetChannelData_unlocked, hv']
        rw [this] at hr
        cases hr
        exact absurd rfl hne

/-- A slice that is set is returned by the locking accessor as by `GetSliceData_unlocked`:
`Update()` is not reached. -/
theorem GetSliceData_of_isSet (src : Option Source) (fuel : Nat) (img : Image) (s t n : Int)
    (data : Option Ptr) (imm : ImportMemoryManagementType)
    (h : img.IsSliceSet_unlocked s t n = true) :
    GetSliceData src fuel img s t n data imm = GetSliceData_unlocked src fuel img s t n data imm :=
  GetSliceData_eq_unlocked src fuel img s t n data imm (fun _ h2 => by rw [h] at h2; cases h2)

theorem GetVolumeData_of_isSet (src : Option Source) (fuel : Nat) (img : Image) (t n : Int)
    (data : Option Ptr) (imm : ImportMemoryManagementType)
    (h : img.IsVolumeSet_unlocked t n = true) :
    GetVolumeData src fuel img t n data imm = GetVolumeData_unlocked src fuel img t n data imm :=
  GetVolumeData_eq_unlocked src fuel img t n data imm (fun _ h2 => by rw [h] at h2; cases h2)

theorem GetChannelData_of_isSet (src : Option Source) (fuel : Nat) (img : Image) (n : Int)
    (data : Option Ptr) (imm : ImportMemoryManagementType) (hw : WF img) (hi : IdsOK img)
    (h : img.IsChannelSet_unlocked n = true) :
    GetChannelData src fuel img n data imm = GetChannelData_unlocked src fuel img n data imm :=
  GetChannelData_eq_unlocked src fuel img n data imm hw hi (fun _ h2 => by rw [h] at h2; cases h2)

/-- No source that can be used: the lock changes nothing. -/
theorem GetSliceData_of_idle (src : Option Source) (fuel : Nat) (img : Image) (s t n : Int)
    (data : Option Ptr) (imm : ImportMemoryManagementType) (h : canUpdate src = none) :
    GetSliceData src fuel img s t n data imm = GetSliceData_unlocked src fuel img s t n data imm :=
  GetSliceData_eq_unlocked src fuel img s t n data imm
    (fun _ _ p hp => by rw [h] at hp; cases hp)

theorem GetVolumeData_of_idle (src : Option Source) (fuel : Nat) (img : Image) (t n : Int)
    (data : Option Ptr) (imm : ImportMemoryManagementType) (h : canUpdate src = none) :
    GetVolumeData src fuel img t n data imm = GetVolumeData_unlocked src fuel img t n data imm :=
  GetVolumeData_eq_unlocked src fuel img t n data imm
    (fun _ _ p hp => by rw [h] at hp; cases hp)

theorem GetChannelData_of_idle (src : Option Source) (fuel : Nat) (img : Image) (n : Int)
    (data : Option Ptr) (imm : ImportMemoryManagementType) (hw : WF img) (hi : IdsOK img)
    (h : canUpdate src = none) :
    GetChannelData src fuel img n data imm = GetChannelData_unlocked src fuel img n data imm :=
  GetChannelData_eq_unlocked src fuel img n data imm hw hi
    (fun _ _ p hp => by rw [h] at hp; cases hp)

theorem copyDimensions_eq (ds : List Nat) (d : Nat) :
    copyDimensions ds d =
      [(if 0 < d then ds.getD 0 0 else 1), (if 1 < d then ds.getD 1 0 else 1),
        (if 2 < d then ds.getD 2 0 else 1), (if 3 < d then ds.getD 3 0 else 1),
        (if 4 < d then ds.getD 4 0 else 0), (if 5 < d then ds.getD 5 0 else 0),
        (if 6 < d then ds.getD 6 0 else 0), (if 7 < d then ds.getD 7 0 else 0)] := by
  simp [copyDimensions, MAX_IMAGE_DIMENSIONS, List.range_succ]

theorem initialized_off_rec (img : Image) (ts d : Nat) (ds : List Nat) (ch : Nat) (hd : d ≤ 8)
    (i : Nat) (h4 : i < 4) :
    (img.initialized ts d ds ch).off (i + 1) =
      sizeT ((img.initialized ts d ds ch).off i * (img.initialized ts d ds ch).dim i) := by
  rw [initialized_dim]
  by_cases hi : i < d
  · rw [initialized_off _ _ _ _ _ _ (by omega), initialized_off _ _ _ _ _ _ (by omega),
      Nat.min_eq_left (by omega), Nat.min_eq_left (by omega)]
    rfl
  · rw [copyDimensions_getD _ _ _ (by omega), if_neg hi, if_pos h4, Nat.mul_one,
      initialized_off _ _ _ _ _ _ (by omega), initialized_off _ _ _ _ _ _ (by omega),
      Nat.min_eq_right (by omega), Nat.min_eq_right (by omega), sizeT_of_lt (offsetLoop_lt _ _)]

theorem initialized_off_zero (img : Image) (ts d : Nat) (ds : List Nat) (ch : Nat) :
    (img.initialized ts d ds ch).off 0 = 1 := by
  rw [initialized_off _ _ _ _ _ _ (by omega)]
  simp [offsetLoop]

/-- A successful `Initialize` whose element counts fit the machine types leaves a well-formed
image with empty arrays: rank at most `MAX_IMAGE_DIMENSIONS`, declared extents at least 1,
fewer than `2^31` slices in all, and fewer than `2^64` bytes per channel. -/
theorem wf_initialized (img : Image) (ts d : Nat) (ds : List Nat) (ch : Nat) (hd : d ≤ 8)
    (hall : ∀ i, i < d → 1 ≤ ds.getD i 0) (hts : 1 ≤ ts)
    (hsl : ch * (img.initialized ts d ds ch).dim 3 * (img.initialized ts d ds ch).dim 2 < 2 ^ 31)
    (hbytes : (img.initialized ts d ds ch).dim 0 * (img.initialized ts d ds ch).dim 1 *
      (img.initialized ts d ds ch).dim 2 * (img.initialized ts d ds ch).dim 3 * ts < 2 ^ 64) :
    WF (img.initialized ts d ds ch) ∧ IdsOK (img.initialized ts d ds ch) := by
  have hdim : ∀ i, i < 4 → 1 ≤ (img.initialized ts d ds ch).dim i := by
    intro i hi
    rw [initialized_dim, copyDimensions_getD _ _ _ (by omega)]
    by_cases hid : i < d
    · rw [if_pos hid]; exact hall i hid
    · rw [if_neg hid, if_pos hi]
  have h0 := hdim 0 (by omega)
  have h1 := hdim 1 (by omega)
  have h2 := hdim 2 (by omega)
  have h3 := hdim 3 (by omega)
  have hr0 := initialized_off_rec img ts d ds ch hd 0 (by omega)
  have hr1 := initialized_off_rec img ts d ds ch hd 1 (by omega)
  have hr2 := initialized_off_rec img ts d ds ch hd 2 (by omega)
  have hr3 := initialized_off_rec img ts d ds ch hd 3 (by omega)
  have hz := initialized_off_zero img ts d ds ch
  have hp4 : (img.initialized ts d ds ch).dim 0 * (img.initialized ts d ds ch).dim 1 *
      (img.initialized ts d ds ch).dim 2 * (img.initialized ts d ds ch).dim 3 < 2 ^ 64 :=
    lt_of_le_of_lt (Nat.le_mul_of_pos_right _ hts) hbytes
  have hp3 : (img.initialized ts d ds ch).dim 0 * (img.initialized ts d ds ch).dim 1 *
      (img.initialized ts d ds ch).dim 2 < 2 ^ 64 :=
    lt_of_le_of_lt (Nat.le_mul_of_pos_right _ h3) hp4
  have hp2 : (img.initialized ts d ds ch).dim 0 * (img.initialized ts d ds ch).dim 1 < 2 ^ 64 :=
    lt_of_le_of_lt (Nat.le_mul_of_pos_right _ h2) hp3
  have hp1 : (img.initialized ts d ds ch).dim 0 < 2 ^ 64 :=
    lt_of_le_of_lt (Nat.le_mul_of_pos_right _ h1) hp2
  rw [hz, Nat.one_mul, sizeT_of_lt hp1] at hr0
  rw [hr0, sizeT_of_lt hp2] at hr1
  rw [hr1, sizeT_of_lt hp3] at hr2
  rw [hr2, sizeT_of_lt hp4] at hr3
  have hchan : (img.initialized ts d ds ch).GetNumberOfChannels = ch := rfl
  have hps : (img.initialized ts d ds ch).ptypeSize = ts := rfl
  have hrank : (img.initialized ts d ds ch).m_Dimension = d := rfl
  have hsz : ∀ k, (img.initialized ts d ds ch).ComputeItemSize k = ((copyDimensions ds d).take k).prod * ts :=
    fun _ => rfl
  have hx0 := initialized_dim img ts d ds ch 0
  have hx1 := initialized_dim img ts d ds ch 1
  have hx2 := initialized_dim img ts d ds ch 2
  have hx3 := initialized_dim img ts d ds ch 3
  refine ⟨?_, ⟨?_, ?_, ?_⟩⟩
  · refine
      { init := rfl
        d2_pos := h2
        d3_pos := h3
        slices_lt := by rw [hchan]; exact hsl
        slices_len := ?_
        volumes_len := ?_
        channels_len := ?_
        off3 := by rw [hr2, hr1]
        off4 := by rw [hr3, hr2]
        bytes_lt := by rw [hr3, hps]; exact hbytes
        size2 := ?_
        size3 := ?_
        sizeCh := ?_
        rank4 := ?_ }
    · have hl : (img.initialized ts d ds ch).m_Slices.length =
          u32 (ch * (img.initialized ts d ds ch).dim 3 * (img.initialized ts d ds ch).dim 2) := by
        show (List.map _ (List.replicate _ _)).length = _
        rw [List.length_map, List.length_replicate]
        rfl
      rw [hl, hchan]
      exact u32_of_lt (by omega)
    · have hl : (img.initialized ts d ds ch).m_Volumes.length =
          u32 (ch * (img.initialized ts d ds ch).dim 3) := by
        show (List.map _ (List.replicate _ _)).length = _
        rw [List.length_map, List.length_replicate]
        rfl
      rw [hl, hchan]
      apply u32_of_lt
      have : ch * (img.initialized ts d ds ch).dim 3 ≤
          ch * (img.initialized ts d ds ch).dim 3 * (img.initialized ts d ds ch).dim 2 :=
        Nat.le_mul_of_pos_right _ h2
      omega
    · show (List.map _ (List.replicate _ _)).length = _
      rw [List.length_map, List.length_replicate]
      rfl
    · rw [hsz, hr1, hps, hx0, hx1, copyDimensions_eq]
      simp
    · rw [hsz, hr2, hps, hx0, hx1, hx2, copyDimensions_eq]
      simp [Nat.mul_assoc]
    · rw [hsz, hr3, hps, hrank, hx0, hx1, hx2, hx3]
      apply Nat.mul_le_mul_right
      have key : ∀ a b c x y : Nat, 1 ≤ y → a * (b * (c * x)) ≤ a * (b * (c * (x * y))) :=
        fun a b c x y hy =>
          Nat.mul_le_mul_left _ (Nat.mul_le_mul_left _ (Nat.mul_le_mul_left _
            (Nat.le_mul_of_pos_right _ hy)))
      rw [copyDimensions_eq]
      interval_cases d <;> simp [Nat.mul_assoc]
      · exact key _ _ _ _ _ (by simpa using hall 4 (by omega))
      · exact key _ _ _ _ _ (Nat.mul_pos (by simpa using hall 4 (by omega))
          (by simpa using hall 5 (by omega)))
      · exact key _ _ _ _ _ (Nat.mul_pos (by simpa using hall 4 (by omega))
          (Nat.mul_pos (by simpa using hall 5 (by omega)) (by simpa using hall 6 (by omega))))
      · exact key _ _ _ _ _ (Nat.mul_pos (by simpa using hall 4 (by omega))
          (Nat.mul_pos (by simpa using hall 5 (by omega))
            (Nat.mul_pos (by simpa using hall 6 (by omega)) (by simpa using hall 7 (by omega)))))
    · intro hgt
      rw [hx3, copyDimensions_getD _ _ _ (by omega)] at hgt
      by_contra hlt
      rw [if_neg (by rw [hrank] at hlt; omega)] at hgt
      simp at hgt
  · intro q hq
    have : some q ∈ List.map (fun _ => (none : Option Nat)) (List.replicate _ (none : Option Nat)) := hq
    simp at this
  · intro q hq
    have : some q ∈ List.map (fun _ => (none : Option Nat)) (List.replicate _ (none : Option Nat)) := hq
    simp at this
  · intro q hq
    have : some q ∈ List.map (fun _ => (none : Option Nat)) (List.replicate _ (none : Option Nat)) := hq
    simp at this

/-! ## Sample images -/

/-- C3, the failing input evaluated.  After `SetSlice` of slice 0 with 1 2 3 4 and
`SetVolume` of its volume with 9 9 9 9 8 8 8 8 (both return `true`), `GetSliceData` of
slice 0 still holds 1 2 3 4, while `GetVolumeData` holds the volume that was written. -/
theorem stale_slice_after_SetVolume :
    sample.IsValidVolume 0 0 = true ∧
    writesOfVolumeWrite = some (true, true) ∧
    sliceAfterVolumeWrite = some [1, 2, 3, 4] ∧
    volumeAfterVolumeWrite = some [9, 9, 9, 9, 8, 8, 8, 8] := by
  decide

/-! ## Pull through a channel-filling source -/

theorem WF.offset_lt {img : Image} (h : WF img) {s t : Nat} (hs : s < img.dim 2) (ht : t < img.dim 3) :
    (s * img.off 2 + t * img.off 3) * img.ptypeSize + img.off 2 * img.ptypeSize ≤
      img.off 4 * img.ptypeSize := by
  rw [← Nat.add_mul]
  apply Nat.mul_le_mul_right
  rw [h.off4, h.off3]
  have h1 : (s + 1) * img.off 2 ≤ img.dim 2 * img.off 2 := Nat.mul_le_mul_right _ hs
  have h2 : (t + 1) * (img.off 2 * img.dim 2) ≤ img.dim 3 * (img.off 2 * img.dim 2) :=
    Nat.mul_le_mul_right _ ht
  have e1 : (s + 1) * img.off 2 = s * img.off 2 + img.off 2 := by ring
  have e2 : (t + 1) * (img.off 2 * img.dim 2) = t * (img.off 2 * img.dim 2) + img.dim 2 * img.off 2 := by
    ring
  have e3 : img.dim 3 * (img.off 2 * img.dim 2) = img.off 2 * img.dim 2 * img.dim 3 := by ring
  omega

/-- The slice is produced as a view into the complete channel when neither the slice nor
a complete volume is stored. -/
theorem GetSliceData_from_channel (src : Option Source) (fuel : Nat) (img : Image) (s t n : Int)
    (data : Option Ptr) (imm : ImportMemoryManagementType) (c : Nat)
    (hv : img.IsValidSlice s t n = true)
    (hsl : elemAt img.m_Slices (img.GetSliceIndex s t n) = none)
    (hvol : img.completeEntry (elemAt img.m_Volumes (img.GetVolumeIndex t n)) = false)
    (hch : elemAt img.m_Channels n = some c) (hc : img.IsComplete c = true) :
    GetSliceData_unlocked src (fuel + 1) img s t n data imm =
      some ((img.installSliceView (img.GetSliceIndex s t n) c t data imm
          (sizeT ((s.toNat * img.off 2 + t.toNat * img.off 3) * img.ptypeSize))).1, some img.nItems) := by
  unfold GetSliceData_unlocked
  have hcc : img.completeEntry (some c) = true := hc
  simp only [hv, Bool.true_eq_false, Bool.false_eq_true, if_false, hsl, hvol, hch, hcc, if_true]
  rfl

/-- A channel import into an image whose channel is not set installs the caller's buffer as
the complete channel item, without copying a byte. -/
theorem SetImportChannel_adopt (src : Option Source) (fuel : Nat) (img : Image) (buf : Ptr) (n : Int)
    (hv : img.IsValidChannel n = true) (hset : img.IsChannelSet n = false) :
    ∃ x, SetImportChannel src fuel img (some buf) n ImportMemoryManagementType.ManageMemory =
        some (x, true) ∧
      SameShape img x ∧ x.m_Slices = img.m_Slices ∧ x.m_Volumes = img.m_Volumes ∧
      x.m_Channels = assignAt img.m_Channels n (some img.nItems) ∧
      x.nItems = img.nItems + 1 ∧ (x.items img.nItems).m_Data = buf ∧
      (x.items img.nItems).m_ManageMemory = true ∧ x.IsComplete img.nItems = true ∧
      x.mem = img.mem ∧ x.fault = img.fault ∧ x.updates = img.updates := by
  unfold SetImportChannel
  rw [hv, hset]
  simp only [Bool.true_eq_false, Bool.false_eq_true, if_false]
  refine ⟨_, rfl, ?_⟩
  simp [AllocateChannelData, AllocateChannelData_unlocked, newChannelItem, newItem, addItem, copyInto,
    SetComplete, IsComplete]
  exact ⟨rfl, rfl, rfl, rfl, rfl, rfl⟩

theorem readBytes_congr {a b : Image} (h : b.mem = a.mem) (p : Ptr) (len : Nat) :
    b.readBytes p len = a.readBytes p len := by
  simp [readBytes, h]

theorem channelFiller_update (buf : Ptr) (n : Int) (img : Image)
    (hv : img.IsValidChannel n = true) (hset : img.IsChannelSet n = false) :
    ∃ x, (channelFiller buf n).update img = x ∧
      SameShape img x ∧ x.m_Slices = img.m_Slices ∧ x.m_Volumes = img.m_Volumes ∧
      x.m_Channels = assignAt img.m_Channels n (some img.nItems) ∧
      x.nItems = img.nItems + 1 ∧ (x.items img.nItems).m_Data = buf ∧
      (x.items img.nItems).m_ManageMemory = true ∧ x.IsComplete img.nItems = true ∧
      x.mem = img.mem ∧ x.fault = img.fault ∧ x.updates = img.updates := by
  obtain ⟨x, hx, facts⟩ := SetImportChannel_adopt (some ⟨true, true, fun j => j⟩) 1 img buf n hv hset
  refine ⟨x, ?_, facts⟩
  simp [channelFiller, hx]

/-- Nothing is set in a well-formed image whose three arrays are empty. -/
theorem empty_not_set (img : Image) (hw : WF img) (hS : ∀ k, img.m_Slices.getD k none = none)
    (hV : ∀ k, img.m_Volumes.getD k none = none) (hC : ∀ k, img.m_Channels.getD k none = none) :
    (∀ s t n, img.IsSliceSet_unlocked s t n = false) ∧ (∀ t n, img.IsVolumeSet_unlocked t n = false) ∧
    (∀ n, img.IsChannelSet_unlocked n = false) := by
  have hnone : img.completeEntry none = false := rfl
  have hvol : ∀ t n, img.IsVolumeSet_unlocked t n = false := by
    intro t n
    by_contra hne
    have hset : img.IsVolumeSet_unlocked t n = true := by simpa using hne
    have hv := isVolumeSet_valid hset
    rw [hw.validVolume_iff] at hv
    obtain ⟨ht0, ht1, hn0, hn1⟩ := hv
    obtain ⟨t, rfl⟩ := Int.eq_ofNat_of_zero_le ht0
    obtain ⟨n, rfl⟩ := Int.eq_ofNat_of_zero_le hn0
    rw [hw.isVolumeSet_nat (by exact_mod_cast ht1) (by exact_mod_cast hn1), hV, hC] at hset
    simp only [hnone, Bool.false_or, List.all_eq_true, List.mem_range] at hset
    have := hset 0 hw.d2_pos
    rw [hS] at this
    simp at this
  refine ⟨?_, hvol, ?_⟩
  · intro s t n
    by_contra hne
    have hset : img.IsSliceSet_unlocked s t n = true := by simpa using hne
    have hv := isSliceSet_valid hset
    rw [hw.validSlice_iff] at hv
    obtain ⟨hs0, hs1, ht0, ht1, hn0, hn1⟩ := hv
    obtain ⟨s, rfl⟩ := Int.eq_ofNat_of_zero_le hs0
    obtain ⟨t, rfl⟩ := Int.eq_ofNat_of_zero_le ht0
    obtain ⟨n, rfl⟩ := Int.eq_ofNat_of_zero_le hn0
    rw [hw.isSliceSet_nat (by exact_mod_cast hs1) (by exact_mod_cast ht1) (by exact_mod_cast hn1),
      hS, hV, hC] at hset
    simp [hnone] at hset
  · intro n
    by_contra hne
    have hset : img.IsChannelSet_unlocked n = true := by simpa using hne
    have hv := isChannelSet_valid hset
    rw [hw.validChannel_iff] at hv
    obtain ⟨hn0, hn1⟩ := hv
    obtain ⟨n, rfl⟩ := Int.eq_ofNat_of_zero_le hn0
    rw [hw.isChannelSet_nat (by exact_mod_cast hn1), hC] at hset
    simp only [hnone, Bool.false_or, List.all_eq_true, List.mem_range] at hset
    have := hset 0 hw.d3_pos
    rw [hvol] at this
    cases this

/-- C8, amended. On a well-formed image whose three arrays are empty, with a pipeline source
whose `Update()` performs `SetImportChannel(buf, n, ManageMemory)`: `GetSliceData(s, t, n)`
of a valid slice holds the lock across `Update()`, `SetImportChannel` takes the same lock,
and the call never returns, whatever the recursion depth.  Without the lock,
`GetSliceData_unlocked(s, t, n)` calls `Update()` exactly once and returns a complete slice
item, stored in the slice array, that is a view into the installed channel item (which
adopted `buf`) at byte offset `(s * offset[2] + t * offset[3]) * stride`; its bytes are that
range of `buf`. -/
theorem pull_through_channel_filler (img : Image) (buf : Ptr) (s t n : Int) (fuel : Nat)
    (hw : WF img) (hS : ∀ k, img.m_Slices.getD k none = none)
    (hV : ∀ k, img.m_Volumes.getD k none = none) (hC : ∀ k, img.m_Channels.getD k none = none)
    (hv : img.IsValidSlice s t n = true) :
    (∀ f, GetSliceData (some (channelFiller buf n)) f img s t n none
      ImportMemoryManagementType.CopyMemory = none) ∧
    ∃ img' sl ch,
      GetSliceData_unlocked (some (channelFiller buf n)) (fuel + 2) img s t n none
        ImportMemoryManagementType.CopyMemory = some (img', some sl) ∧
      img'.updates = img.updates + 1 ∧
      elemAt img'.m_Channels n = some ch ∧ (img'.items ch).m_Data = buf ∧
      (img'.items ch).m_ManageMemory = true ∧ img'.IsComplete ch = true ∧
      elemAt img'.m_Slices (img'.GetSliceIndex s t n) = some sl ∧
      (img'.items sl).m_Parent = some ch ∧ (img'.items sl).m_ManageMemory = false ∧
      img'.IsComplete sl = true ∧
      (img'.items sl).m_Data =
        Ptr.add buf ((s.toNat * img.off 2 + t.toNat * img.off 3) * img.ptypeSize) ∧
      img'.readBytes (img'.items sl).m_Data (img.off 2 * img.ptypeSize) =
        img.readBytes (Ptr.add buf ((s.toNat * img.off 2 + t.toNat * img.off 3) * img.ptypeSize))
          (img.off 2 * img.ptypeSize) ∧
      img'.fault = img.fault := by
  have hv' := hv
  rw [hw.validSlice_iff] at hv'
  obtain ⟨hs0, hs1, ht0, ht1, hn0, hn1⟩ := hv'
  obtain ⟨s, rfl⟩ := Int.eq_ofNat_of_zero_le hs0
  obtain ⟨t, rfl⟩ := Int.eq_ofNat_of_zero_le ht0
  obtain ⟨n, rfl⟩ := Int.eq_ofNat_of_zero_le hn0
  have hs : s < img.dim 2 := by exact_mod_cast hs1
  have ht : t < img.dim 3 := by exact_mod_cast ht1
  have hn : n < img.GetNumberOfChannels := by exact_mod_cast hn1
  have hns := (empty_not_set img hw hS hV hC).1 s t n
  have hsrc : canUpdate (some (channelFiller buf n)) = some (channelFiller buf n) := rfl
  refine ⟨GetSliceData_blocked _ img s t n none ImportMemoryManagementType.CopyMemory hv hns _
    hsrc rfl, ?_⟩
  have hstep := GetSliceData_update (some (channelFiller buf n)) (fuel + 1) img s t n none
    ImportMemoryManagementType.CopyMemory hv hns _ hsrc
  -- the state `Update()` is called on, and the one it leaves
  have hw0 : WF { img with m_RequestedRegion := ⟨[0, 0, (s : Int), t, n], [img.dim 0, img.dim 1, 1, 1, 1]⟩,
                           m_RequestedRegionInitialized := true } :=
    hw.of_sameShape ⟨rfl, rfl, rfl, rfl, rfl, rfl⟩ rfl rfl rfl
  obtain ⟨x, hx, hsh, hxs, hxv, hxc, hxn, hxd, hxm, hxcomp, hxmem, hxf, hxu⟩ :=
    channelFiller_update buf n _ (hw0.validChannel_nat hn) ((empty_not_set _ hw0 hS hV hC).2.2 n)
  have hcall : img.callUpdate (channelFiller buf n) [0, 0, (s : Int), t, n] [img.dim 0, img.dim 1, 1, 1, 1] =
      { x with updates := img.updates + 1 } := by
    unfold callUpdate
    simp only []
    rw [hx]
  rw [hcall] at hstep
  obtain ⟨y, hy⟩ : ∃ y : Image, y = { x with updates := img.updates + 1 } := ⟨_, rfl⟩
  rw [← hy] at hstep
  have hysh : SameShape img y := by
    subst hy
    exact ⟨hsh.init, hsh.rank, hsh.dims, hsh.ptype, hsh.offs, hsh.region⟩
  have hys : y.m_Slices = img.m_Slices := by subst hy; exact hxs
  have hyv : y.m_Volumes = img.m_Volumes := by subst hy; exact hxv
  have hyc : y.m_Channels = assignAt img.m_Channels n (some img.nItems) := by subst hy; exact hxc
  have hyn : y.nItems = img.nItems + 1 := by subst hy; exact hxn
  have hyi : y.items = x.items := by subst hy; rfl
  have hymem : y.mem = img.mem := by subst hy; exact hxmem
  have hyf : y.fault = img.fault := by subst hy; exact hxf
  have hyu : y.updates = img.updates + 1 := by subst hy; rfl
  have hycomp : y.IsComplete img.nItems = true := by subst hy; exact hxcomp
  have hwy : WF y := hw.of_sameShape hysh (by rw [hys]) (by rw [hyv])
    (by rw [hyc, length_assignAt])
  have hd2 : y.dim 2 = img.dim 2 := hysh.dim 2
  have hd3 : y.dim 3 = img.dim 3 := hysh.dim 3
  have hchn : y.GetNumberOfChannels = img.GetNumberOfChannels := hysh.channels
  have hych : elemAt y.m_Channels (n : Int) = some img.nItems := by
    rw [hyc, elemAt_nat, getD_assignAt_nat, if_pos ⟨rfl, by rw [hw.channels_len]; exact hn⟩]
  have hysl : elemAt y.m_Slices (y.GetSliceIndex s t n) = none := by
    rw [hwy.sliceIndex_eq (by omega) (by omega) (by omega), elemAt_nat, hys, hS]
  have hyvol : y.completeEntry (elemAt y.m_Volumes (y.GetVolumeIndex t n)) = false := by
    rw [hwy.volumeIndex_eq (by omega) (by omega), elemAt_nat, hyv, hV]
    rfl
  have hvy : y.IsValidSlice s t n = true := by rw [hysh.validSlice]; exact hv
  have hyset : y.IsSliceSet_unlocked (s : Int) t n = true := by
    rw [isSliceSet_eq _ _ _ _ hvy, hych]
    simp only [Bool.or_eq_true]
    exact Or.inr hycomp
  rw [if_pos hyset, GetSliceData_from_channel _ fuel y s t n none _ img.nItems hvy hysl hyvol hych hycomp]
    at hstep
  have hoff : sizeT (((s : Int).toNat * y.off 2 + (t : Int).toNat * y.off 3) * y.ptypeSize) =
      ((s : Int).toNat * img.off 2 + (t : Int).toNat * img.off 3) * img.ptypeSize := by
    rw [hysh.off, hysh.off, hysh.ptype]
    apply sizeT_of_lt
    simp only [Int.toNat_ofNat]
    have h1 := hw.offset_lt hs ht
    have h2 := hw.bytes_lt
    omega
  rw [hoff, hyn] at hstep
  refine ⟨_, _, img.nItems, hstep, ?_, ?_, ?_, ?_, ?_, ?_, ?_, ?_, ?_, ?_, ?_, ?_⟩
  · exact hyu
  · exact hych
  · show (Function.update (Function.update y.items y.nItems _) y.nItems _ img.nItems).m_Data = buf
    rw [Function.update_noteq (by omega), Function.update_noteq (by omega), hyi]
    exact hxd
  · show (Function.update (Function.update y.items y.nItems _) y.nItems _ img.nItems).m_ManageMemory = true
    rw [Function.update_noteq (by omega), Function.update_noteq (by omega), hyi]
    exact hxm
  · show (Function.update (Function.update y.items y.nItems _) y.nItems _ img.nItems).m_IsComplete = true
    rw [Function.update_noteq (by omega), Function.update_noteq (by omega)]
    exact hycomp
  · show elemAt (assignAt y.m_Slices (y.GetSliceIndex s t n) (some y.nItems)) _ = _
    have hidx : Image.GetSliceIndex (y.installSliceView (y.GetSliceIndex s t n) img.nItems t none
        ImportMemoryManagementType.CopyMemory
        (((s : Int).toNat * img.off 2 + (t : Int).toNat * img.off 3) * img.ptypeSize)).1 s t n =
        y.GetSliceIndex s t n := (sameShape_installSliceView _ _ _ _ _ _ _).sliceIndex _ _ _
    rw [hidx, hwy.sliceIndex_eq (by omega) (by omega) (by omega), elemAt_nat, getD_assignAt_nat,
      if_pos ⟨rfl, by
        rw [hwy.slices_len]
        exact hwy.sliceIndex_lt (by omega) (by omega) (by omega)⟩, hyn]
  · show (Function.update (Function.update y.items y.nItems _) y.nItems _ (img.nItems + 1)).m_Parent = _
    rw [hyn, Function.update_same]
    simp [newSubItem, addItem, hyn]
  · show (Function.update (Function.update y.items y.nItems _) y.nItems _ (img.nItems + 1)).m_ManageMemory = _
    rw [hyn, Function.update_same]
    simp [newSubItem, addItem, hyn]
  · show (Function.update (Function.update y.items y.nItems _) y.nItems _ (img.nItems + 1)).m_IsComplete = _
    rw [hyn, Function.update_same]
  · show (Function.update (Function.update y.items y.nItems _) y.nItems _ (img.nItems + 1)).m_Data = _
    rw [hyn, Function.update_same]
    simp [newSubItem, addItem, hyn, hyi, hxd]
  · have hd : ((y.installSliceView (y.GetSliceIndex s t n) img.nItems t none
        ImportMemoryManagementType.CopyMemory
        (((s : Int).toNat * img.off 2 + (t : Int).toNat * img.off 3) * img.ptypeSize)).1.items
          (img.nItems + 1)).m_Data =
        Ptr.add buf (((s : Int).toNat * img.off 2 + (t : Int).toNat * img.off 3) * img.ptypeSize) := by
      show (Function.update (Function.update y.items y.nItems _) y.nItems _ (img.nItems + 1)).m_Data = _
      rw [hyn, Function.update_same]
      simp [newSubItem, addItem, hyn, hyi, hxd]
    rw [hd]
    exact readBytes_congr hymem _ _
  · exact hyf

theorem getD_replicate_none {α : Type} (m k : Nat) :
    (List.replicate m (none : Option α)).getD k none = none := by
  rw [List.getD_eq_getElem?_getD, List.getElem?_replicate]
  split <;> rfl

theorem pullImage_wf : WF pullImage :=
  (wf_initialized Image.empty 1 3 [10, 10, 4] 2 (by decide) (by decide) (by decide) (by decide)
    (by decide)).1.of_sameShape ⟨rfl, rfl, rfl, rfl, rfl, rfl⟩ rfl rfl rfl

/-- C8, counterexample. On the empty image of 10 x 10 x 4 pixels next to a buffer of ones, with
the pipeline source whose `Update()` performs `SetImportChannel(buf, 0, ManageMemory)`, slice
`(2, 0, 0)` is valid and not set, the source is idle, and `GetSliceData(2, 0, 0)` returns for
no recursion depth: no slice entry and no bytes are returned. -/
theorem pull_through_never_returns :
    pullImage.IsValidSlice 2 0 0 = true ∧ pullImage.IsSliceSet 2 0 0 = false ∧
    canUpdate (some (channelFiller pullBuffer 0)) = some (channelFiller pullBuffer 0) ∧
    (channelFiller pullBuffer 0).locks = true ∧
    ∀ fuel, GetSliceData (some (channelFiller pullBuffer 0)) fuel pullImage 2 0 0 none
      ImportMemoryManagementType.CopyMemory = none :=
  ⟨by decide, by decide, rfl, rfl,
    GetSliceData_blocked _ pullImage 2 0 0 none ImportMemoryManagementType.CopyMemory
      (by decide) (by decide) _ rfl rfl⟩

theorem pull_through_channel_filler_witness :
    WF pullImage ∧ pullImage.IsValidSlice 2 0 0 = true ∧
    (∀ f, GetSliceData (some (channelFiller pullBuffer 0)) f pullImage 2 0 0 none
      ImportMemoryManagementType.CopyMemory = none) ∧
    ∃ img' sl ch,
      GetSliceData_unlocked (some (channelFiller pullBuffer 0)) 2 pullImage 2 0 0 none
        ImportMemoryManagementType.CopyMemory = some (img', some sl) ∧
      img'.updates = pullImage.updates + 1 ∧
      elemAt img'.m_Channels 0 = some ch ∧ (img'.items ch).m_Data = pullBuffer ∧
      (img'.items ch).m_ManageMemory = true ∧ img'.IsComplete ch = true ∧
      elemAt img'.m_Slices (img'.GetSliceIndex 2 0 0) = some sl ∧
      (img'.items sl).m_Parent = some ch ∧ (img'.items sl).m_ManageMemory = false ∧
      img'.IsComplete sl = true ∧
      (img'.items sl).m_Data =
        Ptr.add pullBuffer (((2 : Int).toNat * pullImage.off 2 + (0 : Int).toNat * pullImage.off 3) *
          pullImage.ptypeSize) ∧
      img'.readBytes (img'.items sl).m_Data (pullImage.off 2 * pullImage.ptypeSize) =
        pullImage.readBytes (Ptr.add pullBuffer
          (((2 : Int).toNat * pullImage.off 2 + (0 : Int).toNat * pullImage.off 3) * pullImage.ptypeSize))
          (pullImage.off 2 * pullImage.ptypeSize) ∧
      img'.fault = pullImage.fault :=
  ⟨pullImage_wf, by decide,
    pull_through_channel_filler pullImage pullBuffer 2 0 0 0 pullImage_wf
      (fun k => getD_replicate_none 8 k) (fun k => getD_replicate_none 2 k)
      (fun k => getD_replicate_none 2 k) (by decide)⟩

/-! ## Filling a volume slice by slice -/

theorem WF.slice_bytes_lt {img : Image} (h : WF img) {s : Nat} (hs : s < img.dim 2) :
    s * (img.off 2 * img.ptypeSize) + img.off 2 * img.ptypeSize < 2 ^ 64 := by
  have h1 := h.offset_lt hs (t := 0) h.d3_pos
  have h2 := h.bytes_lt
  have e : (s * img.off 2 + 0 * img.off 3) * img.ptypeSize = s * (img.off 2 * img.ptypeSize) := by ring
  omega

theorem inBounds_iff (img : Image) (p : Ptr) (len : Nat) :
    img.inBounds p len = true ↔ p.buf < img.nBufs ∧ p.off + len ≤ img.bufSize p.buf := by
  simp [inBounds]

theorem WF.slice_in_volume {img : Image} (h : WF img) {s : Nat} (hs : s < img.dim 2) :
    s * img.off 2 * img.ptypeSize + img.off 2 * img.ptypeSize ≤ img.off 3 * img.ptypeSize := by
  rw [h.off3]
  have h1 : (s + 1) * (img.off 2 * img.ptypeSize) ≤ img.dim 2 * (img.off 2 * img.ptypeSize) :=
    Nat.mul_le_mul_right _ hs
  have e1 : (s + 1) * (img.off 2 * img.ptypeSize) =
      s * img.off 2 * img.ptypeSize + img.off 2 * img.ptypeSize := by ring
  have e2 : img.dim 2 * (img.off 2 * img.ptypeSize) = img.off 2 * img.dim 2 * img.ptypeSize := by ring
  omega

theorem WF.volume_le_channel {img : Image} (h : WF img) :
    img.off 3 * img.ptypeSize ≤ img.off 4 * img.ptypeSize := by
  rw [h.off4]
  have := h.d3_pos
  calc img.off 3 * img.ptypeSize = img.off 3 * 1 * img.ptypeSize := by ring
    _ ≤ img.off 3 * img.dim 3 * img.ptypeSize :=
      Nat.mul_le_mul_right _ (Nat.mul_le_mul_left _ this)

theorem Safe.ids {B : Nat} {x : Image} (h : Safe B x) : IdsOK x :=
  ⟨fun q hq => (h.sl q hq).1, fun q hq => (h.vo q hq).1, fun q hq => (h.ch q hq).1⟩

theorem GetSliceData_stored (src : Option Source) (fuel : Nat) (z : Image) (s t n : Int) (e : Nat)
    (data : Option Ptr) (imm : ImportMemoryManagementType) (hv : z.IsValidSlice s t n = true)
    (hslot : elemAt z.m_Slices (z.GetSliceIndex s t n) = some e) :
    GetSliceData src (fuel + 1) z s t n data imm = some (z, some e) := by
  refine GetSliceData_of_unlocked ?_ rfl
  unfold GetSliceData_unlocked
  simp only [hv, Bool.true_eq_false, if_false, hslot]

theorem GetVolumeData_stored (src : Option Source) (fuel : Nat) (z : Image) (t n : Int) (e : Nat)
    (data : Option Ptr) (imm : ImportMemoryManagementType) (hv : z.IsValidVolume t n = true)
    (hslot : elemAt z.m_Volumes (z.GetVolumeIndex t n) = some e) (hc : z.IsComplete e = true) :
    GetVolumeData src (fuel + 1) z t n data imm = some (z, some e) := by
  refine GetVolumeData_of_unlocked ?_ rfl
  have hce : z.completeEntry (some e) = true := hc
  unfold GetVolumeData_unlocked
  simp only [hv, Bool.true_eq_false, if_false, hslot, hce, if_true]

theorem invalid_of_not_initialized (x : Image) (h : x.m_Initialized = false) (s t n : Int) :
    x.IsValidSlice s t n = false ∧ x.IsValidVolume t n = false ∧ x.IsValidChannel n = false := by
  simp [IsValidSlice, IsValidVolume, IsValidChannel, h]

theorem GetSliceData_invalid (src : Option Source) (fuel : Nat) (x : Image) (s t n : Int)
    (data : Option Ptr) (imm : ImportMemoryManagementType) (h : x.IsValidSlice s t n = false) :
    GetSliceData src (fuel + 1) x s t n data imm = some (x, none) := by
  refine GetSliceData_of_unlocked ?_ rfl
  simp [GetSliceData_unlocked, h]

theorem GetVolumeData_invalid (src : Option Source) (fuel : Nat) (x : Image) (t n : Int)
    (data : Option Ptr) (imm : ImportMemoryManagementType) (h : x.IsValidVolume t n = false) :
    GetVolumeData src (fuel + 1) x t n data imm = some (x, none) := by
  refine GetVolumeData_of_unlocked ?_ rfl
  simp [GetVolumeData_unlocked, h]

theorem GetChannelData_invalid (src : Option Source) (fuel : Nat) (x : Image) (n : Int)
    (data : Option Ptr) (imm : ImportMemoryManagementType) (h : x.IsValidChannel n = false) :
    GetChannelData src (fuel + 1) x n data imm = some (x, none) := by
  refine GetChannelData_of_unlocked ?_ rfl
  simp [GetChannelData_unlocked, h]

theorem isSet_invalid (x : Image) (s t n : Int) :
    (x.IsValidSlice s t n = false → x.IsSliceSet s t n = false) ∧
    (x.IsValidVolume t n = false → x.IsVolumeSet t n = false) ∧
    (x.IsValidChannel n = false → x.IsChannelSet n = false) := by
  refine ⟨fun h => ?_, fun h => ?_, fun h => ?_⟩
  · simp [IsSliceSet, IsSliceSet_unlocked, h]
  · simp [IsVolumeSet, IsVolumeSet_unlocked, h]
  · simp [IsChannelSet, IsChannelSet_unlocked, h]

theorem SetImport_invalid (src : Option Source) (fuel : Nat) (x : Image) (s t n : Int)
    (data : Option Ptr) (imm : ImportMemoryManagementType) :
    (x.IsValidSlice s t n = false → SetImportSlice src fuel x data s t n imm = some (x, false)) ∧
    (x.IsValidVolume t n = false → SetImportVolume src fuel x data t n imm = some (x, false)) ∧
    (x.IsValidChannel n = false → SetImportChannel src fuel x data n imm = some (x, false)) := by
  refine ⟨fun h => ?_, fun h => ?_, fun h => ?_⟩
  · simp [SetImportSlice, h]
  · simp [SetImportVolume, h]
  · simp [SetImportChannel, h]

theorem Initialize_thrown (img : Image) (ts d : Nat) (dimensions : Option (List Nat)) (ch : Nat)
    (h : (img.Initialize ts d dimensions ch).threw = true) :
    img.Initialize ts d dimensions ch = Outcome.thrown { img.Clear with m_Dimension := d } := by
  unfold Initialize at h ⊢
  cases dimensions with
  | none => rfl
  | some ds =>
    simp only at h ⊢
    split
    · rfl
    · rename_i hany
      rw [if_neg hany] at h
      split at h <;> simp [Outcome.threw] at h

/-- C11. When `Initialize` raises (a declared extent below 1, or a null extents pointer),
whatever state the image was in before, also an initialized one holding data: the object
is left not initialized with the extents array released by `Clear()`; `IsValidSlice`,
`IsValidVolume` and `IsValidChannel` are false for every coordinate, every accessor returns
`nullptr` and leaves the object as it is, every presence query returns false, and
`SetImportSlice`, `SetImportVolume` and `SetImportChannel` (hence `SetSlice`, `SetVolume`,
`SetChannel`) return false without changing the object. -/
theorem failed_Initialize_leaves_uninitialized (src : Option Source) (fuel : Nat) (img : Image)
    (ts d : Nat) (ds : List Nat) (ch : Nat) (hext : ∃ i, i < d ∧ ds.getD i 0 < 1) :
    ∃ x, img.Initialize ts d (some ds) ch = Outcome.thrown x ∧
      x.m_Initialized = false ∧ x.m_Dimensions = none ∧
      (∀ s t n, x.IsValidSlice s t n = false ∧ x.IsValidVolume t n = false ∧
        x.IsValidChannel n = false) ∧
      (∀ s t n data imm,
        GetSliceData src (fuel + 1) x s t n data imm = some (x, none) ∧
        GetVolumeData src (fuel + 1) x t n data imm = some (x, none) ∧
        GetChannelData src (fuel + 1) x n data imm = some (x, none)) ∧
      (∀ s t n, x.IsSliceSet s t n = false ∧ x.IsVolumeSet t n = false ∧
        x.IsChannelSet n = false) ∧
      (∀ s t n data imm,
        SetImportSlice src fuel x data s t n imm = some (x, false) ∧
        SetImportVolume src fuel x data t n imm = some (x, false) ∧
        SetImportChannel src fuel x data n imm = some (x, false)) ∧
      (∀ s t n data,
        SetSlice src fuel x data s t n = some (x, false) ∧
        SetVolume src fuel x data t n = some (x, false) ∧
        SetChannel src fuel x data n = some (x, false)) := by
  have hthrow : (img.Initialize ts d (some ds) ch).threw = true := by
    obtain ⟨i, hi, hlt⟩ := hext
    have hany : (List.range d).any (fun i => decide (ds.getD i 0 < 1)) = true := by
      rw [List.any_eq_true]
      exact ⟨i, List.mem_range.mpr hi, by simpa using hlt⟩
    simp only [Initialize, hany, if_true, Outcome.threw]
  have hx := Initialize_thrown img ts d (some ds) ch hthrow
  have hinit : ({ img.Clear with m_Dimension := d } : Image).m_Initialized = false := rfl
  refine ⟨_, hx, hinit, rfl, fun s t n => invalid_of_not_initialized _ hinit s t n, ?_, ?_, ?_, ?_⟩
  · intro s t n data imm
    obtain ⟨h1, h2, h3⟩ := invalid_of_not_initialized _ hinit s t n
    exact ⟨GetSliceData_invalid src fuel _ s t n data imm h1,
      GetVolumeData_invalid src fuel _ t n data imm h2,
      GetChannelData_invalid src fuel _ n data imm h3⟩
  · intro s t n
    obtain ⟨h1, h2, h3⟩ := invalid_of_not_initialized _ hinit s t n
    obtain ⟨g1, g2, g3⟩ := isSet_invalid { img.Clear with m_Dimension := d } s t n
    exact ⟨g1 h1, g2 h2, g3 h3⟩
  · intro s t n data imm
    obtain ⟨h1, h2, h3⟩ := invalid_of_not_initialized _ hinit s t n
    obtain ⟨g1, g2, g3⟩ := SetImport_invalid src fuel { img.Clear with m_Dimension := d } s t n data imm
    exact ⟨g1 h1, g2 h2, g3 h3⟩
  · intro s t n data
    obtain ⟨h1, h2, h3⟩ := invalid_of_not_initialized _ hinit s t n
    obtain ⟨g1, g2, g3⟩ := SetImport_invalid src fuel { img.Clear with m_Dimension := d } s t n data
      ImportMemoryManagementType.CopyMemory
    exact ⟨g1 h1, g2 h2, g3 h3⟩

theorem failed_Initialize_leaves_uninitialized_witness :
    (∃ i, i < 3 ∧ [2, 0, 2].getD i 0 < 1) ∧
    sampleWritten.m_Initialized = true ∧ sampleWritten.IsSliceSet 0 0 0 = true ∧
    ∃ x, sampleWritten.Initialize 1 3 (some [2, 0, 2]) 1 = Outcome.thrown x ∧
      x.m_Initialized = false ∧ x.IsSliceSet 0 0 0 = false ∧
      GetSliceData none (0 + 1) x 0 0 0 none ImportMemoryManagementType.CopyMemory = some (x, none) ∧
      SetSlice none 0 x (some ⟨0, 0⟩) 0 0 0 = some (x, false) := by
  obtain ⟨x, h1, h2, _, _, h5, h6, _, h8⟩ :=
    failed_Initialize_leaves_uninitialized none 0 sampleWritten 1 3 [2, 0, 2] 1
      ⟨1, by decide, by decide⟩
  exact ⟨⟨1, by decide, by decide⟩, by decide, by decide, x, h1, h2, (h6 0 0 0).1,
    (h5 0 0 0 none ImportMemoryManagementType.CopyMemory).1, (h8 0 0 0 (some ⟨0, 0⟩)).1⟩

/-! ## Coordinates out of range -/

theorem toInt_le (x : Nat) : toInt x ≤ (x : Int) := by
  unfold toInt
  have h := Nat.mod_le x (2 ^ 32)
  split <;> omega

theorem invalidSlice_of_out_of_range (img : Image) (s t n : Int)
    (h : img.m_Initialized = false ∨ s < 0 ∨ (img.dim 2 : Int) ≤ s ∨ t < 0 ∨ (img.dim 3 : Int) ≤ t ∨
      n < 0 ∨ (img.GetNumberOfChannels : Int) ≤ n) :
    img.IsValidSlice s t n = false := by
  unfold IsValidSlice
  cases hi : img.m_Initialized with
  | false => simp
  | true =>
    simp only [if_true]
    have h2 := toInt_le (img.dim 2)
    have h3 := toInt_le (img.dim 3)
    have h4 := toInt_le img.GetNumberOfChannels
    rw [hi] at h
    rcases h with h | h | h | h | h | h | h
    · simp at h
    all_goals
      simp only [Bool.and_eq_false_iff, decide_eq_false_iff_not, not_le, not_lt]
      omega

theorem invalidVolume_of_out_of_range (img : Image) (t n : Int)
    (h : img.m_Initialized = false ∨ t < 0 ∨ (img.dim 3 : Int) ≤ t ∨
      n < 0 ∨ (img.GetNumberOfChannels : Int) ≤ n) :
    img.IsValidVolume t n = false := by
  unfold IsValidVolume
  split
  · exact invalidSlice_of_out_of_range img 0 t n (by tauto)
  · rfl

theorem invalidChannel_of_out_of_range (img : Image) (n : Int)
    (h : img.m_Initialized = false ∨ n < 0 ∨ (img.GetNumberOfChannels : Int) ≤ n) :
    img.IsValidChannel n = false := by
  unfold IsValidChannel
  split
  · exact invalidSlice_of_out_of_range img 0 0 n (by tauto)
  · rfl

/-- C13. For every state of the image, every pipeline source and every coordinate that is
out of range (a negative entry, or an entry at or above its extent) or when the image is not
initialized: `GetSliceData`, `GetVolumeData` and `GetChannelData` return `nullptr` and the
object exactly as it was (so `Update()` was not called, and the three arrays and the
requested region are unchanged), and `IsSliceSet`, `IsVolumeSet`, `IsChannelSet` return
false.  At the volume tier only `t` and `n` are coordinates, at the channel tier only `n`. -/
theorem invalid_coordinate_not_found (src : Option Source) (fuel : Nat) (img : Image) (s t n : Int)
    (data : Option Ptr) (imm : ImportMemoryManagementType) :
    ((img.m_Initialized = false ∨ s < 0 ∨ (img.dim 2 : Int) ≤ s ∨ t < 0 ∨ (img.dim 3 : Int) ≤ t ∨
        n < 0 ∨ (img.GetNumberOfChannels : Int) ≤ n) →
      GetSliceData src (fuel + 1) img s t n data imm = some (img, none) ∧
      img.IsSliceSet s t n = false) ∧
    ((img.m_Initialized = false ∨ t < 0 ∨ (img.dim 3 : Int) ≤ t ∨
        n < 0 ∨ (img.GetNumberOfChannels : Int) ≤ n) →
      GetVolumeData src (fuel + 1) img t n data imm = some (img, none) ∧
      img.IsVolumeSet t n = false) ∧
    ((img.m_Initialized = false ∨ n < 0 ∨ (img.GetNumberOfChannels : Int) ≤ n) →
      GetChannelData src (fuel + 1) img n data imm = some (img, none) ∧
      img.IsChannelSet n = false) := by
  refine ⟨fun h => ?_, fun h => ?_, fun h => ?_⟩
  · have hv := invalidSlice_of_out_of_range img s t n h
    exact ⟨GetSliceData_invalid src fuel img s t n data imm hv, (isSet_invalid img s t n).1 hv⟩
  · have hv := invalidVolume_of_out_of_range img t n h
    exact ⟨GetVolumeData_invalid src fuel img t n data imm hv, (isSet_invalid img s t n).2.1 hv⟩
  · have hv := invalidChannel_of_out_of_range img n h
    exact ⟨GetChannelData_invalid src fuel img n data imm hv, (isSet_invalid img s t n).2.2 hv⟩

theorem invalid_coordinate_not_found_witness :
    (GetSliceData (some idleSource) (0 + 1) sampleWritten 2 (-1) 1 none
        ImportMemoryManagementType.CopyMemory = some (sampleWritten, none) ∧
      sampleWritten.IsSliceSet 2 (-1) 1 = false) ∧
    (GetVolumeData (some idleSource) (0 + 1) sampleWritten (-1) 1 none
        ImportMemoryManagementType.CopyMemory = some (sampleWritten, none) ∧
      sampleWritten.IsVolumeSet (-1) 1 = false) ∧
    (GetChannelData (some idleSource) (0 + 1) sampleWritten 1 none
        ImportMemoryManagementType.CopyMemory = some (sampleWritten, none) ∧
      sampleWritten.IsChannelSet 1 = false) :=
  have h := invalid_coordinate_not_found (some idleSource) 0 sampleWritten 2 (-1) 1 none
    ImportMemoryManagementType.CopyMemory
  ⟨h.1 (Or.inr (Or.inr (Or.inl (by decide)))), h.2.1 (Or.inr (Or.inl (by decide))),
    h.2.2 (Or.inr (Or.inr (by decide)))⟩

/-! ## The flat indices -/

theorem flat_slice_lt {a b c d2 d3 nch : Nat} (ha : a < d2) (hb : b < d3) (hc : c < nch) :
    a + b * d2 + c * d3 * d2 < nch * d3 * d2 := by
  have h1 : (b + 1) * d2 ≤ d3 * d2 := Nat.mul_le_mul_right _ hb
  have h2 : (c + 1) * (d3 * d2) ≤ nch * (d3 * d2) := Nat.mul_le_mul_right _ hc
  have h3 : (c + 1) * (d3 * d2) = c * d3 * d2 + d3 * d2 := by ring
  have h4 : nch * (d3 * d2) = nch * d3 * d2 := by ring
  have h5 : (b + 1) * d2 = b * d2 + d2 := by ring
  omega

theorem flat_volume_lt {b c d3 nch : Nat} (hb : b < d3) (hc : c < nch) :
    b + c * d3 < nch * d3 := by
  have h2 : (c + 1) * d3 ≤ nch * d3 := Nat.mul_le_mul_right _ hc
  have h3 : (c + 1) * d3 = c * d3 + d3 := by ring
  omega

theorem flat_volume_inj {b c b' c' d3 : Nat} (hb : b < d3) (hb' : b' < d3)
    (h : b + c * d3 = b' + c' * d3) : b = b' ∧ c = c' := by
  have h1 := volumeIndex_div d3 b c hb
  have h2 := volumeIndex_div d3 b' c' hb'
  rw [h, h2] at h1
  subst h1
  exact ⟨by omega, rfl⟩

theorem flat_slice_inj {a b c a' b' c' d2 d3 : Nat} (ha : a < d2) (ha' : a' < d2) (hb : b < d3)
    (hb' : b' < d3) (h : a + b * d2 + c * d3 * d2 = a' + b' * d2 + c' * d3 * d2) :
    a = a' ∧ b = b' ∧ c = c' := by
  have h1 := sliceIndex_div d2 d3 a b c ha
  have h2 := sliceIndex_div d2 d3 a' b' c' ha'
  rw [h, h2] at h1
  obtain ⟨e1, e2⟩ := flat_volume_inj hb' hb h1
  subst e1 e2
  exact ⟨by omega, rfl, rfl⟩

/-- A valid coordinate of an image whose number of slices fits `int` consists of natural
numbers below the extents. -/
theorem validSlice_bounds (img : Image) (s t n : Int) (h : img.IsValidSlice s t n = true)
    (hlt : img.GetNumberOfChannels * img.dim 3 * img.dim 2 < 2 ^ 31) :
    ∃ a b c : Nat, s = a ∧ t = b ∧ n = c ∧ a < img.dim 2 ∧ b < img.dim 3 ∧
      c < img.GetNumberOfChannels := by
  unfold IsValidSlice at h
  split at h
  · simp only [Bool.and_eq_true, decide_eq_true_eq] at h
    obtain ⟨⟨⟨⟨⟨h0, h1⟩, h2⟩, h3⟩, h4⟩, h5⟩ := h
    have g2 := toInt_le (img.dim 2)
    have g3 := toInt_le (img.dim 3)
    have g4 := toInt_le img.GetNumberOfChannels
    have p2 : 1 ≤ img.dim 2 := by omega
    have p3 : 1 ≤ img.dim 3 := by omega
    have p4 : 1 ≤ img.GetNumberOfChannels := by omega
    have q2 : img.dim 2 ≤ img.GetNumberOfChannels * img.dim 3 * img.dim 2 :=
      Nat.le_mul_of_pos_left _ (Nat.mul_pos p4 p3)
    have q3 : img.dim 3 ≤ img.GetNumberOfChannels * img.dim 3 := Nat.le_mul_of_pos_left _ p4
    have q3' : img.GetNumberOfChannels * img.dim 3 ≤ img.GetNumberOfChannels * img.dim 3 * img.dim 2 :=
      Nat.le_mul_of_pos_right _ p2
    have q4 : img.GetNumberOfChannels ≤ img.GetNumberOfChannels * img.dim 3 :=
      Nat.le_mul_of_pos_right _ p3
    rw [toInt_of_lt (by omega)] at h1 h3 h5
    exact ⟨s.toNat, t.toNat, n.toNat, by omega, by omega, by omega, by omega, by omega, by omega⟩
  · simp at h

theorem validVolume_bounds (img : Image) (t n : Int) (h : img.IsValidVolume t n = true)
    (hlt : img.GetNumberOfChannels * img.dim 3 * img.dim 2 < 2 ^ 31) :
    ∃ b c : Nat, t = b ∧ n = c ∧ b < img.dim 3 ∧ c < img.GetNumberOfChannels ∧ 1 ≤ img.dim 2 := by
  have h0 : img.IsValidSlice 0 t n = true := validSlice_zero_of_validVolume h
  obtain ⟨a, b, c, ha, hb, hc, h1, h2, h3⟩ := validSlice_bounds img 0 t n h0 hlt
  exact ⟨b, c, hb, hc, h2, h3, by omega⟩

theorem GetSliceIndex_value (img : Image) (a b c : Nat)
    (h : img.IsValidSlice a b c = true)
    (hlt : img.GetNumberOfChannels * img.dim 3 * img.dim 2 < 2 ^ 31)
    (ha : a < img.dim 2) (hb : b < img.dim 3) (hc : c < img.GetNumberOfChannels) :
    img.GetSliceIndex a b c = ((a + b * img.dim 2 + c * img.dim 3 * img.dim 2 : Nat) : Int) := by
  unfold GetSliceIndex
  rw [h]
  have := flat_slice_lt ha hb hc
  simp only [Bool.true_eq_false, if_false, Int.toNat_ofNat]
  rw [sizeT_of_lt (by omega), toInt_of_lt (by omega)]

theorem GetVolumeIndex_value (img : Image) (b c : Nat)
    (h : img.IsValidVolume b c = true)
    (hlt : img.GetNumberOfChannels * img.dim 3 * img.dim 2 < 2 ^ 31)
    (hb : b < img.dim 3) (hc : c < img.GetNumberOfChannels) (h2 : 1 ≤ img.dim 2) :
    img.GetVolumeIndex b c = ((b + c * img.dim 3 : Nat) : Int) := by
  unfold GetVolumeIndex
  rw [h]
  have := flat_volume_lt hb hc
  have q3' : img.GetNumberOfChannels * img.dim 3 ≤ img.GetNumberOfChannels * img.dim 3 * img.dim 2 :=
    Nat.le_mul_of_pos_right _ h2
  simp only [Bool.true_eq_false, if_false, Int.toNat_ofNat]
  rw [sizeT_of_lt (by omega), toInt_of_lt (by omega)]

/-- C18, amended. For an initialized image whose number of slices, channels x time steps x
slices, fits the `int` the index functions return: for every valid coordinate
`GetSliceIndex(s, t, n) = s + t * sliceCount + n * sliceCount * timeCount` and
`GetVolumeIndex(t, n) = t + n * timeCount`; the values are at least 0 and below
channels x time steps x slices and channels x time steps respectively; and two valid
coordinates with the same index are the same coordinate. -/
theorem row_major_flat_index (img : Image) (s t n s' t' n' : Int)
    (hlt : img.GetNumberOfChannels * img.dim 3 * img.dim 2 < 2 ^ 31) :
    (img.IsValidSlice s t n = true →
      img.GetSliceIndex s t n = s + t * img.dim 2 + n * img.dim 2 * img.dim 3 ∧
      0 ≤ img.GetSliceIndex s t n ∧
      img.GetSliceIndex s t n <
        ((img.GetNumberOfChannels * img.dim 3 * img.dim 2 : Nat) : Int) ∧
      (img.IsValidSlice s' t' n' = true → img.GetSliceIndex s' t' n' = img.GetSliceIndex s t n →
        s' = s ∧ t' = t ∧ n' = n)) ∧
    (img.IsValidVolume t n = true →
      img.GetVolumeIndex t n = t + n * img.dim 3 ∧
      0 ≤ img.GetVolumeIndex t n ∧
      img.GetVolumeIndex t n < ((img.GetNumberOfChannels * img.dim 3 : Nat) : Int) ∧
      (img.IsValidVolume t' n' = true → img.GetVolumeIndex t' n' = img.GetVolumeIndex t n →
        t' = t ∧ n' = n)) := by
  constructor
  · intro hv
    obtain ⟨a, b, c, rfl, rfl, rfl, ha, hb, hc⟩ := validSlice_bounds img s t n hv hlt
    have he := GetSliceIndex_value img a b c hv hlt ha hb hc
    have hl := flat_slice_lt ha hb hc
    refine ⟨?_, ?_, ?_, ?_⟩
    · rw [he]
      push_cast
      ring
    · rw [he]
      exact Int.ofNat_nonneg _
    · rw [he]
      exact_mod_cast hl
    · intro hv' heq
      obtain ⟨a', b', c', rfl, rfl, rfl, ha', hb', hc'⟩ := validSlice_bounds img s' t' n' hv' hlt
      rw [he, GetSliceIndex_value img a' b' c' hv' hlt ha' hb' hc'] at heq
      have heq' : a' + b' * img.dim 2 + c' * img.dim 3 * img.dim 2 =
          a + b * img.dim 2 + c * img.dim 3 * img.dim 2 := by exact_mod_cast heq
      obtain ⟨e1, e2, e3⟩ := flat_slice_inj ha' ha hb' hb heq'
      subst e1 e2 e3
      exact ⟨rfl, rfl, rfl⟩
  · intro hv
    obtain ⟨b, c, rfl, rfl, hb, hc, h2⟩ := validVolume_bounds img t n hv hlt
    have he := GetVolumeIndex_value img b c hv hlt hb hc h2
    have hl := flat_volume_lt hb hc
    refine ⟨?_, ?_, ?_, ?_⟩
    · rw [he]
      push_cast
      ring
    · rw [he]
      exact Int.ofNat_nonneg _
    · rw [he]
      exact_mod_cast hl
    · intro hv' heq
      obtain ⟨b', c', rfl, rfl, hb', hc', _⟩ := validVolume_bounds img t' n' hv' hlt
      rw [he, GetVolumeIndex_value img b' c' hv' hlt hb' hc' h2] at heq
      have heq' : b' + c' * img.dim 3 = b + c * img.dim 3 := by exact_mod_cast heq
      obtain ⟨e1, e2⟩ := flat_volume_inj hb' hb heq'
      subst e1 e2
      exact ⟨rfl, rfl⟩

theorem row_major_flat_index_witness :
    pullImage.GetNumberOfChannels * pullImage.dim 3 * pullImage.dim 2 < 2 ^ 31 ∧
    pullImage.IsValidSlice 2 0 1 = true ∧ pullImage.IsValidVolume 0 1 = true ∧
    pullImage.GetSliceIndex 2 0 1 = 2 + 0 * pullImage.dim 2 + 1 * pullImage.dim 2 * pullImage.dim 3 ∧
    pullImage.GetSliceIndex 2 0 1 < ((pullImage.GetNumberOfChannels * pullImage.dim 3 * pullImage.dim 2 : Nat) : Int) ∧
    pullImage.GetVolumeIndex 0 1 = 0 + 1 * pullImage.dim 3 :=
  have h := row_major_flat_index pullImage 2 0 1 3 0 1 (by decide)
  ⟨by decide, by decide, by decide, (h.1 (by decide)).1, (h.1 (by decide)).2.2.1,
    (h.2 (by decide)).1⟩

/-! ## Initialization as a reset -/

theorem map_none_replicate (m : Nat) :
    (List.replicate m (none : Option Nat)).map (fun _ => (none : Option Nat)) = List.replicate m none := by
  simp

theorem initialized_arrays (img : Image) (ts d : Nat) (ds : List Nat) (ch : Nat) :
    (img.initialized ts d ds ch).GetNumberOfChannels = ch ∧
    (img.initialized ts d ds ch).m_Slices =
      List.replicate (u32 (ch * (img.initialized ts d ds ch).dim 3 * (img.initialized ts d ds ch).dim 2)) none ∧
    (img.initialized ts d ds ch).m_Volumes =
      List.replicate (u32 (ch * (img.initialized ts d ds ch).dim 3)) none ∧
    (img.initialized ts d ds ch).m_Channels = List.replicate ch none := by
  refine ⟨rfl, ?_, ?_, ?_⟩
  · show List.map _ (List.replicate _ none) = _
    rw [map_none_replicate]
    rfl
  · show List.map _ (List.replicate _ none) = _
    rw [map_none_replicate]
    rfl
  · show List.map _ (List.replicate _ none) = _
    rw [map_none_replicate]
    rfl

theorem SetImportSlice_returns (src : Option Source) (fuel : Nat) (img : Image) (data : Option Ptr)
    (s t n : Int) (imm : ImportMemoryManagementType) :
    ∃ x, SetImportSlice src (fuel + 1) img data s t n imm = some (x, img.IsValidSlice s t n) ∧
      (img.IsValidSlice s t n = false → x = img) := by
  unfold SetImportSlice
  by_cases hv : img.IsValidSlice s t n = true
  · rw [hv]
    simp only [Bool.true_eq_false, if_false]
    by_cases hset : img.IsSliceSet s t n = true
    · rw [if_pos hset]
      obtain ⟨img1, q, heq, _⟩ := GetSliceData_of_set src fuel img s t n data imm hset
      have heq' : GetSliceData src (fuel + 1) img s t n data imm = some (img1, some q) :=
        (GetSliceData_of_isSet src _ _ _ _ _ _ _ hset).trans heq
      rw [heq']
      exact ⟨_, rfl, fun h => absurd h (by simp)⟩
    · rw [if_neg hset]
      exact ⟨_, rfl, fun h => absurd h (by simp)⟩
  · have hv' : img.IsValidSlice s t n = false := by simpa using hv
    rw [hv']
    exact ⟨img, rfl, fun _ => rfl⟩

theorem SetImportVolume_returns (src : Option Source) (fuel : Nat) (img : Image) (data : Option Ptr)
    (t n : Int) (imm : ImportMemoryManagementType) :
    ∃ x, SetImportVolume src (fuel + 1) img data t n imm = some (x, img.IsValidVolume t n) ∧
      (img.IsValidVolume t n = false → x = img) := by
  unfold SetImportVolume
  by_cases hv : img.IsValidVolume t n = true
  · rw [hv]
    simp only [Bool.true_eq_false, if_false]
    by_cases hset : img.IsVolumeSet t n = true
    · rw [if_pos hset]
      obtain ⟨img1, q, heq, _⟩ := GetVolumeData_of_set src fuel img t n data imm hset
      have heq' : GetVolumeData src (fuel + 1) img t n data imm = some (img1, some q) :=
        (GetVolumeData_of_isSet src _ _ _ _ _ _ hset).trans heq
      rw [heq']
      dsimp only
      split
      · exact ⟨_, rfl, fun h => absurd h (by simp)⟩
      · exact ⟨_, rfl, fun h => absurd h (by simp)⟩
    · rw [if_neg hset]
      exact ⟨_, rfl, fun h => absurd h (by simp)⟩
  · have hv' : img.IsValidVolume t n = false := by simpa using hv
    rw [hv']
    exact ⟨img, rfl, fun _ => rfl⟩

theorem SetImportChannel_returns (src : Option Source) (fuel : Nat) (img : Image) (data : Option Ptr)
    (n : Int) (imm : ImportMemoryManagementType) (hw : WF img) (hi : IdsOK img) :
    ∃ x, SetImportChannel src (fuel + 1) img data n imm = some (x, img.IsValidChannel n) ∧
      (img.IsValidChannel n = false → x = img) := by
  unfold SetImportChannel
  by_cases hv : img.IsValidChannel n = true
  · rw [hv]
    simp only [Bool.true_eq_false, if_false]
    by_cases hset : img.IsChannelSet n = true
    · rw [if_pos hset]
      obtain ⟨img1, q, heq, _⟩ := GetChannelData_of_set src fuel img n data imm hw hi hset
      have heq' : GetChannelData src (fuel + 1) img n data imm = some (img1, some q) :=
        (GetChannelData_of_isSet src _ _ _ _ _ hw hi hset).trans heq
      rw [heq']
      dsimp only
      split
      · exact ⟨_, rfl, fun h => absurd h (by simp)⟩
      · exact ⟨_, rfl, fun h => absurd h (by simp)⟩
    · rw [if_neg hset]
      exact ⟨_, rfl, fun h => absurd h (by simp)⟩
  · have hv' : img.IsValidChannel n = false := by simpa using hv
    rw [hv']
    exact ⟨img, rfl, fun _ => rfl⟩

/-- C15. In every state: if the entry of channel `n` is present and complete, then
`IsVolumeSet(t, n)` is true for every valid `t` and `IsSliceSet(s, t, n)` is true for every
valid `s` and `t`; if the entry of volume `(t, n)` is present and complete, then
`IsSliceSet(s, t, n)` is true for every valid `s`.  Nothing is assumed about the entries of
the finer tiers, so this holds also when they are absent. -/
theorem lazy_derivation_of_availability (img : Image) (n : Int) :
    (img.completeEntry (elemAt img.m_Channels n) = true →
      (∀ t, img.IsValidVolume t n = true → img.IsVolumeSet t n = true) ∧
      (∀ s t, img.IsValidSlice s t n = true → img.IsSliceSet s t n = true)) ∧
    (∀ t, img.completeEntry (elemAt img.m_Volumes (img.GetVolumeIndex t n)) = true →
      ∀ s, img.IsValidSlice s t n = true → img.IsSliceSet s t n = true) := by
  refine ⟨fun hc => ⟨fun t hv => ?_, fun s t hv => ?_⟩, fun t hvc s hv => ?_⟩
  · show img.IsVolumeSet_unlocked t n = true
    rw [isVolumeSet_eq img t n hv, hc]
    simp
  · show img.IsSliceSet_unlocked s t n = true
    rw [isSliceSet_eq img s t n hv, hc]
    simp
  · show img.IsSliceSet_unlocked s t n = true
    rw [isSliceSet_eq img s t n hv, hvc]
    simp

theorem lazy_derivation_of_availability_witness :
    sampleChannelWritten.completeEntry (elemAt sampleChannelWritten.m_Channels 0) = true ∧
    sampleChannelWritten.m_Volumes = [none] ∧ sampleChannelWritten.m_Slices = [none, none] ∧
    sampleChannelWritten.IsVolumeSet 0 0 = true ∧ sampleChannelWritten.IsSliceSet 1 0 0 = true ∧
    sampleVolumeWritten.completeEntry
      (elemAt sampleVolumeWritten.m_Volumes (sampleVolumeWritten.GetVolumeIndex 0 0)) = true ∧
    sampleVolumeWritten.m_Slices = [none, none] ∧ sampleVolumeWritten.IsSliceSet 1 0 0 = true :=
  ⟨by decide, by decide, by decide,
    ((lazy_derivation_of_availability sampleChannelWritten 0).1 (by decide)).1 0 (by decide),
    ((lazy_derivation_of_availability sampleChannelWritten 0).1 (by decide)).2 1 0 (by decide),
    by decide, by decide,
    (lazy_derivation_of_availability sampleVolumeWritten 0).2 0 (by decide) 1 (by decide)⟩

/-! ## What a write installs over an entry that does not own its memory -/

theorem elemAt_range {v : List (Option Nat)} {pos : Int} {q : Nat} (h : elemAt v pos = some q) :
    0 ≤ pos ∧ pos.toNat < v.length := by
  unfold elemAt at h
  split at h
  · rename_i hp
    refine ⟨hp, ?_⟩
    by_contra hlt
    have : v.getD pos.toNat none = none := by
      rw [List.getD_eq_getElem?_getD, List.getElem?_eq_none (by omega)]
      rfl
    rw [this] at h
    cases h
  · cases h

theorem elemAt_assignAt_same (v : List (Option Nat)) (pos : Int) (x : Option Nat) (h0 : 0 ≤ pos)
    (h1 : pos.toNat < v.length) : elemAt (assignAt v pos x) pos = x := by
  unfold elemAt
  rw [if_pos h0, getD_assignAt, if_pos ⟨h0, rfl, h1⟩]

theorem items_memcpy (img : Image) (d s : Ptr) (l : Nat) : (img.memcpy d s l).items = img.items := by
  unfold memcpy
  split <;> rfl

theorem items_copyInto (img : Image) (d : Ptr) (data : Option Ptr) (l : Nat) :
    (img.copyInto d data l).items = img.items := by
  unfold copyInto
  split
  · rfl
  · split
    · rfl
    · exact items_memcpy _ _ _ _

/-- The item `installSliceView` constructs: a complete view of dimension 2 into `p`. -/
theorem installSliceView_item (img : Image) (pos : Int) (p : Nat) (t : Int) (data : Option Ptr)
    (imm : ImportMemoryManagementType) (o : Nat) :
    (img.installSliceView pos p t data imm o).2 = img.nItems ∧
    (img.installSliceView pos p t data imm o).1.items img.nItems =
      { m_Data := Ptr.add (img.items p).m_Data o
        m_Size := img.ComputeItemSize 2
        m_ManageMemory := false
        m_IsComplete := true
        m_Parent := some p
        m_Offset := o
        m_Dimension := 2
        m_Timestep := t } ∧
    (img.installSliceView pos p t data imm o).1.m_Slices = assignAt img.m_Slices pos (some img.nItems) ∧
    (img.installSliceView pos p t data imm o).1.m_Volumes = img.m_Volumes ∧
    (img.installSliceView pos p t data imm o).1.m_Channels = img.m_Channels := by
  simp [installSliceView, newSubItem, addItem, SetComplete]

/-- The item `newSubItem` constructs. -/
theorem newSubItem_item (img : Image) (p : Nat) (t : Int) (k : Nat) (data : Option Ptr) (m : Bool)
    (o : Nat) :
    (img.newSubItem p t k data m o).2 = img.nItems ∧
    (img.newSubItem p t k data m o).1.items img.nItems =
      { m_Data := Ptr.add (img.items p).m_Data o
        m_Size := img.ComputeItemSize k
        m_ManageMemory := false
        m_IsComplete := false
        m_Parent := some p
        m_Offset := o
        m_Dimension := k
        m_Timestep := t } := by
  simp [newSubItem, addItem]

/-- The item `newItem` constructs has no parent; it owns its memory unless it borrows a
buffer of the caller. -/
theorem newItem_item (img : Image) (t : Int) (k : Nat) (data : Option Ptr) (m : Bool) :
    ((img.newItem t k data m).1.items img.nItems).m_Parent = none ∧
    ((img.newItem t k data m).1.items img.nItems).m_Size = img.ComputeItemSize k ∧
    ((img.newItem t k data m).1.items img.nItems).m_Dimension = k ∧
    ((img.newItem t k data m).1.items img.nItems).m_ManageMemory = (m || data.isNone) := by
  unfold newItem
  cases data with
  | some p => simp [addItem]
  | none => simp [addItem, allocate]

/-- The ownership of the independent item the `Allocate...Data` functions construct. -/
theorem independentItem_item (img : Image) (t : Int) (k : Nat) (data : Option Ptr)
    (imm : ImportMemoryManagementType) (len : Nat) (r : Image × Nat)
    (hr : r =
      if imm = ImportMemoryManagementType.CopyMemory then
        match data with
        | some p =>
          ((img.newItem t k none true).1.memcpy
              ((img.newItem t k none true).1.items (img.newItem t k none true).2).m_Data p len,
            (img.newItem t k none true).2)
        | none => img.newItem t k none true
      else img.newItem t k data (imm = ImportMemoryManagementType.ManageMemory)) :
    (r.1.items img.nItems).m_Parent = none ∧
    (r.1.items img.nItems).m_Size = img.ComputeItemSize k ∧
    (r.1.items img.nItems).m_Dimension = k ∧
    ((r.1.items img.nItems).m_ManageMemory = true ↔
      (imm ≠ ImportMemoryManagementType.ReferenceMemory ∨ data = none)) := by
  subst hr
  split
  · rename_i hc
    have h := newItem_item img t k none true
    split
    · rw [items_memcpy]
      refine ⟨h.1, h.2.1, h.2.2.1, ?_⟩
      rw [h.2.2.2, hc]
      simp
    · refine ⟨h.1, h.2.1, h.2.2.1, ?_⟩
      rw [h.2.2.2, hc]
      simp
  · rename_i hc
    have h := newItem_item img t k data (imm = ImportMemoryManagementType.ManageMemory)
    refine ⟨h.1, h.2.1, h.2.2.1, ?_⟩
    rw [h.2.2.2]
    cases imm <;> cases data <;> simp at hc ⊢

/-- The item `AllocateVolumeData_unlocked` installs: a view into the channel entry when
there is one, else an independent item. -/
theorem AllocateVolumeData_item (img : Image) (t n : Int) (data : Option Ptr)
    (imm : ImportMemoryManagementType) :
    (∀ c, elemAt img.m_Channels n = some c →
      ((img.AllocateVolumeData_unlocked t n data imm).1.items img.nItems).m_Parent = some c ∧
      ((img.AllocateVolumeData_unlocked t n data imm).1.items img.nItems).m_ManageMemory = false ∧
      ((img.AllocateVolumeData_unlocked t n data imm).1.items img.nItems).m_Offset =
        sizeT (t.toNat * img.off 3 * img.ptypeSize) ∧
      ((img.AllocateVolumeData_unlocked t n data imm).1.items img.nItems).m_Data =
        Ptr.add (img.items c).m_Data (sizeT (t.toNat * img.off 3 * img.ptypeSize))) ∧
    (elemAt img.m_Channels n = none →
      ((img.AllocateVolumeData_unlocked t n data imm).1.items img.nItems).m_Parent = none ∧
      (((img.AllocateVolumeData_unlocked t n data imm).1.items img.nItems).m_ManageMemory = true ↔
        (imm ≠ ImportMemoryManagementType.ReferenceMemory ∨ data = none))) ∧
    ((img.AllocateVolumeData_unlocked t n data imm).1.items img.nItems).m_Size =
      img.ComputeItemSize 3 ∧
    ((img.AllocateVolumeData_unlocked t n data imm).1.items img.nItems).m_Dimension = 3 := by
  have key := fun r hr =>
    independentItem_item img t 3 data imm (sizeT (img.off 3 * img.ptypeSize)) r hr
  have h := fun c => newSubItem_item img c t 3 data (imm = ImportMemoryManagementType.ManageMemory)
    (sizeT (t.toNat * img.off 3 * img.ptypeSize))
  unfold AllocateVolumeData_unlocked
  split
  · rename_i c hc
    refine ⟨fun c' hc' => ?_, fun h0 => ?_, ?_, ?_⟩
    · have e : c' = c := Option.some.inj (hc'.symm.trans hc)
      subst e
      have hh := (h c').2
      exact ⟨congrArg ImageDataItem.m_Parent hh, congrArg ImageDataItem.m_ManageMemory hh,
        congrArg ImageDataItem.m_Offset hh, congrArg ImageDataItem.m_Data hh⟩
    · rw [hc] at h0
      cases h0
    · exact congrArg ImageDataItem.m_Size (h c).2
    · exact congrArg ImageDataItem.m_Dimension (h c).2
  · rename_i hc
    refine ⟨fun c' hc' => ?_, fun _ => ⟨(key _ rfl).1, (key _ rfl).2.2.2⟩, (key _ rfl).2.1,
      (key _ rfl).2.2.1⟩
    rw [hc] at hc'
    cases hc'

/-- The item `AllocateChannelData_unlocked` installs: always an independent item. -/
theorem AllocateChannelData_item (img : Image) (n : Int) (data : Option Ptr)
    (imm : ImportMemoryManagementType) :
    ((img.AllocateChannelData_unlocked n data imm).1.items img.nItems).m_Parent = none ∧
    (((img.AllocateChannelData_unlocked n data imm).1.items img.nItems).m_ManageMemory = true ↔
      (imm ≠ ImportMemoryManagementType.ReferenceMemory ∨ data = none)) ∧
    ((img.AllocateChannelData_unlocked n data imm).1.items img.nItems).m_Size =
      img.ComputeItemSize img.m_Dimension ∧
    ((img.AllocateChannelData_unlocked n data imm).1.items img.nItems).m_Dimension =
      img.m_Dimension := by
  have key := fun r hr =>
    independentItem_item img (-1) img.m_Dimension data imm (sizeT (img.off 4 * img.ptypeSize)) r hr
  unfold AllocateChannelData_unlocked newChannelItem
  exact ⟨(key _ rfl).1, (key _ rfl).2.2.2, (key _ rfl).2.1, (key _ rfl).2.2.1⟩

/-- The item `AllocateSliceData_unlocked` installs: always a view, into the volume entry,
else into the channel entry, else into a volume it allocates. -/
theorem AllocateSliceData_item (img : Image) (s t n : Int) (data : Option Ptr)
    (imm : ImportMemoryManagementType) (r : Image × Nat)
    (hr : r = img.AllocateSliceData_unlocked s t n data imm) :
    ∃ p, (r.1.items r.2).m_Parent = some p ∧ (r.1.items r.2).m_ManageMemory = false ∧
      img.nItems ≤ r.2 ∧
      r.1.m_Slices = assignAt img.m_Slices (img.GetSliceIndex s t n) (some r.2) ∧
      ((elemAt img.m_Volumes (img.GetVolumeIndex t n) = some p ∧
          (r.1.items r.2).m_Offset = sizeT (s.toNat * img.off 2 * img.ptypeSize)) ∨
        (elemAt img.m_Volumes (img.GetVolumeIndex t n) = none ∧ elemAt img.m_Channels n = some p ∧
          (r.1.items r.2).m_Offset =
            sizeT ((s.toNat * img.off 2 + t.toNat * img.off 3) * img.ptypeSize)) ∨
        (elemAt img.m_Volumes (img.GetVolumeIndex t n) = none ∧ elemAt img.m_Channels n = none ∧
          p = img.nItems ∧ (r.1.items p).m_Parent = none ∧ (r.1.items p).m_ManageMemory = true ∧
          (r.1.items r.2).m_Offset = sizeT (s.toNat * img.off 2 * img.ptypeSize))) := by
  subst hr
  unfold AllocateSliceData_unlocked
  split
  · rename_i v hv
    obtain ⟨h1, h2, h3, _, _⟩ := installSliceView_item img (img.GetSliceIndex s t n) v t data imm
      (sizeT (s.toNat * img.off 2 * img.ptypeSize))
    simp only
    rw [h1, h2]
    exact ⟨v, rfl, rfl, le_refl _, h3, Or.inl ⟨hv, rfl⟩⟩
  · rename_i hv
    split
    · rename_i c hc
      obtain ⟨h1, h2, h3, _, _⟩ := installSliceView_item img (img.GetSliceIndex s t n) c t data imm
        (sizeT ((s.toNat * img.off 2 + t.toNat * img.off 3) * img.ptypeSize))
      simp only
      rw [h1, h2]
      exact ⟨c, rfl, rfl, le_refl _, h3, Or.inr (Or.inl ⟨hv, hc, rfl⟩)⟩
    · rename_i hc
      obtain ⟨_, g2, g3, _, g5, _⟩ := upx_AllocateVolumeData img t n none imm
      obtain ⟨_, gi, _, _⟩ := AllocateVolumeData_item img t n none imm
      obtain ⟨gp, gm⟩ := gi hc
      have gm' : ((img.AllocateVolumeData_unlocked t n none imm).1.items img.nItems).m_ManageMemory = true :=
        gm.mpr (Or.inr rfl)
      generalize img.AllocateVolumeData_unlocked t n none imm = r0 at g2 g3 g5 gp gm'
      obtain ⟨x0, k⟩ := r0
      simp only at g2 g3 g5 gp gm'
      subst g2
      have hne : img.nItems ≠ x0.nItems := by omega
      refine ⟨img.nItems, ?_, ?_, ?_, ?_, Or.inr (Or.inr ⟨hv, hc, rfl, ?_, ?_, ?_⟩)⟩
      · simp [installSliceView, newSubItem, addItem, SetComplete]
      · simp [installSliceView, newSubItem, addItem, SetComplete]
      · simp only [installSliceView, newSubItem, addItem]
        omega
      · simp [installSliceView, newSubItem, addItem, SetComplete, g5]
      · simp [installSliceView, newSubItem, addItem, SetComplete, Function.update_noteq hne, gp]
      · simp [installSliceView, newSubItem, addItem, SetComplete, Function.update_noteq hne, gm']
      · simp [installSliceView, newSubItem, addItem, SetComplete]

/-- The item `GetVolumeData_unlocked` returns for a volume that is set is the entry of
that volume, or a newly constructed item that is a view (it does not own its memory), or,
when the volume has no entry, a newly constructed item. -/
theorem GetVolumeData_set_owner (src : Option Source) (fuel : Nat) (img : Image) (t n : Int)
    (data : Option Ptr) (imm : ImportMemoryManagementType)
    (h : img.IsVolumeSet_unlocked t n = true) (x : Image) (v : Nat)
    (hget : GetVolumeData_unlocked src (fuel + 1) img t n data imm = some (x, some v)) :
    elemAt img.m_Volumes (img.GetVolumeIndex t n) = some v ∨
      (img.nItems ≤ v ∧ ((x.items v).m_ManageMemory = false ∨
        elemAt img.m_Volumes (img.GetVolumeIndex t n) = none)) := by
  have hv := isVolumeSet_valid h
  rw [isVolumeSet_eq _ _ _ hv] at h
  unfold GetVolumeData_unlocked at hget
  rw [hv] at hget
  simp only [Bool.true_eq_false, if_false] at hget
  by_cases hvc : img.completeEntry (elemAt img.m_Volumes (img.GetVolumeIndex t n)) = true
  · simp only [hvc, if_true] at hget
    have := (Prod.mk.inj (Option.some.inj hget)).2
    exact Or.inl this
  · simp only [hvc, Bool.false_eq_true, if_false] at hget
    by_cases hcc : img.completeEntry (elemAt img.m_Channels n) = true
    · simp only [hcc, if_true] at hget
      obtain ⟨hx, hq⟩ := Prod.mk.inj (Option.some.inj hget)
      have hq' := Option.some.inj hq
      subst hx
      subst hq'
      refine Or.inr ⟨le_refl _, Or.inl ?_⟩
      simp [newSubItem, addItem, SetComplete]
    · have hall : img.allSlicesSet t n = true := by
        simpa [hvc, hcc] using h
      simp only [hcc, hall, if_true, Bool.false_eq_true, if_false] at hget
      by_cases hd : img.dim 2 ≤ 1
      · simp only [hd, if_true] at hget
        have hd1 : img.dim 2 = 1 := by
          have := dim2_pos_of_validVolume hv
          omega
        have hs0 : img.IsSliceSet_unlocked 0 t n = true := by
          rw [isSliceSet_eq _ _ _ _ (validSlice_zero_of_validVolume hv)]
          unfold allSlicesSet at hall
          rw [hd1] at hall
          have h0 : toInt 0 = 0 := by decide
          simp [List.range_succ, h0] at hall
          simp [hall]
        obtain ⟨img1, sl, heq, hup, _⟩ := GetSliceData_of_set src fuel img 0 t n data imm hs0
        rw [heq] at hget
        obtain ⟨hx, hq⟩ := Prod.mk.inj (Option.some.inj hget)
        have hq' := Option.some.inj hq
        subst hx
        subst hq'
        refine Or.inr ⟨hup.nItems, Or.inl ?_⟩
        simp [newSubItem, addItem, SetComplete]
      · simp only [hd, if_false] at hget
        obtain ⟨hx, hq⟩ := Prod.mk.inj (Option.some.inj hget)
        have hq' := Option.some.inj hq
        cases hve : elemAt img.m_Volumes (img.GetVolumeIndex t n) with
        | some v0 =>
          rw [hve] at hq'
          exact Or.inl (by rw [← hq'])
        | none =>
          rw [hve] at hq'
          refine Or.inr ⟨?_, Or.inr rfl⟩
          rw [← hq']
          show img.nItems ≤ (img.newItem t 3 none true).2
          rw [newItem_snd]

/-- The item `GetChannelData_unlocked` returns for a channel that is set is the entry of
that channel, or a newly constructed view, or, when the channel has no entry, a newly
constructed item. -/
theorem GetChannelData_set_owner (src : Option Source) (fuel : Nat) (img : Image) (n : Int)
    (data : Option Ptr) (imm : ImportMemoryManagementType)
    (h : img.IsChannelSet_unlocked n = true) (x : Image) (c : Nat)
    (hget : GetChannelData_unlocked src (fuel + 1) img n data imm = some (x, some c)) :
    elemAt img.m_Channels n = some c ∨
      (img.nItems ≤ c ∧ ((x.items c).m_ManageMemory = false ∨ elemAt img.m_Channels n = none)) := by
  have hv := isChannelSet_valid h
  have hset := h
  rw [isChannelSet_eq _ _ hv] at h
  unfold GetChannelData_unlocked at hget
  rw [hv] at hget
  simp only [Bool.true_eq_false, if_false] at hget
  by_cases hcc : img.completeEntry (elemAt img.m_Channels n) = true
  · simp only [hcc, if_true] at hget
    exact Or.inl (Prod.mk.inj (Option.some.inj hget)).2
  · simp only [hcc, hset, if_true, Bool.false_eq_true, if_false] at hget
    by_cases hd : img.dim 3 ≤ 1
    · simp only [hd, if_true] at hget
      have hd1 : img.dim 3 = 1 := by
        have := dim3_pos_of_validChannel hv
        omega
      have h0 : img.IsVolumeSet_unlocked 0 n = true := by
        have hall : (List.range (img.dim 3)).all (fun t => img.IsVolumeSet_unlocked (toInt t) n) = true := by
          simpa [hcc] using h
        rw [hd1] at hall
        have z : toInt 0 = 0 := by decide
        simpa [List.range_succ, z] using hall
      obtain ⟨img1, vol, heq, hup, _⟩ := GetVolumeData_of_set src fuel img 0 n data imm h0
      rw [heq] at hget
      obtain ⟨hx, hq⟩ := Prod.mk.inj (Option.some.inj hget)
      have hq' := Option.some.inj hq
      subst hx
      subst hq'
      refine Or.inr ⟨hup.nItems, Or.inl ?_⟩
      simp [newSubItem, addItem, SetComplete]
    · simp only [hd, if_false] at hget
      split at hget
      · cases hget
      · have hq' := Option.some.inj (Prod.mk.inj (Option.some.inj hget)).2
        cases hve : elemAt img.m_Channels n with
        | some c0 =>
          rw [hve] at hq'
          exact Or.inl (by rw [← hq'])
        | none =>
          rw [hve] at hq'
          refine Or.inr ⟨?_, Or.inr rfl⟩
          rw [← hq']
          show img.nItems ≤ (img.newItem (-1) img.m_Dimension none true).2
          rw [newItem_snd]

theorem sameFixed_after_write (y : Image) (d : Ptr) (data : Option Ptr) (l e e' : Nat) :
    SameFixed (y.items e') (((y.copyInto d data l).SetComplete e true).items e') := by
  by_cases h : e' = e
  · subst h
    simp [SetComplete, items_copyInto, SameFixed]
  · simp [SetComplete, items_copyInto, SameFixed, Function.update_noteq h]

/-- `SetImportSlice` on a slice whose entry does not own its memory installs a new view. -/
theorem SetImportSlice_over_view (src : Option Source) (fuel : Nat) (img : Image) (data : Option Ptr)
    (s t n : Int) (imm : ImportMemoryManagementType) (q : Nat)
    (hv : img.IsValidSlice s t n = true)
    (he : elemAt img.m_Slices (img.GetSliceIndex s t n) = some q)
    (hown : (img.items q).m_ManageMemory = false) :
    ∃ x e p, SetImportSlice src (fuel + 1) img data s t n imm = some (x, true) ∧
      elemAt x.m_Slices (img.GetSliceIndex s t n) = some e ∧ img.nItems ≤ e ∧
      (x.items e).m_ManageMemory = false ∧ (x.items e).m_Parent = some p ∧
      ((elemAt img.m_Volumes (img.GetVolumeIndex t n) = some p ∧
          (x.items e).m_Offset = sizeT (s.toNat * img.off 2 * img.ptypeSize)) ∨
        (elemAt img.m_Volumes (img.GetVolumeIndex t n) = none ∧ elemAt img.m_Channels n = some p ∧
          (x.items e).m_Offset =
            sizeT ((s.toNat * img.off 2 + t.toNat * img.off 3) * img.ptypeSize)) ∨
        (elemAt img.m_Volumes (img.GetVolumeIndex t n) = none ∧ elemAt img.m_Channels n = none ∧
          p = img.nItems ∧ (x.items p).m_Parent = none ∧ (x.items p).m_ManageMemory = true ∧
          (x.items e).m_Offset = sizeT (s.toNat * img.off 2 * img.ptypeSize))) := by
  have hset : img.IsSliceSet s t n = true := by
    show img.IsSliceSet_unlocked s t n = true
    rw [isSliceSet_eq _ _ _ _ hv, he]
    rfl
  have hget := GetSliceData_stored src fuel img s t n q data imm hv he
  obtain ⟨p, h1, h2, h3, h4, h5⟩ := AllocateSliceData_item img s t n data imm _ rfl
  obtain ⟨hr0, hr1⟩ := elemAt_range he
  unfold SetImportSlice
  rw [hv, hset, hget]
  simp only [Bool.true_eq_false, if_false, if_true, overwrite, hown]
  refine ⟨_, _, p, rfl, ?_, h3, ?_, ?_, ?_⟩
  · show elemAt (Image.copyInto _ _ _ _).m_Slices _ = _
    rw [(sameTiers_copyInto _ _ _ _).slices]
    show elemAt (img.AllocateSliceData_unlocked s t n data imm).1.m_Slices _ = _
    rw [h4, elemAt_assignAt_same _ _ _ hr0 hr1]
  · show ((Image.copyInto _ _ _ _).items _).m_ManageMemory = false
    rw [items_copyInto]
    exact h2
  · show ((Image.copyInto _ _ _ _).items _).m_Parent = _
    rw [items_copyInto]
    exact h1
  · show (_ ∧ ((Image.copyInto _ _ _ _).items _).m_Offset = _) ∨
      (_ ∧ _ ∧ ((Image.copyInto _ _ _ _).items _).m_Offset = _) ∨
      (_ ∧ _ ∧ _ ∧ ((Image.copyInto _ _ _ _).items _).m_Parent = _ ∧
        ((Image.copyInto _ _ _ _).items _).m_ManageMemory = _ ∧
        ((Image.copyInto _ _ _ _).items _).m_Offset = _)
    rw [items_copyInto]
    exact h5

/-- The arrays and the new item after `AllocateVolumeData` followed by the copy, the
completeness mark and bookkeeping that does not touch items or arrays. -/
theorem volume_installed (y : Image) (t n : Int) (data : Option Ptr)
    (imm : ImportMemoryManagementType) (len : Nat) (x : Image)
    (hm : x.m_Volumes = (y.AllocateVolumeData t n data imm).1.m_Volumes)
    (hi : x.items = (((y.AllocateVolumeData t n data imm).1.copyInto
      ((y.AllocateVolumeData t n data imm).1.items (y.AllocateVolumeData t n data imm).2).m_Data
        data len).SetComplete (y.AllocateVolumeData t n data imm).2 true).items)
    (hr0 : 0 ≤ y.GetVolumeIndex t n) (hr1 : (y.GetVolumeIndex t n).toNat < y.m_Volumes.length) :
    elemAt x.m_Volumes (y.GetVolumeIndex t n) = some y.nItems ∧
    (∀ c, elemAt y.m_Channels n = some c →
      (x.items y.nItems).m_Parent = some c ∧ (x.items y.nItems).m_ManageMemory = false ∧
      (x.items y.nItems).m_Offset = sizeT (t.toNat * y.off 3 * y.ptypeSize)) ∧
    (elemAt y.m_Channels n = none →
      (x.items y.nItems).m_Parent = none ∧
      ((x.items y.nItems).m_ManageMemory = true ↔
        (imm ≠ ImportMemoryManagementType.ReferenceMemory ∨ data = none))) := by
  obtain ⟨_, g2, _, g4, _, _⟩ := upx_AllocateVolumeData y t n data imm
  obtain ⟨a1, a2, _, _⟩ := AllocateVolumeData_item y t n data imm
  have g2' : (y.AllocateVolumeData t n data imm).2 = y.nItems := g2
  have hf := sameFixed_after_write (y.AllocateVolumeData t n data imm).1
    ((y.AllocateVolumeData t n data imm).1.items (y.AllocateVolumeData t n data imm).2).m_Data
    data len (y.AllocateVolumeData t n data imm).2 y.nItems
  rw [← hi] at hf
  obtain ⟨_, _, f3, f4, f5, _⟩ := hf
  refine ⟨?_, fun c hc => ?_, fun hc => ?_⟩
  · rw [hm]
    show elemAt (y.AllocateVolumeData_unlocked t n data imm).1.m_Volumes _ = _
    rw [g4, elemAt_assignAt_same _ _ _ hr0 hr1]
  · obtain ⟨b1, b2, b3, _⟩ := a1 c hc
    exact ⟨f4.trans b1, f3.trans b2, f5.trans b3⟩
  · obtain ⟨b1, b2⟩ := a2 hc
    refine ⟨f4.trans b1, ?_⟩
    rw [f3]
    exact b2

/-- `SetImportVolume` on a volume whose entry does not own its memory installs a new item:
a view into the channel entry when there is one, else an independent item. -/
theorem SetImportVolume_over_view (src : Option Source) (fuel : Nat) (img : Image) (data : Option Ptr)
    (t n : Int) (imm : ImportMemoryManagementType) (q : Nat)
    (hv : img.IsValidVolume t n = true)
    (he : elemAt img.m_Volumes (img.GetVolumeIndex t n) = some q) (hq : q < img.nItems)
    (hown : (img.items q).m_ManageMemory = false) :
    ∃ x e, SetImportVolume src (fuel + 1) img data t n imm = some (x, true) ∧
      elemAt x.m_Volumes (img.GetVolumeIndex t n) = some e ∧ img.nItems ≤ e ∧
      (∀ c, elemAt img.m_Channels n = some c →
        (x.items e).m_Parent = some c ∧ (x.items e).m_ManageMemory = false ∧
        (x.items e).m_Offset = sizeT (t.toNat * img.off 3 * img.ptypeSize)) ∧
      (elemAt img.m_Channels n = none →
        (x.items e).m_Parent = none ∧
        ((x.items e).m_ManageMemory = true ↔
          (imm ≠ ImportMemoryManagementType.ReferenceMemory ∨ data = none))) := by
  obtain ⟨hr0, hr1⟩ := elemAt_range he
  unfold SetImportVolume
  rw [hv]
  simp only [Bool.true_eq_false, if_false]
  by_cases hset : img.IsVolumeSet t n = true
  · rw [if_pos hset]
    obtain ⟨img1, v, heq, hup, _, hchs, _⟩ := GetVolumeData_of_set src fuel img t n data imm hset
    have hownv : (img1.items v).m_ManageMemory = false := by
      rcases GetVolumeData_set_owner src fuel img t n data imm hset img1 v heq with h | ⟨_, h | h⟩
      · have e : v = q := Option.some.inj (h.symm.trans he)
        subst e
        rw [(hup.fixed v hq).2.2.1]
        exact hown
      · exact h
      · rw [he] at h
        cases h
    have heq' : GetVolumeData src (fuel + 1) img t n data imm = some (img1, some v) :=
      (GetVolumeData_of_isSet src _ _ _ _ _ _ hset).trans heq
    rw [heq']
    simp only [overwrite, hownv, if_true]
    have hidx : img1.GetVolumeIndex t n = img.GetVolumeIndex t n := hup.shape.volumeIndex t n
    obtain ⟨k1, k2, k3⟩ := volume_installed img1 t n data imm (sizeT (img.off 3 * img.ptypeSize))
      ((((img1.AllocateVolumeData t n data imm).1.copyInto
        ((img1.AllocateVolumeData t n data imm).1.items (img1.AllocateVolumeData t n data imm).2).m_Data
          data (sizeT (img.off 3 * img.ptypeSize))).SetComplete
            (img1.AllocateVolumeData t n data imm).2 true).Modified)
      (sameTiers_copyInto _ _ _ _).volumes rfl (by rw [hidx]; exact hr0)
      (by rw [hidx, hup.volumes_len]; exact hr1)
    rw [hidx] at k1
    rw [hchs, hup.shape.off, hup.shape.ptype] at k2
    rw [hchs] at k3
    exact ⟨_, img1.nItems, rfl, k1, hup.nItems, k2, k3⟩
  · rw [if_neg hset]
    obtain ⟨k1, k2, k3⟩ := volume_installed img t n data imm (sizeT (img.off 3 * img.ptypeSize))
      { ((img.AllocateVolumeData t n data imm).1.copyInto
          ((img.AllocateVolumeData t n data imm).1.items (img.AllocateVolumeData t n data imm).2).m_Data
            data (sizeT (img.off 3 * img.ptypeSize))).SetComplete
              (img.AllocateVolumeData t n data imm).2 true with
        descriptorData := Function.update
          (((img.AllocateVolumeData t n data imm).1.copyInto
            ((img.AllocateVolumeData t n data imm).1.items (img.AllocateVolumeData t n data imm).2).m_Data
              data (sizeT (img.off 3 * img.ptypeSize))).SetComplete
                (img.AllocateVolumeData t n data imm).2 true).descriptorData n.toNat
          (some ((((img.AllocateVolumeData t n data imm).1.copyInto
            ((img.AllocateVolumeData t n data imm).1.items (img.AllocateVolumeData t n data imm).2).m_Data
              data (sizeT (img.off 3 * img.ptypeSize))).SetComplete
                (img.AllocateVolumeData t n data imm).2 true).items
                  (img.AllocateVolumeData t n data imm).2).m_Data) }
      (sameTiers_copyInto _ _ _ _).volumes rfl hr0 hr1
    exact ⟨_, img.nItems, rfl, k1, le_refl _, k2, k3⟩

theorem channel_installed (y : Image) (n : Int) (data : Option Ptr)
    (imm : ImportMemoryManagementType) (len : Nat) (x : Image)
    (hm : x.m_Channels = (y.AllocateChannelData n data imm).1.m_Channels)
    (hi : x.items = (((y.AllocateChannelData n data imm).1.copyInto
      ((y.AllocateChannelData n data imm).1.items (y.AllocateChannelData n data imm).2).m_Data
        data len).SetComplete (y.AllocateChannelData n data imm).2 true).items)
    (hr0 : 0 ≤ n) (hr1 : n.toNat < y.m_Channels.length) :
    elemAt x.m_Channels n = some y.nItems ∧
    (x.items y.nItems).m_Parent = none ∧
    ((x.items y.nItems).m_ManageMemory = true ↔
      (imm ≠ ImportMemoryManagementType.ReferenceMemory ∨ data = none)) := by
  obtain ⟨_, g2, _, g4, _, _⟩ := upx_AllocateChannelData y n data imm
  obtain ⟨a1, a2, _, _⟩ := AllocateChannelData_item y n data imm
  have hf := sameFixed_after_write (y.AllocateChannelData n data imm).1
    ((y.AllocateChannelData n data imm).1.items (y.AllocateChannelData n data imm).2).m_Data
    data len (y.AllocateChannelData n data imm).2 y.nItems
  rw [← hi] at hf
  obtain ⟨_, _, f3, f4, _, _⟩ := hf
  refine ⟨?_, f4.trans a1, ?_⟩
  · rw [hm]
    show elemAt (y.AllocateChannelData_unlocked n data imm).1.m_Channels _ = _
    rw [g4, elemAt_assignAt_same _ _ _ hr0 hr1]
  · rw [f3]
    exact a2

/-- `SetImportChannel` on a channel whose entry does not own its memory installs a new
independent item. -/
theorem SetImportChannel_over_view (src : Option Source) (fuel : Nat) (img : Image) (data : Option Ptr)
    (n : Int) (imm : ImportMemoryManagementType) (q : Nat) (hw : WF img) (hid : IdsOK img)
    (hv : img.IsValidChannel n = true)
    (he : elemAt img.m_Channels n = some q) (hown : (img.items q).m_ManageMemory = false) :
    ∃ x e, SetImportChannel src (fuel + 1) img data n imm = some (x, true) ∧
      elemAt x.m_Channels n = some e ∧ img.nItems ≤ e ∧
      (x.items e).m_Parent = none ∧
      ((x.items e).m_ManageMemory = true ↔
        (imm ≠ ImportMemoryManagementType.ReferenceMemory ∨ data = none)) := by
  obtain ⟨hr0, hr1⟩ := elemAt_range he
  have hq : q < img.nItems := hid.channels q (mem_of_elemAt he)
  unfold SetImportChannel
  rw [hv]
  simp only [Bool.true_eq_false, if_false]
  by_cases hset : img.IsChannelSet n = true
  · rw [if_pos hset]
    obtain ⟨img1, c, heq, hadv, _, _, _, hlen⟩ := GetChannelData_of_set src fuel img n data imm hw hid hset
    have hownc : (img1.items c).m_ManageMemory = false := by
      rcases GetChannelData_set_owner src fuel img n data imm hset img1 c heq with h | ⟨_, h | h⟩
      · have e : c = q := Option.some.inj (h.symm.trans he)
        subst e
        rw [(hadv.fixed c hq).2.2.1]
        exact hown
      · exact h
      · rw [he] at h
        cases h
    have heq' : GetChannelData src (fuel + 1) img n data imm = some (img1, some c) :=
      (GetChannelData_of_isSet src _ _ _ _ _ hw hid hset).trans heq
    rw [heq']
    simp only [overwrite, hownc, if_true]
    obtain ⟨k1, k2, k3⟩ := channel_installed img1 n data imm (sizeT (img.off 4 * img.ptypeSize))
      ((((img1.AllocateChannelData n data imm).1.copyInto
        ((img1.AllocateChannelData n data imm).1.items (img1.AllocateChannelData n data imm).2).m_Data
          data (sizeT (img.off 4 * img.ptypeSize))).SetComplete
            (img1.AllocateChannelData n data imm).2 true).Modified)
      (sameTiers_copyInto _ _ _ _).channels rfl hr0 (by rw [hlen]; exact hr1)
    exact ⟨_, img1.nItems, rfl, k1, hadv.nItems, k2, k3⟩
  · rw [if_neg hset]
    obtain ⟨k1, k2, k3⟩ := channel_installed img n data imm (sizeT (img.off 4 * img.ptypeSize))
      { ((img.AllocateChannelData n data imm).1.copyInto
          ((img.AllocateChannelData n data imm).1.items (img.AllocateChannelData n data imm).2).m_Data
            data (sizeT (img.off 4 * img.ptypeSize))).SetComplete
              (img.AllocateChannelData n data imm).2 true with
        descriptorData := Function.update
          (((img.AllocateChannelData n data imm).1.copyInto
            ((img.AllocateChannelData n data imm).1.items (img.AllocateChannelData n data imm).2).m_Data
              data (sizeT (img.off 4 * img.ptypeSize))).SetComplete
                (img.AllocateChannelData n data imm).2 true).descriptorData n.toNat
          (some ((((img.AllocateChannelData n data imm).1.copyInto
            ((img.AllocateChannelData n data imm).1.items (img.AllocateChannelData n data imm).2).m_Data
              data (sizeT (img.off 4 * img.ptypeSize))).SetComplete
                (img.AllocateChannelData n data imm).2 true).items
                  (img.AllocateChannelData n data imm).2).m_Data) }
      (sameTiers_copyInto _ _ _ _).channels rfl hr0 hr1
    exact ⟨_, img.nItems, rfl, k1, le_refl _, k2, k3⟩

/-- C20, counterexample. Slice 0 of the sample image, written once with `SetSlice`, has an
entry that does not own its memory (a view into volume item 0).  A second `SetSlice` of
the same slice returns true and the entry installed afterwards is again a view into
item 0 that does not own its memory: it is not an independent allocation. -/
theorem detach_counterexample :
    sampleWritten.IsValidSlice 0 0 0 = true ∧
    sliceEntryRewritten = some ((false, some 0), (false, some 0)) := by
  decide

/-- C20, amended. When `SetImportSlice`, `SetImportVolume` or `SetImportChannel` (every
memory management mode, so also `SetSlice`, `SetVolume`, `SetChannel`) targets a valid
coordinate whose entry is an existing item that does not own its memory, the call returns
true and the entry installed at the coordinate afterwards is a newly constructed item.
At the slice level it is always a view that does not own its memory: into the volume
entry at offset `s * offset[2] * stride`, else into the channel entry at offset
`(s * offset[2] + t * offset[3]) * stride`, else into a volume item that the call allocates
(that volume is independent and owns its memory).  At the volume level it is a view into
the channel entry at offset `t * offset[3] * stride` when the channel has an entry, and
otherwise an item without parent.  At the channel level it is always an item without
parent.  An item without parent owns its memory unless it borrows the caller's buffer
(`ReferenceMemory` with a non-null pointer).  At the channel level the image is assumed
well-formed. -/
theorem reallocation_before_overwrite (src : Option Source) (fuel : Nat) (img : Image)
    (data : Option Ptr) (s t n : Int) (imm : ImportMemoryManagementType) (q : Nat)
    (hown : (img.items q).m_ManageMemory = false) :
    (img.IsValidSlice s t n = true → elemAt img.m_Slices (img.GetSliceIndex s t n) = some q →
      ∃ x e p, SetImportSlice src (fuel + 1) img data s t n imm = some (x, true) ∧
        elemAt x.m_Slices (img.GetSliceIndex s t n) = some e ∧ img.nItems ≤ e ∧
        (x.items e).m_ManageMemory = false ∧ (x.items e).m_Parent = some p ∧
        ((elemAt img.m_Volumes (img.GetVolumeIndex t n) = some p ∧
            (x.items e).m_Offset = sizeT (s.toNat * img.off 2 * img.ptypeSize)) ∨
          (elemAt img.m_Volumes (img.GetVolumeIndex t n) = none ∧ elemAt img.m_Channels n = some p ∧
            (x.items e).m_Offset =
              sizeT ((s.toNat * img.off 2 + t.toNat * img.off 3) * img.ptypeSize)) ∨
          (elemAt img.m_Volumes (img.GetVolumeIndex t n) = none ∧ elemAt img.m_Channels n = none ∧
            p = img.nItems ∧ (x.items p).m_Parent = none ∧ (x.items p).m_ManageMemory = true ∧
            (x.items e).m_Offset = sizeT (s.toNat * img.off 2 * img.ptypeSize)))) ∧
    (img.IsValidVolume t n = true → elemAt img.m_Volumes (img.GetVolumeIndex t n) = some q →
      q < img.nItems →
      ∃ x e, SetImportVolume src (fuel + 1) img data t n imm = some (x, true) ∧
        elemAt x.m_Volumes (img.GetVolumeIndex t n) = some e ∧ img.nItems ≤ e ∧
        (∀ c, elemAt img.m_Channels n = some c →
          (x.items e).m_Parent = some c ∧ (x.items e).m_ManageMemory = false ∧
          (x.items e).m_Offset = sizeT (t.toNat * img.off 3 * img.ptypeSize)) ∧
        (elemAt img.m_Channels n = none →
          (x.items e).m_Parent = none ∧
          ((x.items e).m_ManageMemory = true ↔
            (imm ≠ ImportMemoryManagementType.ReferenceMemory ∨ data = none)))) ∧
    (img.IsValidChannel n = true → elemAt img.m_Channels n = some q → WF img → IdsOK img →
      ∃ x e, SetImportChannel src (fuel + 1) img data n imm = some (x, true) ∧
        elemAt x.m_Channels n = some e ∧ img.nItems ≤ e ∧
        (x.items e).m_Parent = none ∧
        ((x.items e).m_ManageMemory = true ↔
          (imm ≠ ImportMemoryManagementType.ReferenceMemory ∨ data = none))) :=
  ⟨fun hv he => SetImportSlice_over_view src fuel img data s t n imm q hv he hown,
    fun hv he hq => SetImportVolume_over_view src fuel img data t n imm q hv he hq hown,
    fun hv he hw hid => SetImportChannel_over_view src fuel img data n imm q hw hid hv he hown⟩

theorem sampleChannelView_wf : WF sampleChannelView ∧ IdsOK sampleChannelView := by
  have hs : sampleChannelView.m_Slices = [none, none] := by decide
  have hvo : sampleChannelView.m_Volumes = [some 0] := by decide
  have hc : sampleChannelView.m_Channels = [some 1] := by decide
  refine ⟨⟨by decide, by decide, by decide, by decide, by decide, by decide, by decide, by decide,
    by decide, by decide, by decide, by decide, by decide, by decide⟩, ⟨?_, ?_, ?_⟩⟩
  · intro q hq
    rw [hs] at hq
    simp at hq
  · intro q hq
    rw [hvo] at hq
    simp at hq
    subst hq
    decide
  · intro q hq
    rw [hc] at hq
    simp at hq
    subst hq
    decide

theorem reallocation_before_overwrite_witness :
    (sampleWritten.items 1).m_ManageMemory = false ∧
    sampleWritten.IsValidSlice 0 0 0 = true ∧
    elemAt sampleWritten.m_Slices (sampleWritten.GetSliceIndex 0 0 0) = some 1 ∧
    (∃ x e p, SetImportSlice none (0 + 1) sampleWritten (some ⟨0, 0⟩) 0 0 0
        ImportMemoryManagementType.CopyMemory = some (x, true) ∧
      elemAt x.m_Slices (sampleWritten.GetSliceIndex 0 0 0) = some e ∧
      (x.items e).m_ManageMemory = false ∧ (x.items e).m_Parent = some p) ∧
    (sampleVolumeView.items 1).m_ManageMemory = false ∧
    elemAt sampleVolumeView.m_Volumes (sampleVolumeView.GetVolumeIndex 0 0) = some 1 ∧
    elemAt sampleVolumeView.m_Channels 0 = some 0 ∧
    (∃ x e, SetImportVolume none (0 + 1) sampleVolumeView (some ⟨0, 0⟩) 0 0
        ImportMemoryManagementType.CopyMemory = some (x, true) ∧
      elemAt x.m_Volumes (sampleVolumeView.GetVolumeIndex 0 0) = some e ∧
      (x.items e).m_Parent = some 0 ∧ (x.items e).m_ManageMemory = false) ∧
    (sampleChannelView.items 1).m_ManageMemory = false ∧
    elemAt sampleChannelView.m_Channels 0 = some 1 ∧
    (∃ x e, SetImportChannel none (0 + 1) sampleChannelView (some ⟨0, 0⟩) 0
        ImportMemoryManagementType.CopyMemory = some (x, true) ∧
      elemAt x.m_Channels 0 = some e ∧ (x.items e).m_Parent = none ∧
      (x.items e).m_ManageMemory = true) := by
  obtain ⟨x1, e1, p1, a1, a2, _, a4, a5, _⟩ :=
    (reallocation_before_overwrite none 0 sampleWritten (some ⟨0, 0⟩) 0 0 0
      ImportMemoryManagementType.CopyMemory 1 (by decide)).1 (by decide) (by decide)
  obtain ⟨x2, e2, b1, b2, _, b4, _⟩ :=
    (reallocation_before_overwrite none 0 sampleVolumeView (some ⟨0, 0⟩) 0 0 0
      ImportMemoryManagementType.CopyMemory 1 (by decide)).2.1 (by decide) (by decide) (by decide)
  obtain ⟨x3, e3, c1, c2, _, c4, c5⟩ :=
    (reallocation_before_overwrite none 0 sampleChannelView (some ⟨0, 0⟩) 0 0 0
      ImportMemoryManagementType.CopyMemory 1 (by decide)).2.2 (by decide) (by decide)
      sampleChannelView_wf.1 sampleChannelView_wf.2
  exact ⟨by decide, by decide, by decide, ⟨x1, e1, p1, a1, a2, a4, a5⟩, by decide, by decide,
    by decide, ⟨x2, e2, b1, b2, (b4 0 (by decide)).1, (b4 0 (by decide)).2.1⟩, by decide, by decide,
    ⟨x3, e3, c1, c2, c4, c5.mpr (Or.inl (by decide))⟩⟩

/-! ## View containment -/

theorem Kept.kept_refl (a : Image) : Kept a a :=
  ⟨SameShape.shape_refl _, le_refl _, fun _ _ => sameFixed_refl _, rfl, rfl, rfl⟩

theorem Kept.kept_trans {a b c : Image} (h1 : Kept a b) (h2 : Kept b c) : Kept a c :=
  ⟨h1.shape.shape_trans h2.shape, le_trans h1.nItems h2.nItems,
    fun q hq => sameFixed_trans (h1.fixed q hq) (h2.fixed q (lt_of_lt_of_le hq h1.nItems)),
    h2.slices_len.trans h1.slices_len, h2.volumes_len.trans h1.volumes_len,
    h2.channels_len.trans h1.channels_len⟩

theorem Kept.kept_of_up {vx cx : Option Nat} {a b : Image} (h : UpX vx cx a b) : Kept a b :=
  ⟨h.shape, h.nItems, h.fixed, h.slices_len, h.volumes_len, h.channels_len⟩

theorem Kept.kept_of_adv {a b : Image} (h : Adv a b) : Kept a b :=
  ⟨h.shape, h.nItems, h.fixed, h.slices_len, h.volumes_len, h.channels_len⟩

theorem Kept.kept_wf {a b : Image} (h : Kept a b) (hw : WF a) : WF b :=
  hw.of_sameShape h.shape h.slices_len h.volumes_len h.channels_len

theorem Entry.carried {a b : Image} {k q : Nat} (h : Entry a k q) (hk : Kept a b) : Entry b k q := by
  obtain ⟨h1, h2, h3⟩ := h
  obtain ⟨f1, f2, _, f4, f5, _⟩ := hk.fixed q h1
  refine ⟨lt_of_lt_of_le h1 hk.nItems, ?_, ?_⟩
  · rw [f2, h2, hk.shape.itemSize]
  · intro p hp
    rw [f4] at hp
    obtain ⟨g1, g2, g3⟩ := h3 p hp
    obtain ⟨e1, e2, _, _, _, _⟩ := hk.fixed p g1
    refine ⟨lt_of_lt_of_le g1 hk.nItems, ?_, ?_⟩
    · rw [f1, f5, e1]
      exact g2
    · rw [f5, f2, e2]
      exact g3

/-- The invariant is kept by steps after which every array entry is an old entry of the
same array or a new entry of the right kind. -/
theorem Contained.of_kept {a b : Image} (h : Contained a) (hk : Kept a b)
    (hs : ∀ q, some q ∈ b.m_Slices → some q ∈ a.m_Slices ∨ Entry b 2 q)
    (hv : ∀ q, some q ∈ b.m_Volumes → some q ∈ a.m_Volumes ∨ Entry b 3 q)
    (hc : ∀ q, some q ∈ b.m_Channels → some q ∈ a.m_Channels ∨ Entry b a.m_Dimension q) :
    Contained b where
  wf := hk.kept_wf h.wf
  chan := by
    rw [hk.shape.rank, hk.shape.itemSize, hk.shape.off, hk.shape.ptype]
    exact h.chan
  sl := fun q hq => (hs q hq).elim (fun h' => (h.sl q h').carried hk) id
  vo := fun q hq => (hv q hq).elim (fun h' => (h.vo q h').carried hk) id
  ch := fun q hq => by
    rw [hk.shape.rank]
    exact (hc q hq).elim (fun h' => (h.ch q h').carried hk) id

/-- With one time step the item of a whole channel is not larger than a volume. -/
theorem Contained.fit {img : Image} (h : Contained img) (hd : img.dim 3 ≤ 1) :
    img.ComputeItemSize img.m_Dimension ≤ img.ComputeItemSize 3 := by
  rw [h.chan, h.wf.size3, h.wf.off4]
  have h1 : img.dim 3 = 1 := by
    have := h.wf.d3_pos
    omega
  rw [h1, Nat.mul_one]

theorem Contained.of_same {a b : Image} (h : Contained a) (hk : Kept a b)
    (h1 : b.m_Slices = a.m_Slices) (h2 : b.m_Volumes = a.m_Volumes)
    (h3 : b.m_Channels = a.m_Channels) : Contained b :=
  h.of_kept hk (fun q hq => Or.inl (h1 ▸ hq)) (fun q hq => Or.inl (h2 ▸ hq))
    (fun q hq => Or.inl (h3 ▸ hq))

/-- An item constructed as a view of `p` at offset `o` lies inside `p` when its bytes end
within those of `p`. -/
theorem entry_of_view {x y : Image} (hk : Kept x y) {p kp k q o : Nat} (hp : Entry x kp p)
    (hq : q < y.nItems) (h1 : (y.items q).m_Parent = some p)
    (h2 : (y.items q).m_Data = Ptr.add (x.items p).m_Data o) (h3 : (y.items q).m_Offset = o)
    (h4 : (y.items q).m_Size = x.ComputeItemSize k)
    (hl : o + x.ComputeItemSize k ≤ x.ComputeItemSize kp) : Entry y k q := by
  obtain ⟨e1, e2, _, _, _, _⟩ := hk.fixed p hp.1
  refine ⟨hq, by rw [h4, hk.shape.itemSize], ?_⟩
  intro p' hp'
  rw [h1] at hp'
  cases hp'
  refine ⟨lt_of_lt_of_le hp.1 hk.nItems, ?_, ?_⟩
  · rw [h2, h3, e1]
  · rw [h3, h4, e2, hp.2.1]
    exact hl

/-- An item constructed without parent. -/
theorem entry_of_root {y : Image} {k q : Nat} (hq : q < y.nItems)
    (h1 : (y.items q).m_Parent = none) (h4 : (y.items q).m_Size = y.ComputeItemSize k) :
    Entry y k q :=
  ⟨hq, h4, fun p hp => by rw [h1] at hp; cases hp⟩

theorem fit_volume_in_channel {x : Image} (hw : WF x) {t : Nat} (ht : t < x.dim 3) :
    sizeT (t * x.off 3 * x.ptypeSize) + x.ComputeItemSize 3 ≤ x.ComputeItemSize x.m_Dimension := by
  have hlt : t * x.off 3 * x.ptypeSize + x.off 3 * x.ptypeSize ≤ x.off 4 * x.ptypeSize := by
    rw [hw.off4]
    have h1 : (t + 1) * (x.off 3 * x.ptypeSize) ≤ x.dim 3 * (x.off 3 * x.ptypeSize) :=
      Nat.mul_le_mul_right _ ht
    have e1 : (t + 1) * (x.off 3 * x.ptypeSize) = t * x.off 3 * x.ptypeSize + x.off 3 * x.ptypeSize := by
      ring
    have e2 : x.dim 3 * (x.off 3 * x.ptypeSize) = x.off 3 * x.dim 3 * x.ptypeSize := by ring
    omega
  have hb := hw.bytes_lt
  have hc := hw.sizeCh
  rw [sizeT_of_lt (by omega), hw.size3]
  omega

theorem fit_slice_in_volume {x : Image} (hw : WF x) {s : Nat} (hs : s < x.dim 2) :
    sizeT (s * x.off 2 * x.ptypeSize) + x.ComputeItemSize 2 ≤ x.ComputeItemSize 3 := by
  have h1 := hw.slice_in_volume hs
  have h2 := hw.volume_le_channel
  have hb := hw.bytes_lt
  rw [sizeT_of_lt (by omega), hw.size2, hw.size3]
  exact h1

theorem fit_slice_in_channel {x : Image} (hw : WF x) {s t : Nat} (hs : s < x.dim 2)
    (ht : t < x.dim 3) :
    sizeT ((s * x.off 2 + t * x.off 3) * x.ptypeSize) + x.ComputeItemSize 2 ≤
      x.ComputeItemSize x.m_Dimension := by
  have h1 := hw.offset_lt hs ht
  have hb := hw.bytes_lt
  have hc := hw.sizeCh
  rw [sizeT_of_lt (by omega), hw.size2]
  omega

theorem fit_volume_in_slice {x : Image} (hw : WF x) (hd : x.dim 2 ≤ 1) :
    0 + x.ComputeItemSize 3 ≤ x.ComputeItemSize 2 := by
  have h1 : x.dim 2 = 1 := by
    have := hw.d2_pos
    omega
  rw [hw.size2, hw.size3, hw.off3, h1, Nat.mul_one]
  omega

/-- Installing a slice view into an item in which it fits keeps the invariant. -/
theorem contained_installSliceView (x : Image) (pos : Int) (p : Nat) (t : Int) (data : Option Ptr)
    (imm : ImportMemoryManagementType) (o kp : Nat) (hc : Contained x) (hp : Entry x kp p)
    (hl : o + x.ComputeItemSize 2 ≤ x.ComputeItemSize kp) :
    Contained (x.installSliceView pos p t data imm o).1 ∧
    Kept x (x.installSliceView pos p t data imm o).1 ∧
    Entry (x.installSliceView pos p t data imm o).1 2 x.nItems ∧
    (x.installSliceView pos p t data imm o).2 = x.nItems := by
  have hk : Kept x (x.installSliceView pos p t data imm o).1 :=
    Kept.kept_of_up (up_installSliceView x pos p t data imm o)
  obtain ⟨h1, h2, h3, h4, h5⟩ := installSliceView_item x pos p t data imm o
  have he : Entry (x.installSliceView pos p t data imm o).1 2 x.nItems := by
    refine entry_of_view hk hp ?_ ?_ ?_ ?_ ?_ hl
    · rw [installSliceView_nItems]
      exact Nat.lt_succ_self _
    · rw [h2]
    · rw [h2]
    · rw [h2]
    · rw [h2]
  refine ⟨hc.of_kept hk ?_ ?_ ?_, hk, he, h1⟩
  · intro q hq
    rw [h3] at hq
    rcases mem_assignAt hq with h | h
    · exact Or.inl h
    · cases h
      exact Or.inr he
  · intro q hq
    exact Or.inl (h4 ▸ hq)
  · intro q hq
    exact Or.inl (h5 ▸ hq)

/-- `AllocateVolumeData_unlocked` keeps the invariant. -/
theorem contained_AllocateVolumeData (x : Image) (t n : Int) (data : Option Ptr)
    (imm : ImportMemoryManagementType) (hc : Contained x) (ht : t.toNat < x.dim 3) :
    Contained (x.AllocateVolumeData_unlocked t n data imm).1 ∧
    Kept x (x.AllocateVolumeData_unlocked t n data imm).1 ∧
    Entry (x.AllocateVolumeData_unlocked t n data imm).1 3 x.nItems ∧
    (x.AllocateVolumeData_unlocked t n data imm).2 = x.nItems := by
  obtain ⟨hup, g2, g3, g4, g5, g6⟩ := upx_AllocateVolumeData x t n data imm
  have hk : Kept x (x.AllocateVolumeData_unlocked t n data imm).1 := Kept.kept_of_up hup
  obtain ⟨a1, a2, a3, _⟩ := AllocateVolumeData_item x t n data imm
  have hlt : x.nItems < (x.AllocateVolumeData_unlocked t n data imm).1.nItems := by
    rw [g3]
    exact Nat.lt_succ_self _
  have he : Entry (x.AllocateVolumeData_unlocked t n data imm).1 3 x.nItems := by
    cases hch : elemAt x.m_Channels n with
    | some c =>
      obtain ⟨b1, _, b3, b4⟩ := a1 c hch
      exact entry_of_view hk (hc.ch c (mem_of_elemAt hch)) hlt b1 b4 b3 a3
        (fit_volume_in_channel hc.wf ht)
    | none =>
      refine entry_of_root hlt (a2 hch).1 ?_
      rw [a3, hk.shape.itemSize]
  refine ⟨hc.of_kept hk ?_ ?_ ?_, hk, he, g2⟩
  · intro q hq
    exact Or.inl (g5 ▸ hq)
  · intro q hq
    rw [g4] at hq
    rcases mem_assignAt hq with h | h
    · exact Or.inl h
    · cases h
      exact Or.inr he
  · intro q hq
    exact Or.inl (g6 ▸ hq)

/-- `AllocateChannelData_unlocked` keeps the invariant. -/
theorem contained_AllocateChannelData (x : Image) (n : Int) (data : Option Ptr)
    (imm : ImportMemoryManagementType) (hc : Contained x) :
    Contained (x.AllocateChannelData_unlocked n data imm).1 ∧
    Kept x (x.AllocateChannelData_unlocked n data imm).1 ∧
    Entry (x.AllocateChannelData_unlocked n data imm).1 x.m_Dimension x.nItems ∧
    (x.AllocateChannelData_unlocked n data imm).2 = x.nItems := by
  obtain ⟨hup, g2, g3, g4, g5, g6⟩ := upx_AllocateChannelData x n data imm
  have hk : Kept x (x.AllocateChannelData_unlocked n data imm).1 := Kept.kept_of_up hup
  obtain ⟨a1, _, a3, _⟩ := AllocateChannelData_item x n data imm
  have hlt : x.nItems < (x.AllocateChannelData_unlocked n data imm).1.nItems := by
    rw [g3]
    exact Nat.lt_succ_self _
  have he : Entry (x.AllocateChannelData_unlocked n data imm).1 x.m_Dimension x.nItems := by
    refine entry_of_root hlt a1 ?_
    rw [a3, hk.shape.itemSize]
  refine ⟨hc.of_kept hk ?_ ?_ ?_, hk, he, g2⟩
  · intro q hq
    exact Or.inl (g5 ▸ hq)
  · intro q hq
    exact Or.inl (g6 ▸ hq)
  · intro q hq
    rw [g4] at hq
    rcases mem_assignAt hq with h | h
    · exact Or.inl h
    · cases h
      exact Or.inr he

theorem WF.slice_nat {x : Image} (hw : WF x) {s t n : Int} (hv : x.IsValidSlice s t n = true) :
    s.toNat < x.dim 2 ∧ t.toNat < x.dim 3 := by
  obtain ⟨h1, h2, h3, h4, _, _⟩ := (hw.validSlice_iff s t n).1 hv
  omega

theorem WF.volume_nat {x : Image} (hw : WF x) {t n : Int} (hv : x.IsValidVolume t n = true) :
    t.toNat < x.dim 3 := by
  obtain ⟨h1, h2, _, _⟩ := (hw.validVolume_iff t n).1 hv
  omega

/-- `AllocateSliceData_unlocked` keeps the invariant. -/
theorem contained_AllocateSliceData (x : Image) (s t n : Int) (data : Option Ptr)
    (imm : ImportMemoryManagementType) (hc : Contained x) (hs : s.toNat < x.dim 2)
    (ht : t.toNat < x.dim 3) :
    Contained (x.AllocateSliceData_unlocked s t n data imm).1 ∧
    Kept x (x.AllocateSliceData_unlocked s t n data imm).1 ∧
    Entry (x.AllocateSliceData_unlocked s t n data imm).1 2
      (x.AllocateSliceData_unlocked s t n data imm).2 := by
  unfold AllocateSliceData_unlocked
  cases hv : elemAt x.m_Volumes (x.GetVolumeIndex t n) with
  | some v =>
    obtain ⟨a1, a2, a3, a4⟩ := contained_installSliceView x (x.GetSliceIndex s t n) v t data imm
      (sizeT (s.toNat * x.off 2 * x.ptypeSize)) 3 hc (hc.vo v (mem_of_elemAt hv))
      (fit_slice_in_volume hc.wf hs)
    exact ⟨a1, a2, a4 ▸ a3⟩
  | none =>
    cases hch : elemAt x.m_Channels n with
    | some c =>
      obtain ⟨a1, a2, a3, a4⟩ := contained_installSliceView x (x.GetSliceIndex s t n) c t data imm
        (sizeT ((s.toNat * x.off 2 + t.toNat * x.off 3) * x.ptypeSize)) x.m_Dimension hc
        (hc.ch c (mem_of_elemAt hch)) (fit_slice_in_channel hc.wf hs ht)
      exact ⟨a1, a2, a4 ▸ a3⟩
    | none =>
      obtain ⟨b1, b2, b3, b4⟩ := contained_AllocateVolumeData x t n none imm hc ht
      have hsh := b2.shape
      have hfit : sizeT (s.toNat * x.off 2 * x.ptypeSize) +
          (x.AllocateVolumeData_unlocked t n none imm).1.ComputeItemSize 2 ≤
          (x.AllocateVolumeData_unlocked t n none imm).1.ComputeItemSize 3 := by
        rw [hsh.itemSize, hsh.itemSize]
        exact fit_slice_in_volume hc.wf hs
      obtain ⟨a1, a2, a3, a4⟩ := contained_installSliceView
        (x.AllocateVolumeData_unlocked t n none imm).1 (x.GetSliceIndex s t n)
        (x.AllocateVolumeData_unlocked t n none imm).2 t data imm
        (sizeT (s.toNat * x.off 2 * x.ptypeSize)) 3 b1 (b4 ▸ b3) hfit
      exact ⟨a1, b2.kept_trans a2, a4 ▸ a3⟩

/-- A change of fields outside the shape, the arrays and the items keeps the invariant. -/
theorem kept_of_same {a b : Image} (hs : SameShape a b) (h1 : b.m_Slices = a.m_Slices)
    (h2 : b.m_Volumes = a.m_Volumes) (h3 : b.m_Channels = a.m_Channels) (h4 : b.items = a.items)
    (h5 : b.nItems = a.nItems) : Kept a b :=
  ⟨hs, le_of_eq h5.symm, fun q _ => by rw [h4]; exact sameFixed_refl _, by rw [h1], by rw [h2],
    by rw [h3]⟩

/-- Marking an item complete keeps the invariant. -/
theorem contained_SetComplete (x : Image) (p : Nat) (hc : Contained x) :
    Contained (x.SetComplete p true) ∧ Kept x (x.SetComplete p true) := by
  have hk : Kept x (x.SetComplete p true) := Kept.kept_of_up (up_SetComplete x p)
  exact ⟨hc.of_kept hk (fun q hq => Or.inl hq) (fun q hq => Or.inl hq) (fun q hq => Or.inl hq), hk⟩

/-- The call of the pipeline source keeps the invariant when `Update()` does. -/
theorem contained_callUpdate (x : Image) (p : Source) (index : List Int) (size : List Nat)
    (hc : Contained x)
    (hp : ∀ i, Contained i → Contained (p.update i) ∧ Kept i (p.update i)) :
    Contained (x.callUpdate p index size) ∧ Kept x (x.callUpdate p index size) := by
  have hk0 : Kept x { x with m_RequestedRegion := ⟨index, size⟩, m_RequestedRegionInitialized := true } :=
    kept_of_same ⟨rfl, rfl, rfl, rfl, rfl, rfl⟩ rfl rfl rfl rfl rfl
  have hc0 : Contained { x with m_RequestedRegion := ⟨index, size⟩, m_RequestedRegionInitialized := true } :=
    hc.of_kept hk0 (fun q hq => Or.inl hq) (fun q hq => Or.inl hq) (fun q hq => Or.inl hq)
  obtain ⟨h1, h2⟩ := hp _ hc0
  have hk1 : Kept (p.update { x with m_RequestedRegion := ⟨index, size⟩, m_RequestedRegionInitialized := true })
      (x.callUpdate p index size) :=
    kept_of_same ⟨rfl, rfl, rfl, rfl, rfl, rfl⟩ rfl rfl rfl rfl rfl
  exact ⟨h1.of_kept hk1 (fun q hq => Or.inl hq) (fun q hq => Or.inl hq) (fun q hq => Or.inl hq),
    (hk0.kept_trans h2).kept_trans hk1⟩

/-- `GetSliceData_unlocked` keeps the invariant, and the item it returns is a slice entry. -/
theorem contained_GetSliceData (src : Option Source)
    (hp : ∀ p, canUpdate src = some p → ∀ i, Contained i → Contained (p.update i) ∧ Kept i (p.update i)) :
    ∀ (fuel : Nat) (x : Image) (s t n : Int) (data : Option Ptr) (imm : ImportMemoryManagementType)
      (res : Image × Option Nat), Contained x →
      GetSliceData_unlocked src fuel x s t n data imm = some res →
      Contained res.1 ∧ Kept x res.1 ∧ ∀ q, res.2 = some q → Entry res.1 2 q := by
  intro fuel
  induction fuel with
  | zero =>
    intro x s t n data imm res _ h
    simp [GetSliceData_unlocked] at h
  | succ fuel ih =>
    intro x s t n data imm res hc h
    unfold GetSliceData_unlocked at h
    by_cases hv : x.IsValidSlice s t n = true
    · have hv' : ¬ (x.IsValidSlice s t n = false) := by simp [hv]
      rw [if_neg hv'] at h
      obtain ⟨hs, ht⟩ := hc.wf.slice_nat hv
      dsimp only at h
      cases hsl : elemAt x.m_Slices (x.GetSliceIndex s t n) with
      | some sl =>
        rw [hsl] at h
        cases h
        exact ⟨hc, Kept.kept_refl _, fun q hq => by cases hq; exact hc.sl _ (mem_of_elemAt hsl)⟩
      | none =>
        rw [hsl] at h
        dsimp only at h
        by_cases hvol : x.completeEntry (elemAt x.m_Volumes (x.GetVolumeIndex t n)) = true
        · rw [if_pos hvol] at h
          obtain ⟨v, hv1, _⟩ := completeEntry_some hvol
          rw [hv1] at h
          cases h
          obtain ⟨a1, a2, a3, a4⟩ := contained_installSliceView x (x.GetSliceIndex s t n) v t data imm
            (sizeT (s.toNat * x.off 2 * x.ptypeSize)) 3 hc (hc.vo v (mem_of_elemAt hv1))
            (fit_slice_in_volume hc.wf hs)
          exact ⟨a1, a2, fun q hq => by cases hq; exact a4 ▸ a3⟩
        · rw [if_neg hvol] at h
          by_cases hch : x.completeEntry (elemAt x.m_Channels n) = true
          · rw [if_pos hch] at h
            obtain ⟨c, hc1, _⟩ := completeEntry_some hch
            rw [hc1] at h
            cases h
            obtain ⟨a1, a2, a3, a4⟩ := contained_installSliceView x (x.GetSliceIndex s t n) c t data imm
              (sizeT ((s.toNat * x.off 2 + t.toNat * x.off 3) * x.ptypeSize)) x.m_Dimension hc
              (hc.ch c (mem_of_elemAt hc1)) (fit_slice_in_channel hc.wf hs ht)
            exact ⟨a1, a2, fun q hq => by cases hq; exact a4 ▸ a3⟩
          · rw [if_neg hch] at h
            cases hsrc : canUpdate src with
            | some p =>
              rw [hsrc] at h
              dsimp only at h
              obtain ⟨u1, u2⟩ := contained_callUpdate x p [0, 0, s, t, n] [x.dim 0, x.dim 1, 1, 1, 1] hc
                (hp p hsrc)
              split at h
              · obtain ⟨b1, b2, b3⟩ := ih _ s t n data imm res u1 h
                exact ⟨b1, u2.kept_trans b2, b3⟩
              · cases h
                exact ⟨u1, u2, fun q hq => nomatch hq⟩
            | none =>
              rw [hsrc] at h
              cases h
              obtain ⟨a1, a2, a3⟩ := contained_AllocateSliceData x s t n data imm hc hs ht
              obtain ⟨c1, c2⟩ := contained_SetComplete _ (x.AllocateSliceData_unlocked s t n data imm).2 a1
              exact ⟨c1, a2.kept_trans c2, fun q hq => by cases hq; exact a3.carried c2⟩
    · have hv' : x.IsValidSlice s t n = false := by simpa using hv
      rw [if_pos hv'] at h
      cases h
      exact ⟨hc, Kept.kept_refl _, fun q hq => nomatch hq⟩

theorem fit_slice_product {x : Image} (hw : WF x) {s : Nat} (hs : s < x.dim 2) :
    sizeT (s * sizeT (x.off 2 * x.ptypeSize)) + x.ComputeItemSize 2 ≤ x.ComputeItemSize 3 := by
  have h1 := hw.slice_in_volume hs
  have h2 := hw.volume_le_channel
  have hb := hw.bytes_lt
  have e : s * (x.off 2 * x.ptypeSize) = s * x.off 2 * x.ptypeSize := by ring
  rw [sizeT_of_lt (show x.off 2 * x.ptypeSize < 2 ^ 64 by omega), e, sizeT_of_lt (by omega),
    hw.size2, hw.size3]
  exact h1

/-- Steps that keep the three arrays keep the invariant. -/
theorem Contained.of_tiers {vx cx : Option Nat} {a b : Image} (h : Contained a) (hu : UpX vx cx a b)
    (ht : SameTiers a b) : Contained b ∧ Kept a b :=
  ⟨h.of_kept (Kept.kept_of_up hu) (fun q hq => Or.inl (ht.slices ▸ hq)) (fun q hq => Or.inl (ht.volumes ▸ hq))
    (fun q hq => Or.inl (ht.channels ▸ hq)), Kept.kept_of_up hu⟩

/-- A complete view of dimension `k` into an item in which it fits. -/
theorem contained_subItem (x : Image) (p : Nat) (t : Int) (k : Nat) (data : Option Ptr) (m : Bool)
    (o kp : Nat) (hc : Contained x) (hp : Entry x kp p)
    (hl : o + x.ComputeItemSize k ≤ x.ComputeItemSize kp) :
    Contained ((x.newSubItem p t k data m o).1.SetComplete x.nItems true) ∧
    Kept x ((x.newSubItem p t k data m o).1.SetComplete x.nItems true) ∧
    Entry ((x.newSubItem p t k data m o).1.SetComplete x.nItems true) k x.nItems := by
  have hu : Up x ((x.newSubItem p t k data m o).1.SetComplete x.nItems true) :=
    (up_newSubItem x p t k data m o).up_trans (up_SetComplete _ _)
  obtain ⟨c1, c2⟩ := hc.of_tiers hu ⟨rfl, rfl, rfl⟩
  refine ⟨c1, c2, entry_of_view c2 hp ?_ ?_ ?_ ?_ ?_ hl⟩
  · exact Nat.lt_succ_self _
  · simp [newSubItem, addItem, SetComplete]
  · simp [newSubItem, addItem, SetComplete]
  · simp [newSubItem, addItem, SetComplete]
  · simp [newSubItem, addItem, SetComplete]

/-- A new independent item of dimension `k`. -/
theorem contained_newItem (x : Image) (t : Int) (k : Nat) (data : Option Ptr) (m : Bool)
    (hc : Contained x) :
    Contained (x.newItem t k data m).1 ∧ Kept x (x.newItem t k data m).1 ∧
    Entry (x.newItem t k data m).1 k x.nItems ∧ (x.newItem t k data m).2 = x.nItems := by
  obtain ⟨c1, c2⟩ := hc.of_tiers (up_newItem x t k data m) (sameTiers_newItem x t k data m)
  obtain ⟨a1, a2, _, _⟩ := newItem_item x t k data m
  refine ⟨c1, c2, entry_of_root ?_ a1 ?_, newItem_snd _ _ _ _ _⟩
  · rw [newItem_nItems]
    exact Nat.lt_succ_self _
  · rw [a2, c2.shape.itemSize]

theorem Contained.putSlice {x : Image} (h : Contained x) (pos : Int) {q : Nat} (hq : Entry x 2 q) :
    Contained { x with m_Slices := assignAt x.m_Slices pos (some q) } ∧
    Kept x { x with m_Slices := assignAt x.m_Slices pos (some q) } := by
  have hk : Kept x { x with m_Slices := assignAt x.m_Slices pos (some q) } :=
    ⟨⟨rfl, rfl, rfl, rfl, rfl, rfl⟩, le_refl _, fun _ _ => sameFixed_refl _, length_assignAt _ _ _, rfl, rfl⟩
  refine ⟨h.of_kept hk ?_ (fun p hp => Or.inl hp) (fun p hp => Or.inl hp), hk⟩
  intro p hp
  rcases mem_assignAt hp with h1 | h1
  · exact Or.inl h1
  · cases h1
    exact Or.inr (hq.carried hk)

theorem Contained.putVolume {x : Image} (h : Contained x) (pos : Int) {q : Nat} (hq : Entry x 3 q) :
    Contained { x with m_Volumes := assignAt x.m_Volumes pos (some q) } ∧
    Kept x { x with m_Volumes := assignAt x.m_Volumes pos (some q) } := by
  have hk : Kept x { x with m_Volumes := assignAt x.m_Volumes pos (some q) } :=
    ⟨⟨rfl, rfl, rfl, rfl, rfl, rfl⟩, le_refl _, fun _ _ => sameFixed_refl _, rfl, length_assignAt _ _ _, rfl⟩
  refine ⟨h.of_kept hk (fun p hp => Or.inl hp) ?_ (fun p hp => Or.inl hp), hk⟩
  intro p hp
  rcases mem_assignAt hp with h1 | h1
  · exact Or.inl h1
  · cases h1
    exact Or.inr (hq.carried hk)

theorem Contained.putChannel {x : Image} (h : Contained x) (pos : Int) {q : Nat}
    (hq : Entry x x.m_Dimension q) :
    Contained { x with m_Channels := assignAt x.m_Channels pos (some q) } ∧
    Kept x { x with m_Channels := assignAt x.m_Channels pos (some q) } := by
  have hk : Kept x { x with m_Channels := assignAt x.m_Channels pos (some q) } :=
    ⟨⟨rfl, rfl, rfl, rfl, rfl, rfl⟩, le_refl _, fun _ _ => sameFixed_refl _, rfl, rfl, length_assignAt _ _ _⟩
  refine ⟨h.of_kept hk (fun p hp => Or.inl hp) (fun p hp => Or.inl hp) ?_, hk⟩
  intro p hp
  rcases mem_assignAt hp with h1 | h1
  · exact Or.inl h1
  · cases h1
    exact Or.inr (hq.carried hk)

/-- One step of the slice-combining loop keeps the invariant. -/
theorem contained_combineSlice (t n : Int) (vol size : Nat) (data : Option Ptr)
    (imm : ImportMemoryManagementType) (x : Image) (s : Nat) (hc : Contained x) (hv : Entry x 3 vol)
    (hs : s < x.dim 2) (hsz : size = sizeT (x.off 2 * x.ptypeSize)) :
    Contained (combineSlice t n vol size data imm x s) ∧
    Kept x (combineSlice t n vol size data imm x s) := by
  unfold combineSlice
  dsimp only
  cases hsl : elemAt x.m_Slices (x.GetSliceIndex (toInt s) t n) with
  | none => exact hc.of_tiers (up_fault x) ⟨rfl, rfl, rfl⟩
  | some sl =>
    dsimp only
    split
    · obtain ⟨m1, m2⟩ := hc.of_tiers
        (up_memcpy x (Ptr.add (x.items vol).m_Data (sizeT (s * size))) (x.items sl).m_Data size)
        (sameTiers_memcpy x _ _ _)
      have hfit : sizeT (s * size) +
          (x.memcpy (Ptr.add (x.items vol).m_Data (sizeT (s * size))) (x.items sl).m_Data size).ComputeItemSize 2 ≤
          (x.memcpy (Ptr.add (x.items vol).m_Data (sizeT (s * size))) (x.items sl).m_Data size).ComputeItemSize 3 := by
        rw [m2.shape.itemSize, m2.shape.itemSize, hsz]
        exact fit_slice_product hc.wf hs
      obtain ⟨a1, a2, _, _⟩ := contained_installSliceView _ (x.GetSliceIndex (toInt s) t n) vol t data imm
        (sizeT (s * size)) 3 m1 (hv.carried m2) hfit
      exact ⟨a1, m2.kept_trans a2⟩
    · exact ⟨hc, Kept.kept_refl _⟩

/-- The slice-combining loop keeps the invariant. -/
theorem contained_combineSlices (t n : Int) (vol size : Nat) (data : Option Ptr)
    (imm : ImportMemoryManagementType) :
    ∀ (l : List Nat) (x : Image), Contained x → Entry x 3 vol → (∀ s, s ∈ l → s < x.dim 2) →
      size = sizeT (x.off 2 * x.ptypeSize) →
      Contained (l.foldl (combineSlice t n vol size data imm) x) ∧
      Kept x (l.foldl (combineSlice t n vol size data imm) x) := by
  intro l
  induction l with
  | nil => exact fun x hc _ _ _ => ⟨hc, Kept.kept_refl _⟩
  | cons s rest ih =>
    intro x hc hv hl hsz
    obtain ⟨a1, a2⟩ := contained_combineSlice t n vol size data imm x s hc hv
      (hl s (List.mem_cons_self _ _)) hsz
    obtain ⟨b1, b2⟩ := ih _ a1 (hv.carried a2)
      (fun s' hs' => by rw [a2.shape.dim]; exact hl s' (List.mem_cons_of_mem _ hs'))
      (by rw [a2.shape.off, a2.shape.ptype]; exact hsz)
    exact ⟨b1, a2.kept_trans b2⟩

/-- `GetVolumeData_unlocked` keeps the invariant, and the item it returns is a volume
entry. -/
theorem contained_GetVolumeData (src : Option Source)
    (hp : ∀ p, canUpdate src = some p → ∀ i, Contained i → Contained (p.update i) ∧ Kept i (p.update i)) :
    ∀ (fuel : Nat) (x : Image) (t n : Int) (data : Option Ptr) (imm : ImportMemoryManagementType)
      (res : Image × Option Nat), Contained x →
      GetVolumeData_unlocked src fuel x t n data imm = some res →
      Contained res.1 ∧ Kept x res.1 ∧ ∀ q, res.2 = some q → Entry res.1 3 q := by
  intro fuel
  induction fuel with
  | zero =>
    intro x t n data imm res _ h
    simp [GetVolumeData_unlocked] at h
  | succ fuel ih =>
    intro x t n data imm res hc h
    unfold GetVolumeData_unlocked at h
    by_cases hv : x.IsValidVolume t n = true
    · have hv' : ¬ (x.IsValidVolume t n = false) := by simp [hv]
      rw [if_neg hv'] at h
      have ht := hc.wf.volume_nat hv
      dsimp only at h
      by_cases hvol : x.completeEntry (elemAt x.m_Volumes (x.GetVolumeIndex t n)) = true
      · rw [if_pos hvol] at h
        cases h
        obtain ⟨v, hv1, _⟩ := completeEntry_some hvol
        exact ⟨hc, Kept.kept_refl _, fun q hq => hc.vo q (mem_of_elemAt hq)⟩
      · rw [if_neg hvol] at h
        by_cases hch : x.completeEntry (elemAt x.m_Channels n) = true
        · rw [if_pos hch] at h
          obtain ⟨c, hc1, _⟩ := completeEntry_some hch
          rw [hc1] at h
          cases h
          obtain ⟨a1, a2, a3⟩ := contained_subItem x c t 3 data
            (imm = ImportMemoryManagementType.ManageMemory) (sizeT (t.toNat * x.off 3 * x.ptypeSize))
            x.m_Dimension hc (hc.ch c (mem_of_elemAt hc1)) (fit_volume_in_channel hc.wf ht)
          obtain ⟨b1, b2⟩ := a1.putVolume (x.GetVolumeIndex t n) a3
          exact ⟨b1, a2.kept_trans b2, fun q hq => by cases hq; exact a3.carried b2⟩
        · rw [if_neg hch] at h
          by_cases hall : x.allSlicesSet t n = true
          · rw [if_pos hall] at h
            by_cases hd : x.dim 2 ≤ 1
            · rw [if_pos hd] at h
              cases hg : GetSliceData_unlocked src (fuel + 1) x 0 t n data imm with
              | none =>
                rw [hg] at h
                cases h
              | some r1 =>
                obtain ⟨g1, g2, g3⟩ := contained_GetSliceData src hp (fuel + 1) x 0 t n data imm r1 hc hg
                obtain ⟨img1, o⟩ := r1
                rw [hg] at h
                cases o with
                | none =>
                  cases h
                  obtain ⟨f1, f2⟩ := g1.of_tiers (up_fault img1) ⟨rfl, rfl, rfl⟩
                  exact ⟨f1, g2.kept_trans f2, fun q hq => nomatch hq⟩
                | some sl =>
                  cases h
                  have hd1 : img1.dim 2 ≤ 1 := by rw [g2.shape.dim]; exact hd
                  obtain ⟨a1, a2, a3⟩ := contained_subItem img1 sl t 3 data
                    (imm = ImportMemoryManagementType.ManageMemory) 0 2 g1 (g3 sl rfl)
                    (fit_volume_in_slice g1.wf hd1)
                  obtain ⟨b1, b2⟩ := a1.putVolume (x.GetVolumeIndex t n) a3
                  exact ⟨b1, (g2.kept_trans a2).kept_trans b2, fun q hq => by cases hq; exact a3.carried b2⟩
            · rw [if_neg hd] at h
              have tail : ∀ (r : Image × Nat) (y : Image),
                  y = List.foldl (combineSlice t n r.2 (sizeT (x.off 2 * x.ptypeSize)) data imm)
                    (r.1.SetComplete r.2 true) (List.range (x.dim 2)) →
                  Contained r.1 → Kept x r.1 → Entry r.1 3 r.2 →
                  Contained { y with m_Volumes := assignAt y.m_Volumes (x.GetVolumeIndex t n) (some r.2) } ∧
                  Kept x { y with m_Volumes := assignAt y.m_Volumes (x.GetVolumeIndex t n) (some r.2) } ∧
                  Entry { y with m_Volumes := assignAt y.m_Volumes (x.GetVolumeIndex t n) (some r.2) }
                    3 r.2 := by
                intro r y hy r1 r2 r3
                subst hy
                obtain ⟨c1, c2⟩ := contained_SetComplete r.1 r.2 r1
                obtain ⟨d1, d2⟩ := contained_combineSlices t n r.2 (sizeT (x.off 2 * x.ptypeSize)) data imm
                  (List.range (x.dim 2)) _ c1 (r3.carried c2)
                  (fun s hs => by
                    rw [(r2.kept_trans c2).shape.dim]
                    exact List.mem_range.1 hs)
                  (by rw [(r2.kept_trans c2).shape.off, (r2.kept_trans c2).shape.ptype])
                obtain ⟨e1, e2⟩ := d1.putVolume (x.GetVolumeIndex t n) ((r3.carried c2).carried d2)
                exact ⟨e1, ((r2.kept_trans c2).kept_trans d2).kept_trans e2,
                  ((r3.carried c2).carried d2).carried e2⟩
              cases he : elemAt x.m_Volumes (x.GetVolumeIndex t n) with
              | some v =>
                rw [he] at h
                cases h
                obtain ⟨e1, e2, e3⟩ := tail (x, v) _ rfl hc (Kept.kept_refl _) (hc.vo v (mem_of_elemAt he))
                exact ⟨e1, e2, fun q hq => by cases hq; exact e3⟩
              | none =>
                rw [he] at h
                cases h
                obtain ⟨a1, a2, a3, a4⟩ := contained_newItem x t 3 none true hc
                obtain ⟨e1, e2, e3⟩ := tail (x.newItem t 3 none true) _ rfl a1 a2 (a4 ▸ a3)
                exact ⟨e1, e2, fun q hq => by cases hq; exact e3⟩
          · rw [if_neg hall] at h
            cases hsrc : canUpdate src with
            | some p =>
              rw [hsrc] at h
              dsimp only at h
              obtain ⟨u1, u2⟩ := contained_callUpdate x p [0, 0, 0, t, n] [x.dim 0, x.dim 1, x.dim 2, 1, 1]
                hc (hp p hsrc)
              split at h
              · obtain ⟨b1, b2, b3⟩ := ih _ t n data imm res u1 h
                exact ⟨b1, u2.kept_trans b2, b3⟩
              · cases h
                exact ⟨u1, u2, fun q hq => nomatch hq⟩
            | none =>
              rw [hsrc] at h
              cases h
              obtain ⟨a1, a2, a3, a4⟩ := contained_AllocateVolumeData x t n data imm hc ht
              obtain ⟨c1, c2⟩ := contained_SetComplete _ (x.AllocateVolumeData_unlocked t n data imm).2 a1
              exact ⟨c1, a2.kept_trans c2, fun q hq => by cases hq; exact (a4 ▸ a3).carried c2⟩
    · have hv' : x.IsValidVolume t n = false := by simpa using hv
      rw [if_pos hv'] at h
      cases h
      exact ⟨hc, Kept.kept_refl _, fun q hq => nomatch hq⟩

/-- The clearing of slice pointers keeps the invariant. -/
theorem contained_clearSlices (x : Image) (it k : Nat) (hc : Contained x) :
    Contained (clearSlices x it k).1 ∧ Kept x (clearSlices x it k).1 := by
  obtain ⟨h1, _, _, h4, h5, h6, h7, h8, _, h10⟩ := clearSlices_same x it k
  have hk : Kept x (clearSlices x it k).1 :=
    ⟨h1, le_of_eq h7.symm, fun q _ => by rw [h6]; exact sameFixed_refl _, h8, by rw [h4], by rw [h5]⟩
  exact ⟨hc.of_kept hk (fun q hq => Or.inl (h10 q hq)) (fun q hq => Or.inl (h4 ▸ hq))
    (fun q hq => Or.inl (h5 ▸ hq)), hk⟩

/-- One step of the volume-combining loop keeps the invariant. -/
theorem contained_combineVolume (src : Option Source)
    (hp : ∀ p, canUpdate src = some p → ∀ i, Contained i → Contained (p.update i) ∧ Kept i (p.update i))
    (fuel : Nat) (n : Int) (ch size : Nat) (data : Option Ptr) (imm : ImportMemoryManagementType)
    (x : Image) (it t : Nat) (res : Image × Nat) (hc : Contained x) (hch : Entry x x.m_Dimension ch)
    (ht : t < x.dim 3)
    (h : combineVolume src fuel n ch size data imm (some (x, it)) t = some res) :
    Contained res.1 ∧ Kept x res.1 := by
  unfold combineVolume at h
  dsimp only at h
  cases hg : GetVolumeData_unlocked src fuel x (toInt t) n data imm with
  | none =>
    rw [hg] at h
    cases h
  | some r1 =>
    obtain ⟨g1, g2, g3⟩ := contained_GetVolumeData src hp fuel x (toInt t) n data imm r1 hc hg
    obtain ⟨img1, o⟩ := r1
    rw [hg] at h
    cases o with
    | none =>
      cases h
      obtain ⟨f1, f2⟩ := g1.of_tiers (up_fault img1) ⟨rfl, rfl, rfl⟩
      exact ⟨f1, g2.kept_trans f2⟩
    | some vol =>
      dsimp only at h
      split at h
      · cases h
        obtain ⟨m1, m2⟩ := g1.of_tiers
          (up_memcpy img1 (Ptr.add (img1.items ch).m_Data (sizeT (t * img1.off 3 * img1.ptypeSize)))
            (img1.items vol).m_Data size) (sameTiers_memcpy img1 _ _ _)
        have hk2 := g2.kept_trans m2
        have hch2 : Entry (img1.memcpy (Ptr.add (img1.items ch).m_Data
            (sizeT (t * img1.off 3 * img1.ptypeSize))) (img1.items vol).m_Data size)
            (img1.memcpy (Ptr.add (img1.items ch).m_Data
            (sizeT (t * img1.off 3 * img1.ptypeSize))) (img1.items vol).m_Data size).m_Dimension ch := by
          rw [hk2.shape.rank]
          exact hch.carried hk2
        have ht2 : t < (img1.memcpy (Ptr.add (img1.items ch).m_Data
            (sizeT (t * img1.off 3 * img1.ptypeSize))) (img1.items vol).m_Data size).dim 3 := by
          rw [hk2.shape.dim]
          exact ht
        have hfit := fit_volume_in_channel m1.wf ht2
        rw [m2.shape.off, m2.shape.ptype] at hfit
        obtain ⟨a1, a2, a3⟩ := contained_subItem _ ch (toInt t) 3 data
          (imm = ImportMemoryManagementType.ManageMemory) (sizeT (t * img1.off 3 * img1.ptypeSize))
          _ m1 hch2 hfit
        obtain ⟨b1, b2⟩ := a1.putVolume (x.GetVolumeIndex (toInt t) n) a3
        have c := fun k => contained_clearSlices _ it k b1
        exact ⟨(c _).1, ((hk2.kept_trans a2).kept_trans b2).kept_trans (c _).2⟩
      · cases h
        exact ⟨g1, g2⟩

theorem combineVolume_none (src : Option Source) (fuel : Nat) (n : Int) (ch size : Nat)
    (data : Option Ptr) (imm : ImportMemoryManagementType) (l : List Nat) :
    l.foldl (combineVolume src fuel n ch size data imm) none = none := by
  induction l with
  | nil => rfl
  | cons t rest ih => exact ih

/-- The volume-combining loop keeps the invariant. -/
theorem contained_combineVolumes (src : Option Source)
    (hp : ∀ p, canUpdate src = some p → ∀ i, Contained i → Contained (p.update i) ∧ Kept i (p.update i))
    (fuel : Nat) (n : Int) (ch size : Nat) (data : Option Ptr) (imm : ImportMemoryManagementType) :
    ∀ (l : List Nat) (x : Image) (it : Nat) (res : Image × Nat), Contained x →
      Entry x x.m_Dimension ch → (∀ t, t ∈ l → t < x.dim 3) →
      l.foldl (combineVolume src fuel n ch size data imm) (some (x, it)) = some res →
      Contained res.1 ∧ Kept x res.1 := by
  intro l
  induction l with
  | nil =>
    intro x it res hc _ _ h
    cases h
    exact ⟨hc, Kept.kept_refl _⟩
  | cons t rest ih =>
    intro x it res hc hch hl h
    rw [List.foldl_cons] at h
    cases hs : combineVolume src fuel n ch size data imm (some (x, it)) t with
    | none =>
      rw [hs, combineVolume_none] at h
      cases h
    | some r1 =>
      obtain ⟨a1, a2⟩ := contained_combineVolume src hp fuel n ch size data imm x it t r1 hc hch
        (hl t (List.mem_cons_self _ _)) hs
      rw [hs] at h
      obtain ⟨b1, b2⟩ := ih r1.1 r1.2 res a1 (by rw [a2.shape.rank]; exact hch.carried a2)
        (fun t' ht' => by rw [a2.shape.dim]; exact hl t' (List.mem_cons_of_mem _ ht')) h
      exact ⟨b1, a2.kept_trans b2⟩

/-- `GetChannelData_unlocked` keeps the invariant, and the item it returns is a channel
entry. -/
theorem contained_GetChannelData (src : Option Source)
    (hp : ∀ p, canUpdate src = some p → ∀ i, Contained i → Contained (p.update i) ∧ Kept i (p.update i)) :
    ∀ (fuel : Nat) (x : Image) (n : Int) (data : Option Ptr) (imm : ImportMemoryManagementType)
      (res : Image × Option Nat), Contained x →
      GetChannelData_unlocked src fuel x n data imm = some res →
      Contained res.1 ∧ Kept x res.1 ∧ ∀ q, res.2 = some q → Entry res.1 x.m_Dimension q := by
  intro fuel
  induction fuel with
  | zero =>
    intro x n data imm res _ h
    simp [GetChannelData_unlocked] at h
  | succ fuel ih =>
    intro x n data imm res hc h
    unfold GetChannelData_unlocked at h
    by_cases hv : x.IsValidChannel n = true
    · have hv' : ¬ (x.IsValidChannel n = false) := by simp [hv]
      rw [if_neg hv'] at h
      dsimp only at h
      by_cases hch : x.completeEntry (elemAt x.m_Channels n) = true
      · rw [if_pos hch] at h
        cases h
        exact ⟨hc, Kept.kept_refl _, fun q hq => hc.ch q (mem_of_elemAt hq)⟩
      · rw [if_neg hch] at h
        by_cases hset : x.IsChannelSet_unlocked n = true
        · rw [if_pos hset] at h
          by_cases hd : x.dim 3 ≤ 1
          · rw [if_pos hd] at h
            cases hg : GetVolumeData_unlocked src (fuel + 1) x 0 n data imm with
            | none =>
              rw [hg] at h
              cases h
            | some r1 =>
              obtain ⟨g1, g2, g3⟩ := contained_GetVolumeData src hp (fuel + 1) x 0 n data imm r1 hc hg
              obtain ⟨img1, o⟩ := r1
              rw [hg] at h
              cases o with
              | none =>
                cases h
                obtain ⟨f1, f2⟩ := g1.of_tiers (up_fault img1) ⟨rfl, rfl, rfl⟩
                exact ⟨f1, g2.kept_trans f2, fun q hq => nomatch hq⟩
              | some vol =>
                cases h
                have hd1 : img1.dim 3 ≤ 1 := by rw [g2.shape.dim]; exact hd
                obtain ⟨a1, a2, a3⟩ := contained_subItem img1 vol 0 img1.m_Dimension data
                  (imm = ImportMemoryManagementType.ManageMemory) 0 3 g1 (g3 vol rfl)
                  (by rw [Nat.zero_add]; exact g1.fit hd1)
                obtain ⟨b1, b2⟩ := a1.putChannel n a3
                refine ⟨b1, (g2.kept_trans a2).kept_trans b2, fun q hq => ?_⟩
                cases hq
                rw [← g2.shape.rank]
                exact a3.carried b2
          · rw [if_neg hd] at h
            have tail : ∀ (r : Image × Nat) (y : Image × Nat),
                List.foldl (combineVolume src (fuel + 1) n r.2
                    (sizeT (x.off (x.m_Dimension - 1) * x.ptypeSize)) data imm)
                  (some (r.1.SetComplete r.2 true, u32 (n.toNat * x.dim 2 * x.dim 3)))
                  (List.range (x.dim 3)) = some y →
                Contained r.1 → Kept x r.1 → Entry r.1 x.m_Dimension r.2 →
                Contained { y.1 with m_Channels := assignAt y.1.m_Channels n (some r.2) } ∧
                Kept x { y.1 with m_Channels := assignAt y.1.m_Channels n (some r.2) } ∧
                Entry { y.1 with m_Channels := assignAt y.1.m_Channels n (some r.2) }
                  x.m_Dimension r.2 := by
              intro r y hy r1 r2 r3
              obtain ⟨c1, c2⟩ := contained_SetComplete r.1 r.2 r1
              have hk := r2.kept_trans c2
              obtain ⟨d1, d2⟩ := contained_combineVolumes src hp (fuel + 1) n r.2 _ data imm
                (List.range (x.dim 3)) _ _ y c1 (by rw [hk.shape.rank]; exact r3.carried c2)
                (fun s hs => by
                  rw [hk.shape.dim]
                  exact List.mem_range.1 hs) hy
              have hk2 := hk.kept_trans d2
              have he : Entry y.1 y.1.m_Dimension r.2 := by
                rw [hk2.shape.rank]
                exact (r3.carried c2).carried d2
              obtain ⟨e1, e2⟩ := d1.putChannel n he
              refine ⟨e1, hk2.kept_trans e2, ?_⟩
              rw [← hk2.shape.rank]
              exact he.carried e2
            cases he : elemAt x.m_Channels n with
            | some c =>
              rw [he] at h
              dsimp only at h
              split at h
              · cases h
              · rename_i y it hy
                cases h
                obtain ⟨e1, e2, e3⟩ := tail (x, c) (y, it) hy hc (Kept.kept_refl _) (hc.ch c (mem_of_elemAt he))
                exact ⟨e1, e2, fun q hq => by cases hq; exact e3⟩
            | none =>
              rw [he] at h
              dsimp only at h
              split at h
              · cases h
              · rename_i y it hy
                cases h
                obtain ⟨a1, a2, a3, a4⟩ := contained_newItem x (-1) x.m_Dimension none true hc
                obtain ⟨e1, e2, e3⟩ := tail (x.newChannelItem (-1) none true) (y, it) hy a1 a2 (a4 ▸ a3)
                exact ⟨e1, e2, fun q hq => by cases hq; exact e3⟩
        · rw [if_neg hset] at h
          cases hsrc : canUpdate src with
          | some p =>
            rw [hsrc] at h
            dsimp only at h
            obtain ⟨u1, u2⟩ := contained_callUpdate x p [0, 0, 0, 0, n]
              [x.dim 0, x.dim 1, x.dim 2, x.dim 3, 1] hc (hp p hsrc)
            split at h
            · obtain ⟨b1, b2, b3⟩ := ih _ n data imm res u1 h
              rw [u2.shape.rank] at b3
              exact ⟨b1, u2.kept_trans b2, b3⟩
            · cases h
              exact ⟨u1, u2, fun q hq => nomatch hq⟩
          | none =>
            rw [hsrc] at h
            cases h
            obtain ⟨a1, a2, a3, a4⟩ := contained_AllocateChannelData x n data imm hc
            obtain ⟨c1, c2⟩ := contained_SetComplete _ (x.AllocateChannelData_unlocked n data imm).2 a1
            exact ⟨c1, a2.kept_trans c2, fun q hq => by cases hq; exact (a4 ▸ a3).carried c2⟩
    · have hv' : x.IsValidChannel n = false := by simpa using hv
      rw [if_pos hv'] at h
      cases h
      exact ⟨hc, Kept.kept_refl _, fun q hq => nomatch hq⟩

/-- A copy of bytes keeps the invariant. -/
theorem contained_copyInto (x : Image) (d : Ptr) (data : Option Ptr) (l : Nat) (hc : Contained x) :
    Contained (x.copyInto d data l) ∧ Kept x (x.copyInto d data l) :=
  hc.of_tiers (up_copyInto x d data l) (sameTiers_copyInto x d data l)

/-- `Modified()` keeps the invariant. -/
theorem contained_Modified (x : Image) (hc : Contained x) : Contained x.Modified ∧ Kept x x.Modified := by
  have hk : Kept x x.Modified := kept_of_same ⟨rfl, rfl, rfl, rfl, rfl, rfl⟩ rfl rfl rfl rfl rfl
  exact ⟨hc.of_kept hk (fun q hq => Or.inl hq) (fun q hq => Or.inl hq) (fun q hq => Or.inl hq), hk⟩

/-- The common tail of the set branches keeps the invariant when the allocation does. -/
theorem contained_overwrite (alloc : Image → Image × Nat) (len : Nat) (data : Option Ptr) (x : Image)
    (p : Option Nat) (hc : Contained x) (ha : Contained (alloc x).1 ∧ Kept x (alloc x).1) :
    Contained (overwrite alloc len data x p).1 ∧ Kept x (overwrite alloc len data x p).1 := by
  unfold overwrite
  cases p with
  | none => exact hc.of_tiers (up_fault x) ⟨rfl, rfl, rfl⟩
  | some q =>
    dsimp only
    split
    · obtain ⟨c1, c2⟩ := contained_copyInto (alloc x).1 ((alloc x).1.items (alloc x).2).m_Data data len ha.1
      exact ⟨c1, ha.2.kept_trans c2⟩
    · exact contained_copyInto x (x.items q).m_Data data len hc

/-- `SetImportSlice` keeps the invariant. -/
theorem contained_SetImportSlice (src : Option Source)
    (hp : ∀ p, canUpdate src = some p → ∀ i, Contained i → Contained (p.update i) ∧ Kept i (p.update i))
    (fuel : Nat) (x : Image) (data : Option Ptr) (s t n : Int) (imm : ImportMemoryManagementType)
    (res : Image × Bool) (hc : Contained x) (h : SetImportSlice src fuel x data s t n imm = some res) :
    Contained res.1 ∧ Kept x res.1 := by
  unfold SetImportSlice at h
  by_cases hv : x.IsValidSlice s t n = true
  · have hv' : ¬ (x.IsValidSlice s t n = false) := by simp [hv]
    rw [if_neg hv'] at h
    obtain ⟨hs, ht⟩ := hc.wf.slice_nat hv
    dsimp only at h
    split at h
    · cases hg : GetSliceData src fuel x s t n data imm with
      | none =>
        rw [hg] at h
        cases h
      | some r1 =>
        obtain ⟨g1, g2, _⟩ := contained_GetSliceData src hp fuel x s t n data imm r1 hc (GetSliceData_some hg)
        rw [hg] at h
        cases h
        have ha := contained_AllocateSliceData r1.1 s t n data imm g1
          (by rw [g2.shape.dim]; exact hs) (by rw [g2.shape.dim]; exact ht)
        obtain ⟨o1, o2⟩ := contained_overwrite (fun i => i.AllocateSliceData s t n data imm)
          (sizeT (x.off 2 * x.ptypeSize)) data r1.1 r1.2 g1 ⟨ha.1, ha.2.1⟩
        obtain ⟨m1, m2⟩ := contained_Modified _ o1
        exact ⟨m1, (g2.kept_trans o2).kept_trans m2⟩
    · cases h
      obtain ⟨a1, a2, _⟩ := contained_AllocateSliceData x s t n data imm hc hs ht
      obtain ⟨c1, c2⟩ := contained_copyInto (x.AllocateSliceData s t n data imm).1
        ((x.AllocateSliceData s t n data imm).1.items (x.AllocateSliceData s t n data imm).2).m_Data data
        (sizeT (x.off 2 * x.ptypeSize)) a1
      exact ⟨c1, a2.kept_trans c2⟩
  · have hv' : x.IsValidSlice s t n = false := by simpa using hv
    rw [if_pos hv'] at h
    cases h
    exact ⟨hc, Kept.kept_refl _⟩

/-- A change of the descriptor's data pointer keeps the invariant. -/
theorem contained_descriptor (x : Image) (f : Nat → Option Ptr) (hc : Contained x) :
    Contained { x with descriptorData := f } ∧ Kept x { x with descriptorData := f } := by
  have hk : Kept x { x with descriptorData := f } :=
    kept_of_same ⟨rfl, rfl, rfl, rfl, rfl, rfl⟩ rfl rfl rfl rfl rfl
  exact ⟨hc.of_kept hk (fun q hq => Or.inl hq) (fun q hq => Or.inl hq) (fun q hq => Or.inl hq), hk⟩

/-- `SetImportVolume` keeps the invariant. -/
theorem contained_SetImportVolume (src : Option Source)
    (hp : ∀ p, canUpdate src = some p → ∀ i, Contained i → Contained (p.update i) ∧ Kept i (p.update i))
    (fuel : Nat) (x : Image) (data : Option Ptr) (t n : Int) (imm : ImportMemoryManagementType)
    (res : Image × Bool) (hc : Contained x) (h : SetImportVolume src fuel x data t n imm = some res) :
    Contained res.1 ∧ Kept x res.1 := by
  unfold SetImportVolume at h
  by_cases hv : x.IsValidVolume t n = true
  · have hv' : ¬ (x.IsValidVolume t n = false) := by simp [hv]
    rw [if_neg hv'] at h
    have ht := hc.wf.volume_nat hv
    dsimp only at h
    split at h
    · cases hg : GetVolumeData src fuel x t n data imm with
      | none =>
        rw [hg] at h
        cases h
      | some r1 =>
        obtain ⟨g1, g2, _⟩ := contained_GetVolumeData src hp fuel x t n data imm r1 hc (GetVolumeData_some hg)
        rw [hg] at h
        dsimp only at h
        have ha := contained_AllocateVolumeData r1.1 t n data imm g1 (by rw [g2.shape.dim]; exact ht)
        obtain ⟨o1, o2⟩ := contained_overwrite (fun i => i.AllocateVolumeData t n data imm)
          (sizeT (x.off 3 * x.ptypeSize)) data r1.1 r1.2 g1 ⟨ha.1, ha.2.1⟩
        split at h
        · cases h
          obtain ⟨m1, m2⟩ := contained_Modified _ o1
          exact ⟨m1, (g2.kept_trans o2).kept_trans m2⟩
        · rename_i v _
          cases h
          obtain ⟨c1, c2⟩ := contained_SetComplete _ v o1
          obtain ⟨m1, m2⟩ := contained_Modified _ c1
          exact ⟨m1, ((g2.kept_trans o2).kept_trans c2).kept_trans m2⟩
    · cases h
      obtain ⟨a1, a2, _⟩ := contained_AllocateVolumeData x t n data imm hc ht
      obtain ⟨c1, c2⟩ := contained_copyInto (x.AllocateVolumeData t n data imm).1
        ((x.AllocateVolumeData t n data imm).1.items (x.AllocateVolumeData t n data imm).2).m_Data data
        (sizeT (x.off 3 * x.ptypeSize)) a1
      obtain ⟨d1, d2⟩ := contained_SetComplete _ (x.AllocateVolumeData t n data imm).2 c1
      have e := fun f => contained_descriptor _ f d1
      exact ⟨(e _).1, ((a2.kept_trans c2).kept_trans d2).kept_trans (e _).2⟩
  · have hv' : x.IsValidVolume t n = false := by simpa using hv
    rw [if_pos hv'] at h
    cases h
    exact ⟨hc, Kept.kept_refl _⟩

/-- `SetImportChannel` keeps the invariant. -/
theorem contained_SetImportChannel (src : Option Source)
    (hp : ∀ p, canUpdate src = some p → ∀ i, Contained i → Contained (p.update i) ∧ Kept i (p.update i))
    (fuel : Nat) (x : Image) (data : Option Ptr) (n : Int) (imm : ImportMemoryManagementType)
    (res : Image × Bool) (hc : Contained x) (h : SetImportChannel src fuel x data n imm = some res) :
    Contained res.1 ∧ Kept x res.1 := by
  unfold SetImportChannel at h
  by_cases hv : x.IsValidChannel n = true
  · have hv' : ¬ (x.IsValidChannel n = false) := by simp [hv]
    rw [if_neg hv'] at h
    dsimp only at h
    split at h
    · cases hg : GetChannelData src fuel x n data imm with
      | none =>
        rw [hg] at h
        cases h
      | some r1 =>
        obtain ⟨g1, g2, _⟩ := contained_GetChannelData src hp fuel x n data imm r1 hc (GetChannelData_some hg)
        rw [hg] at h
        dsimp only at h
        have ha := contained_AllocateChannelData r1.1 n data imm g1
        obtain ⟨o1, o2⟩ := contained_overwrite (fun i => i.AllocateChannelData n data imm)
          (sizeT (x.off 4 * x.ptypeSize)) data r1.1 r1.2 g1 ⟨ha.1, ha.2.1⟩
        split at h
        · cases h
          obtain ⟨m1, m2⟩ := contained_Modified _ o1
          exact ⟨m1, (g2.kept_trans o2).kept_trans m2⟩
        · rename_i c _
          cases h
          obtain ⟨c1, c2⟩ := contained_SetComplete _ c o1
          obtain ⟨m1, m2⟩ := contained_Modified _ c1
          exact ⟨m1, ((g2.kept_trans o2).kept_trans c2).kept_trans m2⟩
    · cases h
      obtain ⟨a1, a2, _⟩ := contained_AllocateChannelData x n data imm hc
      obtain ⟨c1, c2⟩ := contained_copyInto (x.AllocateChannelData n data imm).1
        ((x.AllocateChannelData n data imm).1.items (x.AllocateChannelData n data imm).2).m_Data data
        (sizeT (x.off 4 * x.ptypeSize)) a1
      obtain ⟨d1, d2⟩ := contained_SetComplete _ (x.AllocateChannelData n data imm).2 c1
      have e := fun f => contained_descriptor _ f d1
      exact ⟨(e _).1, ((a2.kept_trans c2).kept_trans d2).kept_trans (e _).2⟩
  · have hv' : x.IsValidChannel n = false := by simpa using hv
    rw [if_pos hv'] at h
    cases h
    exact ⟨hc, Kept.kept_refl _⟩

/-- Every operation keeps the invariant. -/
theorem contained_run (src : Option Source)
    (hp : ∀ p, canUpdate src = some p → ∀ i, Contained i → Contained (p.update i) ∧ Kept i (p.update i))
    (fuel : Nat) (x y : Image) (op : Op) (hc : Contained x) (h : op.run src fuel x = some y) :
    Contained y ∧ Kept x y := by
  cases op with
  | getSlice s t n data imm =>
    simp only [Op.run, Option.map_eq_some'] at h
    obtain ⟨r, hr, rfl⟩ := h
    exact ⟨(contained_GetSliceData src hp fuel x s t n data imm r hc (GetSliceData_some hr)).1,
      (contained_GetSliceData src hp fuel x s t n data imm r hc (GetSliceData_some hr)).2.1⟩
  | getVolume t n data imm =>
    simp only [Op.run, Option.map_eq_some'] at h
    obtain ⟨r, hr, rfl⟩ := h
    exact ⟨(contained_GetVolumeData src hp fuel x t n data imm r hc (GetVolumeData_some hr)).1,
      (contained_GetVolumeData src hp fuel x t n data imm r hc (GetVolumeData_some hr)).2.1⟩
  | getChannel n data imm =>
    simp only [Op.run, Option.map_eq_some'] at h
    obtain ⟨r, hr, rfl⟩ := h
    exact ⟨(contained_GetChannelData src hp fuel x n data imm r hc (GetChannelData_some hr)).1,
      (contained_GetChannelData src hp fuel x n data imm r hc (GetChannelData_some hr)).2.1⟩
  | importSlice data s t n imm =>
    simp only [Op.run, Option.map_eq_some'] at h
    obtain ⟨r, hr, rfl⟩ := h
    exact contained_SetImportSlice src hp fuel x data s t n imm r hc hr
  | importVolume data t n imm =>
    simp only [Op.run, Option.map_eq_some'] at h
    obtain ⟨r, hr, rfl⟩ := h
    exact contained_SetImportVolume src hp fuel x data t n imm r hc hr
  | importChannel data n imm =>
    simp only [Op.run, Option.map_eq_some'] at h
    obtain ⟨r, hr, rfl⟩ := h
    exact contained_SetImportChannel src hp fuel x data n imm r hc hr
  | isSliceSet s t n =>
    cases h
    exact ⟨hc, Kept.kept_refl _⟩
  | isVolumeSet t n =>
    cases h
    exact ⟨hc, Kept.kept_refl _⟩
  | isChannelSet n =>
    cases h
    exact ⟨hc, Kept.kept_refl _⟩

/-- Every sequence of operations keeps the invariant. -/
theorem contained_runOps (src : Option Source)
    (hp : ∀ p, canUpdate src = some p → ∀ i, Contained i → Contained (p.update i) ∧ Kept i (p.update i))
    (fuel : Nat) : ∀ (ops : List Op) (x y : Image), Contained x → runOps src fuel ops x = some y →
      Contained y ∧ Kept x y := by
  intro ops
  induction ops with
  | nil =>
    intro x y hc h
    cases h
    exact ⟨hc, Kept.kept_refl _⟩
  | cons op rest ih =>
    intro x y hc h
    unfold runOps at h
    cases ho : op.run src fuel x with
    | none =>
      rw [ho] at h
      cases h
    | some z =>
      rw [ho] at h
      obtain ⟨a1, a2⟩ := contained_run src hp fuel x z op hc ho
      obtain ⟨b1, b2⟩ := ih z y a1 h
      exact ⟨b1, a2.kept_trans b2⟩

/-- The image a successful `Initialize` of rank at most 4 leaves satisfies the invariant:
its arrays are empty and a channel item has the bytes of all time steps. -/
theorem contained_initialized (img : Image) (ts d : Nat) (ds : List Nat) (ch : Nat) (hd : d ≤ 4)
    (hall : ∀ i, i < d → 1 ≤ ds.getD i 0) (hts : 1 ≤ ts)
    (hsl : ch * (img.initialized ts d ds ch).dim 3 * (img.initialized ts d ds ch).dim 2 < 2 ^ 31)
    (hbytes : (img.initialized ts d ds ch).dim 0 * (img.initialized ts d ds ch).dim 1 *
      (img.initialized ts d ds ch).dim 2 * (img.initialized ts d ds ch).dim 3 * ts < 2 ^ 64) :
    Contained (img.initialized ts d ds ch) := by
  obtain ⟨hw, hi⟩ := wf_initialized img ts d ds ch (by omega) hall hts hsl hbytes
  have hnone : ∀ (q k : Nat), some q ∉ List.map (fun _ => (none : Option Nat))
      (List.replicate k (none : Option Nat)) := by
    intro q k h
    simp at h
  refine ⟨hw, ?_, fun q hq => absurd hq (hnone q _), fun q hq => absurd hq (hnone q _),
    fun q hq => absurd hq (hnone q _)⟩
  have hsz : ∀ k, (img.initialized ts d ds ch).ComputeItemSize k = ((copyDimensions ds d).take k).prod * ts :=
    fun _ => rfl
  have hrank : (img.initialized ts d ds ch).m_Dimension = d := rfl
  have h3 := hw.size3
  rw [hw.off4, hrank]
  have e : (img.initialized ts d ds ch).off 3 * (img.initialized ts d ds ch).dim 3 *
      (img.initialized ts d ds ch).ptypeSize =
      (img.initialized ts d ds ch).off 3 * (img.initialized ts d ds ch).ptypeSize *
      (img.initialized ts d ds ch).dim 3 := by ring
  rw [e, ← h3, hsz, hsz, initialized_dim, copyDimensions_eq]
  interval_cases d <;> simp
  ring

theorem Contained.idsOK {x : Image} (h : Contained x) : IdsOK x :=
  ⟨fun q hq => (h.sl q hq).1, fun q hq => (h.vo q hq).1, fun q hq => (h.ch q hq).1⟩

/-- The guarded copy changes no byte outside the destination range. -/
theorem copyInto_outside (y : Image) (d : Ptr) (data : Option Ptr) (len b o : Nat)
    (h : ¬ (b = d.buf ∧ d.off ≤ o ∧ o < d.off + len)) : (y.copyInto d data len).mem b o = y.mem b o := by
  unfold copyInto
  cases data with
  | none => rfl
  | some p =>
    dsimp only
    split
    · rfl
    · unfold memcpy
      split
      · show (if b = d.buf ∧ d.off ≤ o ∧ o < d.off + len then _ else _) = _
        rw [if_neg h]
      · rfl

theorem WF.len2 {x : Image} (hw : WF x) : sizeT (x.off 2 * x.ptypeSize) = x.off 2 * x.ptypeSize := by
  have h1 := hw.slice_in_volume hw.d2_pos
  have h2 := hw.volume_le_channel
  have h3 := hw.bytes_lt
  exact sizeT_of_lt (by omega)

theorem WF.len3 {x : Image} (hw : WF x) : sizeT (x.off 3 * x.ptypeSize) = x.off 3 * x.ptypeSize := by
  have h2 := hw.volume_le_channel
  have h3 := hw.bytes_lt
  exact sizeT_of_lt (by omega)

theorem WF.len4 {x : Image} (hw : WF x) : sizeT (x.off 4 * x.ptypeSize) = x.off 4 * x.ptypeSize :=
  sizeT_of_lt hw.bytes_lt

theorem Later.later_refl (a : Image) : Later a a := ⟨Kept.kept_refl a, le_refl _⟩

theorem Later.later_trans {a b c : Image} (h1 : Later a b) (h2 : Later b c) : Later a c :=
  ⟨h1.kept.kept_trans h2.kept, le_trans h1.nBufs h2.nBufs⟩

theorem Later.later_of_up {vx cx : Option Nat} {a b : Image} (h : UpX vx cx a b) : Later a b :=
  ⟨Kept.kept_of_up h, h.nBufs⟩

theorem Ext.ext_refl (x : Image) (base : Nat → Option Int) : Ext x base base :=
  ⟨fun _ _ => rfl, fun _ _ h => h⟩

theorem Ext.ext_trans {x y : Image} {b1 b2 b3 : Nat → Option Int} (h1 : Ext x b1 b2) (h2 : Ext y b2 b3)
    (hn : x.nBufs ≤ y.nBufs) : Ext x b1 b3 :=
  ⟨fun B hB => by rw [h2.keep B (by rw [h1.keep B hB]; exact hB), h1.keep B hB],
    fun B hB hn1 => h2.above B (lt_of_lt_of_le hB hn) (h1.above B hB hn1)⟩

/-- A placed item stays placed in a later state under a map that keeps the bases. -/
theorem Placed.placed_later {base base' : Nat → Option Int} {a b : Image} {G q : Nat}
    (h : Placed base a G q) (hl : Later a b) (hk : ∀ B, base B ≠ none → base' B = base B) :
    Placed base' b G q := by
  obtain ⟨h1, Lb, h2, h3⟩ := h
  obtain ⟨f1, _⟩ := hl.kept.fixed q h1
  refine ⟨lt_of_lt_of_le h1 hl.kept.nItems, Lb, ?_, ?_⟩
  · rw [f1, hk _ (by rw [h2]; exact Option.some_ne_none _)]
    exact h2
  · rw [f1]
    exact h3

/-- The layout is kept by steps that keep the three arrays and the bases. -/
theorem Laid.laid_later {base base' : Nat → Option Int} {a b : Image} (h : Laid base a) (hl : Later a b)
    (hk : ∀ B, base B ≠ none → base' B = base B)
    (hc : ∀ B, base' B ≠ none → B < b.nBufs ∧ ∃ q, q < b.nItems ∧ (b.items q).m_Data.buf = B)
    (h1 : b.m_Slices = a.m_Slices) (h2 : b.m_Volumes = a.m_Volumes) (h3 : b.m_Channels = a.m_Channels) :
    Laid base' b where
  claimed := hc
  sl := fun k q hq => by
    rw [hl.kept.shape.off, hl.kept.shape.ptype]
    exact (h.sl k q (h1 ▸ hq)).placed_later hl hk
  vo := fun k q hq => by
    rw [hl.kept.shape.off, hl.kept.shape.ptype]
    exact (h.vo k q (h2 ▸ hq)).placed_later hl hk
  ch := fun k q hq => by
    rw [hl.kept.shape.off, hl.kept.shape.ptype]
    exact (h.ch k q (h3 ▸ hq)).placed_later hl hk

/-- The claimed buffers of a state stay claimed in a later state. -/
theorem Laid.claimed_later {base : Nat → Option Int} {a b : Image} (h : Laid base a) (hl : Later a b) :
    ∀ B, base B ≠ none → B < b.nBufs ∧ ∃ q, q < b.nItems ∧ (b.items q).m_Data.buf = B := by
  intro B hB
  obtain ⟨h1, q, h2, h3⟩ := h.claimed B hB
  refine ⟨lt_of_lt_of_le h1 hl.nBufs, q, lt_of_lt_of_le h2 hl.kept.nItems, ?_⟩
  rw [(hl.kept.fixed q h2).1]
  exact h3

/-- The layout is kept by steps that keep the three arrays, under the same map. -/
theorem Laid.laid_same {base : Nat → Option Int} {a b : Image} (h : Laid base a) (hl : Later a b)
    (h1 : b.m_Slices = a.m_Slices) (h2 : b.m_Volumes = a.m_Volumes) (h3 : b.m_Channels = a.m_Channels) :
    Laid base b :=
  h.laid_later hl (fun _ _ => rfl) (h.claimed_later hl) h1 h2 h3

theorem Laid.putSliceAt {base : Nat → Option Int} {x : Image} (h : Laid base x) (pos : Int) {q : Nat}
    (hq : 0 ≤ pos → Placed base x (pos.toNat * (x.off 2 * x.ptypeSize)) q) :
    Laid base { x with m_Slices := assignAt x.m_Slices pos (some q) } where
  claimed := h.claimed
  sl := fun k p hp => by
    have hp' : (assignAt x.m_Slices pos (some q)).getD k none = some p := hp
    rw [getD_assignAt] at hp'
    split at hp'
    · rename_i hc
      cases hp'
      rw [← hc.2.1]
      exact hq hc.1
    · exact h.sl k p hp'
  vo := h.vo
  ch := h.ch

theorem Laid.putVolumeAt {base : Nat → Option Int} {x : Image} (h : Laid base x) (pos : Int) {q : Nat}
    (hq : 0 ≤ pos → Placed base x (pos.toNat * (x.off 3 * x.ptypeSize)) q) :
    Laid base { x with m_Volumes := assignAt x.m_Volumes pos (some q) } where
  claimed := h.claimed
  sl := h.sl
  vo := fun k p hp => by
    have hp' : (assignAt x.m_Volumes pos (some q)).getD k none = some p := hp
    rw [getD_assignAt] at hp'
    split at hp'
    · rename_i hc
      cases hp'
      rw [← hc.2.1]
      exact hq hc.1
    · exact h.vo k p hp'
  ch := h.ch

theorem Laid.putChannelAt {base : Nat → Option Int} {x : Image} (h : Laid base x) (pos : Int) {q : Nat}
    (hq : 0 ≤ pos → Placed base x (pos.toNat * (x.off 4 * x.ptypeSize)) q) :
    Laid base { x with m_Channels := assignAt x.m_Channels pos (some q) } where
  claimed := h.claimed
  sl := h.sl
  vo := h.vo
  ch := fun k p hp => by
    have hp' : (assignAt x.m_Channels pos (some q)).getD k none = some p := hp
    rw [getD_assignAt] at hp'
    split at hp'
    · rename_i hc
      cases hp'
      rw [← hc.2.1]
      exact hq hc.1
    · exact h.ch k p hp'

/-- An entry read with `elemAt` is placed where its index says. -/
theorem Laid.slice_at {base : Nat → Option Int} {x : Image} (h : Laid base x) {pos : Int} {q : Nat}
    (hq : elemAt x.m_Slices pos = some q) : Placed base x (pos.toNat * (x.off 2 * x.ptypeSize)) q := by
  unfold elemAt at hq
  split at hq
  · exact h.sl _ q hq
  · cases hq

theorem Laid.volume_at {base : Nat → Option Int} {x : Image} (h : Laid base x) {pos : Int} {q : Nat}
    (hq : elemAt x.m_Volumes pos = some q) : Placed base x (pos.toNat * (x.off 3 * x.ptypeSize)) q := by
  unfold elemAt at hq
  split at hq
  · exact h.vo _ q hq
  · cases hq

theorem Laid.channel_at {base : Nat → Option Int} {x : Image} (h : Laid base x) {pos : Int} {q : Nat}
    (hq : elemAt x.m_Channels pos = some q) : Placed base x (pos.toNat * (x.off 4 * x.ptypeSize)) q := by
  unfold elemAt at hq
  split at hq
  · exact h.ch _ q hq
  · cases hq

theorem WF.sliceIndex_toNat {x : Image} (hw : WF x) {s t n : Int} (hv : x.IsValidSlice s t n = true) :
    0 ≤ x.GetSliceIndex s t n ∧
    (x.GetSliceIndex s t n).toNat = s.toNat + t.toNat * x.dim 2 + n.toNat * x.dim 3 * x.dim 2 ∧
    s.toNat < x.dim 2 ∧ t.toNat < x.dim 3 ∧ n.toNat < x.GetNumberOfChannels := by
  obtain ⟨a, b, c, rfl, rfl, rfl, ha, hb, hc⟩ := validSlice_bounds x s t n hv hw.slices_lt
  rw [hw.sliceIndex_eq ha hb hc]
  refine ⟨Int.ofNat_nonneg _, ?_, by simpa using ha, by simpa using hb, by simpa using hc⟩
  rw [Int.toNat_ofNat]
  simp

theorem WF.volumeIndex_toNat {x : Image} (hw : WF x) {t n : Int} (hv : x.IsValidVolume t n = true) :
    0 ≤ x.GetVolumeIndex t n ∧
    (x.GetVolumeIndex t n).toNat = t.toNat + n.toNat * x.dim 3 ∧
    t.toNat < x.dim 3 ∧ n.toNat < x.GetNumberOfChannels := by
  obtain ⟨b, c, rfl, rfl, hb, hc, _⟩ := validVolume_bounds x t n hv hw.slices_lt
  rw [hw.volumeIndex_eq hb hc]
  refine ⟨Int.ofNat_nonneg _, ?_, by simpa using hb, by simpa using hc⟩
  rw [Int.toNat_ofNat]
  simp

theorem start_slice_in_volume {x : Image} (hw : WF x) {s : Nat} (hs : s < x.dim 2) (t n : Nat) :
    (t + n * x.dim 3) * (x.off 3 * x.ptypeSize) + sizeT (s * x.off 2 * x.ptypeSize) =
      (s + t * x.dim 2 + n * x.dim 3 * x.dim 2) * (x.off 2 * x.ptypeSize) := by
  have h1 := hw.slice_in_volume hs
  have h2 := hw.volume_le_channel
  have hb := hw.bytes_lt
  rw [sizeT_of_lt (by omega), hw.off3]
  ring

theorem start_slice_in_channel {x : Image} (hw : WF x) {s t : Nat} (hs : s < x.dim 2)
    (ht : t < x.dim 3) (n : Nat) :
    n * (x.off 4 * x.ptypeSize) + sizeT ((s * x.off 2 + t * x.off 3) * x.ptypeSize) =
      (s + t * x.dim 2 + n * x.dim 3 * x.dim 2) * (x.off 2 * x.ptypeSize) := by
  have h1 := hw.offset_lt hs ht
  have hb := hw.bytes_lt
  rw [sizeT_of_lt (by omega), hw.off4, hw.off3]
  ring

theorem start_volume_in_channel {x : Image} (hw : WF x) {t : Nat} (ht : t < x.dim 3) (n : Nat) :
    n * (x.off 4 * x.ptypeSize) + sizeT (t * x.off 3 * x.ptypeSize) =
      (t + n * x.dim 3) * (x.off 3 * x.ptypeSize) := by
  have h1 := fit_volume_in_channel hw ht
  have hb := hw.bytes_lt
  have hlt : t * x.off 3 * x.ptypeSize < 2 ^ 64 := by
    have h2 : t * x.off 3 * x.ptypeSize + x.off 3 * x.ptypeSize ≤ x.off 4 * x.ptypeSize := by
      rw [hw.off4]
      have h3 : (t + 1) * (x.off 3 * x.ptypeSize) ≤ x.dim 3 * (x.off 3 * x.ptypeSize) :=
        Nat.mul_le_mul_right _ ht
      have e1 : (t + 1) * (x.off 3 * x.ptypeSize) = t * x.off 3 * x.ptypeSize + x.off 3 * x.ptypeSize := by
        ring
      have e2 : x.dim 3 * (x.off 3 * x.ptypeSize) = x.off 3 * x.dim 3 * x.ptypeSize := by ring
      omega
    omega
  rw [sizeT_of_lt hlt, hw.off4]
  ring

/-- A view `o` bytes into a placed item is placed `o` bytes further. -/
theorem placed_view {base : Nat → Option Int} {a b : Image} {G p q o : Nat} (h : Placed base a G p)
    (hl : Later a b) (hq : q < b.nItems) (hd : (b.items q).m_Data = Ptr.add (a.items p).m_Data o) :
    Placed base b (G + o) q := by
  obtain ⟨_, Lb, h2, h3⟩ := h
  refine ⟨hq, Lb, ?_, ?_⟩
  · rw [hd]
    exact h2
  · rw [hd]
    show Lb + (((a.items p).m_Data.off + o : Nat) : Int) = ((G + o : Nat) : Int)
    push_cast
    omega

/-- A complete view into a placed item keeps the layout. -/
theorem laid_subItem {base : Nat → Option Int} (x : Image) (p : Nat) (t : Int) (k : Nat)
    (data : Option Ptr) (m : Bool) (o G : Nat) (h : Laid base x) (hp : Placed base x G p) :
    Laid base ((x.newSubItem p t k data m o).1.SetComplete x.nItems true) ∧
    Later x ((x.newSubItem p t k data m o).1.SetComplete x.nItems true) ∧
    Placed base ((x.newSubItem p t k data m o).1.SetComplete x.nItems true) (G + o) x.nItems := by
  have hl : Later x ((x.newSubItem p t k data m o).1.SetComplete x.nItems true) :=
    Later.later_of_up ((up_newSubItem x p t k data m o).up_trans (up_SetComplete _ _))
  refine ⟨h.laid_same hl rfl rfl rfl, hl, placed_view hp hl (Nat.lt_succ_self _) ?_⟩
  simp [newSubItem, addItem, SetComplete]

/-- The installation of a slice view into a placed item keeps the layout when the view
lands where the index says. -/
theorem laid_installSliceView {base : Nat → Option Int} (x : Image) (pos : Int) (p : Nat) (t : Int)
    (data : Option Ptr) (imm : ImportMemoryManagementType) (o G : Nat) (h : Laid base x)
    (hp : Placed base x G p) (hpos : 0 ≤ pos → pos.toNat * (x.off 2 * x.ptypeSize) = G + o) :
    Laid base (x.installSliceView pos p t data imm o).1 ∧
    Later x (x.installSliceView pos p t data imm o).1 ∧
    Placed base (x.installSliceView pos p t data imm o).1 (G + o) x.nItems := by
  obtain ⟨a1, a2, a3⟩ := laid_subItem x p t 2 data (imm = ImportMemoryManagementType.ManageMemory) o G h hp
  have hl : Later x (x.installSliceView pos p t data imm o).1 :=
    Later.later_of_up (up_installSliceView x pos p t data imm o)
  refine ⟨a1.putSliceAt pos (fun h0 => ?_), hl, a3.placed_later ⟨⟨⟨rfl, rfl, rfl, rfl, rfl, rfl⟩, le_refl _,
    fun _ _ => sameFixed_refl _, length_assignAt _ _ _, rfl, rfl⟩, le_refl _⟩ (fun _ _ => rfl)⟩
  show Placed base _ (pos.toNat * (x.off 2 * x.ptypeSize)) x.nItems
  rw [hpos h0]
  exact a3

theorem FreshData.of_noAdopt {base : Nat → Option Int} {x : Image} {data : Option Ptr}
    {imm : ImportMemoryManagementType} (h : NoAdopt data imm) : FreshData base x data imm := by
  intro h1 p hp
  rcases h with h | h
  · exact absurd h h1
  · rw [h] at hp
    cases hp

/-- A new independent item placed at `G`: its buffer, fresh or the caller's, gets the base
that puts its data pointer at `G`. -/
theorem laid_newItem {base : Nat → Option Int} (x : Image) (t : Int) (k : Nat) (data : Option Ptr)
    (m : Bool) (G : Nat) (h : Laid base x)
    (hfr : ∀ p, data = some p → base p.buf = none ∧ p.buf < x.nBufs) :
    ∃ base', (∀ B, base B ≠ none → base' B = base B) ∧ (data = none → Ext x base base') ∧
      Laid base' (x.newItem t k data m).1 ∧ Later x (x.newItem t k data m).1 ∧
      Placed base' (x.newItem t k data m).1 G x.nItems := by
  have hl : Later x (x.newItem t k data m).1 := Later.later_of_up (up_newItem x t k data m)
  have hn : (x.newItem t k data m).1.nItems = x.nItems + 1 := newItem_nItems x t k data m
  have hlt : x.nItems < (x.newItem t k data m).1.nItems := by rw [hn]; exact Nat.lt_succ_self _
  have hst := sameTiers_newItem x t k data m
  cases data with
  | none =>
    have hd : ((x.newItem t k none m).1.items x.nItems).m_Data = ⟨x.nBufs, 0⟩ := by
      simp [newItem, addItem, allocate]
    have hfree : base x.nBufs = none := by
      by_contra hc
      exact absurd (h.claimed _ hc).1 (lt_irrefl _)
    have hk : ∀ B, base B ≠ none → Function.update base x.nBufs (some (G : Int)) B = base B := by
      intro B hB
      rw [Function.update_noteq]
      intro he
      rw [he] at hB
      exact hB hfree
    refine ⟨Function.update base x.nBufs (some (G : Int)), hk, fun _ => ⟨hk, ?_⟩, ?_, hl, ?_⟩
    · intro B hB hn0
      rw [Function.update_noteq (Nat.ne_of_lt hB)]
      exact hn0
    · refine h.laid_later hl hk ?_ hst.slices hst.volumes hst.channels
      intro B hB
      by_cases he : B = x.nBufs
      · subst he
        exact ⟨by show x.nBufs < x.nBufs + 1; exact Nat.lt_succ_self _, x.nItems, hlt, by rw [hd]⟩
      · rw [Function.update_noteq he] at hB
        exact h.claimed_later hl B hB
    · refine ⟨hlt, (G : Int), ?_, ?_⟩
      · rw [hd]
        exact Function.update_same _ _ _
      · rw [hd]
        simp
  | some p =>
    obtain ⟨hp1, hp2⟩ := hfr p rfl
    have hd : ((x.newItem t k (some p) m).1.items x.nItems).m_Data = p := by
      simp [newItem, addItem]
    have hk : ∀ B, base B ≠ none →
        Function.update base p.buf (some ((G : Int) - (p.off : Int))) B = base B := by
      intro B hB
      rw [Function.update_noteq]
      intro he
      rw [he] at hB
      exact hB hp1
    refine ⟨Function.update base p.buf (some ((G : Int) - (p.off : Int))), hk,
      (fun h0 => nomatch h0), ?_, hl, ?_⟩
    · refine h.laid_later hl hk ?_ hst.slices hst.volumes hst.channels
      intro B hB
      by_cases he : B = p.buf
      · subst he
        exact ⟨lt_of_lt_of_le hp2 hl.nBufs, x.nItems, hlt, by rw [hd]⟩
      · rw [Function.update_noteq he] at hB
        exact h.claimed_later hl B hB
    · refine ⟨hlt, (G : Int) - (p.off : Int), ?_, ?_⟩
      · rw [hd]
        exact Function.update_same _ _ _
      · rw [hd]
        omega

/-- The independent item of an `Allocate...Data` function, placed at `G`. -/
theorem laid_independentItem {base : Nat → Option Int} (x : Image) (t : Int) (k : Nat)
    (data : Option Ptr) (imm : ImportMemoryManagementType) (len G : Nat) (r : Image × Nat)
    (hr : r =
      if imm = ImportMemoryManagementType.CopyMemory then
        (match data with
          | some p => (((x.newItem t k none true).1.memcpy
              ((x.newItem t k none true).1.items (x.newItem t k none true).2).m_Data p len),
              (x.newItem t k none true).2)
          | none => x.newItem t k none true)
      else x.newItem t k data (imm = ImportMemoryManagementType.ManageMemory))
    (h : Laid base x) (hfr : FreshData base x data imm) :
    ∃ base', (∀ B, base B ≠ none → base' B = base B) ∧ (NoAdopt data imm → Ext x base base') ∧
      Laid base' r.1 ∧ Later x r.1 ∧ Placed base' r.1 G x.nItems ∧ r.2 = x.nItems ∧
      r.1.m_Slices = x.m_Slices ∧ r.1.m_Volumes = x.m_Volumes ∧ r.1.m_Channels = x.m_Channels := by
  by_cases hc : imm = ImportMemoryManagementType.CopyMemory
  · rw [if_pos hc] at hr
    obtain ⟨base', b1, b2, b3, b4, b5⟩ := laid_newItem x t k none true G h (fun p hp => nomatch hp)
    have hst := sameTiers_newItem x t k none true
    cases data with
    | none =>
      subst hr
      exact ⟨base', b1, fun _ => b2 rfl, b3, b4, b5, newItem_snd _ _ _ _ _, hst.slices, hst.volumes,
        hst.channels⟩
    | some p =>
      subst hr
      have hl2 : Later (x.newItem t k none true).1 ((x.newItem t k none true).1.memcpy
          ((x.newItem t k none true).1.items (x.newItem t k none true).2).m_Data p len) :=
        Later.later_of_up (up_memcpy _ _ _ _)
      have hs2 := sameTiers_memcpy (x.newItem t k none true).1
        ((x.newItem t k none true).1.items (x.newItem t k none true).2).m_Data p len
      exact ⟨base', b1, fun _ => b2 rfl, b3.laid_same hl2 hs2.slices hs2.volumes hs2.channels,
        b4.later_trans hl2, b5.placed_later hl2 (fun _ _ => rfl), newItem_snd _ _ _ _ _,
        hs2.slices.trans hst.slices, hs2.volumes.trans hst.volumes, hs2.channels.trans hst.channels⟩
  · rw [if_neg hc] at hr
    subst hr
    obtain ⟨base', b1, b2, b3, b4, b5⟩ := laid_newItem x t k data
      (imm = ImportMemoryManagementType.ManageMemory) G h (hfr hc)
    have hst := sameTiers_newItem x t k data (imm = ImportMemoryManagementType.ManageMemory)
    refine ⟨base', b1, fun hna => ?_, b3, b4, b5, newItem_snd _ _ _ _ _, hst.slices, hst.volumes,
      hst.channels⟩
    rcases hna with h1 | h1
    · exact absurd h1 hc
    · exact b2 h1

/-- Storing a pointer in one of the arrays comes later. -/
theorem later_putVolume (y : Image) (pos : Int) (q : Nat) :
    Later y { y with m_Volumes := assignAt y.m_Volumes pos (some q) } :=
  ⟨⟨⟨rfl, rfl, rfl, rfl, rfl, rfl⟩, le_refl _, fun _ _ => sameFixed_refl _, rfl,
    length_assignAt _ _ _, rfl⟩, le_refl _⟩

theorem later_putChannel (y : Image) (pos : Int) (q : Nat) :
    Later y { y with m_Channels := assignAt y.m_Channels pos (some q) } :=
  ⟨⟨⟨rfl, rfl, rfl, rfl, rfl, rfl⟩, le_refl _, fun _ _ => sameFixed_refl _, rfl, rfl,
    length_assignAt _ _ _⟩, le_refl _⟩

/-- Storing a placed item in `m_Volumes` where its index says keeps the layout. -/
theorem laid_storeVolume {base : Nat → Option Int} {x : Image} {r : Image × Nat} (pos : Int)
    (h3 : Laid base r.1) (h4 : Later x r.1)
    (h5 : Placed base r.1 (pos.toNat * (x.off 3 * x.ptypeSize)) r.2) :
    Laid base { r.1 with m_Volumes := assignAt r.1.m_Volumes pos (some r.2) } ∧
    Placed base { r.1 with m_Volumes := assignAt r.1.m_Volumes pos (some r.2) }
      (pos.toNat * (x.off 3 * x.ptypeSize)) r.2 :=
  ⟨h3.putVolumeAt pos (fun _ => by rw [h4.kept.shape.off, h4.kept.shape.ptype]; exact h5),
    h5.placed_later (later_putVolume _ _ _) (fun _ _ => rfl)⟩

/-- Storing a placed item in `m_Channels` where its index says keeps the layout. -/
theorem laid_storeChannel {base : Nat → Option Int} {x : Image} {r : Image × Nat} (pos : Int)
    (h3 : Laid base r.1) (h4 : Later x r.1)
    (h5 : Placed base r.1 (pos.toNat * (x.off 4 * x.ptypeSize)) r.2) :
    Laid base { r.1 with m_Channels := assignAt r.1.m_Channels pos (some r.2) } ∧
    Placed base { r.1 with m_Channels := assignAt r.1.m_Channels pos (some r.2) }
      (pos.toNat * (x.off 4 * x.ptypeSize)) r.2 :=
  ⟨h3.putChannelAt pos (fun _ => by rw [h4.kept.shape.off, h4.kept.shape.ptype]; exact h5),
    h5.placed_later (later_putChannel _ _ _) (fun _ _ => rfl)⟩

/-- `AllocateVolumeData_unlocked` keeps the layout: the new volume is a view into the channel
entry or an independent item whose buffer gets its base. -/
theorem laid_AllocateVolumeData {base : Nat → Option Int} (x : Image) (t n : Int) (data : Option Ptr)
    (imm : ImportMemoryManagementType) (h : Laid base x) (hw : WF x)
    (hv : x.IsValidVolume t n = true) (hfr : FreshData base x data imm) :
    ∃ base', (∀ B, base B ≠ none → base' B = base B) ∧ (NoAdopt data imm → Ext x base base') ∧
      Laid base' (x.AllocateVolumeData_unlocked t n data imm).1 ∧
      Later x (x.AllocateVolumeData_unlocked t n data imm).1 ∧
      Placed base' (x.AllocateVolumeData_unlocked t n data imm).1
        ((x.GetVolumeIndex t n).toNat * (x.off 3 * x.ptypeSize)) x.nItems := by
  obtain ⟨hup, hA2, _, _, _, _⟩ := upx_AllocateVolumeData x t n data imm
  have hl := Later.later_of_up hup
  obtain ⟨_, hidx, ht, hn⟩ := hw.volumeIndex_toNat hv
  have key := fun r hr => laid_independentItem x t 3 data imm (sizeT (x.off 3 * x.ptypeSize))
    ((x.GetVolumeIndex t n).toNat * (x.off 3 * x.ptypeSize)) r hr h hfr
  have hsub := fun c => laid_subItem x c t 3 data (imm = ImportMemoryManagementType.ManageMemory)
    (sizeT (t.toNat * x.off 3 * x.ptypeSize)) (n.toNat * (x.off 4 * x.ptypeSize)) h
  have hnew := fun c => up_newSubItem x c t 3 data (imm = ImportMemoryManagementType.ManageMemory)
    (sizeT (t.toNat * x.off 3 * x.ptypeSize))
  cases hc : elemAt x.m_Channels n with
  | some c =>
    have hp : Placed base x (n.toNat * (x.off 4 * x.ptypeSize)) c := h.channel_at hc
    have hl0 := Later.later_of_up (hnew c)
    have hpl : Placed base (x.newSubItem c t 3 data (imm = ImportMemoryManagementType.ManageMemory)
        (sizeT (t.toNat * x.off 3 * x.ptypeSize))).1
        ((x.GetVolumeIndex t n).toNat * (x.off 3 * x.ptypeSize)) x.nItems := by
      rw [hidx, ← start_volume_in_channel hw ht]
      exact placed_view hp hl0 (Nat.lt_succ_self _) (by simp [newSubItem, addItem])
    have hla := (h.laid_same hl0 rfl rfl rfl).putVolumeAt (x.GetVolumeIndex t n) (fun _ => hpl)
    refine ⟨base, fun _ _ => rfl, fun _ => Ext.ext_refl _ _, ?_, hl, ?_⟩
    · unfold AllocateVolumeData_unlocked
      rw [hc]
      exact hla
    · unfold AllocateVolumeData_unlocked
      rw [hc]
      exact hpl.placed_later (later_putVolume _ _ _) (fun _ _ => rfl)
  | none =>
    obtain ⟨base', b1, b2, b3, b4, b5, b6, _⟩ := key _ rfl
    rw [← b6] at b5
    have b7 := laid_storeVolume (x.GetVolumeIndex t n) b3 b4 b5
    refine ⟨base', b1, b2, ?_, hl, ?_⟩
    · unfold AllocateVolumeData_unlocked
      rw [hc]
      exact b7.1
    · rw [← hA2]
      unfold AllocateVolumeData_unlocked
      rw [hc]
      exact b7.2

/-- `AllocateChannelData_unlocked` keeps the layout: the new channel is an independent item
whose buffer gets its base. -/
theorem laid_AllocateChannelData {base : Nat → Option Int} (x : Image) (n : Int) (data : Option Ptr)
    (imm : ImportMemoryManagementType) (h : Laid base x) (hfr : FreshData base x data imm) :
    ∃ base', (∀ B, base B ≠ none → base' B = base B) ∧ (NoAdopt data imm → Ext x base base') ∧
      Laid base' (x.AllocateChannelData_unlocked n data imm).1 ∧
      Later x (x.AllocateChannelData_unlocked n data imm).1 ∧
      Placed base' (x.AllocateChannelData_unlocked n data imm).1
        (n.toNat * (x.off 4 * x.ptypeSize)) x.nItems := by
  obtain ⟨hup, hA2, _, _, _, _⟩ := upx_AllocateChannelData x n data imm
  have hl := Later.later_of_up hup
  have key := fun r hr => laid_independentItem x (-1) x.m_Dimension data imm
    (sizeT (x.off 4 * x.ptypeSize)) (n.toNat * (x.off 4 * x.ptypeSize)) r hr h hfr
  obtain ⟨base', b1, b2, b3, b4, b5, b6, _⟩ := key _ rfl
  rw [← b6] at b5
  have b7 := laid_storeChannel n b3 b4 b5
  refine ⟨base', b1, b2, ?_, hl, ?_⟩
  · unfold AllocateChannelData_unlocked newChannelItem
    exact b7.1
  · rw [← hA2]
    unfold AllocateChannelData_unlocked newChannelItem
    exact b7.2

theorem WF.validVolume_of_slice {x : Image} (hw : WF x) {s t n : Int} (hv : x.IsValidSlice s t n = true) :
    x.IsValidVolume t n = true := by
  obtain ⟨_, _, h3, h4, h5, h6⟩ := (hw.validSlice_iff s t n).1 hv
  exact (hw.validVolume_iff t n).2 ⟨h3, h4, h5, h6⟩

/-- Where the slice `(s, t, n)` lies, seen from its volume and from its channel. -/
theorem WF.slice_starts {x : Image} (hw : WF x) {s t n : Int} (hv : x.IsValidSlice s t n = true) :
    (x.GetSliceIndex s t n).toNat * (x.off 2 * x.ptypeSize) =
      (x.GetVolumeIndex t n).toNat * (x.off 3 * x.ptypeSize) + sizeT (s.toNat * x.off 2 * x.ptypeSize) ∧
    (x.GetSliceIndex s t n).toNat * (x.off 2 * x.ptypeSize) =
      n.toNat * (x.off 4 * x.ptypeSize) +
        sizeT ((s.toNat * x.off 2 + t.toNat * x.off 3) * x.ptypeSize) := by
  obtain ⟨_, h1, hs, ht, _⟩ := hw.sliceIndex_toNat hv
  obtain ⟨_, h2, _, _⟩ := hw.volumeIndex_toNat (hw.validVolume_of_slice hv)
  rw [h1, h2]
  exact ⟨(start_slice_in_volume hw hs _ _).symm, (start_slice_in_channel hw hs ht _).symm⟩

/-- Where the volume `(t, n)` lies, seen from its channel. -/
theorem WF.volume_starts {x : Image} (hw : WF x) {t n : Int} (hv : x.IsValidVolume t n = true) :
    (x.GetVolumeIndex t n).toNat * (x.off 3 * x.ptypeSize) =
      n.toNat * (x.off 4 * x.ptypeSize) + sizeT (t.toNat * x.off 3 * x.ptypeSize) := by
  obtain ⟨_, h2, ht, _⟩ := hw.volumeIndex_toNat hv
  rw [h2]
  exact (start_volume_in_channel hw ht _).symm

/-- `AllocateSliceData_unlocked` keeps the layout: the new slice is a view placed where its
index says, and no caller buffer is adopted. -/
theorem laid_AllocateSliceData {base : Nat → Option Int} (x : Image) (s t n : Int) (data : Option Ptr)
    (imm : ImportMemoryManagementType) (h : Laid base x) (hw : WF x)
    (hv : x.IsValidSlice s t n = true) :
    ∃ base', Ext x base base' ∧ Laid base' (x.AllocateSliceData_unlocked s t n data imm).1 ∧
      Later x (x.AllocateSliceData_unlocked s t n data imm).1 ∧
      Placed base' (x.AllocateSliceData_unlocked s t n data imm).1
        ((x.GetSliceIndex s t n).toNat * (x.off 2 * x.ptypeSize))
        (x.AllocateSliceData_unlocked s t n data imm).2 := by
  have hl := Later.later_of_up (up_AllocateSliceData x s t n data imm).1
  obtain ⟨e1, e2⟩ := hw.slice_starts hv
  unfold AllocateSliceData_unlocked
  unfold AllocateSliceData_unlocked at hl
  cases hvol : elemAt x.m_Volumes (x.GetVolumeIndex t n) with
  | some v =>
    rw [hvol] at hl
    obtain ⟨a1, a2, a3⟩ := laid_installSliceView x (x.GetSliceIndex s t n) v t data imm
      (sizeT (s.toNat * x.off 2 * x.ptypeSize)) _ h (h.volume_at hvol) (fun _ => e1)
    rw [← e1] at a3
    exact ⟨base, Ext.ext_refl _ _, a1, a2, a3⟩
  | none =>
    rw [hvol] at hl
    cases hch : elemAt x.m_Channels n with
    | some c =>
      obtain ⟨a1, a2, a3⟩ := laid_installSliceView x (x.GetSliceIndex s t n) c t data imm
        (sizeT ((s.toNat * x.off 2 + t.toNat * x.off 3) * x.ptypeSize)) _ h (h.channel_at hch)
        (fun _ => e2)
      rw [← e2] at a3
      exact ⟨base, Ext.ext_refl _ _, a1, a2, a3⟩
    | none =>
      rw [hch] at hl
      obtain ⟨base', b1, b2, b3, b4, b5⟩ := laid_AllocateVolumeData x t n none imm h hw
        (hw.validVolume_of_slice hv) (FreshData.of_noAdopt (Or.inr rfl))
      obtain ⟨_, hA2, _, _, _, _⟩ := upx_AllocateVolumeData x t n none imm
      rw [← hA2] at b5
      have hsh := b4.kept.shape
      have e1' : 0 ≤ x.GetSliceIndex s t n → (x.GetSliceIndex s t n).toNat *
          ((x.AllocateVolumeData_unlocked t n none imm).1.off 2 *
            (x.AllocateVolumeData_unlocked t n none imm).1.ptypeSize) =
          (x.GetVolumeIndex t n).toNat * (x.off 3 * x.ptypeSize) +
            sizeT (s.toNat * x.off 2 * x.ptypeSize) := by
        intro _
        rw [hsh.off, hsh.ptype]
        exact e1
      obtain ⟨a1, a2, a3⟩ := laid_installSliceView (x.AllocateVolumeData_unlocked t n none imm).1
        (x.GetSliceIndex s t n) (x.AllocateVolumeData_unlocked t n none imm).2 t data imm
        (sizeT (s.toNat * x.off 2 * x.ptypeSize)) _ b3 b5 e1'
      rw [← e1] at a3
      exact ⟨base', b2 (Or.inr rfl), a1, b4.later_trans a2, a3⟩

/-- Marking an item complete keeps the layout. -/
theorem laid_SetComplete {base : Nat → Option Int} (x : Image) (p : Nat) (h : Laid base x) :
    Laid base (x.SetComplete p true) ∧ Later x (x.SetComplete p true) :=
  ⟨h.laid_same (Later.later_of_up (up_SetComplete x p)) rfl rfl rfl, Later.later_of_up (up_SetComplete x p)⟩

/-- The call of the pipeline source keeps the layout when `Update()` does. -/
theorem laid_callUpdate {base : Nat → Option Int} (x : Image) (p : Source) (index : List Int)
    (size : List Nat) (h : Laid base x) (hc : Contained x)
    (hq : ∀ base i, Contained i → Laid base i →
      ∃ base', Ext i base base' ∧ Laid base' (p.update i) ∧ Later i (p.update i)) :
    ∃ base', Ext x base base' ∧ Laid base' (x.callUpdate p index size) ∧
      Later x (x.callUpdate p index size) := by
  have hl0 : Later x { x with m_RequestedRegion := ⟨index, size⟩, m_RequestedRegionInitialized := true } :=
    ⟨kept_of_same ⟨rfl, rfl, rfl, rfl, rfl, rfl⟩ rfl rfl rfl rfl rfl, le_refl _⟩
  have hc0 : Contained { x with m_RequestedRegion := ⟨index, size⟩, m_RequestedRegionInitialized := true } :=
    hc.of_kept hl0.kept (fun q hq => Or.inl hq) (fun q hq => Or.inl hq) (fun q hq => Or.inl hq)
  obtain ⟨base', e1, e2, e3⟩ := hq base _ hc0 (h.laid_same hl0 rfl rfl rfl)
  have hl1 : Later (p.update { x with m_RequestedRegion := ⟨index, size⟩, m_RequestedRegionInitialized := true })
      (x.callUpdate p index size) :=
    ⟨kept_of_same ⟨rfl, rfl, rfl, rfl, rfl, rfl⟩ rfl rfl rfl rfl rfl, le_refl _⟩
  exact ⟨base', ⟨e1.keep, e1.above⟩, e2.laid_same hl1 rfl rfl rfl, (hl0.later_trans e3).later_trans hl1⟩

/-- `GetSliceData_unlocked` keeps the layout, and the item it returns is placed where the
index of the slice says. -/
theorem laid_GetSliceData (src : Option Source)
    (hp : ∀ p, canUpdate src = some p → ∀ i, Contained i → Contained (p.update i) ∧ Kept i (p.update i))
    (hq : ∀ p, canUpdate src = some p → ∀ base i, Contained i → Laid base i →
      ∃ base', Ext i base base' ∧ Laid base' (p.update i) ∧ Later i (p.update i)) :
    ∀ (fuel : Nat) (x : Image) (s t n : Int) (data : Option Ptr) (imm : ImportMemoryManagementType)
      (res : Image × Option Nat) (base : Nat → Option Int), Laid base x → Contained x →
      GetSliceData_unlocked src fuel x s t n data imm = some res →
      ∃ base', Ext x base base' ∧ Laid base' res.1 ∧ Later x res.1 ∧
        ∀ q, res.2 = some q →
          Placed base' res.1 ((x.GetSliceIndex s t n).toNat * (x.off 2 * x.ptypeSize)) q := by
  intro fuel
  induction fuel with
  | zero =>
    intro x s t n data imm res base _ _ h
    simp [GetSliceData_unlocked] at h
  | succ fuel ih =>
    intro x s t n data imm res base hla hc h
    unfold GetSliceData_unlocked at h
    by_cases hv : x.IsValidSlice s t n = true
    · have hv' : ¬ (x.IsValidSlice s t n = false) := by simp [hv]
      rw [if_neg hv'] at h
      obtain ⟨e1, e2⟩ := hc.wf.slice_starts hv
      dsimp only at h
      cases hsl : elemAt x.m_Slices (x.GetSliceIndex s t n) with
      | some sl =>
        rw [hsl] at h
        cases h
        exact ⟨base, Ext.ext_refl _ _, hla, Later.later_refl _, fun q hq => by
          cases hq; exact hla.slice_at hsl⟩
      | none =>
        rw [hsl] at h
        dsimp only at h
        by_cases hvol : x.completeEntry (elemAt x.m_Volumes (x.GetVolumeIndex t n)) = true
        · rw [if_pos hvol] at h
          obtain ⟨v, hv1, _⟩ := completeEntry_some hvol
          rw [hv1] at h
          cases h
          obtain ⟨a1, a2, a3⟩ := laid_installSliceView x (x.GetSliceIndex s t n) v t data imm
            (sizeT (s.toNat * x.off 2 * x.ptypeSize)) _ hla (hla.volume_at hv1) (fun _ => e1)
          rw [← e1] at a3
          exact ⟨base, Ext.ext_refl _ _, a1, a2, fun q hq => by cases hq; exact a3⟩
        · rw [if_neg hvol] at h
          by_cases hch : x.completeEntry (elemAt x.m_Channels n) = true
          · rw [if_pos hch] at h
            obtain ⟨c, hc1, _⟩ := completeEntry_some hch
            rw [hc1] at h
            cases h
            obtain ⟨a1, a2, a3⟩ := laid_installSliceView x (x.GetSliceIndex s t n) c t data imm
              (sizeT ((s.toNat * x.off 2 + t.toNat * x.off 3) * x.ptypeSize)) _ hla
              (hla.channel_at hc1) (fun _ => e2)
            rw [← e2] at a3
            exact ⟨base, Ext.ext_refl _ _, a1, a2, fun q hq => by cases hq; exact a3⟩
          · rw [if_neg hch] at h
            cases hsrc : canUpdate src with
            | some p =>
              rw [hsrc] at h
              dsimp only at h
              obtain ⟨u1, u2⟩ := contained_callUpdate x p [0, 0, s, t, n] [x.dim 0, x.dim 1, 1, 1, 1] hc
                (hp p hsrc)
              obtain ⟨base1, v1, v2, v3⟩ := laid_callUpdate x p [0, 0, s, t, n]
                [x.dim 0, x.dim 1, 1, 1, 1] hla hc (hq p hsrc)
              split at h
              · obtain ⟨base2, b1, b2, b3, b4⟩ := ih _ s t n data imm res base1 v2 u1 h
                rw [u2.shape.sliceIndex, u2.shape.off, u2.shape.ptype] at b4
                exact ⟨base2, v1.ext_trans b1 v3.nBufs, b2, v3.later_trans b3, b4⟩
              · cases h
                exact ⟨base1, v1, v2, v3, fun q hq => nomatch hq⟩
            | none =>
              rw [hsrc] at h
              cases h
              obtain ⟨base', a1, a2, a3, a4⟩ := laid_AllocateSliceData x s t n data imm hla hc.wf hv
              obtain ⟨c1, c2⟩ := laid_SetComplete _ (x.AllocateSliceData_unlocked s t n data imm).2 a2
              exact ⟨base', a1, c1, a3.later_trans c2, fun q hq => by
                cases hq; exact a4.placed_later c2 (fun _ _ => rfl)⟩
    · have hv' : x.IsValidSlice s t n = false := by simpa using hv
      rw [if_pos hv'] at h
      cases h
      exact ⟨base, Ext.ext_refl _ _, hla, Later.later_refl _, fun q hq => nomatch hq⟩

/-- Storing a placed item in `m_Volumes` where its index says keeps the layout. -/
theorem laid_putVolume {base : Nat → Option Int} (y x : Image) (pos : Int) (q : Nat)
    (h3 : Laid base y) (h4 : Later x y) (h5 : Placed base y (pos.toNat * (x.off 3 * x.ptypeSize)) q) :
    Laid base { y with m_Volumes := assignAt y.m_Volumes pos (some q) } ∧
    Later x { y with m_Volumes := assignAt y.m_Volumes pos (some q) } ∧
    Placed base { y with m_Volumes := assignAt y.m_Volumes pos (some q) }
      (pos.toNat * (x.off 3 * x.ptypeSize)) q :=
  ⟨h3.putVolumeAt pos (fun _ => by rw [h4.kept.shape.off, h4.kept.shape.ptype]; exact h5),
    h4.later_trans (later_putVolume _ _ _), h5.placed_later (later_putVolume _ _ _) (fun _ _ => rfl)⟩

/-- Storing a placed item in `m_Channels` where its index says keeps the layout. -/
theorem laid_putChannel {base : Nat → Option Int} (y x : Image) (pos : Int) (q : Nat)
    (h3 : Laid base y) (h4 : Later x y) (h5 : Placed base y (pos.toNat * (x.off 4 * x.ptypeSize)) q) :
    Laid base { y with m_Channels := assignAt y.m_Channels pos (some q) } ∧
    Later x { y with m_Channels := assignAt y.m_Channels pos (some q) } ∧
    Placed base { y with m_Channels := assignAt y.m_Channels pos (some q) }
      (pos.toNat * (x.off 4 * x.ptypeSize)) q :=
  ⟨h3.putChannelAt pos (fun _ => by rw [h4.kept.shape.off, h4.kept.shape.ptype]; exact h5),
    h4.later_trans (later_putChannel _ _ _), h5.placed_later (later_putChannel _ _ _) (fun _ _ => rfl)⟩

/-- Where the slice `s` of a valid volume lies, in the form the slice-combining loop uses. -/
theorem WF.loop_slice_start {x : Image} (hw : WF x) {t n : Int} (hv : x.IsValidVolume t n = true)
    {s : Nat} (hs : s < x.dim 2) :
    (x.GetSliceIndex (toInt s) t n).toNat * (x.off 2 * x.ptypeSize) =
      (x.GetVolumeIndex t n).toNat * (x.off 3 * x.ptypeSize) +
        sizeT (s * sizeT (x.off 2 * x.ptypeSize)) := by
  obtain ⟨h1, h2, h3, h4⟩ := (hw.validVolume_iff t n).1 hv
  have hn : n.toNat < x.GetNumberOfChannels := by omega
  have e : toInt s = (s : Int) := hw.toInt_slice hs hn
  have hv2 : x.IsValidSlice (toInt s) t n = true := by
    rw [e]
    exact (hw.validSlice_iff _ t n).2 ⟨Int.ofNat_nonneg _, by exact_mod_cast hs, h1, h2, h3, h4⟩
  have e1 := (hw.slice_starts hv2).1
  rw [e, Int.toNat_ofNat] at e1
  rw [hw.len2, e, e1]
  congr 2
  ring

/-- One step of the slice-combining loop keeps the layout. -/
theorem laid_combineSlice {base : Nat → Option Int} (t n : Int) (vol size : Nat) (data : Option Ptr)
    (imm : ImportMemoryManagementType) (x : Image) (s : Nat) (h : Laid base x) (hw : WF x)
    (hv : x.IsValidVolume t n = true)
    (hp : Placed base x ((x.GetVolumeIndex t n).toNat * (x.off 3 * x.ptypeSize)) vol)
    (hs : s < x.dim 2) (hsz : size = sizeT (x.off 2 * x.ptypeSize)) :
    Laid base (combineSlice t n vol size data imm x s) ∧
    Later x (combineSlice t n vol size data imm x s) := by
  have hl := Later.later_of_up (up_combineSlice t n vol size data imm x s).1
  refine ⟨?_, hl⟩
  unfold combineSlice
  dsimp only
  cases hsl : elemAt x.m_Slices (x.GetSliceIndex (toInt s) t n) with
  | none => exact h.laid_same (Later.later_of_up (up_fault x)) rfl rfl rfl
  | some sl =>
    dsimp only
    split
    · have hl1 : Later x (x.memcpy (Ptr.add (x.items vol).m_Data (sizeT (s * size)))
          (x.items sl).m_Data size) := Later.later_of_up (up_memcpy _ _ _ _)
      have hs1 := sameTiers_memcpy x (Ptr.add (x.items vol).m_Data (sizeT (s * size)))
        (x.items sl).m_Data size
      have m1 := h.laid_same hl1 hs1.slices hs1.volumes hs1.channels
      have e := hw.loop_slice_start hv hs
      rw [← hsz] at e
      exact (laid_installSliceView _ (x.GetSliceIndex (toInt s) t n) vol t data imm
        (sizeT (s * size)) _ m1 (hp.placed_later hl1 (fun _ _ => rfl))
        (fun _ => by rw [hl1.kept.shape.off, hl1.kept.shape.ptype]; exact e)).1
    · exact h

/-- The slice-combining loop keeps the layout. -/
theorem laid_combineSlices {base : Nat → Option Int} (t n : Int) (vol size : Nat) (data : Option Ptr)
    (imm : ImportMemoryManagementType) :
    ∀ (l : List Nat) (x : Image), Laid base x → WF x → x.IsValidVolume t n = true →
      Placed base x ((x.GetVolumeIndex t n).toNat * (x.off 3 * x.ptypeSize)) vol →
      (∀ s, s ∈ l → s < x.dim 2) → size = sizeT (x.off 2 * x.ptypeSize) →
      Laid base (l.foldl (combineSlice t n vol size data imm) x) ∧
      Later x (l.foldl (combineSlice t n vol size data imm) x) := by
  intro l
  induction l with
  | nil => exact fun x h _ _ _ _ _ => ⟨h, Later.later_refl _⟩
  | cons s rest ih =>
    intro x h hw hv hp hl hsz
    obtain ⟨a1, a2⟩ := laid_combineSlice t n vol size data imm x s h hw hv hp
      (hl s (List.mem_cons_self _ _)) hsz
    have hsh := a2.kept.shape
    obtain ⟨b1, b2⟩ := ih _ a1 (a2.kept.kept_wf hw) (by rw [hsh.validVolume]; exact hv)
      (by rw [hsh.volumeIndex, hsh.off, hsh.ptype]; exact hp.placed_later a2 (fun _ _ => rfl))
      (fun s' hs' => by rw [hsh.dim]; exact hl s' (List.mem_cons_of_mem _ hs'))
      (by rw [hsh.off, hsh.ptype]; exact hsz)
    exact ⟨b1, a2.later_trans b2⟩

/-- `GetVolumeData_unlocked` keeps the layout when no caller buffer is passed for adoption,
and the item it returns is placed where the index of the volume says. -/
theorem laid_GetVolumeData (src : Option Source)
    (hp : ∀ p, canUpdate src = some p → ∀ i, Contained i → Contained (p.update i) ∧ Kept i (p.update i))
    (hq : ∀ p, canUpdate src = some p → ∀ base i, Contained i → Laid base i →
      ∃ base', Ext i base base' ∧ Laid base' (p.update i) ∧ Later i (p.update i)) :
    ∀ (fuel : Nat) (x : Image) (t n : Int) (data : Option Ptr) (imm : ImportMemoryManagementType)
      (res : Image × Option Nat) (base : Nat → Option Int), NoAdopt data imm → Laid base x →
      Contained x → GetVolumeData_unlocked src fuel x t n data imm = some res →
      ∃ base', Ext x base base' ∧ Laid base' res.1 ∧ Later x res.1 ∧
        ∀ q, res.2 = some q →
          Placed base' res.1 ((x.GetVolumeIndex t n).toNat * (x.off 3 * x.ptypeSize)) q := by
  intro fuel
  induction fuel with
  | zero =>
    intro x t n data imm res base _ _ _ h
    simp [GetVolumeData_unlocked] at h
  | succ fuel ih =>
    intro x t n data imm res base hna hla hc h
    unfold GetVolumeData_unlocked at h
    by_cases hv : x.IsValidVolume t n = true
    · have hv' : ¬ (x.IsValidVolume t n = false) := by simp [hv]
      rw [if_neg hv'] at h
      have hw := hc.wf
      have e3 := hw.volume_starts hv
      dsimp only at h
      by_cases hvol : x.completeEntry (elemAt x.m_Volumes (x.GetVolumeIndex t n)) = true
      · rw [if_pos hvol] at h
        cases h
        exact ⟨base, Ext.ext_refl _ _, hla, Later.later_refl _, fun q hq => hla.volume_at hq⟩
      · rw [if_neg hvol] at h
        by_cases hch : x.completeEntry (elemAt x.m_Channels n) = true
        · rw [if_pos hch] at h
          obtain ⟨c, hc1, _⟩ := completeEntry_some hch
          rw [hc1] at h
          cases h
          obtain ⟨a1, a2, a3⟩ := laid_subItem x c t 3 data
            (imm = ImportMemoryManagementType.ManageMemory) (sizeT (t.toNat * x.off 3 * x.ptypeSize))
            _ hla (hla.channel_at hc1)
          rw [← e3] at a3
          obtain ⟨b1, b2, b3⟩ := laid_putVolume _ x (x.GetVolumeIndex t n) x.nItems a1 a2 a3
          exact ⟨base, Ext.ext_refl _ _, b1, b2, fun q hq => by cases hq; exact b3⟩
        · rw [if_neg hch] at h
          by_cases hall : x.allSlicesSet t n = true
          · rw [if_pos hall] at h
            by_cases hd : x.dim 2 ≤ 1
            · rw [if_pos hd] at h
              cases hg : GetSliceData_unlocked src (fuel + 1) x 0 t n data imm with
              | none =>
                rw [hg] at h
                cases h
              | some r1 =>
                obtain ⟨base1, g1, g2, g3, g4⟩ := laid_GetSliceData src hp hq (fuel + 1) x 0 t n data imm
                  r1 base hla hc hg
                obtain ⟨img1, o⟩ := r1
                rw [hg] at h
                cases o with
                | none =>
                  cases h
                  have hlf : Later img1 { img1 with fault := true } := Later.later_of_up (up_fault img1)
                  exact ⟨base1, g1, g2.laid_same hlf rfl rfl rfl, g3.later_trans hlf, fun q hq => nomatch hq⟩
                | some sl =>
                  cases h
                  have e0 := (hw.slice_starts (validSlice_zero_of_validVolume hv)).1
                  have hz : sizeT ((0 : Int).toNat * x.off 2 * x.ptypeSize) = 0 := by simp [sizeT]
                  rw [hz, Nat.add_zero] at e0
                  have g5 := g4 sl rfl
                  rw [e0] at g5
                  obtain ⟨a1, a2, a3⟩ := laid_subItem img1 sl t 3 data
                    (imm = ImportMemoryManagementType.ManageMemory) 0 _ g2 g5
                  obtain ⟨b1, b2, b3⟩ := laid_putVolume _ x (x.GetVolumeIndex t n) img1.nItems a1
                    (g3.later_trans a2) a3
                  exact ⟨base1, g1, b1, b2, fun q hq => by cases hq; exact b3⟩
            · rw [if_neg hd] at h
              have tail : ∀ (r : Image × Nat) (y : Image) (base1 : Nat → Option Int),
                  y = List.foldl (combineSlice t n r.2 (sizeT (x.off 2 * x.ptypeSize)) data imm)
                    (r.1.SetComplete r.2 true) (List.range (x.dim 2)) →
                  Laid base1 r.1 → Later x r.1 →
                  Placed base1 r.1 ((x.GetVolumeIndex t n).toNat * (x.off 3 * x.ptypeSize)) r.2 →
                  Laid base1 { y with m_Volumes := assignAt y.m_Volumes (x.GetVolumeIndex t n) (some r.2) } ∧
                  Later x { y with m_Volumes := assignAt y.m_Volumes (x.GetVolumeIndex t n) (some r.2) } ∧
                  Placed base1 { y with m_Volumes := assignAt y.m_Volumes (x.GetVolumeIndex t n) (some r.2) }
                    ((x.GetVolumeIndex t n).toNat * (x.off 3 * x.ptypeSize)) r.2 := by
                intro r y base1 hy r1 r2 r3
                subst hy
                obtain ⟨c1, c2⟩ := laid_SetComplete r.1 r.2 r1
                have hl2 := r2.later_trans c2
                have hsh := hl2.kept.shape
                obtain ⟨d1, d2⟩ := laid_combineSlices t n r.2 (sizeT (x.off 2 * x.ptypeSize)) data imm
                  (List.range (x.dim 2)) _ c1 (hl2.kept.kept_wf hw) (by rw [hsh.validVolume]; exact hv)
                  (by rw [hsh.volumeIndex, hsh.off, hsh.ptype]; exact r3.placed_later c2 (fun _ _ => rfl))
                  (fun s hs => by
                    rw [hsh.dim]
                    exact List.mem_range.1 hs)
                  (by rw [hsh.off, hsh.ptype])
                exact laid_putVolume _ x (x.GetVolumeIndex t n) r.2 d1 (hl2.later_trans d2)
                  ((r3.placed_later c2 (fun _ _ => rfl)).placed_later d2 (fun _ _ => rfl))
              cases he : elemAt x.m_Volumes (x.GetVolumeIndex t n) with
              | some v =>
                rw [he] at h
                cases h
                obtain ⟨e1, e2, e4⟩ := tail (x, v) _ base rfl hla (Later.later_refl _) (hla.volume_at he)
                exact ⟨base, Ext.ext_refl _ _, e1, e2, fun q hq => by cases hq; exact e4⟩
              | none =>
                rw [he] at h
                cases h
                obtain ⟨base1, a1, a2, a3, a4, a5⟩ := laid_newItem x t 3 none true
                  ((x.GetVolumeIndex t n).toNat * (x.off 3 * x.ptypeSize)) hla (fun p hp => nomatch hp)
                rw [← newItem_snd x t 3 none true] at a5
                obtain ⟨e1, e2, e4⟩ := tail (x.newItem t 3 none true) _ base1 rfl a3 a4 a5
                exact ⟨base1, a2 rfl, e1, e2, fun q hq => by cases hq; exact e4⟩
          · rw [if_neg hall] at h
            cases hsrc : canUpdate src with
            | some p =>
              rw [hsrc] at h
              dsimp only at h
              obtain ⟨u1, u2⟩ := contained_callUpdate x p [0, 0, 0, t, n] [x.dim 0, x.dim 1, x.dim 2, 1, 1]
                hc (hp p hsrc)
              obtain ⟨base1, v1, v2, v3⟩ := laid_callUpdate x p [0, 0, 0, t, n]
                [x.dim 0, x.dim 1, x.dim 2, 1, 1] hla hc (hq p hsrc)
              split at h
              · obtain ⟨base2, b1, b2, b3, b4⟩ := ih _ t n data imm res base1 hna v2 u1 h
                rw [u2.shape.volumeIndex, u2.shape.off, u2.shape.ptype] at b4
                exact ⟨base2, v1.ext_trans b1 v3.nBufs, b2, v3.later_trans b3, b4⟩
              · cases h
                exact ⟨base1, v1, v2, v3, fun q hq => nomatch hq⟩
            | none =>
              rw [hsrc] at h
              cases h
              obtain ⟨base', a1, a2, a3, a4, a5⟩ := laid_AllocateVolumeData x t n data imm hla hw hv
                (FreshData.of_noAdopt hna)
              obtain ⟨_, hA2, _, _, _, _⟩ := upx_AllocateVolumeData x t n data imm
              obtain ⟨c1, c2⟩ := laid_SetComplete _ (x.AllocateVolumeData_unlocked t n data imm).2 a3
              have a6 : Placed base' (x.AllocateVolumeData_unlocked t n data imm).1
                  ((x.GetVolumeIndex t n).toNat * (x.off 3 * x.ptypeSize))
                  (x.AllocateVolumeData_unlocked t n data imm).2 := by
                rw [hA2]
                exact a5
              exact ⟨base', a2 hna, c1, a4.later_trans c2, fun q hq => by
                cases hq
                exact a6.placed_later c2 (fun _ _ => rfl)⟩
    · have hv' : x.IsValidVolume t n = false := by simpa using hv
      rw [if_pos hv'] at h
      cases h
      exact ⟨base, Ext.ext_refl _ _, hla, Later.later_refl _, fun q hq => nomatch hq⟩

/-- The clearing of slice pointers keeps the layout. -/
theorem laid_clearSlices {base : Nat → Option Int} (x : Image) (it k : Nat) (h : Laid base x) :
    Laid base (clearSlices x it k).1 ∧ Later x (clearSlices x it k).1 := by
  obtain ⟨h1, _, _, h4, h5, h6, h7, h8, h9, _⟩ := clearSlices_same x it k
  have hl : Later x (clearSlices x it k).1 :=
    ⟨⟨h1, le_of_eq h7.symm, fun q _ => by rw [h6]; exact sameFixed_refl _, h8, by rw [h4], by rw [h5]⟩,
      le_of_eq (clearSlices_nBufs x it k).symm⟩
  refine ⟨⟨h.claimed_later hl, fun j q hq => ?_, fun j q hq => ?_, fun j q hq => ?_⟩, hl⟩
  · rw [h9] at hq
    split at hq
    · cases hq
    · rw [h1.off, h1.ptype]
      exact (h.sl j q hq).placed_later hl (fun _ _ => rfl)
  · rw [h4] at hq
    rw [h1.off, h1.ptype]
    exact (h.vo j q hq).placed_later hl (fun _ _ => rfl)
  · rw [h5] at hq
    rw [h1.off, h1.ptype]
    exact (h.ch j q hq).placed_later hl (fun _ _ => rfl)

/-- Where the volume `t` of a valid channel lies, in the form the volume-combining loop
uses. -/
theorem WF.loop_volume_start {x : Image} (hw : WF x) {n : Int} (hv : x.IsValidChannel n = true)
    {t : Nat} (ht : t < x.dim 3) :
    x.IsValidVolume (toInt t) n = true ∧
    (x.GetVolumeIndex (toInt t) n).toNat * (x.off 3 * x.ptypeSize) =
      n.toNat * (x.off 4 * x.ptypeSize) + sizeT (t * x.off 3 * x.ptypeSize) := by
  obtain ⟨h3, h4⟩ := (hw.validChannel_iff n).1 hv
  have hn : n.toNat < x.GetNumberOfChannels := by omega
  have e : toInt t = (t : Int) := hw.toInt_time ht hn
  have hv2 : x.IsValidVolume (toInt t) n = true := by
    rw [e]
    exact (hw.validVolume_iff _ n).2 ⟨Int.ofNat_nonneg _, by exact_mod_cast ht, h3, h4⟩
  have e1 := hw.volume_starts hv2
  rw [e, Int.toNat_ofNat] at e1
  rw [e]
  rw [e] at hv2
  exact ⟨hv2, e1⟩

/-- One step of the volume-combining loop keeps the layout. -/
theorem laid_combineVolume (src : Option Source)
    (hp : ∀ p, canUpdate src = some p → ∀ i, Contained i → Contained (p.update i) ∧ Kept i (p.update i))
    (hq : ∀ p, canUpdate src = some p → ∀ base i, Contained i → Laid base i →
      ∃ base', Ext i base base' ∧ Laid base' (p.update i) ∧ Later i (p.update i))
    (fuel : Nat) (n : Int) (ch size : Nat) (data : Option Ptr) (imm : ImportMemoryManagementType)
    (x : Image) (it t : Nat) (res : Image × Nat) (base : Nat → Option Int) (hna : NoAdopt data imm)
    (hla : Laid base x) (hc : Contained x) (hv : x.IsValidChannel n = true)
    (hch : Placed base x (n.toNat * (x.off 4 * x.ptypeSize)) ch) (ht : t < x.dim 3)
    (h : combineVolume src fuel n ch size data imm (some (x, it)) t = some res) :
    ∃ base', Ext x base base' ∧ Laid base' res.1 ∧ Later x res.1 := by
  unfold combineVolume at h
  dsimp only at h
  obtain ⟨hv2, e1⟩ := hc.wf.loop_volume_start hv ht
  cases hg : GetVolumeData_unlocked src fuel x (toInt t) n data imm with
  | none =>
    rw [hg] at h
    cases h
  | some r1 =>
    obtain ⟨base1, g1, g2, g3, _⟩ := laid_GetVolumeData src hp hq fuel x (toInt t) n data imm r1 base
      hna hla hc hg
    obtain ⟨img1, o⟩ := r1
    rw [hg] at h
    cases o with
    | none =>
      cases h
      have hlf : Later img1 { img1 with fault := true } := Later.later_of_up (up_fault img1)
      exact ⟨base1, g1, g2.laid_same hlf rfl rfl rfl, g3.later_trans hlf⟩
    | some vol =>
      dsimp only at h
      split at h
      · cases h
        have hl1 : Later img1 (img1.memcpy (Ptr.add (img1.items ch).m_Data
            (sizeT (t * img1.off 3 * img1.ptypeSize))) (img1.items vol).m_Data size) :=
          Later.later_of_up (up_memcpy _ _ _ _)
        have hs1 := sameTiers_memcpy img1 (Ptr.add (img1.items ch).m_Data
            (sizeT (t * img1.off 3 * img1.ptypeSize))) (img1.items vol).m_Data size
        have m1 := g2.laid_same hl1 hs1.slices hs1.volumes hs1.channels
        have hl2 := g3.later_trans hl1
        have hch2 := hch.placed_later hl2 g1.keep
        obtain ⟨a1, a2, a3⟩ := laid_subItem _ ch (toInt t) 3 data
          (imm = ImportMemoryManagementType.ManageMemory) (sizeT (t * img1.off 3 * img1.ptypeSize))
          _ m1 hch2
        have eG : n.toNat * (x.off 4 * x.ptypeSize) + sizeT (t * img1.off 3 * img1.ptypeSize) =
            (x.GetVolumeIndex (toInt t) n).toNat * (x.off 3 * x.ptypeSize) := by
          rw [g3.kept.shape.off, g3.kept.shape.ptype, ← e1]
        rw [eG] at a3
        obtain ⟨b1, b2, _⟩ := laid_putVolume _ x (x.GetVolumeIndex (toInt t) n) _ a1
          (hl2.later_trans a2) a3
        have c := fun k => laid_clearSlices _ it k b1
        exact ⟨base1, g1, (c _).1, b2.later_trans (c _).2⟩
      · cases h
        exact ⟨base1, g1, g2, g3⟩

/-- The volume-combining loop keeps the layout. -/
theorem laid_combineVolumes (src : Option Source)
    (hp : ∀ p, canUpdate src = some p → ∀ i, Contained i → Contained (p.update i) ∧ Kept i (p.update i))
    (hq : ∀ p, canUpdate src = some p → ∀ base i, Contained i → Laid base i →
      ∃ base', Ext i base base' ∧ Laid base' (p.update i) ∧ Later i (p.update i))
    (fuel : Nat) (n : Int) (ch size : Nat) (data : Option Ptr) (imm : ImportMemoryManagementType)
    (hna : NoAdopt data imm) :
    ∀ (l : List Nat) (x : Image) (it : Nat) (res : Image × Nat) (base : Nat → Option Int),
      Laid base x → Contained x → Entry x x.m_Dimension ch → x.IsValidChannel n = true →
      Placed base x (n.toNat * (x.off 4 * x.ptypeSize)) ch → (∀ t, t ∈ l → t < x.dim 3) →
      l.foldl (combineVolume src fuel n ch size data imm) (some (x, it)) = some res →
      ∃ base', Ext x base base' ∧ Laid base' res.1 ∧ Later x res.1 := by
  intro l
  induction l with
  | nil =>
    intro x it res base hla _ _ _ _ _ h
    cases h
    exact ⟨base, Ext.ext_refl _ _, hla, Later.later_refl _⟩
  | cons t rest ih =>
    intro x it res base hla hc he hv hch hl h
    rw [List.foldl_cons] at h
    cases hs : combineVolume src fuel n ch size data imm (some (x, it)) t with
    | none =>
      rw [hs, combineVolume_none] at h
      cases h
    | some r1 =>
      obtain ⟨base1, a1, a2, a3⟩ := laid_combineVolume src hp hq fuel n ch size data imm x it t r1 base
        hna hla hc hv hch (hl t (List.mem_cons_self _ _)) hs
      obtain ⟨k1, k2⟩ := contained_combineVolume src hp fuel n ch size data imm x it t r1 hc he
        (hl t (List.mem_cons_self _ _)) hs
      rw [hs] at h
      have hsh := a3.kept.shape
      obtain ⟨base2, b1, b2, b3⟩ := ih r1.1 r1.2 res base1 a2 k1
        (by rw [hsh.rank]; exact he.carried k2) (by rw [hsh.validChannel]; exact hv)
        (by rw [hsh.off, hsh.ptype]; exact hch.placed_later a3 a1.keep)
        (fun t' ht' => by rw [hsh.dim]; exact hl t' (List.mem_cons_of_mem _ ht')) h
      exact ⟨base2, a1.ext_trans b1 a3.nBufs, b2, a3.later_trans b3⟩

/-- `GetChannelData_unlocked` keeps the layout when no caller buffer is passed for adoption,
and the item it returns is placed at the start of the channel. -/
theorem laid_GetChannelData (src : Option Source)
    (hp : ∀ p, canUpdate src = some p → ∀ i, Contained i → Contained (p.update i) ∧ Kept i (p.update i))
    (hq : ∀ p, canUpdate src = some p → ∀ base i, Contained i → Laid base i →
      ∃ base', Ext i base base' ∧ Laid base' (p.update i) ∧ Later i (p.update i)) :
    ∀ (fuel : Nat) (x : Image) (n : Int) (data : Option Ptr) (imm : ImportMemoryManagementType)
      (res : Image × Option Nat) (base : Nat → Option Int), NoAdopt data imm → Laid base x →
      Contained x → GetChannelData_unlocked src fuel x n data imm = some res →
      ∃ base', Ext x base base' ∧ Laid base' res.1 ∧ Later x res.1 ∧
        ∀ q, res.2 = some q → Placed base' res.1 (n.toNat * (x.off 4 * x.ptypeSize)) q := by
  intro fuel
  induction fuel with
  | zero =>
    intro x n data imm res base _ _ _ h
    simp [GetChannelData_unlocked] at h
  | succ fuel ih =>
    intro x n data imm res base hna hla hc h
    unfold GetChannelData_unlocked at h
    by_cases hv : x.IsValidChannel n = true
    · have hv' : ¬ (x.IsValidChannel n = false) := by simp [hv]
      rw [if_neg hv'] at h
      have hw := hc.wf
      dsimp only at h
      by_cases hch : x.completeEntry (elemAt x.m_Channels n) = true
      · rw [if_pos hch] at h
        cases h
        exact ⟨base, Ext.ext_refl _ _, hla, Later.later_refl _, fun q hq => hla.channel_at hq⟩
      · rw [if_neg hch] at h
        by_cases hset : x.IsChannelSet_unlocked n = true
        · rw [if_pos hset] at h
          by_cases hd : x.dim 3 ≤ 1
          · rw [if_pos hd] at h
            cases hg : GetVolumeData_unlocked src (fuel + 1) x 0 n data imm with
            | none =>
              rw [hg] at h
              cases h
            | some r1 =>
              obtain ⟨base1, g1, g2, g3, g4⟩ := laid_GetVolumeData src hp hq (fuel + 1) x 0 n data imm
                r1 base hna hla hc hg
              obtain ⟨img1, o⟩ := r1
              rw [hg] at h
              cases o with
              | none =>
                cases h
                have hlf : Later img1 { img1 with fault := true } := Later.later_of_up (up_fault img1)
                exact ⟨base1, g1, g2.laid_same hlf rfl rfl rfl, g3.later_trans hlf, fun q hq => nomatch hq⟩
              | some vol =>
                cases h
                have e0 := hw.volume_starts (validVolume_zero_of_validChannel hv)
                have hz : sizeT ((0 : Int).toNat * x.off 3 * x.ptypeSize) = 0 := by simp [sizeT]
                rw [hz, Nat.add_zero] at e0
                have g5 := g4 vol rfl
                rw [e0] at g5
                obtain ⟨a1, a2, a3⟩ := laid_subItem img1 vol 0 img1.m_Dimension data
                  (imm = ImportMemoryManagementType.ManageMemory) 0 _ g2 g5
                obtain ⟨b1, b2, b3⟩ := laid_putChannel _ x n img1.nItems a1 (g3.later_trans a2) a3
                exact ⟨base1, g1, b1, b2, fun q hq => by cases hq; exact b3⟩
          · rw [if_neg hd] at h
            have tail : ∀ (r : Image × Nat) (y : Image × Nat) (base1 : Nat → Option Int),
                List.foldl (combineVolume src (fuel + 1) n r.2
                    (sizeT (x.off (x.m_Dimension - 1) * x.ptypeSize)) data imm)
                  (some (r.1.SetComplete r.2 true, u32 (n.toNat * x.dim 2 * x.dim 3)))
                  (List.range (x.dim 3)) = some y →
                Laid base1 r.1 → Later x r.1 → Contained r.1 → Entry r.1 x.m_Dimension r.2 →
                Placed base1 r.1 (n.toNat * (x.off 4 * x.ptypeSize)) r.2 →
                ∃ base2, Ext r.1 base1 base2 ∧
                  Laid base2 { y.1 with m_Channels := assignAt y.1.m_Channels n (some r.2) } ∧
                  Later x { y.1 with m_Channels := assignAt y.1.m_Channels n (some r.2) } ∧
                  Placed base2 { y.1 with m_Channels := assignAt y.1.m_Channels n (some r.2) }
                    (n.toNat * (x.off 4 * x.ptypeSize)) r.2 := by
              intro r y base1 hy r1 r2 r3 r4 r5
              obtain ⟨c1, c2⟩ := laid_SetComplete r.1 r.2 r1
              obtain ⟨k1, k2⟩ := contained_SetComplete r.1 r.2 r3
              have hl2 := r2.later_trans c2
              have hsh := hl2.kept.shape
              obtain ⟨base2, d1, d2, d3⟩ := laid_combineVolumes src hp hq (fuel + 1) n r.2 _ data imm hna
                (List.range (x.dim 3)) _ _ y base1 c1 k1
                (by rw [hsh.rank]; exact r4.carried k2) (by rw [hsh.validChannel]; exact hv)
                (by rw [hsh.off, hsh.ptype]; exact r5.placed_later c2 (fun _ _ => rfl))
                (fun s hs => by
                  rw [hsh.dim]
                  exact List.mem_range.1 hs) hy
              obtain ⟨e1, e2, e3⟩ := laid_putChannel _ x n r.2 d2 (hl2.later_trans d3)
                ((r5.placed_later c2 (fun _ _ => rfl)).placed_later d3 d1.keep)
              exact ⟨base2, ⟨d1.keep, d1.above⟩, e1, e2, e3⟩
            cases he : elemAt x.m_Channels n with
            | some c =>
              rw [he] at h
              dsimp only at h
              split at h
              · cases h
              · rename_i y it hy
                cases h
                obtain ⟨base2, e0, e1, e2, e3⟩ := tail (x, c) (y, it) base hy hla (Later.later_refl _) hc
                  (hc.ch c (mem_of_elemAt he)) (hla.channel_at he)
                exact ⟨base2, e0, e1, e2, fun q hq => by cases hq; exact e3⟩
            | none =>
              rw [he] at h
              dsimp only at h
              split at h
              · cases h
              · rename_i y it hy
                cases h
                obtain ⟨base1, a1, a2, a3, a4, a5⟩ := laid_newItem x (-1) x.m_Dimension none true
                  (n.toNat * (x.off 4 * x.ptypeSize)) hla (fun p hp => nomatch hp)
                obtain ⟨k1, k2, k3, k4⟩ := contained_newItem x (-1) x.m_Dimension none true hc
                rw [← newItem_snd x (-1) x.m_Dimension none true] at a5 k3
                obtain ⟨base2, e0, e1, e2, e3⟩ := tail (x.newChannelItem (-1) none true) (y, it) base1 hy
                  a3 a4 k1 k3 a5
                exact ⟨base2, (a2 rfl).ext_trans e0 a4.nBufs, e1, e2, fun q hq => by cases hq; exact e3⟩
        · rw [if_neg hset] at h
          cases hsrc : canUpdate src with
          | some p =>
            rw [hsrc] at h
            dsimp only at h
            obtain ⟨u1, u2⟩ := contained_callUpdate x p [0, 0, 0, 0, n]
              [x.dim 0, x.dim 1, x.dim 2, x.dim 3, 1] hc (hp p hsrc)
            obtain ⟨base1, v1, v2, v3⟩ := laid_callUpdate x p [0, 0, 0, 0, n]
              [x.dim 0, x.dim 1, x.dim 2, x.dim 3, 1] hla hc (hq p hsrc)
            split at h
            · obtain ⟨base2, b1, b2, b3, b4⟩ := ih _ n data imm res base1 hna v2 u1 h
              rw [u2.shape.off, u2.shape.ptype] at b4
              exact ⟨base2, v1.ext_trans b1 v3.nBufs, b2, v3.later_trans b3, b4⟩
            · cases h
              exact ⟨base1, v1, v2, v3, fun q hq => nomatch hq⟩
          | none =>
            rw [hsrc] at h
            cases h
            obtain ⟨base', a1, a2, a3, a4, a5⟩ := laid_AllocateChannelData x n data imm hla
              (FreshData.of_noAdopt hna)
            obtain ⟨_, hA2, _, _, _, _⟩ := upx_AllocateChannelData x n data imm
            obtain ⟨c1, c2⟩ := laid_SetComplete _ (x.AllocateChannelData_unlocked n data imm).2 a3
            have a6 : Placed base' (x.AllocateChannelData_unlocked n data imm).1
                (n.toNat * (x.off 4 * x.ptypeSize)) (x.AllocateChannelData_unlocked n data imm).2 := by
              rw [hA2]
              exact a5
            exact ⟨base', a2 hna, c1, a4.later_trans c2, fun q hq => by
              cases hq
              exact a6.placed_later c2 (fun _ _ => rfl)⟩
    · have hv' : x.IsValidChannel n = false := by simpa using hv
      rw [if_pos hv'] at h
      cases h
      exact ⟨base, Ext.ext_refl _ _, hla, Later.later_refl _, fun q hq => nomatch hq⟩

/-! ## The accessors on data that is set

On a unit that is set the accessors construct views and fresh items only; the data pointer
and the memory management mode passed along are not used. -/

theorem installSliceView_mode (x : Image) (pos : Int) (p : Nat) (t : Int) (data : Option Ptr)
    (imm : ImportMemoryManagementType) (o : Nat) :
    x.installSliceView pos p t data imm o =
      x.installSliceView pos p t none ImportMemoryManagementType.CopyMemory o := rfl

theorem combineSlice_mode (t n : Int) (vol size : Nat) (data : Option Ptr)
    (imm : ImportMemoryManagementType) :
    combineSlice t n vol size data imm =
      combineSlice t n vol size none ImportMemoryManagementType.CopyMemory := rfl

/-- `GetSliceData_unlocked` on a slice that is set does not depend on the data pointer and
the mode. -/
theorem GetSliceData_mode (src : Option Source) (fuel : Nat) (x : Image) (s t n : Int)
    (data : Option Ptr) (imm : ImportMemoryManagementType)
    (h : x.IsSliceSet_unlocked s t n = true) :
    GetSliceData_unlocked src fuel x s t n data imm =
      GetSliceData_unlocked src fuel x s t n none ImportMemoryManagementType.CopyMemory := by
  cases fuel with
  | zero => rfl
  | succ fuel =>
    have hv := isSliceSet_valid h
    rw [isSliceSet_eq x s t n hv] at h
    unfold GetSliceData_unlocked
    have hv' : ¬ (x.IsValidSlice s t n = false) := by simp [hv]
    rw [if_neg hv', if_neg hv']
    dsimp only
    cases hsl : elemAt x.m_Slices (x.GetSliceIndex s t n) with
    | some sl => rfl
    | none =>
      dsimp only
      rw [hsl] at h
      by_cases hvol : x.completeEntry (elemAt x.m_Volumes (x.GetVolumeIndex t n)) = true
      · rw [if_pos hvol, if_pos hvol]
        rfl
      · rw [if_neg hvol, if_neg hvol]
        by_cases hch : x.completeEntry (elemAt x.m_Channels n) = true
        · rw [if_pos hch, if_pos hch]
          rfl
        · simp [hvol, hch] at h

/-- `GetVolumeData_unlocked` on a volume that is set does not depend on the data pointer
and the mode. -/
theorem GetVolumeData_mode (src : Option Source) (fuel : Nat) (x : Image) (t n : Int)
    (data : Option Ptr) (imm : ImportMemoryManagementType)
    (h : x.IsVolumeSet_unlocked t n = true) :
    GetVolumeData_unlocked src fuel x t n data imm =
      GetVolumeData_unlocked src fuel x t n none ImportMemoryManagementType.CopyMemory := by
  cases fuel with
  | zero => rfl
  | succ fuel =>
    have hv := isVolumeSet_valid h
    rw [isVolumeSet_eq x t n hv] at h
    unfold GetVolumeData_unlocked
    have hv' : ¬ (x.IsValidVolume t n = false) := by simp [hv]
    rw [if_neg hv', if_neg hv']
    dsimp only
    by_cases hvol : x.completeEntry (elemAt x.m_Volumes (x.GetVolumeIndex t n)) = true
    · rw [if_pos hvol, if_pos hvol]
    · rw [if_neg hvol, if_neg hvol]
      by_cases hch : x.completeEntry (elemAt x.m_Channels n) = true
      · rw [if_pos hch, if_pos hch]
        rfl
      · rw [if_neg hch, if_neg hch]
        have hall : x.allSlicesSet t n = true := by simpa [hvol, hch] using h
        rw [if_pos hall, if_pos hall]
        by_cases hd : x.dim 2 ≤ 1
        · rw [if_pos hd, if_pos hd]
          have h0 : x.IsSliceSet_unlocked 0 t n = true := by
            rw [isSliceSet_eq x 0 t n (validSlice_zero_of_validVolume hv)]
            have hpos := dim2_pos_of_validVolume hv
            unfold allSlicesSet at hall
            rw [List.all_eq_true] at hall
            have := hall 0 (List.mem_range.2 hpos)
            have e : toInt 0 = 0 := by decide
            rw [e] at this
            simp [this]
          rw [GetSliceData_mode src (fuel + 1) x 0 t n data imm h0]
          rfl
        · rw [if_neg hd, if_neg hd]
          rfl

/-- One step of the volume-combining loop on a volume that is set does not depend on the
data pointer and the mode. -/
theorem combineVolume_mode (src : Option Source) (fuel : Nat) (n : Int) (ch size : Nat)
    (data : Option Ptr) (imm : ImportMemoryManagementType) (st : Image) (it t : Nat)
    (h : st.IsVolumeSet_unlocked (toInt t) n = true) :
    combineVolume src fuel n ch size data imm (some (st, it)) t =
      combineVolume src fuel n ch size none ImportMemoryManagementType.CopyMemory (some (st, it)) t := by
  unfold combineVolume
  dsimp only
  rw [GetVolumeData_mode src fuel st (toInt t) n data imm h]
  rfl

/-- The volume-combining loop over volumes that are set does not depend on the data pointer
and the mode. -/
theorem combineVolumes_mode (src : Option Source) (fuel : Nat) (img : Image) (n ch size : Nat)
    (data : Option Ptr) (imm : ImportMemoryManagementType) (hw : WF img) (hi : IdsOK img)
    (hn : n < img.GetNumberOfChannels)
    (hset : ∀ t, t < img.dim 3 → img.IsVolumeSet_unlocked (t : Int) n = true) :
    ∀ k, k ≤ img.dim 3 → ∀ (st0 : Image) (it0 : Nat), CombineInv img n 0 st0 it0 →
      (List.range k).foldl (combineVolume src (fuel + 1) n ch size data imm) (some (st0, it0)) =
      (List.range k).foldl
        (combineVolume src (fuel + 1) n ch size none ImportMemoryManagementType.CopyMemory)
        (some (st0, it0)) := by
  intro k
  induction k with
  | zero => exact fun _ _ _ _ => rfl
  | succ k ih =>
    intro hk st0 it0 hinv
    rw [List.range_succ, List.foldl_append, List.foldl_append, ih (by omega) st0 it0 hinv]
    obtain ⟨st', it', hloop, hinv'⟩ := combineVolume_loop src fuel img n ch size none
      ImportMemoryManagementType.CopyMemory hw hi hn hset k (by omega) st0 it0 hinv
    rw [hloop]
    simp only [List.foldl_cons, List.foldl_nil]
    apply combineVolume_mode
    rw [hw.toInt_time (show k < img.dim 3 by omega) hn]
    exact hinv'.adv.isVolumeSet hw hi _ _ (hset k (by omega))

/-- `GetChannelData_unlocked` on a channel that is set does not depend on the data pointer
and the mode. -/
theorem GetChannelData_mode (src : Option Source) (fuel : Nat) (img : Image) (n : Int)
    (data : Option Ptr) (imm : ImportMemoryManagementType) (hw : WF img) (hi : IdsOK img)
    (h : img.IsChannelSet_unlocked n = true) :
    GetChannelData_unlocked src fuel img n data imm =
      GetChannelData_unlocked src fuel img n none ImportMemoryManagementType.CopyMemory := by
  cases fuel with
  | zero => rfl
  | succ fuel =>
    have hv := isChannelSet_valid h
    have hv' := hv
    rw [hw.validChannel_iff] at hv'
    obtain ⟨hn0, hn1⟩ := hv'
    obtain ⟨n, rfl⟩ := Int.eq_ofNat_of_zero_le hn0
    have hn : n < img.GetNumberOfChannels := by exact_mod_cast hn1
    have hset' := h
    rw [hw.isChannelSet_nat hn] at h
    unfold GetChannelData_unlocked
    have hvf : ¬ (img.IsValidChannel (n : Int) = false) := by simp [hv]
    rw [if_neg hvf, if_neg hvf]
    dsimp only
    by_cases hcc : img.completeEntry (elemAt img.m_Channels (n : Int)) = true
    · rw [if_pos hcc, if_pos hcc]
    · rw [if_neg hcc, if_neg hcc, if_pos hset', if_pos hset']
      have hall : ∀ t, t < img.dim 3 → img.IsVolumeSet_unlocked (t : Int) n = true := by
        rw [elemAt_nat] at hcc
        simp only [hcc, Bool.false_or, List.all_eq_true, List.mem_range] at h
        exact h
      by_cases hd : img.dim 3 ≤ 1
      · rw [if_pos hd, if_pos hd]
        have h0 := hall 0 (by have := hw.d3_pos; omega)
        rw [GetVolumeData_mode src (fuel + 1) img 0 n data imm (by simpa using h0)]
        rfl
      · rw [if_neg hd, if_neg hd]
        have key : ∀ r : Image × Nat, Up img r.1 →
            List.foldl (combineVolume src (fuel + 1) (n : Int) r.2
                (sizeT (img.off (img.m_Dimension - 1) * img.ptypeSize)) data imm)
              (some (r.1.SetComplete r.2 true, u32 ((n : Int).toNat * img.dim 2 * img.dim 3)))
              (List.range (img.dim 3)) =
            List.foldl (combineVolume src (fuel + 1) (n : Int) r.2
                (sizeT (img.off (img.m_Dimension - 1) * img.ptypeSize)) none
                ImportMemoryManagementType.CopyMemory)
              (some (r.1.SetComplete r.2 true, u32 ((n : Int).toNat * img.dim 2 * img.dim 3)))
              (List.range (img.dim 3)) := by
          intro r hup
          have hup1 : Up img (r.1.SetComplete r.2 true) := hup.up_trans (up_SetComplete _ _)
          have hadv1 := Adv.of_up hup1
          have hw1 := hadv1.wf hw
          have hi1 := hup1.ids hi
          have hd2 : (r.1.SetComplete r.2 true).dim 2 = img.dim 2 := hup1.shape.dim 2
          have hd3 : (r.1.SetComplete r.2 true).dim 3 = img.dim 3 := hup1.shape.dim 3
          have hch1 : (r.1.SetComplete r.2 true).GetNumberOfChannels = img.GetNumberOfChannels :=
            hup1.shape.channels
          have hit : u32 (n * img.dim 2 * img.dim 3) =
              n * (r.1.SetComplete r.2 true).dim 2 * (r.1.SetComplete r.2 true).dim 3 +
                (r.1.SetComplete r.2 true).dim 2 * 0 := by
            rw [hd2, hd3, Nat.mul_zero, Nat.add_zero]
            apply u32_of_lt
            have h1 := hw.slices_lt
            have h2 : n * (img.dim 2 * img.dim 3) ≤ img.GetNumberOfChannels * (img.dim 2 * img.dim 3) :=
              Nat.mul_le_mul_right _ (by omega)
            have h3 : img.GetNumberOfChannels * (img.dim 2 * img.dim 3) =
                img.GetNumberOfChannels * img.dim 3 * img.dim 2 := by ring
            have h4 : n * (img.dim 2 * img.dim 3) = n * img.dim 2 * img.dim 3 := by ring
            omega
          have hm := combineVolumes_mode src fuel (r.1.SetComplete r.2 true) n r.2
            (sizeT (img.off (img.m_Dimension - 1) * img.ptypeSize)) data imm hw1 hi1 (by omega)
            (fun t ht => hadv1.isVolumeSet hw hi _ _ (hall t (by omega)))
            ((r.1.SetComplete r.2 true).dim 3) (le_refl _) (r.1.SetComplete r.2 true)
            (u32 (n * img.dim 2 * img.dim 3))
            ⟨Adv.adv_refl _, fun t ht => absurd ht (by omega), ⟨0, le_refl _, hit⟩⟩
          rw [hd3] at hm
          simp only [Int.toNat_ofNat]
          exact hm
        cases hce : elemAt img.m_Channels (n : Int) with
        | some c =>
          dsimp only
          rw [key (img, c) (UpX.up_refl _ _ _)]
        | none =>
          dsimp only
          rw [key (img.newChannelItem (-1) none true) (up_newItem _ _ _ _ _)]

theorem later_Modified (y : Image) : Later y y.Modified :=
  ⟨kept_of_same ⟨rfl, rfl, rfl, rfl, rfl, rfl⟩ rfl rfl rfl rfl rfl, le_refl _⟩

theorem later_descriptor (y : Image) (f : Nat → Option Ptr) : Later y { y with descriptorData := f } :=
  ⟨kept_of_same ⟨rfl, rfl, rfl, rfl, rfl, rfl⟩ rfl rfl rfl rfl rfl, le_refl _⟩

/-- A copy of bytes keeps the layout. -/
theorem laid_copyInto {base : Nat → Option Int} (x : Image) (d : Ptr) (data : Option Ptr) (l : Nat)
    (h : Laid base x) : Laid base (x.copyInto d data l) ∧ Later x (x.copyInto d data l) :=
  ⟨h.laid_same (Later.later_of_up (up_copyInto x d data l)) (sameTiers_copyInto x d data l).slices
    (sameTiers_copyInto x d data l).volumes (sameTiers_copyInto x d data l).channels,
    Later.later_of_up (up_copyInto x d data l)⟩

/-- The common tail of the set branches keeps the layout when the allocation does. -/
theorem laid_overwrite {base : Nat → Option Int} (alloc : Image → Image × Nat) (len : Nat)
    (data : Option Ptr) (x : Image) (p : Option Nat) (h : Laid base x)
    (ha : ∃ base', Laid base' (alloc x).1 ∧ Later x (alloc x).1) :
    ∃ base', Laid base' (overwrite alloc len data x p).1 ∧ Later x (overwrite alloc len data x p).1 := by
  unfold overwrite
  cases p with
  | none =>
    exact ⟨base, h.laid_same (Later.later_of_up (up_fault x)) rfl rfl rfl, Later.later_of_up (up_fault x)⟩
  | some q =>
    dsimp only
    split
    · obtain ⟨base', a1, a2⟩ := ha
      obtain ⟨c1, c2⟩ := laid_copyInto (alloc x).1 ((alloc x).1.items (alloc x).2).m_Data data len a1
      exact ⟨base', c1, a2.later_trans c2⟩
    · obtain ⟨c1, c2⟩ := laid_copyInto x (x.items q).m_Data data len h
      exact ⟨base, c1, c2⟩

/-- `SetImportSlice` keeps the layout, for every data pointer and mode. -/
theorem laid_SetImportSlice (src : Option Source)
    (hp : ∀ p, canUpdate src = some p → ∀ i, Contained i → Contained (p.update i) ∧ Kept i (p.update i))
    (hq : ∀ p, canUpdate src = some p → ∀ base i, Contained i → Laid base i →
      ∃ base', Ext i base base' ∧ Laid base' (p.update i) ∧ Later i (p.update i))
    (fuel : Nat) (x : Image) (data : Option Ptr) (s t n : Int) (imm : ImportMemoryManagementType)
    (res : Image × Bool) (base : Nat → Option Int) (hla : Laid base x) (hc : Contained x)
    (h : SetImportSlice src fuel x data s t n imm = some res) :
    ∃ base', Laid base' res.1 := by
  unfold SetImportSlice at h
  by_cases hv : x.IsValidSlice s t n = true
  · have hv' : ¬ (x.IsValidSlice s t n = false) := by simp [hv]
    rw [if_neg hv'] at h
    dsimp only at h
    split at h
    · cases hg : GetSliceData src fuel x s t n data imm with
      | none =>
        rw [hg] at h
        cases h
      | some r1 =>
        obtain ⟨g1, g2, _⟩ := contained_GetSliceData src hp fuel x s t n data imm r1 hc (GetSliceData_some hg)
        obtain ⟨base1, k1, k2, k3, _⟩ := laid_GetSliceData src hp hq fuel x s t n data imm r1 base hla hc (GetSliceData_some hg)
        rw [hg] at h
        cases h
        obtain ⟨base2, a1, a2, a3, _⟩ := laid_AllocateSliceData r1.1 s t n data imm k2 g1.wf
          (by rw [g2.shape.validSlice]; exact hv)
        obtain ⟨base3, o1, o2⟩ := laid_overwrite (fun i => i.AllocateSliceData s t n data imm)
          (sizeT (x.off 2 * x.ptypeSize)) data r1.1 r1.2 k2 ⟨base2, a2, a3⟩
        exact ⟨base3, o1.laid_same (later_Modified _) rfl rfl rfl⟩
    · cases h
      obtain ⟨base2, a1, a2, a3, _⟩ := laid_AllocateSliceData x s t n data imm hla hc.wf hv
      exact ⟨base2, (laid_copyInto _ _ data _ a2).1⟩
  · have hv' : x.IsValidSlice s t n = false := by simpa using hv
    rw [if_pos hv'] at h
    cases h
    exact ⟨base, hla⟩

theorem FreshData.fresh_later {base base' : Nat → Option Int} {x y : Image} {data : Option Ptr}
    {imm : ImportMemoryManagementType} (h : FreshData base x data imm) (he : Ext x base base')
    (hl : Later x y) : FreshData base' y data imm := by
  intro h1 p hp
  obtain ⟨h2, h3⟩ := h h1 p hp
  exact ⟨he.above _ h3 h2, lt_of_lt_of_le h3 hl.nBufs⟩

/-- `SetImportVolume` keeps the layout when a caller buffer passed for adoption is fresh. -/
theorem laid_SetImportVolume (src : Option Source)
    (hp : ∀ p, canUpdate src = some p → ∀ i, Contained i → Contained (p.update i) ∧ Kept i (p.update i))
    (hq : ∀ p, canUpdate src = some p → ∀ base i, Contained i → Laid base i →
      ∃ base', Ext i base base' ∧ Laid base' (p.update i) ∧ Later i (p.update i))
    (fuel : Nat) (x : Image) (data : Option Ptr) (t n : Int) (imm : ImportMemoryManagementType)
    (res : Image × Bool) (base : Nat → Option Int) (hla : Laid base x) (hc : Contained x)
    (hfr : FreshData base x data imm)
    (h : SetImportVolume src fuel x data t n imm = some res) :
    ∃ base', Laid base' res.1 := by
  unfold SetImportVolume at h
  by_cases hv : x.IsValidVolume t n = true
  · have hv' : ¬ (x.IsValidVolume t n = false) := by simp [hv]
    rw [if_neg hv'] at h
    dsimp only at h
    by_cases hset : x.IsVolumeSet t n = true
    · rw [if_pos hset] at h
      have hm : GetVolumeData src fuel x t n data imm =
          GetVolumeData_unlocked src fuel x t n none ImportMemoryManagementType.CopyMemory :=
        (GetVolumeData_of_isSet src _ _ _ _ _ _ hset).trans (GetVolumeData_mode src fuel x t n data imm hset)
      rw [hm] at h
      cases hg : GetVolumeData_unlocked src fuel x t n none ImportMemoryManagementType.CopyMemory with
      | none =>
        rw [hg] at h
        cases h
      | some r1 =>
        obtain ⟨g1, g2, _⟩ := contained_GetVolumeData src hp fuel x t n none
          ImportMemoryManagementType.CopyMemory r1 hc hg
        obtain ⟨base1, k1, k2, k3, _⟩ := laid_GetVolumeData src hp hq fuel x t n none
          ImportMemoryManagementType.CopyMemory r1 base (Or.inl rfl) hla hc hg
        rw [hg] at h
        dsimp only at h
        obtain ⟨base2, a1, _, a2, a3, _⟩ := laid_AllocateVolumeData r1.1 t n data imm k2 g1.wf
          (by rw [g2.shape.validVolume]; exact hv) (hfr.fresh_later k1 k3)
        obtain ⟨base3, o1, o2⟩ := laid_overwrite (fun i => i.AllocateVolumeData t n data imm)
          (sizeT (x.off 3 * x.ptypeSize)) data r1.1 r1.2 k2 ⟨base2, a2, a3⟩
        split at h
        · cases h
          exact ⟨base3, o1.laid_same (later_Modified _) rfl rfl rfl⟩
        · rename_i v _
          cases h
          exact ⟨base3, ((laid_SetComplete _ v o1).1).laid_same (later_Modified _) rfl rfl rfl⟩
    · rw [if_neg hset] at h
      cases h
      obtain ⟨base2, _, _, a2, a3, _⟩ := laid_AllocateVolumeData x t n data imm hla hc.wf hv hfr
      have c := laid_copyInto (x.AllocateVolumeData t n data imm).1
        ((x.AllocateVolumeData t n data imm).1.items (x.AllocateVolumeData t n data imm).2).m_Data data
        (sizeT (x.off 3 * x.ptypeSize)) a2
      have d := laid_SetComplete _ (x.AllocateVolumeData t n data imm).2 c.1
      exact ⟨base2, d.1.laid_same (later_descriptor _ _) rfl rfl rfl⟩
  · have hv' : x.IsValidVolume t n = false := by simpa using hv
    rw [if_pos hv'] at h
    cases h
    exact ⟨base, hla⟩

/-- `SetImportChannel` keeps the layout when a caller buffer passed for adoption is fresh. -/
theorem laid_SetImportChannel (src : Option Source)
    (hp : ∀ p, canUpdate src = some p → ∀ i, Contained i → Contained (p.update i) ∧ Kept i (p.update i))
    (hq : ∀ p, canUpdate src = some p → ∀ base i, Contained i → Laid base i →
      ∃ base', Ext i base base' ∧ Laid base' (p.update i) ∧ Later i (p.update i))
    (fuel : Nat) (x : Image) (data : Option Ptr) (n : Int) (imm : ImportMemoryManagementType)
    (res : Image × Bool) (base : Nat → Option Int) (hla : Laid base x) (hc : Contained x)
    (hfr : FreshData base x data imm)
    (h : SetImportChannel src fuel x data n imm = some res) :
    ∃ base', Laid base' res.1 := by
  unfold SetImportChannel at h
  by_cases hv : x.IsValidChannel n = true
  · have hv' : ¬ (x.IsValidChannel n = false) := by simp [hv]
    rw [if_neg hv'] at h
    dsimp only at h
    by_cases hset : x.IsChannelSet n = true
    · rw [if_pos hset] at h
      have hm : GetChannelData src fuel x n data imm =
          GetChannelData_unlocked src fuel x n none ImportMemoryManagementType.CopyMemory :=
        (GetChannelData_of_isSet src _ _ _ _ _ hc.wf hc.idsOK hset).trans
          (GetChannelData_mode src fuel x n data imm hc.wf hc.idsOK hset)
      rw [hm] at h
      cases hg : GetChannelData_unlocked src fuel x n none ImportMemoryManagementType.CopyMemory with
      | none =>
        rw [hg] at h
        cases h
      | some r1 =>
        obtain ⟨g1, g2, _⟩ := contained_GetChannelData src hp fuel x n none
          ImportMemoryManagementType.CopyMemory r1 hc hg
        obtain ⟨base1, k1, k2, k3, _⟩ := laid_GetChannelData src hp hq fuel x n none
          ImportMemoryManagementType.CopyMemory r1 base (Or.inl rfl) hla hc hg
        rw [hg] at h
        dsimp only at h
        obtain ⟨base2, a1, _, a2, a3, _⟩ := laid_AllocateChannelData r1.1 n data imm k2 (hfr.fresh_later k1 k3)
        obtain ⟨base3, o1, o2⟩ := laid_overwrite (fun i => i.AllocateChannelData n data imm)
          (sizeT (x.off 4 * x.ptypeSize)) data r1.1 r1.2 k2 ⟨base2, a2, a3⟩
        split at h
        · cases h
          exact ⟨base3, o1.laid_same (later_Modified _) rfl rfl rfl⟩
        · rename_i v _
          cases h
          exact ⟨base3, ((laid_SetComplete _ v o1).1).laid_same (later_Modified _) rfl rfl rfl⟩
    · rw [if_neg hset] at h
      cases h
      obtain ⟨base2, _, _, a2, a3, _⟩ := laid_AllocateChannelData x n data imm hla hfr
      have c := laid_copyInto (x.AllocateChannelData n data imm).1
        ((x.AllocateChannelData n data imm).1.items (x.AllocateChannelData n data imm).2).m_Data data
        (sizeT (x.off 4 * x.ptypeSize)) a2
      have d := laid_SetComplete _ (x.AllocateChannelData n data imm).2 c.1
      exact ⟨base2, d.1.laid_same (later_descriptor _ _) rfl rfl rfl⟩
  · have hv' : x.IsValidChannel n = false := by simpa using hv
    rw [if_pos hv'] at h
    cases h
    exact ⟨base, hla⟩

theorem noAdopt_of_fresh {data : Option Ptr} {imm : ImportMemoryManagementType}
    (h : (decide (imm = ImportMemoryManagementType.CopyMemory) || data.isNone) = true) :
    NoAdopt data imm := by
  simp only [Bool.or_eq_true, decide_eq_true_eq, Option.isNone_iff_eq_none] at h
  exact h

theorem freshData_of_fresh {base : Nat → Option Int} {x : Image} {data : Option Ptr}
    {imm : ImportMemoryManagementType} (hla : Laid base x)
    (h : (decide (imm = ImportMemoryManagementType.CopyMemory) ||
      (match data with
        | none => true
        | some p => decide (p.buf < x.nBufs) &&
            (List.range x.nItems).all (fun q => decide ((x.items q).m_Data.buf ≠ p.buf)))) = true) :
    FreshData base x data imm := by
  intro h1 p hp
  subst hp
  simp only [h1, decide_False, Bool.false_or, Bool.and_eq_true, decide_eq_true_eq,
    List.all_eq_true, List.mem_range] at h
  refine ⟨?_, h.1⟩
  by_contra hb
  obtain ⟨_, q, hq1, hq2⟩ := hla.claimed _ hb
  exact h.2 q hq1 hq2

/-- Every operation under the caller's obligation keeps the layout. -/
theorem laid_run (src : Option Source)
    (hp : ∀ p, canUpdate src = some p → ∀ i, Contained i → Contained (p.update i) ∧ Kept i (p.update i))
    (hq : ∀ p, canUpdate src = some p → ∀ base i, Contained i → Laid base i →
      ∃ base', Ext i base base' ∧ Laid base' (p.update i) ∧ Later i (p.update i))
    (fuel : Nat) (x y : Image) (op : Op) (base : Nat → Option Int) (hla : Laid base x)
    (hc : Contained x) (hf : op.fresh x = true) (h : op.run src fuel x = some y) :
    ∃ base', Laid base' y := by
  cases op with
  | getSlice s t n data imm =>
    simp only [Op.run, Option.map_eq_some'] at h
    obtain ⟨r, hr, rfl⟩ := h
    obtain ⟨base', _, h2, _⟩ := laid_GetSliceData src hp hq fuel x s t n data imm r base hla hc (GetSliceData_some hr)
    exact ⟨base', h2⟩
  | getVolume t n data imm =>
    simp only [Op.run, Option.map_eq_some'] at h
    obtain ⟨r, hr, rfl⟩ := h
    obtain ⟨base', _, h2, _⟩ := laid_GetVolumeData src hp hq fuel x t n data imm r base
      (noAdopt_of_fresh hf) hla hc (GetVolumeData_some hr)
    exact ⟨base', h2⟩
  | getChannel n data imm =>
    simp only [Op.run, Option.map_eq_some'] at h
    obtain ⟨r, hr, rfl⟩ := h
    obtain ⟨base', _, h2, _⟩ := laid_GetChannelData src hp hq fuel x n data imm r base
      (noAdopt_of_fresh hf) hla hc (GetChannelData_some hr)
    exact ⟨base', h2⟩
  | importSlice data s t n imm =>
    simp only [Op.run, Option.map_eq_some'] at h
    obtain ⟨r, hr, rfl⟩ := h
    exact laid_SetImportSlice src hp hq fuel x data s t n imm r base hla hc hr
  | importVolume data t n imm =>
    simp only [Op.run, Option.map_eq_some'] at h
    obtain ⟨r, hr, rfl⟩ := h
    exact laid_SetImportVolume src hp hq fuel x data t n imm r base hla hc (freshData_of_fresh hla hf) hr
  | importChannel data n imm =>
    simp only [Op.run, Option.map_eq_some'] at h
    obtain ⟨r, hr, rfl⟩ := h
    exact laid_SetImportChannel src hp hq fuel x data n imm r base hla hc (freshData_of_fresh hla hf) hr
  | isSliceSet s t n =>
    cases h
    exact ⟨base, hla⟩
  | isVolumeSet t n =>
    cases h
    exact ⟨base, hla⟩
  | isChannelSet n =>
    cases h
    exact ⟨base, hla⟩

/-- Every sequence of operations under the caller's obligation keeps the layout. -/
theorem laid_runOps (src : Option Source)
    (hp : ∀ p, canUpdate src = some p → ∀ i, Contained i → Contained (p.update i) ∧ Kept i (p.update i))
    (hq : ∀ p, canUpdate src = some p → ∀ base i, Contained i → Laid base i →
      ∃ base', Ext i base base' ∧ Laid base' (p.update i) ∧ Later i (p.update i))
    (fuel : Nat) : ∀ (ops : List Op) (x y : Image) (base : Nat → Option Int), Laid base x →
      Contained x → freshRun src fuel ops x = true → runOps src fuel ops x = some y →
      ∃ base', Laid base' y := by
  intro ops
  induction ops with
  | nil =>
    intro x y base hla _ _ h
    cases h
    exact ⟨base, hla⟩
  | cons op rest ih =>
    intro x y base hla hc hf h
    unfold runOps at h
    unfold freshRun at hf
    rw [Bool.and_eq_true] at hf
    cases ho : op.run src fuel x with
    | none =>
      rw [ho] at h
      cases h
    | some z =>
      rw [ho] at h
      have hf2 := hf.2
      rw [ho] at hf2
      obtain ⟨base1, a1⟩ := laid_run src hp hq fuel x z op base hla hc hf.1 ho
      exact ih z y base1 a1 (contained_run src hp fuel x z op hc ho).1 hf2 h

/-- The image a successful `Initialize` leaves has empty arrays, so it is laid out under the
map that gives no buffer a base. -/
theorem laid_initialized (img : Image) (ts d : Nat) (ds : List Nat) (ch : Nat) :
    Laid (fun _ => none) (img.initialized ts d ds ch) := by
  obtain ⟨_, h1, h2, h3⟩ := initialized_arrays img ts d ds ch
  refine ⟨fun B hB => absurd rfl hB, fun k q hq => ?_, fun k q hq => ?_, fun k q hq => ?_⟩
  · rw [h1, getD_replicate_none] at hq
    cases hq
  · rw [h2, getD_replicate_none] at hq
    cases hq
  · rw [h3, getD_replicate_none] at hq
    cases hq

/-! ## What a slice write leaves alone -/

theorem Aside.aside_refl (k : Nat) (x : Image) : Aside k x x :=
  ⟨Later.later_refl x, fun _ _ => rfl, fun _ _ _ => rfl, fun _ _ => rfl, rfl, fun _ => Or.inl rfl⟩

theorem Aside.aside_trans {k : Nat} {x y z : Image} (h1 : Aside k x y) (h2 : Aside k y z)
    (hi : ∀ q, some q ∈ y.m_Volumes → q < y.nItems) : Aside k x z where
  step := h1.step.later_trans h2.step
  items := fun q hq => by
    rw [h2.items q (lt_of_lt_of_le hq h1.step.kept.nItems), h1.items q hq]
  mem := fun B o hB => by
    rw [h2.mem B o (lt_of_lt_of_le hB h1.step.nBufs), h1.mem B o hB]
  slices := fun j hj => by rw [h2.slices j hj, h1.slices j hj]
  channels := by rw [h2.channels, h1.channels]
  volumes := fun j => by
    rcases h1.volumes j with a | ⟨a1, a2⟩
    · rcases h2.volumes j with b | ⟨b1, b2⟩
      · exact Or.inl (b.trans a)
      · exact Or.inr ⟨by rw [← a]; exact b1, b2⟩
    · rcases h2.volumes j with b | ⟨_, b2⟩
      · refine Or.inr ⟨a1, ?_⟩
        rw [b]
        cases hv : y.m_Volumes.getD j none with
        | none => rfl
        | some v =>
          rw [hv] at a2
          show z.IsComplete v = false
          have : y.IsComplete v = false := a2
          unfold IsComplete at this ⊢
          rw [h2.items v (hi v (mem_of_getD hv))]
          exact this
      · exact Or.inr ⟨a1, b2⟩

/-- The installation of a slice view at the slice `k`. -/
theorem aside_installSliceView (x : Image) (pos : Int) (p : Nat) (t : Int) (data : Option Ptr)
    (imm : ImportMemoryManagementType) (o : Nat) :
    Aside pos.toNat x (x.installSliceView pos p t data imm o).1 where
  step := Later.later_of_up (up_installSliceView x pos p t data imm o)
  items := fun q hq => by
    simp [installSliceView, newSubItem, addItem, SetComplete, Function.update_noteq (Nat.ne_of_lt hq)]
  mem := fun _ _ _ => rfl
  slices := fun j hj => by
    show (assignAt x.m_Slices pos (some x.nItems)).getD j none = _
    rw [getD_assignAt, if_neg (fun h => hj h.2.1.symm)]
  channels := rfl
  volumes := fun _ => Or.inl rfl

/-- The allocation of a volume where there was no volume entry. -/
theorem aside_AllocateVolumeData (k : Nat) (x : Image) (t n : Int) (data : Option Ptr)
    (imm : ImportMemoryManagementType) (hv : elemAt x.m_Volumes (x.GetVolumeIndex t n) = none)
    (hch : elemAt x.m_Channels n = none) :
    Aside k x (x.AllocateVolumeData_unlocked t n data imm).1 := by
  obtain ⟨hup, _, _, g4, g5, g6⟩ := upx_AllocateVolumeData x t n data imm
  have hitems : ∀ q, q < x.nItems → (x.AllocateVolumeData_unlocked t n data imm).1.items q = x.items q ∧
      ((x.AllocateVolumeData_unlocked t n data imm).1.items x.nItems).m_IsComplete = false ∧
      ∀ B o, B < x.nBufs → (x.AllocateVolumeData_unlocked t n data imm).1.mem B o = x.mem B o := by
    intro q hq
    unfold AllocateVolumeData_unlocked
    rw [hch]
    dsimp only
    have hne := Nat.ne_of_lt hq
    by_cases hc : imm = ImportMemoryManagementType.CopyMemory
    · rw [if_pos hc]
      cases data with
      | none =>
        refine ⟨by simp [newItem, addItem, allocate, Function.update_noteq hne],
          by simp [newItem, addItem, allocate], fun B o hB => ?_⟩
        simp [newItem, addItem, allocate, Nat.ne_of_lt hB]
      | some b =>
        dsimp only
        rw [items_memcpy]
        refine ⟨by simp [newItem, addItem, allocate, Function.update_noteq hne],
          by simp [newItem, addItem, allocate], fun B o hB => ?_⟩
        unfold memcpy
        split
        · simp [newItem, addItem, allocate, Nat.ne_of_lt hB]
        · simp [newItem, addItem, allocate, Nat.ne_of_lt hB]
    · rw [if_neg hc]
      cases data with
      | none =>
        refine ⟨by simp [newItem, addItem, allocate, Function.update_noteq hne],
          by simp [newItem, addItem, allocate], fun B o hB => ?_⟩
        simp [newItem, addItem, allocate, Nat.ne_of_lt hB]
      | some b =>
        exact ⟨by simp [newItem, addItem, Function.update_noteq hne], by simp [newItem, addItem],
          fun B o hB => by simp [newItem, addItem]⟩
  refine ⟨Later.later_of_up hup, fun q hq => (hitems q hq).1, ?_, fun j _ => by rw [g5], g6, fun j => ?_⟩
  · intro B o hB
    by_cases h0 : 0 < x.nItems
    · exact (hitems 0 h0).2.2 B o hB
    · have hz : x.nItems = 0 := by omega
      unfold AllocateVolumeData_unlocked
      rw [hch]
      dsimp only
      by_cases hc : imm = ImportMemoryManagementType.CopyMemory
      · rw [if_pos hc]
        cases data with
        | none => simp [newItem, addItem, allocate, Nat.ne_of_lt hB]
        | some b =>
          dsimp only
          unfold memcpy
          split
          · simp [newItem, addItem, allocate, Nat.ne_of_lt hB]
          · simp [newItem, addItem, allocate, Nat.ne_of_lt hB]
      · rw [if_neg hc]
        cases data with
        | none => simp [newItem, addItem, allocate, Nat.ne_of_lt hB]
        | some b => simp [newItem, addItem]
  · rw [g4, getD_assignAt]
    split
    · rename_i hc
      refine Or.inr ⟨?_, ?_⟩
      · unfold elemAt at hv
        rw [if_pos hc.1, hc.2.1] at hv
        exact hv
      · show (x.AllocateVolumeData_unlocked t n data imm).1.IsComplete x.nItems = false
        unfold IsComplete
        by_cases h0 : 0 < x.nItems
        · exact (hitems 0 h0).2.1
        · unfold AllocateVolumeData_unlocked
          rw [hch]
          dsimp only
          by_cases hcm : imm = ImportMemoryManagementType.CopyMemory
          · rw [if_pos hcm]
            cases data with
            | none => simp [newItem, addItem, allocate]
            | some b =>
              dsimp only
              rw [items_memcpy]
              simp [newItem, addItem, allocate]
          · rw [if_neg hcm]
            cases data with
            | none => simp [newItem, addItem, allocate]
            | some b => simp [newItem, addItem]
    · exact Or.inl rfl

/-- The slice allocation is a step of a write to the slice. -/
theorem aside_AllocateSliceData (x : Image) (s t n : Int) (data : Option Ptr)
    (imm : ImportMemoryManagementType) (hc : Contained x) (hv : x.IsValidSlice s t n = true) :
    Aside (x.GetSliceIndex s t n).toNat x (x.AllocateSliceData_unlocked s t n data imm).1 := by
  obtain ⟨_, ht⟩ := hc.wf.slice_nat hv
  unfold AllocateSliceData_unlocked
  dsimp only
  cases hvol : elemAt x.m_Volumes (x.GetVolumeIndex t n) with
  | some v => exact aside_installSliceView x _ _ _ _ _ _
  | none =>
    dsimp only
    cases hch : elemAt x.m_Channels n with
    | some c => exact aside_installSliceView x _ _ _ _ _ _
    | none =>
      dsimp only
      have a1 := aside_AllocateVolumeData (x.GetSliceIndex s t n).toNat x t n none imm hvol hch
      have a2 := (contained_AllocateVolumeData x t n none imm hc ht).1
      exact a1.aside_trans (aside_installSliceView _ _ _ _ _ _ _) a2.idsOK.volumes

/-- A read of a slice that is set returns an item at the address `sliceRead` and changes no
byte. -/
theorem GetSliceData_read (src : Option Source) (fuel : Nat) (x : Image) (s t n : Int)
    (data : Option Ptr) (imm : ImportMemoryManagementType)
    (h : x.IsSliceSet_unlocked s t n = true) :
    ∃ x' e, GetSliceData_unlocked src (fuel + 1) x s t n data imm = some (x', some e) ∧
      x'.mem = x.mem ∧ x.sliceRead s t n = some (x'.items e).m_Data ∧
      Aside (x.GetSliceIndex s t n).toNat x x' := by
  have hv := isSliceSet_valid h
  rw [isSliceSet_eq _ _ _ _ hv] at h
  unfold GetSliceData_unlocked sliceRead
  rw [hv]
  simp only [Bool.true_eq_false, if_false]
  cases hsl : elemAt x.m_Slices (x.GetSliceIndex s t n) with
  | some q => exact ⟨x, q, rfl, rfl, rfl, Aside.aside_refl _ _⟩
  | none =>
    rw [hsl] at h
    simp only [Option.isSome_none, Bool.false_or, Bool.or_eq_true] at h
    have hd : ∀ (pos : Int) (p : Nat) (o : Nat),
        ((x.installSliceView pos p t data imm o).1.items (x.installSliceView pos p t data imm o).2).m_Data =
          Ptr.add (x.items p).m_Data o := by
      intro pos p o
      simp [installSliceView, SetComplete, newSubItem, addItem]
    by_cases hvc : x.completeEntry (elemAt x.m_Volumes (x.GetVolumeIndex t n)) = true
    · simp only [hvc, if_true]
      exact ⟨_, _, rfl, rfl, by rw [hd], aside_installSliceView _ _ _ _ _ _ _⟩
    · have hcc : x.completeEntry (elemAt x.m_Channels n) = true := by
        rcases h with h | h
        · exact absurd h hvc
        · exact h
      simp only [hvc, hcc, if_true, Bool.false_eq_true, if_false]
      exact ⟨_, _, rfl, rfl, by rw [hd], aside_installSliceView _ _ _ _ _ _ _⟩

/-- A slice that is set has a read address. -/
theorem sliceRead_isSome (x : Image) (s t n : Int) (h : x.IsSliceSet_unlocked s t n = true) :
    ∃ p, x.sliceRead s t n = some p := by
  obtain ⟨x', e, _, _, h3, _⟩ := GetSliceData_read none 0 x s t n none ImportMemoryManagementType.CopyMemory h
  exact ⟨_, h3⟩

/-- A slice with a read address is set. -/
theorem isSliceSet_of_read (x : Image) (s t n : Int) (p : Ptr) (hv : x.IsValidSlice s t n = true)
    (h : x.sliceRead s t n = some p) : x.IsSliceSet_unlocked s t n = true := by
  rw [isSliceSet_eq _ _ _ _ hv]
  unfold sliceRead at h
  cases hsl : elemAt x.m_Slices (x.GetSliceIndex s t n) with
  | some q => simp
  | none =>
    rw [hsl] at h
    dsimp only at h
    by_cases hvc : x.completeEntry (elemAt x.m_Volumes (x.GetVolumeIndex t n)) = true
    · simp [hvc]
    · by_cases hcc : x.completeEntry (elemAt x.m_Channels n) = true
      · simp [hcc]
      · rw [if_neg hvc, if_neg hcc] at h
        cases h

/-- The read address depends on the arrays, the items and the shape only. -/
theorem sliceRead_congr {y z : Image} (hs : SameShape y z) (hi : z.items = y.items)
    (h2 : z.m_Slices = y.m_Slices) (h3 : z.m_Volumes = y.m_Volumes) (h4 : z.m_Channels = y.m_Channels)
    (s t n : Int) : z.sliceRead s t n = y.sliceRead s t n := by
  unfold sliceRead completeEntry IsComplete
  rw [hs.sliceIndex, hs.volumeIndex, hs.off, hs.off, hs.ptype, hi, h2, h3, h4]

/-- The steps of a write to the slice `k` before its copy keep the read address of every other
slice that is set. -/
theorem sliceRead_aside {k : Nat} {x y : Image} (h : Aside k x y) (hid : IdsOK x) (s t n : Int)
    (h0 : 0 ≤ x.GetSliceIndex s t n) (hk : (x.GetSliceIndex s t n).toNat ≠ k)
    (hset : x.IsSliceSet_unlocked s t n = true) :
    y.sliceRead s t n = x.sliceRead s t n := by
  have hv := isSliceSet_valid hset
  rw [isSliceSet_eq _ _ _ _ hv] at hset
  have hs := h.step.kept.shape
  have hsl : elemAt y.m_Slices (x.GetSliceIndex s t n) = elemAt x.m_Slices (x.GetSliceIndex s t n) := by
    unfold elemAt
    rw [if_pos h0, if_pos h0]
    exact h.slices _ hk
  unfold sliceRead
  rw [hs.sliceIndex, hs.volumeIndex, hs.off, hs.off, hs.ptype, hsl, h.channels]
  cases hx : elemAt x.m_Slices (x.GetSliceIndex s t n) with
  | some e =>
    dsimp only
    rw [h.items e (hid.slices e (mem_of_elemAt hx))]
  | none =>
    dsimp only
    rw [hx] at hset
    simp only [Option.isSome_none, Bool.false_or, Bool.or_eq_true] at hset
    have hcc : y.completeEntry (elemAt x.m_Channels n) = x.completeEntry (elemAt x.m_Channels n) ∧
        (y.items ((elemAt x.m_Channels n).getD 0)).m_Data =
          (x.items ((elemAt x.m_Channels n).getD 0)).m_Data ∨
        x.completeEntry (elemAt x.m_Channels n) = false ∧ y.completeEntry (elemAt x.m_Channels n) = false := by
      cases hc : elemAt x.m_Channels n with
      | none => exact Or.inr ⟨rfl, rfl⟩
      | some c =>
        left
        have e1 := h.items c (hid.channels c (mem_of_elemAt hc))
        exact ⟨by show (y.items c).m_IsComplete = (x.items c).m_IsComplete; rw [e1],
          by show (y.items c).m_Data = (x.items c).m_Data; rw [e1]⟩
    have hvv : (elemAt y.m_Volumes (x.GetVolumeIndex t n) = elemAt x.m_Volumes (x.GetVolumeIndex t n)) ∨
        (x.completeEntry (elemAt x.m_Volumes (x.GetVolumeIndex t n)) = false ∧
          y.completeEntry (elemAt y.m_Volumes (x.GetVolumeIndex t n)) = false) := by
      unfold elemAt
      by_cases hp : 0 ≤ x.GetVolumeIndex t n
      · rw [if_pos hp, if_pos hp]
        rcases h.volumes (x.GetVolumeIndex t n).toNat with a | ⟨a1, a2⟩
        · exact Or.inl a
        · right
          rw [a1]
          exact ⟨rfl, a2⟩
      · rw [if_neg hp, if_neg hp]
        exact Or.inl rfl
    have hch2 : (if y.completeEntry (elemAt x.m_Channels n) = true then
          some (Ptr.add (y.items ((elemAt x.m_Channels n).getD 0)).m_Data
            (sizeT ((s.toNat * x.off 2 + t.toNat * x.off 3) * x.ptypeSize)))
        else none) =
        (if x.completeEntry (elemAt x.m_Channels n) = true then
          some (Ptr.add (x.items ((elemAt x.m_Channels n).getD 0)).m_Data
            (sizeT ((s.toNat * x.off 2 + t.toNat * x.off 3) * x.ptypeSize)))
        else none) := by
      rcases hcc with ⟨c1, c2⟩ | ⟨c1, c2⟩
      · rw [c1, c2]
      · rw [c1, c2]
        simp only [Bool.false_eq_true, if_false]
    rcases hvv with a | ⟨a1, a2⟩
    · rw [a]
      cases hvx : elemAt x.m_Volumes (x.GetVolumeIndex t n) with
      | none =>
        show (if false = true then _ else _) = (if false = true then _ else _)
        simp only [Bool.false_eq_true, if_false]
        exact hch2
      | some v =>
        have e1 := h.items v (hid.volumes v (mem_of_elemAt hvx))
        have e2 : y.completeEntry (some v) = x.completeEntry (some v) := by
          show (y.items v).m_IsComplete = (x.items v).m_IsComplete
          rw [e1]
        rw [e2]
        by_cases hcv : x.completeEntry (some v) = true
        · rw [if_pos hcv, if_pos hcv]
          show some (Ptr.add (y.items v).m_Data _) = some (Ptr.add (x.items v).m_Data _)
          rw [e1]
        · rw [if_neg hcv, if_neg hcv]
          exact hch2
    · rw [a1, a2]
      simp only [Bool.false_eq_true, if_false]
      exact hch2

/-! ## The bytes a write changes -/

theorem OldMem.oldMem_refl (x : Image) : OldMem x x := fun _ _ _ => rfl

theorem OldMem.oldMem_trans {x y z : Image} (h1 : OldMem x y) (h2 : OldMem y z) (hn : x.nBufs ≤ y.nBufs) :
    OldMem x z := fun B o hB => by rw [h2 B o (lt_of_lt_of_le hB hn), h1 B o hB]

theorem OldMem.wrote {x y : Image} (h : OldMem x y) (base : Nat → Option Int) (G len : Nat) :
    Wrote base x y G len := fun B o hB _ => h B o hB

theorem Ext.ext_same {x : Image} {base base' : Nat → Option Int} (h : Ext x base base') {B : Nat}
    (hB : B < x.nBufs) : base' B = base B := by
  cases hb : base B with
  | none => exact h.above B hB hb
  | some L => rw [← hb]; exact h.keep B (by rw [hb]; exact fun h0 => nomatch h0)

theorem Wrote.wrote_trans {x y z : Image} {base base1 : Nat → Option Int} {G len : Nat}
    (h1 : Wrote base x y G len) (h2 : Wrote base1 y z G len) (he : Ext x base base1)
    (hn : x.nBufs ≤ y.nBufs) : Wrote base x z G len := by
  intro B o hB hout
  rw [h2 B o (lt_of_lt_of_le hB hn) (fun Lb hb => hout Lb (by rw [← he.ext_same hB]; exact hb)),
    h1 B o hB hout]

theorem Wrote.wrote_mono {x z : Image} {base : Nat → Option Int} {G len G1 len1 : Nat}
    (h : Wrote base x z G1 len1) (h1 : G ≤ G1) (h2 : G1 + len1 ≤ G + len) : Wrote base x z G len := by
  intro B o hB hout
  refine h B o hB (fun Lb hb hr => hout Lb hb ?_)
  have a1 : (G : Int) ≤ (G1 : Int) := by exact_mod_cast h1
  have a2 : (G1 : Int) + (len1 : Int) ≤ (G : Int) + (len : Int) := by exact_mod_cast h2
  omega

theorem wrote_sub {x z : Image} {base : Nat → Option Int} {G len : Nat} (G1 len1 : Nat)
    (h1 : G ≤ G1) (h2 : G1 + len1 ≤ G + len) (h : Wrote base x z G1 len1) : Wrote base x z G len :=
  h.wrote_mono h1 h2

/-- A change confined to the bytes of a placed pointer is a change at its place. -/
theorem wrote_of_placed {x z : Image} {base : Nat → Option Int} {G len : Nat} (d : Ptr) (L : Int)
    (hb : base d.buf = some L) (hL : L + (d.off : Int) = (G : Int))
    (hm : ∀ B o, ¬ (B = d.buf ∧ d.off ≤ o ∧ o < d.off + len) → z.mem B o = x.mem B o) :
    Wrote base x z G len := by
  intro B o _ hout
  apply hm
  rintro ⟨e1, e2, e3⟩
  subst e1
  refine hout L hb ⟨?_, ?_⟩
  · have : (d.off : Int) ≤ (o : Int) := by exact_mod_cast e2
    omega
  · have : (o : Int) < (d.off : Int) + (len : Int) := by exact_mod_cast e3
    omega

theorem memcpy_outside (y : Image) (d s : Ptr) (len b o : Nat)
    (h : ¬ (b = d.buf ∧ d.off ≤ o ∧ o < d.off + len)) : (y.memcpy d s len).mem b o = y.mem b o := by
  unfold memcpy
  split
  · show (if b = d.buf ∧ d.off ≤ o ∧ o < d.off + len then _ else _) = _
    rw [if_neg h]
  · rfl

theorem oldMem_newItem (x : Image) (t : Int) (k : Nat) (data : Option Ptr) (m : Bool) :
    OldMem x (x.newItem t k data m).1 := by
  intro B o hB
  cases data with
  | none => simp [newItem, addItem, allocate, Nat.ne_of_lt hB]
  | some p => simp [newItem, addItem]

theorem newItem_fresh_buf (x : Image) (t : Int) (k : Nat) (m : Bool) :
    ((x.newItem t k none m).1.items (x.newItem t k none m).2).m_Data.buf = x.nBufs := by
  simp [newItem, addItem, allocate]

theorem oldMem_memcpy_fresh (x y : Image) (d s : Ptr) (len : Nat) (h : OldMem x y)
    (hd : x.nBufs ≤ d.buf) : OldMem x (y.memcpy d s len) := by
  intro B o hB
  rw [memcpy_outside _ _ _ _ _ _ (fun h0 => by omega)]
  exact h B o hB

/-- The volume allocation changes no byte of an existing buffer. -/
theorem oldMem_AllocateVolumeData (x : Image) (t n : Int) (data : Option Ptr)
    (imm : ImportMemoryManagementType) : OldMem x (x.AllocateVolumeData_unlocked t n data imm).1 := by
  unfold AllocateVolumeData_unlocked
  dsimp only
  cases hch : elemAt x.m_Channels n with
  | some c => exact fun _ _ _ => rfl
  | none =>
    dsimp only
    by_cases hc : imm = ImportMemoryManagementType.CopyMemory
    · rw [if_pos hc]
      cases data with
      | none => exact oldMem_newItem x t 3 none true
      | some b =>
        exact oldMem_memcpy_fresh x _ _ _ _ (oldMem_newItem x t 3 none true)
          (le_of_eq (newItem_fresh_buf x t 3 true).symm)
    · rw [if_neg hc]
      exact oldMem_newItem x t 3 data _

/-- The channel allocation changes no byte of an existing buffer. -/
theorem oldMem_AllocateChannelData (x : Image) (n : Int) (data : Option Ptr)
    (imm : ImportMemoryManagementType) : OldMem x (x.AllocateChannelData_unlocked n data imm).1 := by
  unfold AllocateChannelData_unlocked
  dsimp only
  by_cases hc : imm = ImportMemoryManagementType.CopyMemory
  · rw [if_pos hc]
    cases data with
    | none => exact oldMem_newItem x (-1) x.m_Dimension none true
    | some b =>
      exact oldMem_memcpy_fresh x _ _ _ _ (oldMem_newItem x (-1) x.m_Dimension none true)
        (le_of_eq (newItem_fresh_buf x (-1) x.m_Dimension true).symm)
  · rw [if_neg hc]
    exact oldMem_newItem x (-1) x.m_Dimension data _

/-- The slice allocation changes no byte of an existing buffer. -/
theorem oldMem_AllocateSliceData (x : Image) (s t n : Int) (data : Option Ptr)
    (imm : ImportMemoryManagementType) : OldMem x (x.AllocateSliceData_unlocked s t n data imm).1 := by
  unfold AllocateSliceData_unlocked
  dsimp only
  cases hvol : elemAt x.m_Volumes (x.GetVolumeIndex t n) with
  | some v => exact fun _ _ _ => rfl
  | none =>
    dsimp only
    cases hch : elemAt x.m_Channels n with
    | some c => exact fun _ _ _ => rfl
    | none => exact oldMem_AllocateVolumeData x t n none imm

/-- Without a source `GetSliceData_unlocked` changes no byte of an existing buffer. -/
theorem oldMem_GetSliceData (fuel : Nat) (x : Image) (s t n : Int) (data : Option Ptr)
    (imm : ImportMemoryManagementType) (res : Image × Option Nat)
    (h : GetSliceData_unlocked none fuel x s t n data imm = some res) : OldMem x res.1 := by
  cases fuel with
  | zero => simp [GetSliceData_unlocked] at h
  | succ fuel =>
    unfold GetSliceData_unlocked at h
    split at h
    · cases h; exact OldMem.oldMem_refl _
    · dsimp only at h
      split at h
      · cases h; exact OldMem.oldMem_refl _
      · split at h
        · cases h; exact fun _ _ _ => rfl
        · split at h
          · cases h; exact fun _ _ _ => rfl
          · simp only [canUpdate] at h
            cases h
            exact oldMem_AllocateSliceData x s t n data imm

/-- A slice of a volume ends inside the volume, in the form the slice-combining loop uses. -/
theorem WF.loop_slice_end {x : Image} (hw : WF x) {s : Nat} (hs : s < x.dim 2) :
    sizeT (s * sizeT (x.off 2 * x.ptypeSize)) + sizeT (x.off 2 * x.ptypeSize) ≤
      x.off 3 * x.ptypeSize := by
  have h1 := hw.slice_in_volume hs
  have h2 := hw.slice_bytes_lt hs
  rw [hw.len2, ← Nat.mul_assoc, sizeT_of_lt (by rw [Nat.mul_assoc]; omega)]
  exact h1

/-- One step of the slice-combining loop changes bytes of the volume only. -/
theorem wrote_combineSlice {base : Nat → Option Int} (t n : Int) (vol size : Nat) (data : Option Ptr)
    (imm : ImportMemoryManagementType) (x : Image) (s : Nat) (hw : WF x)
    (hp : Placed base x ((x.GetVolumeIndex t n).toNat * (x.off 3 * x.ptypeSize)) vol)
    (hs : s < x.dim 2) (hsz : size = sizeT (x.off 2 * x.ptypeSize)) :
    Wrote base x (combineSlice t n vol size data imm x s)
      ((x.GetVolumeIndex t n).toNat * (x.off 3 * x.ptypeSize)) (x.off 3 * x.ptypeSize) := by
  unfold combineSlice
  dsimp only
  cases hsl : elemAt x.m_Slices (x.GetSliceIndex (toInt s) t n) with
  | none => exact OldMem.wrote (fun _ _ _ => rfl) _ _ _
  | some sl =>
    dsimp only
    split
    · obtain ⟨_, L, hb, hL⟩ := hp
      have he := hw.loop_slice_end hs
      rw [← hsz] at he
      refine wrote_sub ((x.GetVolumeIndex t n).toNat * (x.off 3 * x.ptypeSize) + sizeT (s * size))
        size (Nat.le_add_right _ _) (by omega) ?_
      refine wrote_of_placed (Ptr.add (x.items vol).m_Data (sizeT (s * size))) L hb ?_ ?_
      · show L + (((x.items vol).m_Data.off + sizeT (s * size) : Nat) : Int) = _
        push_cast
        push_cast at hL
        omega
      · intro B o ho
        exact memcpy_outside x _ _ _ _ _ ho
    · exact OldMem.wrote (fun _ _ _ => rfl) _ _ _

/-- The slice-combining loop changes bytes of the volume only. -/
theorem wrote_combineSlices {base : Nat → Option Int} (t n : Int) (vol size : Nat) (data : Option Ptr)
    (imm : ImportMemoryManagementType) :
    ∀ (l : List Nat) (x : Image), WF x →
      Placed base x ((x.GetVolumeIndex t n).toNat * (x.off 3 * x.ptypeSize)) vol →
      (∀ s, s ∈ l → s < x.dim 2) → size = sizeT (x.off 2 * x.ptypeSize) →
      Wrote base x (l.foldl (combineSlice t n vol size data imm) x)
        ((x.GetVolumeIndex t n).toNat * (x.off 3 * x.ptypeSize)) (x.off 3 * x.ptypeSize) := by
  intro l
  induction l with
  | nil => exact fun x _ _ _ _ => OldMem.wrote (OldMem.oldMem_refl _) _ _ _
  | cons s rest ih =>
    intro x hw hp hl hsz
    have a1 := wrote_combineSlice t n vol size data imm x s hw hp (hl s (List.mem_cons_self _ _)) hsz
    have a2 := Later.later_of_up (up_combineSlice t n vol size data imm x s).1
    have hsh := a2.kept.shape
    have b1 := ih _ (a2.kept.kept_wf hw)
      (by rw [hsh.volumeIndex, hsh.off, hsh.ptype]; exact hp.placed_later a2 (fun _ _ => rfl))
      (fun s' hs' => by rw [hsh.dim]; exact hl s' (List.mem_cons_of_mem _ hs'))
      (by rw [hsh.off, hsh.ptype]; exact hsz)
    rw [hsh.volumeIndex, hsh.off, hsh.ptype] at b1
    exact a1.wrote_trans b1 (Ext.ext_refl _ _) a2.nBufs

/-- Without a source `GetVolumeData_unlocked` changes bytes of the volume only. -/
theorem wrote_GetVolumeData (fuel : Nat) (x : Image) (t n : Int) (data : Option Ptr)
    (imm : ImportMemoryManagementType) (res : Image × Option Nat) (base : Nat → Option Int)
    (hla : Laid base x) (hc : Contained x)
    (h : GetVolumeData_unlocked none fuel x t n data imm = some res) :
    Wrote base x res.1 ((x.GetVolumeIndex t n).toNat * (x.off 3 * x.ptypeSize))
      (x.off 3 * x.ptypeSize) := by
  cases fuel with
  | zero => simp [GetVolumeData_unlocked] at h
  | succ fuel =>
    unfold GetVolumeData_unlocked at h
    by_cases hv : x.IsValidVolume t n = true
    · have hv' : ¬ (x.IsValidVolume t n = false) := by simp [hv]
      rw [if_neg hv'] at h
      have hw := hc.wf
      dsimp only at h
      by_cases hvol : x.completeEntry (elemAt x.m_Volumes (x.GetVolumeIndex t n)) = true
      · rw [if_pos hvol] at h
        cases h
        exact OldMem.wrote (OldMem.oldMem_refl _) _ _ _
      · rw [if_neg hvol] at h
        by_cases hch : x.completeEntry (elemAt x.m_Channels n) = true
        · rw [if_pos hch] at h
          cases h
          exact OldMem.wrote (fun _ _ _ => rfl) _ _ _
        · rw [if_neg hch] at h
          by_cases hall : x.allSlicesSet t n = true
          · rw [if_pos hall] at h
            by_cases hd : x.dim 2 ≤ 1
            · rw [if_pos hd] at h
              cases hg : GetSliceData_unlocked none (fuel + 1) x 0 t n data imm with
              | none =>
                rw [hg] at h
                cases h
              | some r1 =>
                have g1 := oldMem_GetSliceData (fuel + 1) x 0 t n data imm r1 hg
                obtain ⟨img1, o⟩ := r1
                rw [hg] at h
                cases o with
                | none =>
                  cases h
                  exact OldMem.wrote g1 _ _ _
                | some sl =>
                  cases h
                  exact OldMem.wrote g1 _ _ _
            · rw [if_neg hd] at h
              have tail : ∀ (r : Image × Nat) (y : Image) (base1 : Nat → Option Int),
                  y = List.foldl (combineSlice t n r.2 (sizeT (x.off 2 * x.ptypeSize)) data imm)
                    (r.1.SetComplete r.2 true) (List.range (x.dim 2)) →
                  Later x r.1 →
                  Placed base1 r.1 ((x.GetVolumeIndex t n).toNat * (x.off 3 * x.ptypeSize)) r.2 →
                  Wrote base1 r.1
                    { y with m_Volumes := assignAt y.m_Volumes (x.GetVolumeIndex t n) (some r.2) }
                    ((x.GetVolumeIndex t n).toNat * (x.off 3 * x.ptypeSize)) (x.off 3 * x.ptypeSize) := by
                intro r y base1 hy r2 r3
                subst hy
                have c2 : Later r.1 (r.1.SetComplete r.2 true) := Later.later_of_up (up_SetComplete _ _)
                have hl2 := r2.later_trans c2
                have hsh := hl2.kept.shape
                have d1 := wrote_combineSlices t n r.2 (sizeT (x.off 2 * x.ptypeSize)) data imm
                  (List.range (x.dim 2)) _ (hl2.kept.kept_wf hw)
                  (by rw [hsh.volumeIndex, hsh.off, hsh.ptype]; exact r3.placed_later c2 (fun _ _ => rfl))
                  (fun s hs => by
                    rw [hsh.dim]
                    exact List.mem_range.1 hs)
                  (by rw [hsh.off, hsh.ptype])
                rw [hsh.volumeIndex, hsh.off, hsh.ptype] at d1
                exact d1
              cases he : elemAt x.m_Volumes (x.GetVolumeIndex t n) with
              | some v =>
                rw [he] at h
                cases h
                exact tail (x, v) _ base rfl (Later.later_refl _) (hla.volume_at he)
              | none =>
                rw [he] at h
                cases h
                obtain ⟨base1, a1, a2, a3, a4, a5⟩ := laid_newItem x t 3 none true
                  ((x.GetVolumeIndex t n).toNat * (x.off 3 * x.ptypeSize)) hla (fun p hp => nomatch hp)
                rw [← newItem_snd x t 3 none true] at a5
                have e1 := tail (x.newItem t 3 none true) _ base1 rfl a4 a5
                exact (OldMem.wrote (oldMem_newItem x t 3 none true) base _ _).wrote_trans e1
                  (a2 rfl) a4.nBufs
          · rw [if_neg hall] at h
            simp only [canUpdate] at h
            cases h
            exact OldMem.wrote (oldMem_AllocateVolumeData x t n data imm) _ _ _
    · have hv' : x.IsValidVolume t n = false := by simpa using hv
      rw [if_pos hv'] at h
      cases h
      exact OldMem.wrote (OldMem.oldMem_refl _) _ _ _

theorem clearSlices_mem (img : Image) (it k : Nat) : (clearSlices img it k).1.mem = img.mem := by
  induction k with
  | zero => rfl
  | succ k ih => exact ih

/-- A volume of a channel ends inside the channel. -/
theorem Contained.volume_end {x : Image} (hc : Contained x) {t : Nat} (ht : t < x.dim 3) :
    sizeT (t * x.off 3 * x.ptypeSize) + x.off 3 * x.ptypeSize ≤ x.off 4 * x.ptypeSize := by
  have h := fit_volume_in_channel hc.wf ht
  rw [hc.wf.size3, hc.chan] at h
  exact h

/-- Without a source one step of the volume-combining loop changes bytes of the channel
only. -/
theorem wrote_combineVolume (fuel : Nat) (n : Int) (ch size : Nat) (data : Option Ptr)
    (imm : ImportMemoryManagementType) (x : Image) (it t : Nat) (res : Image × Nat)
    (base : Nat → Option Int) (hna : NoAdopt data imm) (hla : Laid base x) (hc : Contained x)
    (hv : x.IsValidChannel n = true)
    (hch : Placed base x (n.toNat * (x.off 4 * x.ptypeSize)) ch) (ht : t < x.dim 3)
    (hsz : size ≤ x.off 3 * x.ptypeSize)
    (h : combineVolume none fuel n ch size data imm (some (x, it)) t = some res) :
    Wrote base x res.1 (n.toNat * (x.off 4 * x.ptypeSize)) (x.off 4 * x.ptypeSize) := by
  unfold combineVolume at h
  dsimp only at h
  obtain ⟨hv2, e1⟩ := hc.wf.loop_volume_start hv ht
  have hend := hc.volume_end ht
  cases hg : GetVolumeData_unlocked none fuel x (toInt t) n data imm with
  | none =>
    rw [hg] at h
    cases h
  | some r1 =>
    obtain ⟨base1, g1, g2, g3, _⟩ := laid_GetVolumeData none (fun p hp => nomatch hp)
      (fun p hp => nomatch hp) fuel x (toInt t) n data imm r1 base hna hla hc hg
    have w0 := wrote_GetVolumeData fuel x (toInt t) n data imm r1 base hla hc hg
    have w1 : Wrote base x r1.1 (n.toNat * (x.off 4 * x.ptypeSize)) (x.off 4 * x.ptypeSize) :=
      w0.wrote_mono (by omega) (by omega)
    obtain ⟨img1, o⟩ := r1
    rw [hg] at h
    cases o with
    | none =>
      cases h
      exact w1
    | some vol =>
      dsimp only at h
      split at h
      · cases h
        obtain ⟨_, L, hb, hL⟩ := hch.placed_later g3 g1.keep
        have hsh := g3.kept.shape
        have w2 : Wrote base1 img1 (img1.memcpy (Ptr.add (img1.items ch).m_Data
            (sizeT (t * img1.off 3 * img1.ptypeSize))) (img1.items vol).m_Data size)
            (n.toNat * (x.off 4 * x.ptypeSize)) (x.off 4 * x.ptypeSize) := by
          refine wrote_sub (n.toNat * (x.off 4 * x.ptypeSize) + sizeT (t * x.off 3 * x.ptypeSize))
            size (Nat.le_add_right _ _) (by omega) ?_
          refine wrote_of_placed (Ptr.add (img1.items ch).m_Data
            (sizeT (t * img1.off 3 * img1.ptypeSize))) L hb ?_ ?_
          · show L + (((img1.items ch).m_Data.off + sizeT (t * img1.off 3 * img1.ptypeSize) : Nat) : Int) = _
            rw [hsh.off, hsh.ptype]
            push_cast
            push_cast at hL
            omega
          · intro B o ho
            exact memcpy_outside img1 _ _ _ _ _ ho
        have w3 := w1.wrote_trans w2 g1 g3.nBufs
        intro B o hB hout
        rw [clearSlices_mem]
        exact w3 B o hB hout
      · cases h
        exact w1

/-- Without a source the volume-combining loop changes bytes of the channel only. -/
theorem wrote_combineVolumes (fuel : Nat) (n : Int) (ch size : Nat) (data : Option Ptr)
    (imm : ImportMemoryManagementType) (hna : NoAdopt data imm) :
    ∀ (l : List Nat) (x : Image) (it : Nat) (res : Image × Nat) (base : Nat → Option Int),
      Laid base x → Contained x → Entry x x.m_Dimension ch → x.IsValidChannel n = true →
      Placed base x (n.toNat * (x.off 4 * x.ptypeSize)) ch → (∀ t, t ∈ l → t < x.dim 3) →
      size ≤ x.off 3 * x.ptypeSize →
      l.foldl (combineVolume none fuel n ch size data imm) (some (x, it)) = some res →
      Wrote base x res.1 (n.toNat * (x.off 4 * x.ptypeSize)) (x.off 4 * x.ptypeSize) := by
  intro l
  induction l with
  | nil =>
    intro x it res base _ _ _ _ _ _ _ h
    cases h
    exact OldMem.wrote (OldMem.oldMem_refl _) _ _ _
  | cons t rest ih =>
    intro x it res base hla hc he hv hch hl hsz h
    rw [List.foldl_cons] at h
    cases hs : combineVolume none fuel n ch size data imm (some (x, it)) t with
    | none =>
      rw [hs, combineVolume_none] at h
      cases h
    | some r1 =>
      obtain ⟨base1, a1, a2, a3⟩ := laid_combineVolume none (fun p hp => nomatch hp)
        (fun p hp => nomatch hp) fuel n ch size data imm x it t r1 base
        hna hla hc hv hch (hl t (List.mem_cons_self _ _)) hs
      obtain ⟨k1, k2⟩ := contained_combineVolume none (fun p hp => nomatch hp) fuel n ch size data imm
        x it t r1 hc he (hl t (List.mem_cons_self _ _)) hs
      have w1 := wrote_combineVolume fuel n ch size data imm x it t r1 base hna hla hc hv hch
        (hl t (List.mem_cons_self _ _)) hsz hs
      rw [hs] at h
      have hsh := a3.kept.shape
      have w2 := ih r1.1 r1.2 res base1 a2 k1
        (by rw [hsh.rank]; exact he.carried k2) (by rw [hsh.validChannel]; exact hv)
        (by rw [hsh.off, hsh.ptype]; exact hch.placed_later a3 a1.keep)
        (fun t' ht' => by rw [hsh.dim]; exact hl t' (List.mem_cons_of_mem _ ht'))
        (by rw [hsh.off, hsh.ptype]; exact hsz) h
      rw [hsh.off, hsh.ptype] at w2
      exact w1.wrote_trans w2 a1 a3.nBufs

/-- Without a source `GetChannelData_unlocked` changes bytes of the channel only, for an image
of rank at most four. -/
theorem wrote_GetChannelData (fuel : Nat) (x : Image) (n : Int) (data : Option Ptr)
    (imm : ImportMemoryManagementType) (res : Image × Option Nat) (base : Nat → Option Int)
    (hna : NoAdopt data imm) (hla : Laid base x) (hc : Contained x) (hr : x.m_Dimension ≤ 4)
    (h : GetChannelData_unlocked none fuel x n data imm = some res) :
    Wrote base x res.1 (n.toNat * (x.off 4 * x.ptypeSize)) (x.off 4 * x.ptypeSize) := by
  cases fuel with
  | zero => simp [GetChannelData_unlocked] at h
  | succ fuel =>
    unfold GetChannelData_unlocked at h
    by_cases hv : x.IsValidChannel n = true
    · have hv' : ¬ (x.IsValidChannel n = false) := by simp [hv]
      rw [if_neg hv'] at h
      have hw := hc.wf
      dsimp only at h
      by_cases hch : x.completeEntry (elemAt x.m_Channels n) = true
      · rw [if_pos hch] at h
        cases h
        exact OldMem.wrote (OldMem.oldMem_refl _) _ _ _
      · rw [if_neg hch] at h
        by_cases hset : x.IsChannelSet_unlocked n = true
        · rw [if_pos hset] at h
          by_cases hd : x.dim 3 ≤ 1
          · rw [if_pos hd] at h
            cases hg : GetVolumeData_unlocked none (fuel + 1) x 0 n data imm with
            | none =>
              rw [hg] at h
              cases h
            | some r1 =>
              have w0 := wrote_GetVolumeData (fuel + 1) x 0 n data imm r1 base hla hc hg
              have e0 := hw.volume_starts (validVolume_zero_of_validChannel hv)
              have hz : sizeT ((0 : Int).toNat * x.off 3 * x.ptypeSize) = 0 := by simp [sizeT]
              rw [hz, Nat.add_zero] at e0
              rw [e0] at w0
              have w1 : Wrote base x r1.1 (n.toNat * (x.off 4 * x.ptypeSize)) (x.off 4 * x.ptypeSize) :=
                w0.wrote_mono (le_refl _) (by have := hw.volume_le_channel; omega)
              obtain ⟨img1, o⟩ := r1
              rw [hg] at h
              cases o with
              | none =>
                cases h
                exact w1
              | some vol =>
                cases h
                exact w1
          · rw [if_neg hd] at h
            have hrank : x.m_Dimension - 1 = 3 := by
              have := hw.rank4 (by omega)
              omega
            rw [hrank] at h
            have tail : ∀ (r : Image × Nat) (y : Image × Nat) (base1 : Nat → Option Int),
                List.foldl (combineVolume none (fuel + 1) n r.2
                    (sizeT (x.off 3 * x.ptypeSize)) data imm)
                  (some (r.1.SetComplete r.2 true, u32 (n.toNat * x.dim 2 * x.dim 3)))
                  (List.range (x.dim 3)) = some y →
                Laid base1 r.1 → Later x r.1 → Contained r.1 → Entry r.1 x.m_Dimension r.2 →
                Placed base1 r.1 (n.toNat * (x.off 4 * x.ptypeSize)) r.2 →
                Wrote base1 r.1 { y.1 with m_Channels := assignAt y.1.m_Channels n (some r.2) }
                  (n.toNat * (x.off 4 * x.ptypeSize)) (x.off 4 * x.ptypeSize) := by
              intro r y base1 hy r1 r2 r3 r4 r5
              obtain ⟨c1, c2⟩ := laid_SetComplete r.1 r.2 r1
              obtain ⟨k1, k2⟩ := contained_SetComplete r.1 r.2 r3
              have hl2 := r2.later_trans c2
              have hsh := hl2.kept.shape
              have d1 := wrote_combineVolumes (fuel + 1) n r.2 _ data imm hna
                (List.range (x.dim 3)) _ _ y base1 c1 k1
                (by rw [hsh.rank]; exact r4.carried k2) (by rw [hsh.validChannel]; exact hv)
                (by rw [hsh.off, hsh.ptype]; exact r5.placed_later c2 (fun _ _ => rfl))
                (fun s hs => by
                  rw [hsh.dim]
                  exact List.mem_range.1 hs)
                (by rw [hsh.off, hsh.ptype, hw.len3]) hy
              rw [hsh.off, hsh.ptype] at d1
              exact d1
            cases he : elemAt x.m_Channels n with
            | some c =>
              rw [he] at h
              dsimp only at h
              split at h
              · cases h
              · rename_i y it hy
                cases h
                exact tail (x, c) (y, it) base hy hla (Later.later_refl _) hc
                  (hc.ch c (mem_of_elemAt he)) (hla.channel_at he)
            | none =>
              rw [he] at h
              dsimp only at h
              split at h
              · cases h
              · rename_i y it hy
                cases h
                obtain ⟨base1, a1, a2, a3, a4, a5⟩ := laid_newItem x (-1) x.m_Dimension none true
                  (n.toNat * (x.off 4 * x.ptypeSize)) hla (fun p hp => nomatch hp)
                obtain ⟨k1, k2, k3, k4⟩ := contained_newItem x (-1) x.m_Dimension none true hc
                rw [← newItem_snd x (-1) x.m_Dimension none true] at a5 k3
                have e1 := tail (x.newChannelItem (-1) none true) (y, it) base1 hy a3 a4 k1 k3 a5
                exact (OldMem.wrote (oldMem_newItem x (-1) x.m_Dimension none true) base _ _).wrote_trans
                  e1 (a2 rfl) a4.nBufs
        · rw [if_neg hset] at h
          simp only [canUpdate] at h
          cases h
          exact OldMem.wrote (oldMem_AllocateChannelData x n data imm) _ _ _
    · have hv' : x.IsValidChannel n = false := by simpa using hv
      rw [if_pos hv'] at h
      cases h
      exact OldMem.wrote (OldMem.oldMem_refl _) _ _ _

/-! ## The accessors on data that is set, and the source

On a unit that is set the accessors do not consult the source. -/

/-- `GetSliceData_unlocked` on a slice that is set does not depend on the source. -/
theorem GetSliceData_nosrc (src : Option Source) (fuel : Nat) (x : Image) (s t n : Int)
    (data : Option Ptr) (imm : ImportMemoryManagementType)
    (h : x.IsSliceSet_unlocked s t n = true) :
    GetSliceData_unlocked src fuel x s t n data imm =
      GetSliceData_unlocked none fuel x s t n data imm := by
  cases fuel with
  | zero => rfl
  | succ fuel =>
    have hv := isSliceSet_valid h
    rw [isSliceSet_eq x s t n hv] at h
    unfold GetSliceData_unlocked
    have hv' : ¬ (x.IsValidSlice s t n = false) := by simp [hv]
    rw [if_neg hv', if_neg hv']
    dsimp only
    cases hsl : elemAt x.m_Slices (x.GetSliceIndex s t n) with
    | some sl => rfl
    | none =>
      dsimp only
      rw [hsl] at h
      by_cases hvol : x.completeEntry (elemAt x.m_Volumes (x.GetVolumeIndex t n)) = true
      · rw [if_pos hvol, if_pos hvol]
      · rw [if_neg hvol, if_neg hvol]
        by_cases hch : x.completeEntry (elemAt x.m_Channels n) = true
        · rw [if_pos hch, if_pos hch]
        · simp [hvol, hch] at h

/-- `GetVolumeData_unlocked` on a volume that is set does not depend on the source. -/
theorem GetVolumeData_nosrc (src : Option Source) (fuel : Nat) (x : Image) (t n : Int)
    (data : Option Ptr) (imm : ImportMemoryManagementType)
    (h : x.IsVolumeSet_unlocked t n = true) :
    GetVolumeData_unlocked src fuel x t n data imm =
      GetVolumeData_unlocked none fuel x t n data imm := by
  cases fuel with
  | zero => rfl
  | succ fuel =>
    have hv := isVolumeSet_valid h
    rw [isVolumeSet_eq x t n hv] at h
    unfold GetVolumeData_unlocked
    have hv' : ¬ (x.IsValidVolume t n = false) := by simp [hv]
    rw [if_neg hv', if_neg hv']
    dsimp only
    by_cases hvol : x.completeEntry (elemAt x.m_Volumes (x.GetVolumeIndex t n)) = true
    · rw [if_pos hvol, if_pos hvol]
    · rw [if_neg hvol, if_neg hvol]
      by_cases hch : x.completeEntry (elemAt x.m_Channels n) = true
      · rw [if_pos hch, if_pos hch]
      · rw [if_neg hch, if_neg hch]
        have hall : x.allSlicesSet t n = true := by simpa [hvol, hch] using h
        rw [if_pos hall, if_pos hall]
        by_cases hd : x.dim 2 ≤ 1
        · rw [if_pos hd, if_pos hd]
          have h0 : x.IsSliceSet_unlocked 0 t n = true := by
            rw [isSliceSet_eq x 0 t n (validSlice_zero_of_validVolume hv)]
            have hpos := dim2_pos_of_validVolume hv
            unfold allSlicesSet at hall
            rw [List.all_eq_true] at hall
            have := hall 0 (List.mem_range.2 hpos)
            have e : toInt 0 = 0 := by decide
            rw [e] at this
            simp [this]
          rw [GetSliceData_nosrc src (fuel + 1) x 0 t n data imm h0]
        · rw [if_neg hd, if_neg hd]

/-- One step of the volume-combining loop on a volume that is set does not depend on the
source. -/
theorem combineVolume_nosrc (src : Option Source) (fuel : Nat) (n : Int) (ch size : Nat)
    (data : Option Ptr) (imm : ImportMemoryManagementType) (st : Image) (it t : Nat)
    (h : st.IsVolumeSet_unlocked (toInt t) n = true) :
    combineVolume src fuel n ch size data imm (some (st, it)) t =
      combineVolume none fuel n ch size data imm (some (st, it)) t := by
  unfold combineVolume
  dsimp only
  rw [GetVolumeData_nosrc src fuel st (toInt t) n data imm h]

/-- The volume-combining loop over volumes that are set does not depend on the source. -/
theorem combineVolumes_nosrc (src : Option Source) (fuel : Nat) (img : Image) (n ch size : Nat)
    (data : Option Ptr) (imm : ImportMemoryManagementType) (hw : WF img) (hi : IdsOK img)
    (hn : n < img.GetNumberOfChannels)
    (hset : ∀ t, t < img.dim 3 → img.IsVolumeSet_unlocked (t : Int) n = true) :
    ∀ k, k ≤ img.dim 3 → ∀ (st0 : Image) (it0 : Nat), CombineInv img n 0 st0 it0 →
      (List.range k).foldl (combineVolume src (fuel + 1) n ch size data imm) (some (st0, it0)) =
      (List.range k).foldl (combineVolume none (fuel + 1) n ch size data imm) (some (st0, it0)) := by
  intro k
  induction k with
  | zero => exact fun _ _ _ _ => rfl
  | succ k ih =>
    intro hk st0 it0 hinv
    rw [List.range_succ, List.foldl_append, List.foldl_append, ih (by omega) st0 it0 hinv]
    obtain ⟨st', it', hloop, hinv'⟩ := combineVolume_loop none fuel img n ch size data
      imm hw hi hn hset k (by omega) st0 it0 hinv
    rw [hloop]
    simp only [List.foldl_cons, List.foldl_nil]
    apply combineVolume_nosrc
    rw [hw.toInt_time (show k < img.dim 3 by omega) hn]
    exact hinv'.adv.isVolumeSet hw hi _ _ (hset k (by omega))

/-- `GetChannelData_unlocked` on a channel that is set does not depend on the source. -/
theorem GetChannelData_nosrc (src : Option Source) (fuel : Nat) (img : Image) (n : Int)
    (data : Option Ptr) (imm : ImportMemoryManagementType) (hw : WF img) (hi : IdsOK img)
    (h : img.IsChannelSet_unlocked n = true) :
    GetChannelData_unlocked src fuel img n data imm =
      GetChannelData_unlocked none fuel img n data imm := by
  cases fuel with
  | zero => rfl
  | succ fuel =>
    have hv := isChannelSet_valid h
    have hv' := hv
    rw [hw.validChannel_iff] at hv'
    obtain ⟨hn0, hn1⟩ := hv'
    obtain ⟨n, rfl⟩ := Int.eq_ofNat_of_zero_le hn0
    have hn : n < img.GetNumberOfChannels := by exact_mod_cast hn1
    have hset' := h
    rw [hw.isChannelSet_nat hn] at h
    unfold GetChannelData_unlocked
    have hvf : ¬ (img.IsValidChannel (n : Int) = false) := by simp [hv]
    rw [if_neg hvf, if_neg hvf]
    dsimp only
    by_cases hcc : img.completeEntry (elemAt img.m_Channels (n : Int)) = true
    · rw [if_pos hcc, if_pos hcc]
    · rw [if_neg hcc, if_neg hcc, if_pos hset', if_pos hset']
      have hall : ∀ t, t < img.dim 3 → img.IsVolumeSet_unlocked (t : Int) n = true := by
        rw [elemAt_nat] at hcc
        simp only [hcc, Bool.false_or, List.all_eq_true, List.mem_range] at h
        exact h
      by_cases hd : img.dim 3 ≤ 1
      · rw [if_pos hd, if_pos hd]
        have h0 := hall 0 (by have := hw.d3_pos; omega)
        rw [GetVolumeData_nosrc src (fuel + 1) img 0 n data imm (by simpa using h0)]
      · rw [if_neg hd, if_neg hd]
        have key : ∀ r : Image × Nat, Up img r.1 →
            List.foldl (combineVolume src (fuel + 1) (n : Int) r.2
                (sizeT (img.off (img.m_Dimension - 1) * img.ptypeSize)) data imm)
              (some (r.1.SetComplete r.2 true, u32 ((n : Int).toNat * img.dim 2 * img.dim 3)))
              (List.range (img.dim 3)) =
            List.foldl (combineVolume none (fuel + 1) (n : Int) r.2
                (sizeT (img.off (img.m_Dimension - 1) * img.ptypeSize)) data imm)
              (some (r.1.SetComplete r.2 true, u32 ((n : Int).toNat * img.dim 2 * img.dim 3)))
              (List.range (img.dim 3)) := by
          intro r hup
          have hup1 : Up img (r.1.SetComplete r.2 true) := hup.up_trans (up_SetComplete _ _)
          have hadv1 := Adv.of_up hup1
          have hw1 := hadv1.wf hw
          have hi1 := hup1.ids hi
          have hd2 : (r.1.SetComplete r.2 true).dim 2 = img.dim 2 := hup1.shape.dim 2
          have hd3 : (r.1.SetComplete r.2 true).dim 3 = img.dim 3 := hup1.shape.dim 3
          have hch1 : (r.1.SetComplete r.2 true).GetNumberOfChannels = img.GetNumberOfChannels :=
            hup1.shape.channels
          have hit : u32 (n * img.dim 2 * img.dim 3) =
              n * (r.1.SetComplete r.2 true).dim 2 * (r.1.SetComplete r.2 true).dim 3 +
                (r.1.SetComplete r.2 true).dim 2 * 0 := by
            rw [hd2, hd3, Nat.mul_zero, Nat.add_zero]
            apply u32_of_lt
            have h1 := hw.slices_lt
            have h2 : n * (img.dim 2 * img.dim 3) ≤ img.GetNumberOfChannels * (img.dim 2 * img.dim 3) :=
              Nat.mul_le_mul_right _ (by omega)
            have h3 : img.GetNumberOfChannels * (img.dim 2 * img.dim 3) =
                img.GetNumberOfChannels * img.dim 3 * img.dim 2 := by ring
            have h4 : n * (img.dim 2 * img.dim 3) = n * img.dim 2 * img.dim 3 := by ring
            omega
          have hm := combineVolumes_nosrc src fuel (r.1.SetComplete r.2 true) n r.2
            (sizeT (img.off (img.m_Dimension - 1) * img.ptypeSize)) data imm hw1 hi1 (by omega)
            (fun t ht => hadv1.isVolumeSet hw hi _ _ (hall t (by omega)))
            ((r.1.SetComplete r.2 true).dim 3) (le_refl _) (r.1.SetComplete r.2 true)
            (u32 (n * img.dim 2 * img.dim 3))
            ⟨Adv.adv_refl _, fun t ht => absurd ht (by omega), ⟨0, le_refl _, hit⟩⟩
          rw [hd3] at hm
          simp only [Int.toNat_ofNat]
          exact hm
        cases hce : elemAt img.m_Channels (n : Int) with
        | some c =>
          dsimp only
          rw [key (img, c) (UpX.up_refl _ _ _)]
        | none =>
          dsimp only
          rw [key (img.newChannelItem (-1) none true) (up_newItem _ _ _ _ _)]

/-! ## The bytes the three writes change -/

/-- The guarded copy into a placed item changes bytes at its place only. -/
theorem wrote_copyInto {base : Nat → Option Int} (y : Image) (q : Nat) (G len : Nat)
    (data : Option Ptr) (hp : Placed base y G q) :
    Wrote base y (y.copyInto (y.items q).m_Data data len) G len := by
  obtain ⟨_, L, hb, hL⟩ := hp
  exact wrote_of_placed (y.items q).m_Data L hb hL (fun B o ho => copyInto_outside y _ data len B o ho)

/-- The common tail of the set branches changes bytes at the place of the unit only, when the
allocation keeps the existing bytes and returns an item at that place. -/
theorem wrote_overwrite {base : Nat → Option Int} (alloc : Image → Image × Nat) (G len : Nat)
    (data : Option Ptr) (x : Image) (p : Option Nat)
    (hp : ∀ q, p = some q → Placed base x G q)
    (ha : ∃ base', Ext x base base' ∧ OldMem x (alloc x).1 ∧ x.nBufs ≤ (alloc x).1.nBufs ∧
      Placed base' (alloc x).1 G (alloc x).2) :
    Wrote base x (overwrite alloc len data x p).1 G len := by
  unfold overwrite
  cases p with
  | none => exact OldMem.wrote (fun _ _ _ => rfl) _ _ _
  | some q =>
    dsimp only
    split
    · obtain ⟨base', a1, a2, a3, a4⟩ := ha
      exact (OldMem.wrote a2 base G len).wrote_trans (wrote_copyInto _ _ G len data a4) a1 a3
    · exact wrote_copyInto x q G len data (hp q rfl)

/-- The read address of a slice after the guarded copy. -/
theorem sliceRead_copyInto (y : Image) (d : Ptr) (data : Option Ptr) (len : Nat) (s t n : Int) :
    (y.copyInto d data len).sliceRead s t n = y.sliceRead s t n :=
  sliceRead_congr (sameShape_copyInto y d data len) (items_copyInto y d data len)
    (sameTiers_copyInto y d data len).slices (sameTiers_copyInto y d data len).volumes
    (sameTiers_copyInto y d data len).channels s t n

/-- The slice write changes bytes at the place of the slice only, and keeps the read address of
every other slice that is set. -/
theorem wrote_SetImportSlice (src : Option Source) (fuel : Nat) (x : Image) (data : Option Ptr)
    (s t n : Int) (imm : ImportMemoryManagementType) (res : Image × Bool) (base : Nat → Option Int)
    (hla : Laid base x) (hc : Contained x) (hv : x.IsValidSlice s t n = true)
    (h : SetImportSlice src fuel x data s t n imm = some res) :
    Wrote base x res.1 ((x.GetSliceIndex s t n).toNat * (x.off 2 * x.ptypeSize))
      (x.off 2 * x.ptypeSize) ∧
    ∀ s1 t1 n1, 0 ≤ x.GetSliceIndex s1 t1 n1 →
      (x.GetSliceIndex s1 t1 n1).toNat ≠ (x.GetSliceIndex s t n).toNat →
      x.IsSliceSet_unlocked s1 t1 n1 = true → res.1.sliceRead s1 t1 n1 = x.sliceRead s1 t1 n1 := by
  have hw := hc.wf
  unfold SetImportSlice at h
  have hv' : ¬ (x.IsValidSlice s t n = false) := by simp [hv]
  rw [if_neg hv'] at h
  dsimp only at h
  rw [hw.len2] at h
  by_cases hset : x.IsSliceSet s t n = true
  · rw [if_pos hset] at h
    cases fuel with
    | zero => simp [GetSliceData, GetSliceData_unlocked, holdLock_of_none] at h
    | succ f =>
      obtain ⟨x1, e, heq, _, _, hA⟩ := GetSliceData_read src f x s t n data imm hset
      have hnos : GetSliceData_unlocked none (f + 1) x s t n data imm = some (x1, some e) := by
        rw [← GetSliceData_nosrc src _ _ _ _ _ _ _ hset]
        exact heq
      obtain ⟨g1, g2, _⟩ := contained_GetSliceData none (fun p hp => nomatch hp) (f + 1) x s t n
        data imm _ hc hnos
      obtain ⟨base1, k1, k2, k3, k4⟩ := laid_GetSliceData none (fun p hp => nomatch hp)
        (fun p hp => nomatch hp) (f + 1) x s t n data imm _ base hla hc hnos
      have hg' : GetSliceData src (f + 1) x s t n data imm = some (x1, some e) :=
        (GetSliceData_of_isSet src _ _ _ _ _ _ _ hset).trans heq
      rw [hg'] at h
      dsimp only at h
      cases h
      have hv1 : x1.IsValidSlice s t n = true := by rw [g2.shape.validSlice]; exact hv
      obtain ⟨base2, a1, a2, a3, a4⟩ := laid_AllocateSliceData x1 s t n data imm k2 g1.wf hv1
      rw [g2.shape.sliceIndex, g2.shape.off, g2.shape.ptype] at a4
      have hA2 := aside_AllocateSliceData x1 s t n data imm g1 hv1
      rw [g2.shape.sliceIndex] at hA2
      have w1 : Wrote base1 x1
          (overwrite (fun i => i.AllocateSliceData s t n data imm) (x.off 2 * x.ptypeSize) data x1
            (some e)).1
          ((x.GetSliceIndex s t n).toNat * (x.off 2 * x.ptypeSize)) (x.off 2 * x.ptypeSize) :=
        wrote_overwrite _ _ _ data x1 (some e) (fun q hq => k4 q hq)
          ⟨base2, a1, oldMem_AllocateSliceData x1 s t n data imm, a3.nBufs, a4⟩
      refine ⟨(OldMem.wrote hA.mem base _ _).wrote_trans w1 k1 k3.nBufs, ?_⟩
      intro s1 t1 n1 h0 hne hs1
      have r1 := sliceRead_aside hA hc.idsOK s1 t1 n1 h0 hne hs1
      show (overwrite (fun i => i.AllocateSliceData s t n data imm) (x.off 2 * x.ptypeSize) data x1
            (some e)).1.sliceRead s1 t1 n1 = _
      unfold overwrite
      dsimp only
      split
      · rw [sliceRead_copyInto]
        exact sliceRead_aside (hA.aside_trans hA2 g1.idsOK.volumes) hc.idsOK s1 t1 n1 h0 hne hs1
      · rw [sliceRead_copyInto]
        exact r1
  · rw [if_neg hset] at h
    cases h
    obtain ⟨base2, a1, a2, a3, a4⟩ := laid_AllocateSliceData x s t n data imm hla hw hv
    have hA2 := aside_AllocateSliceData x s t n data imm hc hv
    refine ⟨(OldMem.wrote hA2.mem base _ _).wrote_trans (wrote_copyInto _ _ _ _ data a4) a1 a3.nBufs, ?_⟩
    intro s1 t1 n1 h0 hne hs1
    show ((x.AllocateSliceData s t n data imm).1.copyInto _ data _).sliceRead s1 t1 n1 = _
    rw [sliceRead_copyInto]
    exact sliceRead_aside hA2 hc.idsOK s1 t1 n1 h0 hne hs1

/-- The volume write changes bytes at the place of the volume only, when no caller buffer is
passed for adoption. -/
theorem wrote_SetImportVolume (src : Option Source) (fuel : Nat) (x : Image) (data : Option Ptr)
    (t n : Int) (imm : ImportMemoryManagementType) (res : Image × Bool) (base : Nat → Option Int)
    (hna : NoAdopt data imm) (hla : Laid base x) (hc : Contained x)
    (hv : x.IsValidVolume t n = true)
    (h : SetImportVolume src fuel x data t n imm = some res) :
    Wrote base x res.1 ((x.GetVolumeIndex t n).toNat * (x.off 3 * x.ptypeSize))
      (x.off 3 * x.ptypeSize) := by
  have hw := hc.wf
  unfold SetImportVolume at h
  have hv' : ¬ (x.IsValidVolume t n = false) := by simp [hv]
  rw [if_neg hv'] at h
  dsimp only at h
  rw [hw.len3] at h
  by_cases hset : x.IsVolumeSet t n = true
  · rw [if_pos hset] at h
    have hm : GetVolumeData src fuel x t n data imm =
        GetVolumeData_unlocked none fuel x t n data imm :=
      (GetVolumeData_of_isSet src _ _ _ _ _ _ hset).trans (GetVolumeData_nosrc src fuel x t n data imm hset)
    rw [hm] at h
    cases hg : GetVolumeData_unlocked none fuel x t n data imm with
    | none =>
      rw [hg] at h
      cases h
    | some r1 =>
      obtain ⟨g1, g2, _⟩ := contained_GetVolumeData none (fun p hp => nomatch hp) fuel x t n data imm
        r1 hc hg
      obtain ⟨base1, k1, k2, k3, k4⟩ := laid_GetVolumeData none (fun p hp => nomatch hp)
        (fun p hp => nomatch hp) fuel x t n data imm r1 base hna hla hc hg
      have w0 := wrote_GetVolumeData fuel x t n data imm r1 base hla hc hg
      rw [hg] at h
      dsimp only at h
      obtain ⟨base2, _, a1, a2, a3, a4⟩ := laid_AllocateVolumeData r1.1 t n data imm k2 g1.wf
        (by rw [g2.shape.validVolume]; exact hv) (FreshData.of_noAdopt hna)
      obtain ⟨_, hA2, _, _, _, _⟩ := upx_AllocateVolumeData r1.1 t n data imm
      rw [g2.shape.volumeIndex, g2.shape.off, g2.shape.ptype] at a4
      have a5 : Placed base2 (r1.1.AllocateVolumeData t n data imm).1
          ((x.GetVolumeIndex t n).toNat * (x.off 3 * x.ptypeSize))
          (r1.1.AllocateVolumeData t n data imm).2 := by
        show Placed base2 (r1.1.AllocateVolumeData_unlocked t n data imm).1 _
          (r1.1.AllocateVolumeData_unlocked t n data imm).2
        rw [hA2]
        exact a4
      have w1 : Wrote base1 r1.1
          (overwrite (fun i => i.AllocateVolumeData t n data imm) (x.off 3 * x.ptypeSize) data r1.1
            r1.2).1
          ((x.GetVolumeIndex t n).toNat * (x.off 3 * x.ptypeSize)) (x.off 3 * x.ptypeSize) :=
        wrote_overwrite _ _ _ data r1.1 r1.2 (fun q hq => k4 q hq)
          ⟨base2, a1 hna, oldMem_AllocateVolumeData r1.1 t n data imm, a3.nBufs, a5⟩
      have w2 := w0.wrote_trans w1 k1 k3.nBufs
      split at h
      · cases h
        exact w2
      · cases h
        exact w2
  · rw [if_neg hset] at h
    cases h
    obtain ⟨base2, _, a1, a2, a3, a4⟩ := laid_AllocateVolumeData x t n data imm hla hw hv
      (FreshData.of_noAdopt hna)
    obtain ⟨_, hA2, _, _, _, _⟩ := upx_AllocateVolumeData x t n data imm
    have a5 : Placed base2 (x.AllocateVolumeData t n data imm).1
        ((x.GetVolumeIndex t n).toNat * (x.off 3 * x.ptypeSize))
        (x.AllocateVolumeData t n data imm).2 := by
      show Placed base2 (x.AllocateVolumeData_unlocked t n data imm).1 _
        (x.AllocateVolumeData_unlocked t n data imm).2
      rw [hA2]
      exact a4
    exact (OldMem.wrote (oldMem_AllocateVolumeData x t n data imm) base _ _).wrote_trans
      (wrote_copyInto _ _ _ _ data a5) (a1 hna) a3.nBufs

/-- The channel write changes bytes at the place of the channel only, when no caller buffer is
passed for adoption and the rank is at most four. -/
theorem wrote_SetImportChannel (src : Option Source) (fuel : Nat) (x : Image) (data : Option Ptr)
    (n : Int) (imm : ImportMemoryManagementType) (res : Image × Bool) (base : Nat → Option Int)
    (hna : NoAdopt data imm) (hla : Laid base x) (hc : Contained x) (hr : x.m_Dimension ≤ 4)
    (hv : x.IsValidChannel n = true)
    (h : SetImportChannel src fuel x data n imm = some res) :
    Wrote base x res.1 (n.toNat * (x.off 4 * x.ptypeSize)) (x.off 4 * x.ptypeSize) := by
  have hw := hc.wf
  unfold SetImportChannel at h
  have hv' : ¬ (x.IsValidChannel n = false) := by simp [hv]
  rw [if_neg hv'] at h
  dsimp only at h
  rw [hw.len4] at h
  by_cases hset : x.IsChannelSet n = true
  · rw [if_pos hset] at h
    have hm : GetChannelData src fuel x n data imm =
        GetChannelData_unlocked none fuel x n data imm :=
      (GetChannelData_of_isSet src _ _ _ _ _ hw hc.idsOK hset).trans
        (GetChannelData_nosrc src fuel x n data imm hw hc.idsOK hset)
    rw [hm] at h
    cases hg : GetChannelData_unlocked none fuel x n data imm with
    | none =>
      rw [hg] at h
      cases h
    | some r1 =>
      obtain ⟨g1, g2, _⟩ := contained_GetChannelData none (fun p hp => nomatch hp) fuel x n data imm
        r1 hc hg
      obtain ⟨base1, k1, k2, k3, k4⟩ := laid_GetChannelData none (fun p hp => nomatch hp)
        (fun p hp => nomatch hp) fuel x n data imm r1 base hna hla hc hg
      have w0 := wrote_GetChannelData fuel x n data imm r1 base hna hla hc hr hg
      rw [hg] at h
      dsimp only at h
      obtain ⟨base2, _, a1, a2, a3, a4⟩ := laid_AllocateChannelData r1.1 n data imm k2
        (FreshData.of_noAdopt hna)
      obtain ⟨_, hA2, _, _, _, _⟩ := upx_AllocateChannelData r1.1 n data imm
      rw [g2.shape.off, g2.shape.ptype] at a4
      have a5 : Placed base2 (r1.1.AllocateChannelData n data imm).1
          (n.toNat * (x.off 4 * x.ptypeSize)) (r1.1.AllocateChannelData n data imm).2 := by
        show Placed base2 (r1.1.AllocateChannelData_unlocked n data imm).1 _
          (r1.1.AllocateChannelData_unlocked n data imm).2
        rw [hA2]
        exact a4
      have w1 : Wrote base1 r1.1
          (overwrite (fun i => i.AllocateChannelData n data imm) (x.off 4 * x.ptypeSize) data r1.1
            r1.2).1
          (n.toNat * (x.off 4 * x.ptypeSize)) (x.off 4 * x.ptypeSize) :=
        wrote_overwrite _ _ _ data r1.1 r1.2 (fun q hq => k4 q hq)
          ⟨base2, a1 hna, oldMem_AllocateChannelData r1.1 n data imm, a3.nBufs, a5⟩
      have w2 := w0.wrote_trans w1 k1 k3.nBufs
      split at h
      · cases h
        exact w2
      · cases h
        exact w2
  · rw [if_neg hset] at h
    cases h
    obtain ⟨base2, _, a1, a2, a3, a4⟩ := laid_AllocateChannelData x n data imm hla
      (FreshData.of_noAdopt hna)
    obtain ⟨_, hA2, _, _, _, _⟩ := upx_AllocateChannelData x n data imm
    have a5 : Placed base2 (x.AllocateChannelData n data imm).1
        (n.toNat * (x.off 4 * x.ptypeSize)) (x.AllocateChannelData n data imm).2 := by
      show Placed base2 (x.AllocateChannelData_unlocked n data imm).1 _
        (x.AllocateChannelData_unlocked n data imm).2
      rw [hA2]
      exact a4
    exact (OldMem.wrote (oldMem_AllocateChannelData x n data imm) base _ _).wrote_trans
      (wrote_copyInto _ _ _ _ data a5) (a1 hna) a3.nBufs

/-! ## No data loss outside the written region -/

/-- Valid slice coordinates with the same flat index are the same. -/
theorem WF.sliceIndex_inj {x : Image} (hw : WF x) {s t n s1 t1 n1 : Int}
    (hv : x.IsValidSlice s t n = true) (hv1 : x.IsValidSlice s1 t1 n1 = true)
    (h : (x.GetSliceIndex s1 t1 n1).toNat = (x.GetSliceIndex s t n).toNat) :
    s1 = s ∧ t1 = t ∧ n1 = n := by
  obtain ⟨_, a2, a3, a4, _⟩ := hw.sliceIndex_toNat hv
  obtain ⟨_, b2, b3, b4, _⟩ := hw.sliceIndex_toNat hv1
  rw [a2, b2] at h
  obtain ⟨e1, e2, e3⟩ := flat_slice_inj b3 a3 b4 a4 h
  obtain ⟨c1, _, c2, _, c3, _⟩ := (hw.validSlice_iff s t n).1 hv
  obtain ⟨d1, _, d2, _, d3, _⟩ := (hw.validSlice_iff s1 t1 n1).1 hv1
  omega

/-- The read address of a slice lies where the index of the slice says. -/
theorem sliceRead_placed {base : Nat → Option Int} {x : Image} (hla : Laid base x) (hw : WF x)
    {s t n : Int} (hv : x.IsValidSlice s t n = true) {p : Ptr} (h : x.sliceRead s t n = some p) :
    ∃ L : Int, base p.buf = some L ∧
      L + (p.off : Int) = (((x.GetSliceIndex s t n).toNat * (x.off 2 * x.ptypeSize) : Nat) : Int) := by
  obtain ⟨e1, e2⟩ := hw.slice_starts hv
  unfold sliceRead at h
  cases hsl : elemAt x.m_Slices (x.GetSliceIndex s t n) with
  | some e =>
    rw [hsl] at h
    cases h
    exact (hla.slice_at hsl).2
  | none =>
    rw [hsl] at h
    dsimp only at h
    by_cases hvc : x.completeEntry (elemAt x.m_Volumes (x.GetVolumeIndex t n)) = true
    · rw [if_pos hvc] at h
      cases h
      obtain ⟨v, hv1, _⟩ := completeEntry_some hvc
      obtain ⟨_, L, hb, hL⟩ := hla.volume_at hv1
      rw [hv1]
      refine ⟨L, hb, ?_⟩
      show L + (((x.items v).m_Data.off + sizeT (s.toNat * x.off 2 * x.ptypeSize) : Nat) : Int) = _
      rw [e1]
      push_cast
      push_cast at hL
      omega
    · rw [if_neg hvc] at h
      by_cases hcc : x.completeEntry (elemAt x.m_Channels n) = true
      · rw [if_pos hcc] at h
        cases h
        obtain ⟨c, hc1, _⟩ := completeEntry_some hcc
        obtain ⟨_, L, hb, hL⟩ := hla.channel_at hc1
        rw [hc1]
        refine ⟨L, hb, ?_⟩
        show L + (((x.items c).m_Data.off +
          sizeT ((s.toNat * x.off 2 + t.toNat * x.off 3) * x.ptypeSize) : Nat) : Int) = _
        rw [e2]
        push_cast
        push_cast at hL
        omega
      · rw [if_neg hcc] at h
        cases h

/-- A change at the place of an entry leaves the bytes of its buffer outside the entry as they
were. -/
theorem Wrote.outside {base : Nat → Option Int} {x z : Image} {G len q : Nat}
    (h : Wrote base x z G len) (hla : Laid base x) (hq : Placed base x G q) (o : Nat)
    (ho : ¬ ((x.items q).m_Data.off ≤ o ∧ o < (x.items q).m_Data.off + len)) :
    z.mem (x.items q).m_Data.buf o = x.mem (x.items q).m_Data.buf o := by
  obtain ⟨_, L, hb, hL⟩ := hq
  have hB := (hla.claimed (x.items q).m_Data.buf (by rw [hb]; exact Option.some_ne_none _)).1
  refine h _ o hB (fun Lb hLb hr => ho ?_)
  rw [hb] at hLb
  cases hLb
  constructor
  · have : ((x.items q).m_Data.off : Int) ≤ (o : Int) := by omega
    exact_mod_cast this
  · have : (o : Int) < ((x.items q).m_Data.off : Int) + (len : Int) := by omega
    exact_mod_cast this

/-- A change at the place of the slice `k` leaves the bytes of every other slice as they
were. -/
theorem Wrote.elsewhere {base : Nat → Option Int} {x z : Image} {k k1 U : Nat}
    (h : Wrote base x z (k * U) U) (hla : Laid base x) (p : Ptr) (L : Int) (hb : base p.buf = some L)
    (hL : L + (p.off : Int) = ((k1 * U : Nat) : Int)) (hk : k1 ≠ k) (i : Nat) (hi : i < U) :
    z.mem p.buf (p.off + i) = x.mem p.buf (p.off + i) := by
  have hB := (hla.claimed p.buf (by rw [hb]; exact Option.some_ne_none _)).1
  refine h _ _ hB (fun Lb hLb hr => ?_)
  rw [hb] at hLb
  cases hLb
  have e : L + ((p.off + i : Nat) : Int) = ((k1 * U + i : Nat) : Int) := by
    push_cast
    push_cast at hL
    omega
  rw [e] at hr
  have h1 : k * U ≤ k1 * U + i := by exact_mod_cast hr.1
  have h2 : k1 * U + i < k * U + U := by exact_mod_cast hr.2
  rcases Nat.lt_or_gt_of_ne hk with hlt | hgt
  · have : (k1 + 1) * U ≤ k * U := Nat.mul_le_mul_right U hlt
    rw [Nat.add_mul, Nat.one_mul] at this
    omega
  · have : (k + 1) * U ≤ k1 * U := Nat.mul_le_mul_right U hgt
    rw [Nat.add_mul, Nat.one_mul] at this
    omega

/-- After a write to the slice `(s, t, n)` every other slice that is set is read back with the
bytes it had. -/
theorem other_slice_read (src : Option Source)
    (hp : ∀ p, canUpdate src = some p → ∀ i, Contained i → Contained (p.update i) ∧ Kept i (p.update i))
    (f g : Nat) (x z : Image) (data : Option Ptr)
    (s t n : Int) (imm : ImportMemoryManagementType) (base : Nat → Option Int)
    (hla : Laid base x) (hc : Contained x) (hv : x.IsValidSlice s t n = true)
    (h : SetImportSlice src f x data s t n imm = some (z, true))
    (s1 t1 n1 : Int) (hne : ¬ (s1 = s ∧ t1 = t ∧ n1 = n))
    (hset : x.IsSliceSet s1 t1 n1 = true) :
    ∃ x1 e z1 e1,
      GetSliceData src (g + 1) x s1 t1 n1 none ImportMemoryManagementType.CopyMemory =
        some (x1, some e) ∧
      GetSliceData src (g + 1) z s1 t1 n1 none ImportMemoryManagementType.CopyMemory =
        some (z1, some e1) ∧
      z1.readBytes (z1.items e1).m_Data (x.off 2 * x.ptypeSize) =
        x1.readBytes (x1.items e).m_Data (x.off 2 * x.ptypeSize) := by
  have hw := hc.wf
  have hv1 := isSliceSet_valid hset
  obtain ⟨h0, _⟩ := hw.sliceIndex_toNat hv1
  have hk : (x.GetSliceIndex s1 t1 n1).toNat ≠ (x.GetSliceIndex s t n).toNat :=
    fun e => hne (hw.sliceIndex_inj hv hv1 e)
  obtain ⟨w1, w2⟩ := wrote_SetImportSlice src f x data s t n imm _ base hla hc hv h
  obtain ⟨_, hkz⟩ := contained_SetImportSlice src hp f x data s t n imm _ hc h
  have hsh : SameShape x z := hkz.shape
  obtain ⟨x1, e, heq, hmem, hread, _⟩ := GetSliceData_read src g x s1 t1 n1 none
    ImportMemoryManagementType.CopyMemory hset
  have hrz : z.sliceRead s1 t1 n1 = some (x1.items e).m_Data := (w2 s1 t1 n1 h0 hk hset).trans hread
  have hsetz : z.IsSliceSet_unlocked s1 t1 n1 = true :=
    isSliceSet_of_read z s1 t1 n1 _ (by rw [hsh.validSlice]; exact hv1) hrz
  obtain ⟨z1, e1, heqz, hmemz, hreadz, _⟩ := GetSliceData_read src g z s1 t1 n1 none
    ImportMemoryManagementType.CopyMemory hsetz
  have hptr : (z1.items e1).m_Data = (x1.items e).m_Data := by
    rw [hrz] at hreadz
    exact (Option.some.inj hreadz).symm
  obtain ⟨L, hb, hL⟩ := sliceRead_placed hla hw hv1 hread
  refine ⟨x1, e, z1, e1, (GetSliceData_of_isSet src _ _ _ _ _ _ _ hset).trans heq,
    (GetSliceData_of_isSet src _ _ _ _ _ _ _ hsetz).trans heqz, ?_⟩
  unfold readBytes
  rw [hptr, hmem, hmemz]
  apply List.map_congr_left
  intro i hi
  exact w1.elsewhere hla _ L hb hL hk i (List.mem_range.1 hi)

theorem initialized_rank (img : Image) (ts d : Nat) (ds : List Nat) (ch : Nat) :
    (img.initialized ts d ds ch).m_Dimension = d := rfl

/-- C17 (no data loss outside the written region).  Let `x` be a state reached from a
successful `Initialize` of rank at most four, with a pixel size of at least one byte and sizes
that do not wrap around, by operations in which every buffer passed for adoption or borrowing
is a caller buffer that no item uses yet.  Then every `SetSlice`, `SetVolume` and `SetChannel`
at a valid coordinate returns `true`, and for every entry `q` present at that coordinate, in
particular for every view and every borrowed entry, no byte of the buffer of `q`, which is the
buffer of its parent when `q` is a view, is changed outside the byte range of `q`.  After
`SetSlice(b, s, t, n)` every other slice that is set is read back by `GetSliceData` with the
bytes it had before the call. -/
theorem no_data_loss_outside_written_region (src : Option Source) (fuel : Nat) (img : Image)
    (ts d : Nat) (dimensions : Option (List Nat)) (ch : Nat) (ops : List Op) (x : Image)
    (hok : (img.Initialize ts d dimensions ch).image.m_Initialized = true)
    (hd : d ≤ 4) (hts : 1 ≤ ts)
    (hsl : ch * (img.Initialize ts d dimensions ch).image.dim 3 *
      (img.Initialize ts d dimensions ch).image.dim 2 < 2 ^ 31)
    (hbytes : (img.Initialize ts d dimensions ch).image.dim 0 *
      (img.Initialize ts d dimensions ch).image.dim 1 * (img.Initialize ts d dimensions ch).image.dim 2 *
      (img.Initialize ts d dimensions ch).image.dim 3 * ts < 2 ^ 64)
    (hp : ∀ p, canUpdate src = some p → ∀ i, Contained i → Contained (p.update i) ∧ Kept i (p.update i))
    (hq : ∀ p, canUpdate src = some p → ∀ base i, Contained i → Laid base i →
      ∃ base', Ext i base base' ∧ Laid base' (p.update i) ∧ Later i (p.update i))
    (hfresh : freshRun src fuel ops (img.Initialize ts d dimensions ch).image = true)
    (hrun : runOps src fuel ops (img.Initialize ts d dimensions ch).image = some x) :
    (∀ (f : Nat) (b : Option Ptr) (s t n : Int), x.IsValidSlice s t n = true →
      ∃ z, SetSlice src (f + 1) x b s t n = some (z, true) ∧
        (∀ q, elemAt x.m_Slices (x.GetSliceIndex s t n) = some q →
          (∀ p, (x.items q).m_Parent = some p →
            (x.items q).m_Data = Ptr.add (x.items p).m_Data (x.items q).m_Offset) ∧
          ∀ o, ¬ ((x.items q).m_Data.off ≤ o ∧ o < (x.items q).m_Data.off + (x.items q).m_Size) →
            z.mem (x.items q).m_Data.buf o = x.mem (x.items q).m_Data.buf o) ∧
        (∀ (s1 t1 n1 : Int) (g : Nat), ¬ (s1 = s ∧ t1 = t ∧ n1 = n) →
          x.IsSliceSet s1 t1 n1 = true →
          ∃ x1 e z1 e1,
            GetSliceData src (g + 1) x s1 t1 n1 none ImportMemoryManagementType.CopyMemory =
              some (x1, some e) ∧
            GetSliceData src (g + 1) z s1 t1 n1 none ImportMemoryManagementType.CopyMemory =
              some (z1, some e1) ∧
            z1.readBytes (z1.items e1).m_Data (x.off 2 * x.ptypeSize) =
              x1.readBytes (x1.items e).m_Data (x.off 2 * x.ptypeSize))) ∧
    (∀ (f : Nat) (b : Option Ptr) (t n : Int), x.IsValidVolume t n = true →
      ∃ z, SetVolume src (f + 1) x b t n = some (z, true) ∧
        ∀ q, elemAt x.m_Volumes (x.GetVolumeIndex t n) = some q →
          (∀ p, (x.items q).m_Parent = some p →
            (x.items q).m_Data = Ptr.add (x.items p).m_Data (x.items q).m_Offset) ∧
          ∀ o, ¬ ((x.items q).m_Data.off ≤ o ∧ o < (x.items q).m_Data.off + (x.items q).m_Size) →
            z.mem (x.items q).m_Data.buf o = x.mem (x.items q).m_Data.buf o) ∧
    (∀ (f : Nat) (b : Option Ptr) (n : Int), x.IsValidChannel n = true →
      ∃ z, SetChannel src (f + 1) x b n = some (z, true) ∧
        ∀ q, elemAt x.m_Channels n = some q →
          (∀ p, (x.items q).m_Parent = some p →
            (x.items q).m_Data = Ptr.add (x.items p).m_Data (x.items q).m_Offset) ∧
          ∀ o, ¬ ((x.items q).m_Data.off ≤ o ∧ o < (x.items q).m_Data.off + (x.items q).m_Size) →
            z.mem (x.items q).m_Data.buf o = x.mem (x.items q).m_Data.buf o) := by
  obtain ⟨ds, hds, hall, _, hinit⟩ := (Initialize_initialized_iff img ts d dimensions ch).1 hok
  rw [hinit] at hsl hbytes hrun hfresh
  have h0 := contained_initialized img ts d ds ch hd hall hts hsl hbytes
  obtain ⟨hc, hk⟩ := contained_runOps src hp fuel ops _ x h0 hrun
  obtain ⟨base, hla⟩ := laid_runOps src hp hq fuel ops _ x _ (laid_initialized img ts d ds ch) h0
    hfresh hrun
  have hw := hc.wf
  have hr : x.m_Dimension ≤ 4 := by
    rw [hk.shape.rank]
    exact hd
  refine ⟨?_, ?_, ?_⟩
  · intro f b s t n hv
    obtain ⟨z, hz, _⟩ := SetImportSlice_returns src f x b s t n ImportMemoryManagementType.CopyMemory
    rw [hv] at hz
    obtain ⟨w1, _⟩ := wrote_SetImportSlice src (f + 1) x b s t n ImportMemoryManagementType.CopyMemory
      _ base hla hc hv hz
    refine ⟨z, hz, ?_, ?_⟩
    · intro q hq
      have he := hc.sl q (mem_of_elemAt hq)
      refine ⟨fun p hpar => (he.2.2 p hpar).2.1, fun o ho => ?_⟩
      rw [he.2.1, hw.size2] at ho
      exact w1.outside hla (hla.slice_at hq) o ho
    · intro s1 t1 n1 g hne hset
      exact other_slice_read src hp (f + 1) g x z b s t n ImportMemoryManagementType.CopyMemory base
        hla hc hv hz s1 t1 n1 hne hset
  · intro f b t n hv
    obtain ⟨z, hz, _⟩ := SetImportVolume_returns src f x b t n ImportMemoryManagementType.CopyMemory
    rw [hv] at hz
    have w1 := wrote_SetImportVolume src (f + 1) x b t n ImportMemoryManagementType.CopyMemory
      _ base (Or.inl rfl) hla hc hv hz
    refine ⟨z, hz, ?_⟩
    intro q hq
    have he := hc.vo q (mem_of_elemAt hq)
    refine ⟨fun p hpar => (he.2.2 p hpar).2.1, fun o ho => ?_⟩
    rw [he.2.1, hw.size3] at ho
    exact w1.outside hla (hla.volume_at hq) o ho
  · intro f b n hv
    obtain ⟨z, hz, _⟩ := SetImportChannel_returns src f x b n ImportMemoryManagementType.CopyMemory
      hw hc.idsOK
    rw [hv] at hz
    have w1 := wrote_SetImportChannel src (f + 1) x b n ImportMemoryManagementType.CopyMemory
      _ base (Or.inl rfl) hla hc hr hv hz
    refine ⟨z, hz, ?_⟩
    intro q hq
    have he := hc.ch q (mem_of_elemAt hq)
    refine ⟨fun p hpar => (he.2.2 p hpar).2.1, fun o ho => ?_⟩
    rw [he.2.1, hc.chan] at ho
    exact w1.outside hla (hla.channel_at hq) o ho

/-- Witness for C17: in the state after `borrowOps` the volume entry borrows the caller's
buffer and the slice entry is a view into it; `SetSlice` over that view leaves the bytes of the
caller's buffer outside the slice as they were, and slice `(1, 0, 0)` is read back unchanged. -/
theorem no_data_loss_outside_written_region_witness :
    runOps none 2 borrowOps
        ((callerBuffer Image.empty [1, 2, 3, 4, 5, 6, 7, 8, 9, 10, 11, 12]).1.Initialize 1 3
          (some [2, 2, 2]) 1).image = some borrowState ∧
    freshRun none 2 borrowOps
        ((callerBuffer Image.empty [1, 2, 3, 4, 5, 6, 7, 8, 9, 10, 11, 12]).1.Initialize 1 3
          (some [2, 2, 2]) 1).image = true ∧
    borrowState.m_Volumes = [some 0] ∧ borrowState.m_Slices = [some 1, none] ∧
    (borrowState.items 0).m_ManageMemory = false ∧ (borrowState.items 0).m_Parent = none ∧
    (borrowState.items 1).m_Parent = some 0 ∧
    ∃ z, SetSlice none (0 + 1) borrowState (some ⟨0, 8⟩) 0 0 0 = some (z, true) ∧
      (∀ q, elemAt borrowState.m_Slices (borrowState.GetSliceIndex 0 0 0) = some q →
        (∀ p, (borrowState.items q).m_Parent = some p →
          (borrowState.items q).m_Data =
            Ptr.add (borrowState.items p).m_Data (borrowState.items q).m_Offset) ∧
        ∀ o, ¬ ((borrowState.items q).m_Data.off ≤ o ∧
            o < (borrowState.items q).m_Data.off + (borrowState.items q).m_Size) →
          z.mem (borrowState.items q).m_Data.buf o =
            borrowState.mem (borrowState.items q).m_Data.buf o) ∧
      (∀ (s1 t1 n1 : Int) (g : Nat), ¬ (s1 = 0 ∧ t1 = 0 ∧ n1 = 0) →
        borrowState.IsSliceSet s1 t1 n1 = true →
        ∃ x1 e z1 e1,
          GetSliceData none (g + 1) borrowState s1 t1 n1 none ImportMemoryManagementType.CopyMemory =
            some (x1, some e) ∧
          GetSliceData none (g + 1) z s1 t1 n1 none ImportMemoryManagementType.CopyMemory =
            some (z1, some e1) ∧
          z1.readBytes (z1.items e1).m_Data (borrowState.off 2 * borrowState.ptypeSize) =
            x1.readBytes (x1.items e).m_Data (borrowState.off 2 * borrowState.ptypeSize)) :=
  ⟨rfl, rfl, rfl, rfl, rfl, rfl, rfl,
    (no_data_loss_outside_written_region none 2
      (callerBuffer Image.empty [1, 2, 3, 4, 5, 6, 7, 8, 9, 10, 11, 12]).1 1 3 (some [2, 2, 2]) 1
      borrowOps borrowState rfl (by decide) (by decide) (by decide) (by decide)
      (fun _ h => nomatch h) (fun _ h => nomatch h) rfl rfl).1 0 (some ⟨0, 8⟩) 0 0 0 rfl⟩

/-! ## Validity of a time step -/

/-- For an image of rank four or more whose time extent fits an `int`, `IsValidTimeStep`
accepts the time extent itself, which `IsValidVolume` rejects. -/
theorem IsValidTimeStep_extent (img : Image) (hw : WF img) (hr : 4 ≤ img.m_Dimension)
    (hc : 1 ≤ img.GetNumberOfChannels) :
    img.IsValidTimeStep (img.dim 3 : Int) = true ∧ img.IsValidVolume (img.dim 3 : Int) 0 = false := by
  have h3 := hw.d3_lt hc
  have e : toInt (img.dim 3) = (img.dim 3 : Int) := toInt_of_lt h3
  constructor
  · unfold IsValidTimeStep
    have hp := hw.d3_pos
    simp only [e, Bool.or_eq_true, Bool.and_eq_true, decide_eq_true_eq]
    exact Or.inl ⟨⟨hr, le_refl _⟩, by exact_mod_cast hp⟩
  · cases hv : img.IsValidVolume (img.dim 3 : Int) 0 with
    | false => rfl
    | true =>
      have := ((hw.validVolume_iff _ _).1 hv).2.1
      omega

/-- C30: `IsValidTimeStep` does not agree with the validity of the volume.  On the
`2 x 2 x 2 x 2` image `timeImage`, which is initialized and has the time extent 2,
`IsValidTimeStep(2)` is true although `0 <= 2 < 2` is false and `IsValidVolume(2, 0)` is
false; the time steps 0 and 1 are valid for both. -/
theorem IsValidTimeStep_accepts_extent :
    timeImage.m_Initialized = true ∧ timeImage.m_Dimension = 4 ∧ timeImage.dim 3 = 2 ∧
    timeImage.IsValidTimeStep 2 = true ∧ timeImage.IsValidVolume 2 0 = false ∧
    timeImage.IsValidTimeStep 0 = true ∧ timeImage.IsValidVolume 0 0 = true ∧
    timeImage.IsValidTimeStep 1 = true ∧ timeImage.IsValidVolume 1 0 = true ∧
    ¬ (timeImage.IsValidTimeStep 2 = true ↔ ((0 : Int) ≤ 2 ∧ (2 : Int) < (timeImage.dim 3 : Int))) ∧
    ¬ (timeImage.IsValidTimeStep 2 = true ↔ timeImage.IsValidVolume 2 0 = true) := by
  decide

/-! ## Availability across the tiers -/

/-- A volume is set exactly when each of its slices is set. -/
theorem WF.isVolumeSet_iff_slices {x : Image} (hw : WF x) (t n : Int) :
    x.IsVolumeSet_unlocked t n = true ↔
      ∀ s : Nat, s < x.dim 2 → x.IsSliceSet_unlocked (s : Int) t n = true := by
  by_cases hv : x.IsValidVolume t n = true
  · obtain ⟨h1, h2, h3, h4⟩ := (hw.validVolume_iff t n).1 hv
    obtain ⟨t, rfl⟩ := Int.eq_ofNat_of_zero_le h1
    obtain ⟨n, rfl⟩ := Int.eq_ofNat_of_zero_le h3
    have ht : t < x.dim 3 := by exact_mod_cast h2
    have hn : n < x.GetNumberOfChannels := by exact_mod_cast h4
    rw [hw.isVolumeSet_nat ht hn]
    constructor
    · intro h s hs
      rw [hw.isSliceSet_nat hs ht hn]
      simp only [Bool.or_eq_true, List.all_eq_true, List.mem_range] at h ⊢
      rcases h with (h | h) | h
      · exact Or.inl (Or.inr h)
      · exact Or.inr h
      · exact Or.inl (Or.inl (h s hs))
    · intro h
      simp only [Bool.or_eq_true, List.all_eq_true, List.mem_range]
      by_cases hvc : x.completeEntry (x.m_Volumes.getD (t + n * x.dim 3) none) = true
      · exact Or.inl (Or.inl hvc)
      · by_cases hcc : x.completeEntry (x.m_Channels.getD n none) = true
        · exact Or.inl (Or.inr hcc)
        · refine Or.inr (fun s hs => ?_)
          have := h s hs
          rw [hw.isSliceSet_nat hs ht hn] at this
          simp only [Bool.or_eq_true] at this
          rcases this with (h | h) | h
          · exact h
          · exact absurd h hvc
          · exact absurd h hcc
  · constructor
    · intro h
      exact absurd (isVolumeSet_valid h) hv
    · intro h
      have h0 := isSliceSet_valid (h 0 hw.d2_pos)
      have hv0 : x.IsValidVolume t n = true := by
        rw [hw.validVolume_iff]
        obtain ⟨_, _, a, b, c, d⟩ := (hw.validSlice_iff _ t n).1 h0
        exact ⟨a, b, c, d⟩
      exact absurd hv0 hv

/-- A channel is set exactly when each of its volumes is set. -/
theorem WF.isChannelSet_iff_volumes {x : Image} (hw : WF x) (n : Int) :
    x.IsChannelSet_unlocked n = true ↔
      ∀ t : Nat, t < x.dim 3 → x.IsVolumeSet_unlocked (t : Int) n = true := by
  by_cases hv : x.IsValidChannel n = true
  · obtain ⟨h3, h4⟩ := (hw.validChannel_iff n).1 hv
    obtain ⟨n, rfl⟩ := Int.eq_ofNat_of_zero_le h3
    have hn : n < x.GetNumberOfChannels := by exact_mod_cast h4
    rw [hw.isChannelSet_nat hn]
    simp only [Bool.or_eq_true, List.all_eq_true, List.mem_range]
    constructor
    · intro h t ht
      rcases h with h | h
      · rw [hw.isVolumeSet_nat ht hn, h]
        simp
      · exact h t ht
    · intro h
      exact Or.inr h
  · constructor
    · intro h
      exact absurd (isChannelSet_valid h) hv
    · intro h
      have h0 := isVolumeSet_valid (h 0 hw.d3_pos)
      have hv0 : x.IsValidChannel n = true := by
        rw [hw.validChannel_iff]
        obtain ⟨_, _, c, d⟩ := (hw.validVolume_iff _ n).1 h0
        exact ⟨c, d⟩
      exact absurd hv0 hv

/-- C27: availability is equivalent across the tiers.  In every well-formed state of an
initialized image, `IsVolumeSet(t, n)` is true if and only if `IsSliceSet(s, t, n)` is true for
every `s` below the slice count, and `IsChannelSet(n)` is true if and only if
`IsVolumeSet(t, n)` is true for every `t` below the time extent. -/
theorem availability_equivalent_across_tiers (x : Image) (hw : WF x) :
    (∀ t n : Int, x.IsVolumeSet t n = true ↔
      ∀ s : Nat, s < x.dim 2 → x.IsSliceSet (s : Int) t n = true) ∧
    (∀ n : Int, x.IsChannelSet n = true ↔
      ∀ t : Nat, t < x.dim 3 → x.IsVolumeSet (t : Int) n = true) :=
  ⟨fun t n => hw.isVolumeSet_iff_slices t n, fun n => hw.isChannelSet_iff_volumes n⟩

/-- Witness for C27: in `sampleWritten`, where slice 0 of the two slices of volume 0 has been
written, the volume is not set and slice 1 is not set; in `sampleChannelView` the channel, its
volume and both slices are set. -/
theorem availability_equivalent_across_tiers_witness :
    sampleWritten.IsSliceSet 0 0 0 = true ∧ sampleWritten.IsSliceSet 1 0 0 = false ∧
    (sampleWritten.IsVolumeSet 0 0 = true ↔
      ∀ s : Nat, s < sampleWritten.dim 2 → sampleWritten.IsSliceSet (s : Int) 0 0 = true) ∧
    sampleWritten.IsVolumeSet 0 0 = false ∧
    (sampleChannelView.IsChannelSet 0 = true ↔
      ∀ t : Nat, t < sampleChannelView.dim 3 → sampleChannelView.IsVolumeSet (t : Int) 0 = true) ∧
    sampleChannelView.IsChannelSet 0 = true :=
  ⟨by decide, by decide,
    (availability_equivalent_across_tiers sampleWritten
      ⟨by decide, by decide, by decide, by decide, by decide, by decide, by decide, by decide,
        by decide, by decide, by decide, by decide, by decide, by decide⟩).1 0 0,
    by decide,
    (availability_equivalent_across_tiers sampleChannelView sampleChannelView_wf.1).2 0,
    by decide⟩

/-! ## Derivation from a coarser tier -/

/-- C29: the copy length of the channel consolidation for a rank above four.  The image
`rank5Written` is initialized with rank five and two time steps, both volumes are written and are
complete items of one byte each.  The length `offset[rank - 1] * stride` that
`GetChannelData` passes to `memcpy` is 2, not the size `offset[3] * stride = 1` of a volume, so
the copy reads beyond the source volume: the call leaves the fault flag set. -/
theorem consolidation_copy_length_rank5 :
    rank5Written.m_Initialized = true ∧ rank5Written.m_Dimension = 5 ∧ rank5Written.dim 3 = 2 ∧
    rank5Written.m_Volumes = [some 0, some 1] ∧ rank5Written.IsChannelSet 0 = true ∧
    (rank5Written.items 0).m_Size = 1 ∧ (rank5Written.items 1).m_Size = 1 ∧
    rank5Written.bufSize (rank5Written.items 0).m_Data.buf = 1 ∧
    rank5Written.off 3 * rank5Written.ptypeSize = 1 ∧
    sizeT (rank5Written.off (rank5Written.m_Dimension - 1) * rank5Written.ptypeSize) = 2 ∧
    rank5Written.fault = false ∧
    (GetChannelData none 2 rank5Written 0 none ImportMemoryManagementType.CopyMemory).map
      (fun r => r.1.fault) = some true := by
  decide

/-! ## Presence queries and the precedence of the accessors -/

/-- A slice is set exactly when `GetSliceData_unlocked` returns at one of its first three
return statements. -/
theorem isSliceSet_iff_step (src : Option Source) (x : Image) (s t n : Int) :
    x.IsSliceSet_unlocked s t n = true ↔
      (GetSliceData_step src x s t n = GetStep.stored ∨
        GetSliceData_step src x s t n = GetStep.fromVolume ∨
        GetSliceData_step src x s t n = GetStep.fromChannel) := by
  unfold GetSliceData_step IsSliceSet_unlocked
  by_cases hv : x.IsValidSlice s t n = false
  · simp [hv]
  · rw [if_neg hv, if_neg hv]
    by_cases h1 : (elemAt x.m_Slices (x.GetSliceIndex s t n)).isSome = true
    · simp [h1]
    · rw [if_neg h1, if_neg h1]
      by_cases h2 : x.completeEntry (elemAt x.m_Volumes (x.GetVolumeIndex t n)) = true
      · simp [h2]
      · rw [if_neg h2, if_neg h2]
        by_cases h3 : x.completeEntry (elemAt x.m_Channels n) = true
        · simp [h3]
        · rw [if_neg h3, if_neg h3]
          by_cases h4 : (canUpdate src).isSome = true
          · simp [h4]
          · simp [h4]

/-- A volume is set exactly when `GetVolumeData_unlocked` returns at one of its first three
return statements. -/
theorem isVolumeSet_iff_step (src : Option Source) (x : Image) (t n : Int) :
    x.IsVolumeSet_unlocked t n = true ↔
      (GetVolumeData_step src x t n = GetStep.stored ∨
        GetVolumeData_step src x t n = GetStep.fromChannel ∨
        GetVolumeData_step src x t n = GetStep.consolidation) := by
  unfold GetVolumeData_step IsVolumeSet_unlocked
  by_cases hv : x.IsValidVolume t n = false
  · simp [hv]
  · rw [if_neg hv, if_neg hv]
    by_cases h2 : x.completeEntry (elemAt x.m_Volumes (x.GetVolumeIndex t n)) = true
    · simp [h2]
    · rw [if_neg h2, if_neg h2]
      by_cases h3 : x.completeEntry (elemAt x.m_Channels n) = true
      · simp [h3]
      · rw [if_neg h3, if_neg h3]
        by_cases h1 : x.allSlicesSet t n = true
        · simp [h1]
        · rw [if_neg h1]
          by_cases h4 : (canUpdate src).isSome = true
          · simp [h4, h1]
          · simp [h4, h1]

/-- A channel is set exactly when `GetChannelData_unlocked` returns at one of its first two
return statements. -/
theorem isChannelSet_iff_step (src : Option Source) (x : Image) (n : Int) :
    x.IsChannelSet_unlocked n = true ↔
      (GetChannelData_step src x n = GetStep.stored ∨
        GetChannelData_step src x n = GetStep.consolidation) := by
  unfold GetChannelData_step
  by_cases hv : x.IsValidChannel n = false
  · rw [if_pos hv]
    have : x.IsChannelSet_unlocked n = false := by
      unfold IsChannelSet_unlocked
      rw [if_pos hv]
    simp [this]
  · rw [if_neg hv]
    by_cases h3 : x.completeEntry (elemAt x.m_Channels n) = true
    · rw [if_pos h3]
      have : x.IsChannelSet_unlocked n = true := by
        unfold IsChannelSet_unlocked
        rw [if_neg hv, if_pos h3]
      simp [this]
    · rw [if_neg h3]
      by_cases h1 : x.IsChannelSet_unlocked n = true
      · simp [h1]
      · rw [if_neg h1]
        by_cases h4 : (canUpdate src).isSome = true
        · simp [h4, h1]
        · simp [h4, h1]

/-- The conditions under which each return statement of `GetSliceData_unlocked` is reached. -/
theorem GetSliceData_step_cases (src : Option Source) (x : Image) (s t n : Int) :
    (GetSliceData_step src x s t n = GetStep.invalid ∧ x.IsValidSlice s t n = false) ∨
    (GetSliceData_step src x s t n = GetStep.stored ∧ x.IsValidSlice s t n = true ∧
      ∃ q, elemAt x.m_Slices (x.GetSliceIndex s t n) = some q) ∨
    (GetSliceData_step src x s t n = GetStep.fromVolume ∧ x.IsValidSlice s t n = true ∧
      elemAt x.m_Slices (x.GetSliceIndex s t n) = none ∧
      x.completeEntry (elemAt x.m_Volumes (x.GetVolumeIndex t n)) = true) ∨
    (GetSliceData_step src x s t n = GetStep.fromChannel ∧ x.IsValidSlice s t n = true ∧
      elemAt x.m_Slices (x.GetSliceIndex s t n) = none ∧
      x.completeEntry (elemAt x.m_Volumes (x.GetVolumeIndex t n)) = false ∧
      x.completeEntry (elemAt x.m_Channels n) = true) ∨
    (GetSliceData_step src x s t n = GetStep.producer ∧ x.IsValidSlice s t n = true ∧
      x.IsSliceSet_unlocked s t n = false ∧ ∃ p, canUpdate src = some p) ∨
    (GetSliceData_step src x s t n = GetStep.allocation ∧ x.IsValidSlice s t n = true ∧
      x.IsSliceSet_unlocked s t n = false ∧ canUpdate src = none) := by
  unfold GetSliceData_step
  by_cases hv : x.IsValidSlice s t n = false
  · exact Or.inl ⟨by rw [if_pos hv], hv⟩
  · rw [if_neg hv]
    have hv1 : x.IsValidSlice s t n = true := by simpa using hv
    right
    cases h1 : elemAt x.m_Slices (x.GetSliceIndex s t n) with
    | some q => exact Or.inl ⟨by simp, hv1, q, rfl⟩
    | none =>
      right
      simp only [Option.isSome_none, Bool.false_eq_true, if_false]
      by_cases h2 : x.completeEntry (elemAt x.m_Volumes (x.GetVolumeIndex t n)) = true
      · exact Or.inl ⟨by rw [if_pos h2], hv1, trivial, h2⟩
      · rw [if_neg h2]
        right
        have h2' : x.completeEntry (elemAt x.m_Volumes (x.GetVolumeIndex t n)) = false := by
          simpa using h2
        by_cases h3 : x.completeEntry (elemAt x.m_Channels n) = true
        · exact Or.inl ⟨by rw [if_pos h3], hv1, trivial, h2', h3⟩
        · rw [if_neg h3]
          right
          have hns : x.IsSliceSet_unlocked s t n = false := by
            rw [isSliceSet_eq x s t n hv1, h1, h2']
            simpa using h3
          cases h4 : canUpdate src with
          | some p => exact Or.inl ⟨by simp, hv1, hns, p, rfl⟩
          | none => exact Or.inr ⟨by simp, hv1, hns, rfl⟩

/-- The conditions under which each return statement of `GetVolumeData_unlocked` is
reached. -/
theorem GetVolumeData_step_cases (src : Option Source) (x : Image) (t n : Int) :
    (GetVolumeData_step src x t n = GetStep.invalid ∧ x.IsValidVolume t n = false) ∨
    (GetVolumeData_step src x t n = GetStep.stored ∧ x.IsValidVolume t n = true ∧
      x.completeEntry (elemAt x.m_Volumes (x.GetVolumeIndex t n)) = true) ∨
    (GetVolumeData_step src x t n = GetStep.fromChannel ∧ x.IsValidVolume t n = true ∧
      x.completeEntry (elemAt x.m_Volumes (x.GetVolumeIndex t n)) = false ∧
      x.completeEntry (elemAt x.m_Channels n) = true) ∨
    (GetVolumeData_step src x t n = GetStep.consolidation ∧ x.IsValidVolume t n = true ∧
      x.allSlicesSet t n = true ∧ x.IsVolumeSet_unlocked t n = true) ∨
    (GetVolumeData_step src x t n = GetStep.producer ∧ x.IsValidVolume t n = true ∧
      x.IsVolumeSet_unlocked t n = false ∧ ∃ p, canUpdate src = some p) ∨
    (GetVolumeData_step src x t n = GetStep.allocation ∧ x.IsValidVolume t n = true ∧
      x.IsVolumeSet_unlocked t n = false ∧ canUpdate src = none) := by
  unfold GetVolumeData_step
  by_cases hv : x.IsValidVolume t n = false
  · exact Or.inl ⟨by rw [if_pos hv], hv⟩
  · rw [if_neg hv]
    have hv1 : x.IsValidVolume t n = true := by simpa using hv
    right
    by_cases h2 : x.completeEntry (elemAt x.m_Volumes (x.GetVolumeIndex t n)) = true
    · exact Or.inl ⟨by rw [if_pos h2], hv1, h2⟩
    · rw [if_neg h2]
      right
      have h2' : x.completeEntry (elemAt x.m_Volumes (x.GetVolumeIndex t n)) = false := by
        simpa using h2
      by_cases h3 : x.completeEntry (elemAt x.m_Channels n) = true
      · exact Or.inl ⟨by rw [if_pos h3], hv1, h2', h3⟩
      · rw [if_neg h3]
        right
        have h3' : x.completeEntry (elemAt x.m_Channels n) = false := by simpa using h3
        by_cases h1 : x.allSlicesSet t n = true
        · exact Or.inl ⟨by rw [if_pos h1], hv1, h1, by rw [isVolumeSet_eq x t n hv1, h1]; simp⟩
        · rw [if_neg h1]
          right
          have hns : x.IsVolumeSet_unlocked t n = false := by
            rw [isVolumeSet_eq x t n hv1, h2', h3']
            simpa using h1
          cases h4 : canUpdate src with
          | some p => exact Or.inl ⟨by simp, hv1, hns, p, rfl⟩
          | none => exact Or.inr ⟨by simp, hv1, hns, rfl⟩

/-- The conditions under which each return statement of `GetChannelData_unlocked` is
reached. -/
theorem GetChannelData_step_cases (src : Option Source) (x : Image) (n : Int) :
    (GetChannelData_step src x n = GetStep.invalid ∧ x.IsValidChannel n = false) ∨
    (GetChannelData_step src x n = GetStep.stored ∧ x.IsValidChannel n = true ∧
      x.completeEntry (elemAt x.m_Channels n) = true) ∨
    (GetChannelData_step src x n = GetStep.consolidation ∧ x.IsValidChannel n = true ∧
      x.IsChannelSet_unlocked n = true) ∨
    (GetChannelData_step src x n = GetStep.producer ∧ x.IsValidChannel n = true ∧
      x.IsChannelSet_unlocked n = false ∧ ∃ p, canUpdate src = some p) ∨
    (GetChannelData_step src x n = GetStep.allocation ∧ x.IsValidChannel n = true ∧
      x.IsChannelSet_unlocked n = false ∧ canUpdate src = none) := by
  unfold GetChannelData_step
  by_cases hv : x.IsValidChannel n = false
  · exact Or.inl ⟨by rw [if_pos hv], hv⟩
  · rw [if_neg hv]
    have hv1 : x.IsValidChannel n = true := by simpa using hv
    right
    by_cases h3 : x.completeEntry (elemAt x.m_Channels n) = true
    · exact Or.inl ⟨by rw [if_pos h3], hv1, h3⟩
    · rw [if_neg h3]
      right
      by_cases h1 : x.IsChannelSet_unlocked n = true
      · exact Or.inl ⟨by rw [if_pos h1], hv1, h1⟩
      · rw [if_neg h1]
        right
        have hns : x.IsChannelSet_unlocked n = false := by simpa using h1
        cases h4 : canUpdate src with
        | some p => exact Or.inl ⟨by simp, hv1, hns, p, rfl⟩
        | none => exact Or.inr ⟨by simp, hv1, hns, rfl⟩

theorem canUpdate_none_iff (src : Option Source) :
    canUpdate src = none ↔ ∀ p, src = some p → p.updating = true := by
  cases src with
  | none => simp [canUpdate]
  | some q =>
    unfold canUpdate
    dsimp only
    by_cases h : q.updating = false
    · rw [if_pos h]
      simp [h]
    · rw [if_neg h]
      simp
      simpa using h

/-- The allocation of `GetSliceData_unlocked` is reached exactly on a valid slice that is not
set when no pipeline source can be used. -/
theorem GetSliceData_step_alloc (src : Option Source) (x : Image) (s t n : Int) :
    GetSliceData_step src x s t n = GetStep.allocation ↔
      (x.IsValidSlice s t n = true ∧ x.IsSliceSet_unlocked s t n = false ∧ canUpdate src = none) := by
  constructor
  · intro h
    rcases GetSliceData_step_cases src x s t n with
      ⟨e, _⟩ | ⟨e, _⟩ | ⟨e, _⟩ | ⟨e, _⟩ | ⟨e, _⟩ | ⟨_, a, b, c⟩
    · rw [h] at e; cases e
    · rw [h] at e; cases e
    · rw [h] at e; cases e
    · rw [h] at e; cases e
    · rw [h] at e; cases e
    · exact ⟨a, b, c⟩
  · rintro ⟨a, b, c⟩
    rcases GetSliceData_step_cases src x s t n with
      ⟨_, e⟩ | ⟨e, _⟩ | ⟨e, _⟩ | ⟨e, _⟩ | ⟨_, _, _, p, e⟩ | ⟨e, _⟩
    · rw [a] at e; cases e
    · rw [(isSliceSet_iff_step src x s t n).mpr (Or.inl e)] at b; cases b
    · rw [(isSliceSet_iff_step src x s t n).mpr (Or.inr (Or.inl e))] at b; cases b
    · rw [(isSliceSet_iff_step src x s t n).mpr (Or.inr (Or.inr e))] at b; cases b
    · rw [c] at e; cases e
    · exact e

theorem GetVolumeData_step_alloc (src : Option Source) (x : Image) (t n : Int) :
    GetVolumeData_step src x t n = GetStep.allocation ↔
      (x.IsValidVolume t n = true ∧ x.IsVolumeSet_unlocked t n = false ∧ canUpdate src = none) := by
  constructor
  · intro h
    rcases GetVolumeData_step_cases src x t n with
      ⟨e, _⟩ | ⟨e, _⟩ | ⟨e, _⟩ | ⟨e, _⟩ | ⟨e, _⟩ | ⟨_, a, b, c⟩
    · rw [h] at e; cases e
    · rw [h] at e; cases e
    · rw [h] at e; cases e
    · rw [h] at e; cases e
    · rw [h] at e; cases e
    · exact ⟨a, b, c⟩
  · rintro ⟨a, b, c⟩
    rcases GetVolumeData_step_cases src x t n with
      ⟨_, e⟩ | ⟨e, _⟩ | ⟨e, _⟩ | ⟨e, _⟩ | ⟨_, _, _, p, e⟩ | ⟨e, _⟩
    · rw [a] at e; cases e
    · rw [(isVolumeSet_iff_step src x t n).mpr (Or.inl e)] at b; cases b
    · rw [(isVolumeSet_iff_step src x t n).mpr (Or.inr (Or.inl e))] at b; cases b
    · rw [(isVolumeSet_iff_step src x t n).mpr (Or.inr (Or.inr e))] at b; cases b
    · rw [c] at e; cases e
    · exact e

theorem GetChannelData_step_alloc (src : Option Source) (x : Image) (n : Int) :
    GetChannelData_step src x n = GetStep.allocation ↔
      (x.IsValidChannel n = true ∧ x.IsChannelSet_unlocked n = false ∧ canUpdate src = none) := by
  constructor
  · intro h
    rcases GetChannelData_step_cases src x n with
      ⟨e, _⟩ | ⟨e, _⟩ | ⟨e, _⟩ | ⟨e, _⟩ | ⟨_, a, b, c⟩
    · rw [h] at e; cases e
    · rw [h] at e; cases e
    · rw [h] at e; cases e
    · rw [h] at e; cases e
    · exact ⟨a, b, c⟩
  · rintro ⟨a, b, c⟩
    rcases GetChannelData_step_cases src x n with
      ⟨_, e⟩ | ⟨e, _⟩ | ⟨e, _⟩ | ⟨_, _, _, p, e⟩ | ⟨e, _⟩
    · rw [a] at e; cases e
    · rw [(isChannelSet_iff_step src x n).mpr (Or.inl e)] at b; cases b
    · rw [(isChannelSet_iff_step src x n).mpr (Or.inr e)] at b; cases b
    · rw [c] at e; cases e
    · exact e

/-- The allocation of the slice accessor, with the lock: no `Update()` is called. -/
theorem GetSliceData_allocates (src : Option Source) (fuel : Nat) (img : Image) (s t n : Int)
    (data : Option Ptr) (imm : ImportMemoryManagementType) (hv : img.IsValidSlice s t n = true)
    (h : img.IsSliceSet_unlocked s t n = false) (hsrc : canUpdate src = none) :
    GetSliceData src (fuel + 1) img s t n data imm =
      some ((img.AllocateSliceData_unlocked s t n data imm).1.SetComplete
        (img.AllocateSliceData_unlocked s t n data imm).2 true,
        some (img.AllocateSliceData_unlocked s t n data imm).2) :=
  GetSliceData_of_unlocked (GetSliceData_alloc src fuel img s t n data imm hv h hsrc)
    ((up_AllocateSliceData img s t n data imm).1.up_trans (up_SetComplete _ _)).updates

theorem GetVolumeData_allocates (src : Option Source) (fuel : Nat) (img : Image) (t n : Int)
    (data : Option Ptr) (imm : ImportMemoryManagementType) (hv : img.IsValidVolume t n = true)
    (h : img.IsVolumeSet_unlocked t n = false) (hsrc : canUpdate src = none) :
    GetVolumeData src (fuel + 1) img t n data imm =
      some ((img.AllocateVolumeData_unlocked t n data imm).1.SetComplete
        (img.AllocateVolumeData_unlocked t n data imm).2 true,
        some (img.AllocateVolumeData_unlocked t n data imm).2) :=
  GetVolumeData_of_unlocked (GetVolumeData_alloc src fuel img t n data imm hv h hsrc)
    ((upx_AllocateVolumeData img t n data imm).1.up_trans
      (UpX.weaken (up_SetComplete _ _))).updates

theorem GetChannelData_allocates (src : Option Source) (fuel : Nat) (img : Image) (n : Int)
    (data : Option Ptr) (imm : ImportMemoryManagementType) (hv : img.IsValidChannel n = true)
    (h : img.IsChannelSet_unlocked n = false) (hsrc : canUpdate src = none) :
    GetChannelData src (fuel + 1) img n data imm =
      some ((img.AllocateChannelData_unlocked n data imm).1.SetComplete
        (img.AllocateChannelData_unlocked n data imm).2 true,
        some (img.AllocateChannelData_unlocked n data imm).2) :=
  GetChannelData_of_unlocked (GetChannelData_alloc src fuel img n data imm hv h hsrc)
    ((upx_AllocateChannelData img n data imm).1.up_trans
      (UpX.weaken (up_SetComplete _ _))).updates

/-- C6, counterexample. On the sample image with an idle source whose `Update()` computes
nothing, slice `(0, 0, 0)` is valid and stays unavailable, and `GetSliceData` returns
`nullptr`: it does not fall back to a fresh allocation. -/
theorem producer_fallback_counterexample :
    sample.IsValidSlice 0 0 0 = true ∧ (canUpdate (some idleSource)).isSome = true ∧
    (sample.callUpdate idleSource [0, 0, 0, 0, 0] [sample.dim 0, sample.dim 1, 1, 1, 1]).IsSliceSet 0 0 0 = false ∧
    (GetSliceData (some idleSource) 2 sample 0 0 0 none ImportMemoryManagementType.CopyMemory).map Prod.snd =
      some none := by
  decide

/-- C6, amended. When an idle pipeline source is attached and the requested slice, volume
or channel is valid, not set, and still not set after `Update()`, the accessor does not
allocate: without the lock it returns `nullptr` and leaves the state as `Update()` left it,
and so does the locking accessor when `Update()` takes no lock of this image (when it does,
the locking accessor does not return).  The fresh allocation is reached exactly on a valid
coordinate that is not set when no source is attached or the source reports `Updating()`,
and there the accessor returns the newly allocated item, marked complete. -/
theorem producer_no_fallback (src : Option Source) (fuel : Nat) (img : Image)
    (data : Option Ptr) (imm : ImportMemoryManagementType) :
    (∀ s t n,
      (∀ p, canUpdate src = some p → img.IsValidSlice s t n = true → img.IsSliceSet s t n = false →
        (img.callUpdate p [0, 0, s, t, n] [img.dim 0, img.dim 1, 1, 1, 1]).IsSliceSet s t n = false →
        GetSliceData_unlocked src (fuel + 1) img s t n data imm =
          some (img.callUpdate p [0, 0, s, t, n] [img.dim 0, img.dim 1, 1, 1, 1], none) ∧
        (p.locks = false → GetSliceData src (fuel + 1) img s t n data imm =
          some (img.callUpdate p [0, 0, s, t, n] [img.dim 0, img.dim 1, 1, 1, 1], none)) ∧
        (p.locks = true → ∀ f, GetSliceData src f img s t n data imm = none)) ∧
      (GetSliceData_step src img s t n = GetStep.allocation ↔
        (img.IsValidSlice s t n = true ∧ img.IsSliceSet s t n = false ∧
          ∀ p, src = some p → p.updating = true)) ∧
      (GetSliceData_step src img s t n = GetStep.allocation →
        GetSliceData src (fuel + 1) img s t n data imm =
          some ((img.AllocateSliceData_unlocked s t n data imm).1.SetComplete
            (img.AllocateSliceData_unlocked s t n data imm).2 true,
            some (img.AllocateSliceData_unlocked s t n data imm).2))) ∧
    (∀ t n,
      (∀ p, canUpdate src = some p → img.IsValidVolume t n = true → img.IsVolumeSet t n = false →
        (img.callUpdate p [0, 0, 0, t, n] [img.dim 0, img.dim 1, img.dim 2, 1, 1]).IsVolumeSet t n = false →
        GetVolumeData_unlocked src (fuel + 1) img t n data imm =
          some (img.callUpdate p [0, 0, 0, t, n] [img.dim 0, img.dim 1, img.dim 2, 1, 1], none) ∧
        (p.locks = false → GetVolumeData src (fuel + 1) img t n data imm =
          some (img.callUpdate p [0, 0, 0, t, n] [img.dim 0, img.dim 1, img.dim 2, 1, 1], none)) ∧
        (p.locks = true → ∀ f, GetVolumeData src f img t n data imm = none)) ∧
      (GetVolumeData_step src img t n = GetStep.allocation ↔
        (img.IsValidVolume t n = true ∧ img.IsVolumeSet t n = false ∧
          ∀ p, src = some p → p.updating = true)) ∧
      (GetVolumeData_step src img t n = GetStep.allocation →
        GetVolumeData src (fuel + 1) img t n data imm =
          some ((img.AllocateVolumeData_unlocked t n data imm).1.SetComplete
            (img.AllocateVolumeData_unlocked t n data imm).2 true,
            some (img.AllocateVolumeData_unlocked t n data imm).2))) ∧
    (∀ n,
      (∀ p, canUpdate src = some p → img.IsValidChannel n = true → img.IsChannelSet n = false →
        (img.callUpdate p [0, 0, 0, 0, n] [img.dim 0, img.dim 1, img.dim 2, img.dim 3, 1]).IsChannelSet n = false →
        GetChannelData_unlocked src (fuel + 1) img n data imm =
          some (img.callUpdate p [0, 0, 0, 0, n] [img.dim 0, img.dim 1, img.dim 2, img.dim 3, 1], none) ∧
        (p.locks = false → GetChannelData src (fuel + 1) img n data imm =
          some (img.callUpdate p [0, 0, 0, 0, n] [img.dim 0, img.dim 1, img.dim 2, img.dim 3, 1], none)) ∧
        (p.locks = true → ∀ f, GetChannelData src f img n data imm = none)) ∧
      (GetChannelData_step src img n = GetStep.allocation ↔
        (img.IsValidChannel n = true ∧ img.IsChannelSet n = false ∧
          ∀ p, src = some p → p.updating = true)) ∧
      (GetChannelData_step src img n = GetStep.allocation →
        GetChannelData src (fuel + 1) img n data imm =
          some ((img.AllocateChannelData_unlocked n data imm).1.SetComplete
            (img.AllocateChannelData_unlocked n data imm).2 true,
            some (img.AllocateChannelData_unlocked n data imm).2))) := by
  refine ⟨fun s t n => ⟨?_, ?_, ?_⟩, fun t n => ⟨?_, ?_, ?_⟩, fun n => ⟨?_, ?_, ?_⟩⟩
  · intro p hsrc hv h1 h2
    have h2' : (img.callUpdate p [0, 0, s, t, n] [img.dim 0, img.dim 1, 1, 1, 1]).IsSliceSet_unlocked s t n =
        false := h2
    have hu : GetSliceData_unlocked src (fuel + 1) img s t n data imm =
        some (img.callUpdate p [0, 0, s, t, n] [img.dim 0, img.dim 1, 1, 1, 1], none) := by
      rw [GetSliceData_update src fuel img s t n data imm hv h1 p hsrc, h2']
      rfl
    refine ⟨hu, fun hl => ?_, fun hl => GetSliceData_blocked src img s t n data imm hv h1 p hsrc hl⟩
    exact holdLock_pass hu (fun _ q hq => by
      rw [canUpdate_some hsrc] at hq
      cases hq
      exact hl)
  · rw [GetSliceData_step_alloc, canUpdate_none_iff]
    rfl
  · intro h
    obtain ⟨a, b, c⟩ := (GetSliceData_step_alloc src img s t n).mp h
    exact GetSliceData_allocates src fuel img s t n data imm a b c
  · intro p hsrc hv h1 h2
    have h2' : (img.callUpdate p [0, 0, 0, t, n]
        [img.dim 0, img.dim 1, img.dim 2, 1, 1]).IsVolumeSet_unlocked t n = false := h2
    have hu : GetVolumeData_unlocked src (fuel + 1) img t n data imm =
        some (img.callUpdate p [0, 0, 0, t, n] [img.dim 0, img.dim 1, img.dim 2, 1, 1], none) := by
      rw [GetVolumeData_update src fuel img t n data imm hv h1 p hsrc, h2']
      rfl
    refine ⟨hu, fun hl => ?_, fun hl => GetVolumeData_blocked src img t n data imm hv h1 p hsrc hl⟩
    exact holdLock_pass hu (fun _ q hq => by
      rw [canUpdate_some hsrc] at hq
      cases hq
      exact hl)
  · rw [GetVolumeData_step_alloc, canUpdate_none_iff]
    rfl
  · intro h
    obtain ⟨a, b, c⟩ := (GetVolumeData_step_alloc src img t n).mp h
    exact GetVolumeData_allocates src fuel img t n data imm a b c
  · intro p hsrc hv h1 h2
    have h2' : (img.callUpdate p [0, 0, 0, 0, n]
        [img.dim 0, img.dim 1, img.dim 2, img.dim 3, 1]).IsChannelSet_unlocked n = false := h2
    have hu : GetChannelData_unlocked src (fuel + 1) img n data imm =
        some (img.callUpdate p [0, 0, 0, 0, n] [img.dim 0, img.dim 1, img.dim 2, img.dim 3, 1], none) := by
      rw [GetChannelData_update src fuel img n data imm hv h1 p hsrc, h2']
      rfl
    refine ⟨hu, fun hl => ?_, fun hl => ?_⟩
    · exact holdLock_pass hu (fun _ q hq => by
        rw [canUpdate_some hsrc] at hq
        cases hq
        exact hl)
    · intro f
      unfold GetChannelData
      cases hr : GetChannelData_unlocked src f img n data imm with
      | none => exact holdLock_of_none _ _
      | some res =>
        rw [canUpdate_some hsrc]
        apply holdLock_blocked hl
        cases f with
        | zero => simp [GetChannelData_unlocked] at hr
        | succ f =>
          rw [GetChannelData_update src f img n data imm hv h1 p hsrc, h2'] at hr
          simp only [Bool.false_eq_true, if_false] at hr
          cases hr
          show img.updates + 1 ≠ img.updates
          omega
  · rw [GetChannelData_step_alloc, canUpdate_none_iff]
    rfl
  · intro h
    obtain ⟨a, b, c⟩ := (GetChannelData_step_alloc src img n).mp h
    exact GetChannelData_allocates src fuel img n data imm a b c

/-- Witness for the amended C6: the slice accessor on the sample image with the idle source,
which takes no lock, and the allocation on the sample image without a source. -/
theorem producer_no_fallback_witness :
    canUpdate (some idleSource) = some idleSource ∧ sample.IsValidSlice 0 0 0 = true ∧
    sample.IsSliceSet 0 0 0 = false ∧ idleSource.locks = false ∧
    (sample.callUpdate idleSource [0, 0, 0, 0, 0] [sample.dim 0, sample.dim 1, 1, 1, 1]).IsSliceSet 0 0 0 = false ∧
    GetSliceData (some idleSource) 1 sample 0 0 0 none ImportMemoryManagementType.CopyMemory =
      some (sample.callUpdate idleSource [0, 0, 0, 0, 0] [sample.dim 0, sample.dim 1, 1, 1, 1], none) ∧
    GetSliceData_step none sample 0 0 0 = GetStep.allocation ∧
    GetSliceData none 1 sample 0 0 0 none ImportMemoryManagementType.CopyMemory =
      some ((sample.AllocateSliceData_unlocked 0 0 0 none ImportMemoryManagementType.CopyMemory).1.SetComplete
        (sample.AllocateSliceData_unlocked 0 0 0 none ImportMemoryManagementType.CopyMemory).2 true,
        some (sample.AllocateSliceData_unlocked 0 0 0 none ImportMemoryManagementType.CopyMemory).2) :=
  ⟨rfl, by decide, by decide, rfl, by decide,
    (((producer_no_fallback (some idleSource) 0 sample none
      ImportMemoryManagementType.CopyMemory).1 0 0 0).1 idleSource rfl (by decide) (by decide)
      (by decide)).2.1 rfl,
    by decide,
    ((producer_no_fallback none 0 sample none
      ImportMemoryManagementType.CopyMemory).1 0 0 0).2.2 (by decide)⟩

/-- The state a `GetSliceData` of a present slice returns has the shape of the image. -/
theorem GetSliceData_set_shape (src : Option Source) (fuel : Nat) (img : Image) (s t n : Int)
    (data : Option Ptr) (imm : ImportMemoryManagementType) (hset : img.IsSliceSet s t n = true)
    (img1 : Image) (sl : Option Nat)
    (hg : GetSliceData src fuel img s t n data imm = some (img1, sl)) :
    SameShape img img1 ∧ ∃ q, sl = some q := by
  cases fuel with
  | zero => simp [GetSliceData, GetSliceData_unlocked, holdLock_of_none] at hg
  | succ f =>
    obtain ⟨img', q, e, hup, _⟩ := GetSliceData_of_set src f img s t n data imm hset
    have h2 : some (img1, sl) = some (img', some q) := (GetSliceData_some hg).symm.trans e
    have h3 := Option.some.inj h2
    have h4 : img1 = img' := congrArg Prod.fst h3
    have h5 : sl = some q := congrArg Prod.snd h3
    subst h4
    exact ⟨hup.shape, q, h5⟩

/-- A thread that runs alone through the steps computes what `SetImportSlice` computes. -/
theorem SetImportSlice_steps_alone (src : Option Source) (fuel : Nat) (c : SliceCall) (img : Image) :
    (SetImportSlice_steps src fuel c 6 img SlicePC.entry).map (fun r => (r.1, r.2.1)) =
      (SetImportSlice src fuel img c.data c.s c.t c.n c.imm).map
        (fun r => (r.1, SlicePC.finished r.2)) := by
  unfold SetImportSlice
  by_cases hv : img.IsValidSlice c.s c.t c.n = false
  · simp [SetImportSlice_steps, SetImportSlice_step, hv]
  · have hsa : ∀ i : Image, SameShape i (i.AllocateSliceData c.s c.t c.n c.data c.imm).1 :=
      fun i => (up_AllocateSliceData i c.s c.t c.n c.data c.imm).1.shape
    cases hset : img.IsSliceSet c.s c.t c.n with
    | false =>
      simp [SetImportSlice_steps, SetImportSlice_step, hv, hset, (hsa img).off, (hsa img).ptype]
    | true =>
      cases hg : GetSliceData src fuel img c.s c.t c.n c.data c.imm with
      | none => simp [SetImportSlice_steps, SetImportSlice_step, hv, hset, hg]
      | some r =>
        obtain ⟨img1, sl⟩ := r
        obtain ⟨hsh, q, rfl⟩ := GetSliceData_set_shape src fuel img c.s c.t c.n c.data c.imm hset
          img1 sl hg
        by_cases hm : (img1.items q).m_ManageMemory = false
        · simp [SetImportSlice_steps, SetImportSlice_step, hv, hset, hg, overwrite, hm,
            (hsa img1).off, (hsa img1).ptype, hsh.off, hsh.ptype]
        · simp [SetImportSlice_steps, SetImportSlice_step, hv, hset, hg, overwrite, hm,
            hsh.off, hsh.ptype]

/-- C22. The lock and the set operations.  A thread that runs alone through the steps of
`SetImportSlice` computes what the function computes, and on the sample image its steps run
unlocked, locked (`IsSliceSet`), locked (`AllocateSliceData`), unlocked (`std::memcpy`) and
unlocked: the lock is released between the presence check and the allocation, and the copy
runs without it.  Two threads that write the same slice can therefore interleave: when both
pass the presence check before either allocates, both take the branch for a missing slice,
the slice ends with the bytes 5 6 7 8 of the second copy and the modification time is
unchanged, whereas in either serial order the second call finds the slice present and calls
`Modified()`. -/
theorem SetImportSlice_releases_lock :
    (∀ (src : Option Source) (fuel : Nat) (c : SliceCall) (img : Image),
      (SetImportSlice_steps src fuel c 6 img SlicePC.entry).map (fun r => (r.1, r.2.1)) =
        (SetImportSlice src fuel img c.data c.s c.t c.n c.imm).map
          (fun r => (r.1, SlicePC.finished r.2))) ∧
    (SetImportSlice_steps none 1 callA 6 sampleWithUnit SlicePC.entry).map (fun r => (r.2.1, r.2.2)) =
      some (SlicePC.finished true, [false, true, true, false, false]) ∧
    (runSchedule none 1 callA callB racingSchedule (sampleWithUnit, SlicePC.entry, SlicePC.entry)).map
      (fun r => (r.2.1, r.2.2, r.1.mtime, sliceBytes r.1, r.1.fault)) =
      some (SlicePC.finished true, SlicePC.finished true, sampleWithUnit.mtime, some [5, 6, 7, 8],
        false) ∧
    (runSchedule none 1 callA callB serialSchedule (sampleWithUnit, SlicePC.entry, SlicePC.entry)).map
      (fun r => (r.2.1, r.2.2, r.1.mtime, sliceBytes r.1, r.1.fault)) =
      some (SlicePC.finished true, SlicePC.finished true, sampleWithUnit.mtime + 1,
        some [5, 6, 7, 8], false) ∧
    (runSchedule none 1 callB callA serialSchedule (sampleWithUnit, SlicePC.entry, SlicePC.entry)).map
      (fun r => (r.2.1, r.2.2, r.1.mtime, sliceBytes r.1, r.1.fault)) =
      some (SlicePC.finished true, SlicePC.finished true, sampleWithUnit.mtime + 1,
        some [1, 2, 3, 4], false) :=
  ⟨SetImportSlice_steps_alone, by decide, by decide, by decide, by decide⟩

/-! ## Consolidation of a channel -/

/-- A copy between ranges that lie inside buffers changes the destination bytes only. -/
theorem memcpy_inside (x : Image) (d s : Ptr) (l : Nat) (hd : x.inBounds d l = true)
    (hs : x.inBounds s l = true) :
    x.memcpy d s l =
      { x with
        mem := fun b o =>
          if b = d.buf ∧ d.off ≤ o ∧ o < d.off + l then x.mem s.buf (s.off + (o - d.off))
          else x.mem b o } := by
  unfold memcpy
  rw [hd, hs]
  rfl

theorem clearSlices_bufSize (img : Image) (it k : Nat) :
    (clearSlices img it k).1.bufSize = img.bufSize := by
  induction k with
  | zero => rfl
  | succ k ih => exact ih

theorem clearSlices_fault (img : Image) (it k : Nat) (h : it + k ≤ img.m_Slices.length) :
    (clearSlices img it k).1.fault = img.fault := by
  induction k with
  | zero => rfl
  | succ k ih =>
    have h1 := ih (by omega)
    have h2 := (clearSlices_same img it k).2.2.2.2.2.2.2.1
    have h3 := clearSlices_snd img it k
    show ((clearSlices img it k).1.fault ||
      decide ((clearSlices img it k).1.m_Slices.length ≤ (clearSlices img it k).2)) = _
    rw [h1, h2, h3]
    have : ¬ (img.m_Slices.length ≤ it + k) := by omega
    simp [this]

/-- The state after the construction of a complete volume view of the item `ch`, its
installation at `pos` and the clearing of `d` slice pointers from `it` on, in a state whose
memory is `F`. -/
theorem volumeView_facts (y : Image) (F : Nat → Nat → Nat) (ch : Nat) (tt : Int) (data : Option Ptr)
    (m : Bool) (o : Nat) (pos : Int) (it d : Nat) (hit : it + d ≤ y.m_Slices.length) :
    ∀ W, W = (clearSlices
        { ((({ y with mem := F } : Image).newSubItem ch tt 3 data m o).1.SetComplete y.nItems true) with
          m_Volumes := assignAt y.m_Volumes pos (some y.nItems) } it d).1 →
      SameShape y W ∧ W.m_Channels = y.m_Channels ∧
      W.m_Volumes = assignAt y.m_Volumes pos (some y.nItems) ∧
      (∀ j, W.m_Slices.getD j none = if it ≤ j ∧ j < it + d then none else y.m_Slices.getD j none) ∧
      W.m_Slices.length = y.m_Slices.length ∧
      W.nItems = y.nItems + 1 ∧ (∀ p, p ≠ y.nItems → W.items p = y.items p) ∧
      (W.items y.nItems).m_Data = Ptr.add (y.items ch).m_Data o ∧
      (W.items y.nItems).m_IsComplete = true ∧ (W.items y.nItems).m_Parent = some ch ∧
      (W.items y.nItems).m_Offset = o ∧ (W.items y.nItems).m_ManageMemory = false ∧
      W.nBufs = y.nBufs ∧ W.bufSize = y.bufSize ∧ W.mem = F ∧ W.fault = y.fault ∧
      W.mtime = y.mtime := by
  intro W hW
  obtain ⟨c1, c2, _, c4, c5, c6, c7, c8, c9, _⟩ := clearSlices_same
    { ((({ y with mem := F } : Image).newSubItem ch tt 3 data m o).1.SetComplete y.nItems true) with
      m_Volumes := assignAt y.m_Volumes pos (some y.nItems) } it d
  have c10 := clearSlices_nBufs
    { ((({ y with mem := F } : Image).newSubItem ch tt 3 data m o).1.SetComplete y.nItems true) with
      m_Volumes := assignAt y.m_Volumes pos (some y.nItems) } it d
  have c11 := clearSlices_bufSize
    { ((({ y with mem := F } : Image).newSubItem ch tt 3 data m o).1.SetComplete y.nItems true) with
      m_Volumes := assignAt y.m_Volumes pos (some y.nItems) } it d
  have c12 := clearSlices_mem
    { ((({ y with mem := F } : Image).newSubItem ch tt 3 data m o).1.SetComplete y.nItems true) with
      m_Volumes := assignAt y.m_Volumes pos (some y.nItems) } it d
  have c13 := clearSlices_fault
    { ((({ y with mem := F } : Image).newSubItem ch tt 3 data m o).1.SetComplete y.nItems true) with
      m_Volumes := assignAt y.m_Volumes pos (some y.nItems) } it d hit
  rw [← hW] at c1 c2 c4 c5 c6 c7 c8 c9 c10 c11 c12 c13
  refine ⟨⟨c1.init, c1.rank, c1.dims, c1.ptype, c1.offs, c1.region⟩, c5, c4, c9, c8, c7, ?_, ?_, ?_, ?_,
    ?_, ?_, c10, c11, c12, c13, c2⟩
  · intro p hp
    rw [c6]
    show Function.update (Function.update y.items y.nItems _) y.nItems _ p = _
    rw [Function.update_noteq hp, Function.update_noteq hp]
  · rw [c6]
    simp [newSubItem, addItem, SetComplete]
  · rw [c6]
    simp [newSubItem, addItem, SetComplete]
  · rw [c6]
    simp [newSubItem, addItem, SetComplete]
  · rw [c6]
    simp [newSubItem, addItem, SetComplete]
  · rw [c6]
    simp [newSubItem, addItem, SetComplete]

/-- One iteration of the volume-combining loop on a complete volume item `q` that is not
yet a view of the channel item `ch`: the bytes of `q` are copied to their place in `ch`, a
view of `ch` replaces `q` in the array, and the slice pointers of the volume are cleared. -/
theorem combineVolume_copy (src : Option Source) (fuel : Nat) (y : Image) (n k ch q it size : Nat)
    (data : Option Ptr) (imm : ImportMemoryManagementType) (hw : WF y) (hk : k < y.dim 3)
    (hn : n < y.GetNumberOfChannels)
    (hq : y.m_Volumes.getD (k + n * y.dim 3) none = some q) (hqc : (y.items q).m_IsComplete = true)
    (hqp : (y.items q).m_Parent ≠ some ch)
    (hdst : y.inBounds (Ptr.add (y.items ch).m_Data (k * (y.off 3 * y.ptypeSize))) size = true)
    (hsrc : y.inBounds (y.items q).m_Data size = true)
    (hoff : k * (y.off 3 * y.ptypeSize) < 2 ^ 64)
    (hit : it + y.dim 2 ≤ y.m_Slices.length) :
    ∃ y', combineVolume src (fuel + 1) n ch size data imm (some (y, it)) k = some (y', it + y.dim 2) ∧
      SameShape y y' ∧ y'.m_Channels = y.m_Channels ∧
      y'.m_Volumes = assignAt y.m_Volumes ((k + n * y.dim 3 : Nat) : Int) (some y.nItems) ∧
      (∀ j, y'.m_Slices.getD j none =
        if it ≤ j ∧ j < it + y.dim 2 then none else y.m_Slices.getD j none) ∧
      y'.m_Slices.length = y.m_Slices.length ∧
      y'.nItems = y.nItems + 1 ∧ (∀ p, p ≠ y.nItems → y'.items p = y.items p) ∧
      (y'.items y.nItems).m_Data = Ptr.add (y.items ch).m_Data (k * (y.off 3 * y.ptypeSize)) ∧
      (y'.items y.nItems).m_IsComplete = true ∧ (y'.items y.nItems).m_Parent = some ch ∧
      (y'.items y.nItems).m_Offset = k * (y.off 3 * y.ptypeSize) ∧
      (y'.items y.nItems).m_ManageMemory = false ∧
      y'.nBufs = y.nBufs ∧ y'.bufSize = y.bufSize ∧
      (∀ b o, y'.mem b o =
        if b = (y.items ch).m_Data.buf ∧
            (y.items ch).m_Data.off + k * (y.off 3 * y.ptypeSize) ≤ o ∧
            o < (y.items ch).m_Data.off + k * (y.off 3 * y.ptypeSize) + size then
          y.mem (y.items q).m_Data.buf
            ((y.items q).m_Data.off + (o - ((y.items ch).m_Data.off + k * (y.off 3 * y.ptypeSize))))
        else y.mem b o) ∧
      y'.fault = y.fault ∧ y'.mtime = y.mtime := by
  have htoInt : toInt k = (k : Int) := hw.toInt_time hk hn
  have hvalid : y.IsValidVolume k n = true := hw.validVolume_nat hk hn
  have hvi := hw.volumeIndex_eq hk hn
  have hslot : elemAt y.m_Volumes (y.GetVolumeIndex k n) = some q := by
    rw [hvi, elemAt_nat, hq]
  have hget : GetVolumeData_unlocked src (fuel + 1) y k n data imm = some (y, some q) :=
    GetVolumeData_some (GetVolumeData_stored src fuel y k n q data imm hvalid hslot hqc)
  have hoffs : sizeT (k * y.off 3 * y.ptypeSize) = k * (y.off 3 * y.ptypeSize) := by
    rw [Nat.mul_assoc]
    exact sizeT_of_lt hoff
  have hcopy := memcpy_inside y (Ptr.add (y.items ch).m_Data (k * (y.off 3 * y.ptypeSize)))
    (y.items q).m_Data size hdst hsrc
  unfold combineVolume
  simp only [htoInt, hget, hoffs, hvi, ne_eq, hqp, not_false_eq_true, if_true]
  rw [hcopy]
  obtain ⟨f1, f2, f3, f4, f5, f6, f7, f8, f9, f10, f11, f12, f13, f14, f15, f16, f17⟩ :=
    volumeView_facts y
      (fun b o =>
        if b = (Ptr.add (y.items ch).m_Data (k * (y.off 3 * y.ptypeSize))).buf ∧
            (Ptr.add (y.items ch).m_Data (k * (y.off 3 * y.ptypeSize))).off ≤ o ∧
            o < (Ptr.add (y.items ch).m_Data (k * (y.off 3 * y.ptypeSize))).off + size then
          y.mem (y.items q).m_Data.buf
            ((y.items q).m_Data.off + (o - (Ptr.add (y.items ch).m_Data (k * (y.off 3 * y.ptypeSize))).off))
        else y.mem b o)
      ch k data (decide (imm = ImportMemoryManagementType.ManageMemory)) (k * (y.off 3 * y.ptypeSize))
      ((k + n * y.dim 3 : Nat) : Int) it (y.dim 2) hit _ rfl
  exact ⟨_, congrArg some (Prod.ext rfl (clearSlices_snd _ _ _)), f1, f2, f3, f4, f5, f6, f7, f8, f9,
    f10, f11, f12, f13, f14, fun b o => congrFun (congrFun f15 b) o, f16, f17⟩

theorem WF.time_step_end {y : Image} (hw : WF y) {k : Nat} (hk : k < y.dim 3) :
    k * (y.off 3 * y.ptypeSize) + y.off 3 * y.ptypeSize ≤ y.off 4 * y.ptypeSize := by
  have h1 : (k + 1) * (y.off 3 * y.ptypeSize) ≤ y.dim 3 * (y.off 3 * y.ptypeSize) :=
    Nat.mul_le_mul_right _ hk
  have e1 : (k + 1) * (y.off 3 * y.ptypeSize) = k * (y.off 3 * y.ptypeSize) + y.off 3 * y.ptypeSize := by
    ring
  have e2 : y.dim 3 * (y.off 3 * y.ptypeSize) = y.off 4 * y.ptypeSize := by
    rw [hw.off4]
    ring
  omega

theorem WF.iterator_end {y : Image} (hw : WF y) {n k : Nat} (hn : n < y.GetNumberOfChannels)
    (hk : k < y.dim 3) :
    n * y.dim 2 * y.dim 3 + k * y.dim 2 + y.dim 2 ≤ y.m_Slices.length := by
  rw [hw.slices_len]
  have h1 : (k + 1) * y.dim 2 ≤ y.dim 3 * y.dim 2 := Nat.mul_le_mul_right _ hk
  have h2 : (n + 1) * (y.dim 3 * y.dim 2) ≤ y.GetNumberOfChannels * (y.dim 3 * y.dim 2) :=
    Nat.mul_le_mul_right _ hn
  have e1 : (k + 1) * y.dim 2 = k * y.dim 2 + y.dim 2 := by ring
  have e2 : (n + 1) * (y.dim 3 * y.dim 2) = n * y.dim 2 * y.dim 3 + y.dim 3 * y.dim 2 := by ring
  have e3 : y.GetNumberOfChannels * (y.dim 3 * y.dim 2) = y.GetNumberOfChannels * y.dim 3 * y.dim 2 := by
    ring
  omega

/-- One iteration of the volume-combining loop. -/
theorem Gathered.step {img y : Image} {n ch C k : Nat} {data : Nat → Ptr}
    (h : Gathered img n data ch C k y) (hn : n < img.GetNumberOfChannels) (hk : k < img.dim 3)
    (src : Option Source) (fuel : Nat) (arg : Option Ptr) (imm : ImportMemoryManagementType) :
    ∃ y', combineVolume src (fuel + 1) n ch (img.off 3 * img.ptypeSize) arg imm
        (some (y, n * img.dim 2 * img.dim 3 + k * img.dim 2)) k =
        some (y', n * img.dim 2 * img.dim 3 + (k + 1) * img.dim 2) ∧
      Gathered img n data ch C (k + 1) y' := by
  have hw := h.wf
  have hd2 : y.dim 2 = img.dim 2 := h.shape.dim 2
  have hd3 : y.dim 3 = img.dim 3 := h.shape.dim 3
  have hnc : y.GetNumberOfChannels = img.GetNumberOfChannels := h.shape.channels
  have ho3 : y.off 3 = img.off 3 := h.shape.off 3
  have ho4 : y.off 4 = img.off 4 := h.shape.off 4
  have hps : y.ptypeSize = img.ptypeSize := h.shape.ptype
  obtain ⟨q, B, hq1, hq2, hq3, hq4, hq5, hq6, hq7, hq8, hq9⟩ := h.pending k (le_refl _) hk
  have hend := hw.time_step_end (k := k) (by omega)
  rw [ho3, hps, ho4] at hend
  have hbytes := hw.bytes_lt
  rw [ho4, hps] at hbytes
  have hitend := hw.iterator_end (n := n) (k := k) (by omega) (by omega)
  rw [hd2, hd3] at hitend
  obtain ⟨y', hy', f1, f2, f3, f4, f5, f6, f7, f8, f9, f10, f11, f12, f13, f14, f15, f16, f17⟩ :=
    combineVolume_copy src fuel y n k ch q (n * img.dim 2 * img.dim 3 + k * img.dim 2)
      (img.off 3 * img.ptypeSize) arg imm hw (by omega) (by omega) (by rw [hd3]; exact hq1) hq3
      (by rw [hq4]; exact fun e => nomatch e)
      (by
        rw [inBounds_iff, h.chdata, ho3, hps]
        refine ⟨h.cbuf, ?_⟩
        show 0 + _ + _ ≤ y.bufSize C
        rw [h.csize]
        omega)
      (by
        rw [inBounds_iff, hq5]
        refine ⟨hq7, ?_⟩
        show 0 + _ ≤ y.bufSize B
        rw [hq8]
        omega)
      (by rw [ho3, hps]; omega) (by rw [hd2]; exact hitend)
  rw [hd2] at hy' f4
  rw [hd3] at f3
  rw [ho3, hps] at f8 f11 f15
  have hm : ∀ b o, y'.mem b o =
      if b = C ∧ k * (img.off 3 * img.ptypeSize) ≤ o ∧
          o < k * (img.off 3 * img.ptypeSize) + img.off 3 * img.ptypeSize then
        y.mem B (o - k * (img.off 3 * img.ptypeSize))
      else y.mem b o := by
    intro b o
    rw [f15, h.chdata, hq5]
    simp only [Nat.zero_add]
  have hidx : ∀ t, t < img.dim 3 → t + n * img.dim 3 < y.m_Volumes.length := by
    intro t ht
    rw [hw.volumes_len, hd3, hnc]
    have := hw.volumeIndex_lt (t := t) (n := n) (by omega) (by omega)
    rwa [hd3, hnc] at this
  have hchne : ch ≠ y.nItems := ne_of_lt h.chlt
  refine ⟨y', ?_, ?_⟩
  · rw [hy']
    congr 2
    ring
  refine
    { shape := h.shape.shape_trans f1
      wf := hw.of_sameShape f1 f5 (by rw [f3, length_assignAt]) (by rw [f2])
      chan := by rw [f2]; exact h.chan
      slices := by
        intro s t hs ht
        rw [f4]
        split
        · rfl
        · exact h.slices s t hs ht
      fault := by rw [f16]; exact h.fault
      mtime := by rw [f17]; exact h.mtime
      chlt := by rw [f6]; have := h.chlt; omega
      chdata := by rw [f7 ch hchne]; exact h.chdata
      chdone := by rw [f7 ch hchne]; exact h.chdone
      chroot := by rw [f7 ch hchne]; exact h.chroot
      chown := by rw [f7 ch hchne]; exact h.chown
      cbuf := by rw [f13]; exact h.cbuf
      csize := by rw [f14]; exact h.csize
      moved := ?_
      pending := ?_ }
  · intro t ht
    by_cases htk : t = k
    · subst htk
      refine ⟨y.nItems, ?_, by omega, f9, f10, f11, ?_, ?_⟩
      · rw [f3, getD_assignAt_nat, if_pos ⟨rfl, hidx t hk⟩]
      · rw [f8, h.chdata]
        show (⟨C, 0 + _⟩ : Ptr) = _
        rw [Nat.zero_add]
      · intro i hi
        rw [hm, if_pos ⟨rfl, by omega, by omega⟩]
        have e : t * (img.off 3 * img.ptypeSize) + i - t * (img.off 3 * img.ptypeSize) = i := by omega
        rw [e]
        exact hq9 i hi
    · have htlt : t < k := by omega
      obtain ⟨q', m1, m2, m3, m4, m5, m6, m7⟩ := h.moved t htlt
      refine ⟨q', ?_, by omega, ?_, ?_, ?_, ?_, ?_⟩
      · rw [f3, getD_assignAt_nat, if_neg (by omega), m1]
      · rw [f7 q' (by omega), m3]
      · rw [f7 q' (by omega), m4]
      · rw [f7 q' (by omega), m5]
      · rw [f7 q' (by omega), m6]
      · intro i hi
        have h1 : (t + 1) * (img.off 3 * img.ptypeSize) ≤ k * (img.off 3 * img.ptypeSize) :=
          Nat.mul_le_mul_right _ htlt
        have e1 : (t + 1) * (img.off 3 * img.ptypeSize) =
            t * (img.off 3 * img.ptypeSize) + img.off 3 * img.ptypeSize := by ring
        rw [hm, if_neg (by omega)]
        exact m7 i hi
  · intro t ht1 ht2
    obtain ⟨q', B', p1, p2, p3, p4, p5, p6, p7, p8, p9⟩ := h.pending t (by omega) ht2
    refine ⟨q', B', ?_, by omega, ?_, ?_, ?_, p6, by omega, ?_, ?_⟩
    · rw [f3, getD_assignAt_nat, if_neg (by omega), p1]
    · rw [f7 q' (by omega), p3]
    · rw [f7 q' (by omega), p4]
    · rw [f7 q' (by omega), p5]
    · rw [f14, p8]
    · intro i hi
      rw [hm, if_neg (fun e => p6 e.1)]
      exact p9 i hi

theorem Apart.mine_of {N : Nat} {x y : Image} (h : Apart N x y) {q : Nat} (hq : Mine N y q) :
    Mine N x q := by
  rcases hq with h1 | h1
  · exact h.own q h1
  · exact Or.inr (le_trans h.nItems h1)

/-- What was stored in another channel is still stored there. -/
theorem Apart.own_kept {N M : Nat} {x z : Image} (h : Apart N x z) (hM : M ≠ N) {q : Nat}
    (hq : Own M x q) : Own M z q := by
  unfold Own at hq ⊢
  rw [h.shape.dim, h.shape.dim]
  rcases hq with ⟨k, hk, hq⟩ | ⟨j, hj, hq⟩ | hq
  · rw [← h.slices k (by rw [hk]; exact hM)] at hq
    exact Or.inl ⟨k, hk, hq⟩
  · rw [← h.volumes j (by rw [hj]; exact hM)] at hq
    exact Or.inr (Or.inl ⟨j, hj, hq⟩)
  · rw [← h.channels M hM] at hq
    exact Or.inr (Or.inr hq)

/-- C18, counterexample. In the initialized image `wideImage` of `1 x 1 x 65536 x 65536` pixels
with one channel the coordinate `(1, 40000, 0)` is valid, and `GetSliceIndex(1, 40000, 0)`,
which the code computes in `unsigned int` and returns as `int`, is `-1673527295`: it is not
`s + t * sliceCount + n * sliceCount * timeCount = 2621440001` and it is not an index at all.
The number of slices is `2^32`, and the array `m_Slices`, whose size is computed in
`unsigned int`, is empty. -/
theorem flat_index_wraps :
    wideImage.m_Initialized = true ∧ wideImage.IsValidSlice 1 40000 0 = true ∧
    wideImage.GetSliceIndex 1 40000 0 = -1673527295 ∧
    (1 : Int) + 40000 * wideImage.dim 2 + 0 * wideImage.dim 2 * wideImage.dim 3 = 2621440001 ∧
    wideImage.GetNumberOfChannels * wideImage.dim 3 * wideImage.dim 2 = 2 ^ 32 ∧
    wideImage.m_Slices.length = 0 := by
  decide

end Image

end mitk
